import Mathlib

/-! CommonUtilsLib: the I/O scheduler and its fixed stack.

A shallow embedding of `src/io-scheduler.c` and of the fixed-size stack of
`src/stack.c`.

* Pointers, file descriptors and callback addresses are integers; `0` is the
  null pointer.  `gccpch.h` (which declares `fd_t`, `bool_t` and
  `INVALID_GENERAL_FD`) is not part of the sources, so `fd_t` is taken to be
  the mathematical integers.
* Task memory is a total map from addresses to task records; the live list is
  the chain of `next` pointers that starts at `scheduled_tasks`, exactly as in
  the C code.  Loops that follow the chain take a fuel argument and yield
  `none` when the fuel runs out.
* `none` is also the result of a fault: a call through a null callback, a
  dereference of a null owner, a failed `assert`.
* Callbacks are looked up in an environment that maps a callback address to a
  transformer of the machine state; every invocation made by the scheduler is
  recorded.
* Mutexes and logging are not modelled.
-/

namespace CommonUtils

/-! ## Machine words and constants -/

/-- Modelled from the spec: `INVALID_GENERAL_FD` is declared in `gccpch.h`, which
is not among the sources; io-scheduler.c line 582 documents its value as -1. -/
def INVALID_GENERAL_FD : Int := -1

/-- The value of `(ssize_t) 0xffffffff` for the 32-bit `ssize_t` of the two
shipped build configurations (win32-cygwin, win32-watcom). -/
def STACK_ERROR_FULL : Int := -1

def IO_SCHEDULER_NONE : Nat := 0x00000000
def IO_SCHEDULER_READ : Nat := 0x00000001
def IO_SCHEDULER_WRITE : Nat := 0x00000002
def IO_SCHEDULER_ERROR : Nat := 0x00000004
def IO_SCHEDULER_TIMER : Nat := 0x00000008
def IO_SCHEDULER_REMOVE : Nat := 0x80000000

def IO_SCHEDULER_NO_TIMEOUT : Int := -1
def IO_SCHEDULER_TIME_ONE_SECOND : Int := 1000000000
def IO_SCHEDULER_ERR_NONE : Int := 0
/-- The host value of `ETIME` (62 on Linux). -/
def IO_SCHEDULER_ERR_OP_TIMEOUT : Int := 62

/-- The C expression `opts & ~flag` on the 32-bit option word. -/
def clear_opt (opts flag : Nat) : Nat := opts &&& (0xFFFFFFFF ^^^ flag)

/-! ## Fixed stack (stack.c) -/

/-- A fixed stack: `struct _stack` with the `fixed_base` arm of the union.  The
stack grows downwards from `limit`; `current` is the index of the top. -/
structure stack where
  current : Nat
  limit : Nat
  fixed_base : Nat → Int

/-- Array store `base[i] = v`. -/
def store (base : Nat → Int) (i : Nat) (v : Int) : Nat → Int :=
  fun j => if j = i then v else base j

/-- The function `stack_fixed_init` (the allocations succeed). -/
def stack_fixed_init (max_stack_size : Nat) : Option stack :=
  if max_stack_size = 0 then none
  else some { current := max_stack_size, limit := max_stack_size, fixed_base := fun _ => 0 }

/-- The function `inl_stack_fixed_pop_and_return`: the value and the new stack. -/
def stack_fixed_pop_and_return (s : stack) : Int × stack :=
  if s.current < s.limit then
    (s.fixed_base s.current,
      { s with fixed_base := store s.fixed_base s.current 0, current := s.current + 1 })
  else (0, s)

/-- The function `inl_stack_fixed_push`: the return code and the new stack. -/
def stack_fixed_push (s : stack) (data : Int) : Int × stack :=
  if 0 < s.current then
    (((s.current - 1 : Nat) : Int),
      { s with current := s.current - 1, fixed_base := store s.fixed_base (s.current - 1) data })
  else (STACK_ERROR_FULL, s)

/-- The function `inl_stack_fixed_size`. -/
def stack_fixed_size (s : stack) : Nat := s.limit - s.current

/-- The entries of a stack from the top downwards. -/
def stack_contents (s : stack) : List Int :=
  (List.range' s.current (s.limit - s.current)).map s.fixed_base

/-! ## Tasks and the scheduler (io-scheduler.h) -/

structure timespec where
  tv_sec : Int
  tv_nsec : Int
deriving DecidableEq

/-- The record `struct _io_scheduler_task`. -/
structure io_scheduler_task where
  next : Int
  prev : Int
  owner : Int
  fd : Int
  opts : Nat
  time_out : Int
  time_scheduled : timespec
  expire_time : timespec
  user_data : Int
  on_read_rdy_cbk : Int
  on_write_rdy_cbk : Int
  on_err_rdy_cbk : Int
  on_timeout_cbk : Int
deriving DecidableEq

/-- A task record after `memset ( ptask, 0, IO_SCHEDULER_TASK_STRUCT_SIZE )`. -/
def zero_task : io_scheduler_task :=
  { next := 0, prev := 0, owner := 0, fd := 0, opts := 0, time_out := 0,
    time_scheduled := ⟨0, 0⟩, expire_time := ⟨0, 0⟩, user_data := 0,
    on_read_rdy_cbk := 0, on_write_rdy_cbk := 0, on_err_rdy_cbk := 0, on_timeout_cbk := 0 }

/-- The record `struct _io_scheduler` without its mutexes. -/
structure io_scheduler where
  scheduled_tasks : Int
  task_pool : stack
  timer_id_pool : stack
  scheduler_thread : Int
  stop_scheduler : Bool

/-- The machine state: one scheduler living at address `sched_at`, the task
memory, and the current reading of `CLOCK_REALTIME`. -/
structure Machine where
  sched_at : Int
  sched : io_scheduler
  tasks : Int → io_scheduler_task
  now : timespec

/-- Memory write `*p = t`. -/
def Machine.write (m : Machine) (p : Int) (t : io_scheduler_task) : Machine :=
  { m with tasks := fun q => if q = p then t else m.tasks q }

def S_IOSCHED_OPTS_READ (t : io_scheduler_task) : Bool := t.opts &&& IO_SCHEDULER_READ != 0
def S_IOSCHED_OPTS_WRITE (t : io_scheduler_task) : Bool := t.opts &&& IO_SCHEDULER_WRITE != 0
def S_IOSCHED_OPTS_ERROR (t : io_scheduler_task) : Bool := t.opts &&& IO_SCHEDULER_ERROR != 0
def S_IOSCHED_OPTS_TIMER (t : io_scheduler_task) : Bool := t.opts &&& IO_SCHEDULER_TIMER != 0
def S_IOSCHED_OPTS_TIMER_ONLY (t : io_scheduler_task) : Bool := t.opts == IO_SCHEDULER_TIMER
def S_IOSCHED_OPTS_REMOVE (t : io_scheduler_task) : Bool := t.opts &&& IO_SCHEDULER_REMOVE != 0

/-- One recorded callback invocation: callback address, task, error code. -/
structure cbk_call where
  cbk : Int
  task : Int
  errcode : Int
deriving DecidableEq

/-- The callbacks of the client program: the callback at an address, called on
a task with an error code, returns a boolean and transforms the machine. -/
abbrev CbkEnv := Int → Int → Int → Machine → Bool × Machine

/-! ## Expiry time -/

/-- The nanoseconds denoted by a timespec. -/
def timespec.total (ts : timespec) : Int :=
  ts.tv_sec * IO_SCHEDULER_TIME_ONE_SECOND + ts.tv_nsec

/-- The loop `while ( time_to_add > ONE_SECOND ) { pts->tv_sec++; time_to_add -= ONE_SECOND; }`
of `inl_io_sched_populate_expire_time`; the result is `(tv_sec, time_to_add)`.
Every iteration takes at least one nanosecond off, so a fuel of `time_to_add`
is never exhausted. -/
def expire_loop : Nat → Int → Int → Int × Int
  | 0, tv_sec, time_to_add => (tv_sec, time_to_add)
  | fuel + 1, tv_sec, time_to_add =>
    if time_to_add > IO_SCHEDULER_TIME_ONE_SECOND then
      expire_loop fuel (tv_sec + 1) (time_to_add - IO_SCHEDULER_TIME_ONE_SECOND)
    else (tv_sec, time_to_add)

/-- The function `inl_io_sched_populate_expire_time`; `none` when the assertion
`time_to_add >= 0` fails. -/
def inl_io_sched_populate_expire_time (m : Machine) (io_task : Int) : Option Machine :=
  let t := m.tasks io_task
  let r := expire_loop t.time_out.toNat m.now.tv_sec t.time_out
  if 0 ≤ r.2 then
    let nsec := m.now.tv_nsec + r.2
    let e : timespec :=
      if nsec > IO_SCHEDULER_TIME_ONE_SECOND then ⟨r.1 + 1, nsec - IO_SCHEDULER_TIME_ONE_SECOND⟩
      else ⟨r.1, nsec⟩
    some (m.write io_task { t with expire_time := e })
  else none

/-- The expiry time written by `inl_io_sched_populate_expire_time`. -/
def expire_at (now : timespec) (time_out : Int) : timespec :=
  let r := expire_loop time_out.toNat now.tv_sec time_out
  if now.tv_nsec + r.2 > IO_SCHEDULER_TIME_ONE_SECOND
  then ⟨r.1 + 1, now.tv_nsec + r.2 - IO_SCHEDULER_TIME_ONE_SECOND⟩
  else ⟨r.1, now.tv_nsec + r.2⟩

/-- A clock reading with `0 <= tv_nsec < 1,000,000,000`. -/
def timespec.normal (ts : timespec) : Prop :=
  0 ≤ ts.tv_nsec ∧ ts.tv_nsec < IO_SCHEDULER_TIME_ONE_SECOND

instance (ts : timespec) : Decidable ts.normal :=
  inferInstanceAs (Decidable (0 ≤ ts.tv_nsec ∧ ts.tv_nsec < IO_SCHEDULER_TIME_ONE_SECOND))

/-! ## Scheduling -/

/-- Lines 302-312 of `io_sched_schedule_task`: the options are downgraded for
every capability without a callback, and an empty option word becomes Remove. -/
def schedule_opts (t : io_scheduler_task) : io_scheduler_task :=
  let t1 := if S_IOSCHED_OPTS_READ t && t.on_read_rdy_cbk == 0
    then { t with opts := clear_opt t.opts IO_SCHEDULER_READ } else t
  let t2 := if S_IOSCHED_OPTS_WRITE t1 && t1.on_write_rdy_cbk == 0
    then { t1 with opts := clear_opt t1.opts IO_SCHEDULER_WRITE } else t1
  let t3 := if S_IOSCHED_OPTS_ERROR t2 && t2.on_err_rdy_cbk == 0
    then { t2 with opts := clear_opt t2.opts IO_SCHEDULER_ERROR } else t2
  let t4 := if S_IOSCHED_OPTS_TIMER t3 &&
      (t3.on_timeout_cbk == 0 || t3.time_out == IO_SCHEDULER_NO_TIMEOUT)
    then { t3 with opts := clear_opt t3.opts IO_SCHEDULER_TIMER } else t3
  if t4.opts == IO_SCHEDULER_NONE then { t4 with opts := t4.opts ||| IO_SCHEDULER_REMOVE } else t4

/-- The loop `while ( ttt->next ) ttt = ttt->next;` of `io_sched_schedule_task`. -/
def find_tail (tasks : Int → io_scheduler_task) : Nat → Int → Option Int
  | 0, _ => none
  | fuel + 1, ttt => if (tasks ttt).next = 0 then some ttt else find_tail tasks fuel (tasks ttt).next

/-- Lines 302-316 of `io_sched_schedule_task`: the options are downgraded and,
when Timer is left, the expiry time is computed. -/
def schedule_admit (m : Machine) (io_task : Int) : Option Machine :=
  let m1 := m.write io_task (schedule_opts (m.tasks io_task))
  if S_IOSCHED_OPTS_TIMER (m1.tasks io_task)
  then inl_io_sched_populate_expire_time m1 io_task else some m1

/-- Lines 318-344 of `io_sched_schedule_task`: the task is linked behind the
last task of the live list of its owner.  The owner of the task is dereferenced
to reach the list: a task whose owner is not the scheduler of the machine is a
fault. -/
def schedule_link (fuel : Nat) (m : Machine) (io_task : Int) : Option (Bool × Machine) :=
  if (m.tasks io_task).owner ≠ m.sched_at then none
  else if m.sched.scheduled_tasks = 0 then
    some (true, { m with sched := { m.sched with scheduled_tasks := io_task } })
  else
    match find_tail m.tasks fuel m.sched.scheduled_tasks with
    | none => none
    | some ttt => some (true, m.write ttt { m.tasks ttt with next := io_task })

/-- The function `io_sched_schedule_task`. -/
def io_sched_schedule_task (fuel : Nat) (m : Machine) (io_task : Int) : Option (Bool × Machine) :=
  if io_task = 0 then some (false, m)
  else
    match schedule_admit m io_task with
    | none => none
    | some m2 => schedule_link fuel m2 io_task

/-- The function `io_sched_unschedule_task`. -/
def io_sched_unschedule_task (m : Machine) (io_task : Int) : Machine :=
  if io_task ≠ 0 ∧ (m.tasks io_task).fd ≠ INVALID_GENERAL_FD then
    m.write io_task { m.tasks io_task with opts := (m.tasks io_task).opts ||| IO_SCHEDULER_REMOVE }
  else m

/-! ## Creation and destruction -/

/-- The loop of `io_sched_create_scheduler` that allocates the task slots;
`malloc ii` is the address returned by the allocation of slot `ii` (0 when it
fails) and the first argument counts the iterations that are left. -/
def create_tasks (malloc : Nat → Int) : Nat → Nat → stack → Option stack
  | 0, _, s => some s
  | left + 1, ii, s =>
    if malloc ii = 0 then none
    else
      let r := stack_fixed_push s (malloc ii)
      if r.1 = STACK_ERROR_FULL then some r.2 else create_tasks malloc left (ii + 1) r.2

/-- The loop `for ( ; timer_id < -2; timer_id++ )` of `io_sched_create_scheduler`. -/
def create_timers : Nat → Int → stack → stack
  | 0, _, s => s
  | fuel + 1, timer_id, s =>
    if timer_id < -2 then
      let r := stack_fixed_push s timer_id
      if r.1 = STACK_ERROR_FULL then r.2 else create_timers fuel (timer_id + 1) r.2
    else s

/-- The function `io_sched_create_scheduler`; the allocation of the scheduler
record and of the two stacks succeeds, the allocation of a task slot fails
when `malloc` yields 0. -/
def io_sched_create_scheduler (max_concurrent_tasks max_num_timers : Nat) (malloc : Nat → Int) :
    Option io_scheduler :=
  if max_concurrent_tasks = 0 ∨ max_num_timers = 0 then none
  else
    match stack_fixed_init max_concurrent_tasks, stack_fixed_init max_num_timers with
    | some tp, some ip =>
      match create_tasks malloc max_concurrent_tasks 0 tp with
      | none => none
      | some tp1 =>
        let first : Int := -(max_num_timers : Int) - 2
        some { scheduled_tasks := 0, task_pool := tp1,
               timer_id_pool := create_timers (-2 - first).toNat first ip,
               scheduler_thread := 0, stop_scheduler := false }
    | _, _ => none

/-- The function `io_sched_create_task` for the (non-null) scheduler of the
machine: the returned pointer (0 for no task) and the new machine. -/
def io_sched_create_task (m : Machine) (fd : Int) (opts : Nat)
    (time_out user_data read_cbk write_cbk err_cbk time_out_cbk : Int) : Int × Machine :=
  let r := stack_fixed_pop_and_return m.sched.task_pool
  let m1 : Machine := { m with sched := { m.sched with task_pool := r.2 } }
  if r.1 ≠ 0 then
    let opts1 := if opts &&& IO_SCHEDULER_REMOVE ≠ 0 then clear_opt opts IO_SCHEDULER_REMOVE else opts
    (r.1, m1.write r.1
      { zero_task with
        owner := m.sched_at, fd := fd, opts := opts1, time_out := time_out,
        user_data := user_data, on_read_rdy_cbk := read_cbk, on_write_rdy_cbk := write_cbk,
        on_err_rdy_cbk := err_cbk, on_timeout_cbk := time_out_cbk })
  else (0, m1)

/-- The function `io_sched_create_timer_task`. -/
def io_sched_create_timer_task (m : Machine) (time_out user_data time_out_cbk : Int) :
    Int × Machine :=
  let r := stack_fixed_pop_and_return m.sched.timer_id_pool
  let m1 : Machine := { m with sched := { m.sched with timer_id_pool := r.2 } }
  if r.1 = 0 then (0, m1)
  else io_sched_create_task m1 r.1 IO_SCHEDULER_TIMER time_out user_data 0 0 0 time_out_cbk

/-- The function `io_sched_create_reader_task`. -/
def io_sched_create_reader_task (m : Machine) (fd time_out user_data read_cbk : Int) :
    Int × Machine :=
  let opts := if time_out > 0 then IO_SCHEDULER_READ ||| IO_SCHEDULER_TIMER else IO_SCHEDULER_READ
  io_sched_create_task m fd opts time_out user_data read_cbk 0 0 read_cbk

/-- The function `io_sched_create_reader_task_ex`. -/
def io_sched_create_reader_task_ex (m : Machine) (fd time_out user_data read_cbk err_cbk : Int) :
    Int × Machine :=
  let opts := if time_out > 0
    then (IO_SCHEDULER_READ ||| IO_SCHEDULER_ERROR) ||| IO_SCHEDULER_TIMER
    else IO_SCHEDULER_READ ||| IO_SCHEDULER_ERROR
  io_sched_create_task m fd opts time_out user_data read_cbk 0 err_cbk read_cbk

/-- The function `io_sched_create_writer_task`. -/
def io_sched_create_writer_task (m : Machine) (fd time_out user_data write_cbk : Int) :
    Int × Machine :=
  let opts := if time_out > 0 then IO_SCHEDULER_WRITE ||| IO_SCHEDULER_TIMER else IO_SCHEDULER_WRITE
  io_sched_create_task m fd opts time_out user_data 0 write_cbk 0 write_cbk

/-- The function `io_sched_destroy_task`.  Both pushes go through the owner of
the task, so a task whose owner is not the scheduler of the machine is a fault.
When the task pool is full the slot is handed to `free` and its memory is left
as it is. -/
def io_sched_destroy_task (m : Machine) (io_task : Int) : Option Machine :=
  if io_task = 0 then some m
  else if (m.tasks io_task).owner ≠ m.sched_at then none
  else
    let m1 : Machine :=
      if (m.tasks io_task).fd < INVALID_GENERAL_FD then
        { m with sched := { m.sched with
            timer_id_pool := (stack_fixed_push m.sched.timer_id_pool (m.tasks io_task).fd).2 } }
      else m
    let r := stack_fixed_push m1.sched.task_pool io_task
    let m2 : Machine := { m1 with sched := { m1.sched with task_pool := r.2 } }
    if r.1 = STACK_ERROR_FULL then some m2 else some (m2.write io_task zero_task)

/-- The function `io_sched_reschedule_task`. -/
def io_sched_reschedule_task (m : Machine) (io_task : Int) : Option (Bool × Machine) :=
  if io_task = 0 then some (false, m)
  else if S_IOSCHED_OPTS_REMOVE (m.tasks io_task) then some (false, m)
  else (inl_io_sched_populate_expire_time m io_task).map (fun m1 => (true, m1))

/-- The function `io_sched_stop_scheduler`, the loop that flags every task. -/
def stop_loop : Nat → Machine → Int → Option Machine
  | 0, _, _ => none
  | fuel + 1, m, task =>
    if task = 0 then some m
    else
      stop_loop fuel
        (m.write task { m.tasks task with opts := (m.tasks task).opts ||| IO_SCHEDULER_REMOVE })
        (m.tasks task).next

/-- The function `io_sched_stop_scheduler` for a scheduler without a worker thread. -/
def io_sched_stop_scheduler (fuel : Nat) (m : Machine) : Option Machine :=
  (stop_loop fuel m m.sched.scheduled_tasks).map
    (fun m1 => { m1 with sched := { m1.sched with stop_scheduler := true } })

/-! ## Processing one task -/

def FD_SET (fd : Int) (s : Int → Bool) : Int → Bool := fun x => if x = fd then true else s x
def FD_CLR (fd : Int) (s : Int → Bool) : Int → Bool := fun x => if x = fd then false else s x

/-- The state threaded through `io_sched_process_task`: the return value so
far, the machine, the three descriptor sets and the callbacks invoked. -/
structure proc where
  rv : Bool
  m : Machine
  rds : Int → Bool
  wrs : Int → Bool
  ers : Int → Bool
  calls : List cbk_call

/-- A call through a callback pointer; calling the null pointer is a fault. -/
def call_cbk (env : CbkEnv) (st : proc) (cbk task errcode : Int) : Option (Bool × proc) :=
  if cbk = 0 then none
  else
    some ((env cbk task errcode st.m).1,
      { st with m := (env cbk task errcode st.m).2, calls := st.calls ++ [⟨cbk, task, errcode⟩] })

/-- The value `task_expired` computed at the top of `io_sched_process_task`. -/
def task_expired (ts_now : timespec) (t : io_scheduler_task) : Bool :=
  t.time_out != IO_SCHEDULER_NO_TIMEOUT &&
    (decide (ts_now.tv_sec > t.expire_time.tv_sec) ||
      (ts_now.tv_sec == t.expire_time.tv_sec &&
        decide (ts_now.tv_nsec ≥ t.expire_time.tv_nsec)))

/-- Lines 455-459: the error-ready check. -/
def process_error (env : CbkEnv) (st : proc) (io_task : Int) : Option proc :=
  let t := st.m.tasks io_task
  if S_IOSCHED_OPTS_ERROR t && st.ers t.fd then
    match call_cbk env st t.on_err_rdy_cbk io_task IO_SCHEDULER_ERR_NONE with
    | none => none
    | some r => some { r.2 with ers := FD_CLR (r.2.m.tasks io_task).fd r.2.ers }
  else some st

/-- Lines 461-473: the read-ready check; `rv = rv && cbk (...)` calls the
callback only when `rv` is still true. -/
def process_read (env : CbkEnv) (expired : Bool) (st : proc) (io_task : Int) : Option proc :=
  let t := st.m.tasks io_task
  if S_IOSCHED_OPTS_READ t then
    if st.rds t.fd then
      if st.rv then
        match call_cbk env st t.on_read_rdy_cbk io_task IO_SCHEDULER_ERR_NONE with
        | none => none
        | some r => some { r.2 with rv := r.1, rds := FD_CLR (r.2.m.tasks io_task).fd r.2.rds }
      else some { st with rds := FD_CLR t.fd st.rds }
    else if expired then
      if st.rv then
        match call_cbk env st t.on_timeout_cbk io_task IO_SCHEDULER_ERR_OP_TIMEOUT with
        | none => none
        | some r => some { r.2 with rv := r.1 }
      else some st
    else some { st with rv := false }
  else some st

/-- Lines 475-487: the write-ready check. -/
def process_write (env : CbkEnv) (expired : Bool) (st : proc) (io_task : Int) : Option proc :=
  let t := st.m.tasks io_task
  if S_IOSCHED_OPTS_WRITE t then
    if st.wrs t.fd then
      if st.rv then
        match call_cbk env st t.on_write_rdy_cbk io_task IO_SCHEDULER_ERR_NONE with
        | none => none
        | some r => some { r.2 with rv := r.1, wrs := FD_CLR (r.2.m.tasks io_task).fd r.2.wrs }
      else some { st with wrs := FD_CLR t.fd st.wrs }
    else if expired then
      if st.rv then
        match call_cbk env st t.on_timeout_cbk io_task IO_SCHEDULER_ERR_OP_TIMEOUT with
        | none => none
        | some r => some { r.2 with rv := r.1 }
      else some st
    else some { st with rv := false }
  else some st

/-- Lines 489-502: the branch for a task without a real descriptor. -/
def process_timer (env : CbkEnv) (expired : Bool) (st : proc) (io_task : Int) : Option proc :=
  if expired then
    match call_cbk env st (st.m.tasks io_task).on_timeout_cbk io_task
        IO_SCHEDULER_ERR_OP_TIMEOUT with
    | none => none
    | some r =>
      if !r.1 then
        match inl_io_sched_populate_expire_time r.2.m io_task with
        | none => none
        | some m2 => some { r.2 with m := m2, rv := false }
      else some r.2
  else some { st with rv := false }

/-- The function `io_sched_process_task`; the result carries the return value,
the machine, the descriptor sets and the callbacks that were invoked. -/
def io_sched_process_task (env : CbkEnv) (m : Machine) (io_task : Int)
    (rds wrs ers : Int → Bool) : Option proc :=
  let st : proc := { rv := true, m := m, rds := rds, wrs := wrs, ers := ers, calls := [] }
  let expired := task_expired m.now (m.tasks io_task)
  if (m.tasks io_task).fd > INVALID_GENERAL_FD then
    match process_error env st io_task with
    | none => none
    | some st1 =>
      match process_read env expired st1 io_task with
      | none => none
      | some st2 => process_write env expired st2 io_task
  else process_timer env expired st io_task

/-! ## The pump -/

/-- The descriptor sets and `maxfd` built by the pump for `select`. -/
structure pump_sets where
  rd : Int → Bool
  wr : Int → Bool
  er : Int → Bool
  maxfd : Int

/-- The state after `FD_ZERO` of the three sets, with `maxfd = INVALID_GENERAL_FD`. -/
def pump_sets_zero : pump_sets :=
  { rd := fun _ => false, wr := fun _ => false, er := fun _ => false, maxfd := INVALID_GENERAL_FD }

/-- Lines 629-642 of `inl_io_sched_pump`: the descriptor of a task that is not
a pure timer is added to the sets of the options it carries. -/
def pump_add_task (t : io_scheduler_task) (fs : pump_sets) : pump_sets :=
  if !S_IOSCHED_OPTS_TIMER_ONLY t then
    let fs1 := if S_IOSCHED_OPTS_READ t
      then { fs with maxfd := if t.fd > fs.maxfd then t.fd else fs.maxfd, rd := FD_SET t.fd fs.rd }
      else fs
    let fs2 := if S_IOSCHED_OPTS_WRITE t
      then { fs1 with maxfd := if t.fd > fs1.maxfd then t.fd else fs1.maxfd,
                      wr := FD_SET t.fd fs1.wr }
      else fs1
    if S_IOSCHED_OPTS_ERROR t
      then { fs2 with maxfd := if t.fd > fs2.maxfd then t.fd else fs2.maxfd,
                      er := FD_SET t.fd fs2.er }
      else fs2
  else fs

/-- The condition under which the pump destroys a task: Remove is set and the
descriptor is not `INVALID_GENERAL_FD`. -/
def reapable (t : io_scheduler_task) : Bool :=
  S_IOSCHED_OPTS_REMOVE t && t.fd != INVALID_GENERAL_FD

/-- Lines 615-622: removes are cleared from the front of the live list. -/
def reap_front : Nat → Machine → Option Machine
  | 0, _ => none
  | fuel + 1, m =>
    if m.sched.scheduled_tasks ≠ 0 ∧ reapable (m.tasks m.sched.scheduled_tasks) then
      let ptask := (m.tasks m.sched.scheduled_tasks).next
      match io_sched_destroy_task m m.sched.scheduled_tasks with
      | none => none
      | some m1 => reap_front fuel { m1 with sched := { m1.sched with scheduled_tasks := ptask } }
    else some m

/-- Lines 645-649: the scan ahead that unlinks and destroys the removes that
follow `ptask`. -/
def scan_ahead : Nat → Machine → Int → Option Machine
  | 0, _, _ => none
  | fuel + 1, m, ptask =>
    if (m.tasks ptask).next ≠ 0 ∧ reapable (m.tasks (m.tasks ptask).next) then
      let pnext := (m.tasks (m.tasks ptask).next).next
      match io_sched_destroy_task m (m.tasks ptask).next with
      | none => none
      | some m1 => scan_ahead fuel (m1.write ptask { m1.tasks ptask with next := pnext }) ptask
    else some m

/-- Lines 625-652: the walk over the live list that fills the descriptor sets
and scans ahead for removes. -/
def reap_walk : Nat → Machine → Int → pump_sets → Option (Machine × pump_sets)
  | 0, _, _, _ => none
  | fuel + 1, m, ptask, fs =>
    if ptask = 0 then some (m, fs)
    else
      match scan_ahead (fuel + 1) m ptask with
      | none => none
      | some m1 => reap_walk fuel m1 (m1.tasks ptask).next (pump_add_task (m.tasks ptask) fs)

/-- Lines 611-655: the coalescing pass, entered when the live list is not empty
and the scheduler is not stopped. -/
def reap_pass (fuel : Nat) (m : Machine) : Option (Machine × pump_sets) :=
  match reap_front fuel m with
  | none => none
  | some m1 => reap_walk fuel m1 m1.sched.scheduled_tasks pump_sets_zero

/-- The outcome of one `select` call: whether it failed (returned a negative
value), the descriptors it found ready, and the clock reading on return. -/
structure select_result where
  failed : Bool
  rd : Int → Bool
  wr : Int → Bool
  er : Int → Bool
  now : timespec

/-- Lines 663-670: the dispatch loop; the result is the machine, the sets and
the callbacks invoked, in order. -/
def dispatch_loop (env : CbkEnv) :
    Nat → Machine → Int → (Int → Bool) → (Int → Bool) → (Int → Bool) →
      Option (Machine × List cbk_call)
  | 0, _, _, _, _, _ => none
  | fuel + 1, m, ptask, rds, wrs, ers =>
    if ptask = 0 ∨ m.sched.stop_scheduler then some (m, [])
    else if !S_IOSCHED_OPTS_REMOVE (m.tasks ptask) then
      match io_sched_process_task env m ptask rds wrs ers with
      | none => none
      | some st =>
        let m1 := if st.rv then io_sched_unschedule_task st.m ptask else st.m
        match dispatch_loop env fuel m1 (m1.tasks ptask).next st.rds st.wrs st.ers with
        | none => none
        | some r => some (r.1, st.calls ++ r.2)
    else dispatch_loop env fuel m (m.tasks ptask).next rds wrs ers

/-- The function `inl_io_sched_pump`: one iteration, given the outcome of its
`select` call.  The result is the machine and the callbacks invoked. -/
def inl_io_sched_pump (fuel : Nat) (env : CbkEnv) (sel : select_result) (m : Machine) :
    Option (Machine × List cbk_call) :=
  if m.sched.scheduled_tasks = 0 ∧ m.sched.scheduler_thread ≠ 0 then
    some ({ m with now := sel.now }, [])
  else
    match (if m.sched.scheduled_tasks ≠ 0 ∧ !m.sched.stop_scheduler
            then reap_pass fuel m else some (m, pump_sets_zero)) with
    | none => none
    | some r =>
      if !r.1.sched.stop_scheduler then
        let m2 : Machine := { r.1 with now := sel.now }
        if sel.failed then some (m2, [])
        else
          dispatch_loop env fuel m2 m2.sched.scheduled_tasks
            (fun fd => r.2.rd fd && sel.rd fd) (fun fd => r.2.wr fd && sel.wr fd)
            (fun fd => r.2.er fd && sel.er fd)
      else some (r.1, [])

/-- A sequence of pump iterations, one per `select` outcome; the result is the
final machine and the callbacks invoked, in order. -/
def pump_run (fuel : Nat) (env : CbkEnv) : List select_result → Machine →
    Option (Machine × List cbk_call)
  | [], m => some (m, [])
  | sel :: sels, m =>
    match inl_io_sched_pump fuel env sel m with
    | none => none
    | some r =>
      match pump_run fuel env sels r.1 with
      | none => none
      | some r2 => some (r2.1, r.2 ++ r2.2)

/-! ## The live list as a sequence -/

/-- The chain of `next` pointers from `h` is the null-terminated sequence `l`. -/
def isList (tasks : Int → io_scheduler_task) : Int → List Int → Prop
  | h, [] => h = 0
  | h, a :: l => h = a ∧ a ≠ 0 ∧ isList tasks (tasks a).next l

instance isList_decidable (tasks : Int → io_scheduler_task) :
    (h : Int) → (l : List Int) → Decidable (isList tasks h l)
  | h, [] => inferInstanceAs (Decidable (h = 0))
  | h, a :: l =>
    have := isList_decidable tasks (tasks a).next l
    inferInstanceAs (Decidable (h = a ∧ a ≠ 0 ∧ isList tasks (tasks a).next l))

/-! ## The dispatch pass over a sequence of tasks -/

/-- The state of a dispatch pass: the machine, the descriptor sets that are
left, and the callbacks invoked so far. -/
structure pass where
  m : Machine
  rds : Int → Bool
  wrs : Int → Bool
  ers : Int → Bool
  calls : List cbk_call

/-- The dispatch pass as the specification words it, over a sequence of tasks:
in the order of the sequence, each task that is not flagged Remove when its
turn comes is handed to `io_sched_process_task` and unscheduled when that
reports completion; the pass ends when the stop flag is set. -/
def dispatch_list (env : CbkEnv) :
    List Int → Machine → (Int → Bool) → (Int → Bool) → (Int → Bool) → Option pass
  | [], m, rds, wrs, ers => some { m := m, rds := rds, wrs := wrs, ers := ers, calls := [] }
  | a :: l, m, rds, wrs, ers =>
    if m.sched.stop_scheduler then
      some { m := m, rds := rds, wrs := wrs, ers := ers, calls := [] }
    else if !S_IOSCHED_OPTS_REMOVE (m.tasks a) then
      match io_sched_process_task env m a rds wrs ers with
      | none => none
      | some st =>
        match dispatch_list env l (if st.rv then io_sched_unschedule_task st.m a else st.m)
            st.rds st.wrs st.ers with
        | none => none
        | some r => some { r with calls := st.calls ++ r.calls }
    else dispatch_list env l m rds wrs ers

/-- The callbacks of the client leave every `next` link as it is. -/
def links_kept (env : CbkEnv) : Prop :=
  ∀ c t e m q, ((env c t e m).2.tasks q).next = (m.tasks q).next

/-- The callbacks of the client, when invoked on a task of `S`, leave every
`next` link as it is. -/
def links_kept_on (env : CbkEnv) (S : List Int) : Prop :=
  ∀ c t e m q, t ∈ S → ((env c t e m).2.tasks q).next = (m.tasks q).next

/-- The callbacks of the client leave the machine as it is (they only return
a value). -/
def env_pure (env : CbkEnv) : Prop :=
  ∀ c t e m, (env c t e m).2 = m

/-- A task that `io_sched_process_task` can process without a fault: it is
owned by the scheduler at `sched_at`, it has the callback of each of Read, Write
and Error that it carries, it has the timeout callback unless its timeout is
never, and if it has no real descriptor its timeout is not below -1. -/
def task_ok (sched_at : Int) (t : io_scheduler_task) : Prop :=
  t.owner = sched_at ∧
  (S_IOSCHED_OPTS_READ t = true → t.on_read_rdy_cbk ≠ 0) ∧
  (S_IOSCHED_OPTS_WRITE t = true → t.on_write_rdy_cbk ≠ 0) ∧
  (S_IOSCHED_OPTS_ERROR t = true → t.on_err_rdy_cbk ≠ 0) ∧
  (t.time_out ≠ IO_SCHEDULER_NO_TIMEOUT → t.on_timeout_cbk ≠ 0) ∧
  (t.fd ≤ INVALID_GENERAL_FD → IO_SCHEDULER_NO_TIMEOUT ≤ t.time_out)

/-- The machine `m1` is `m` up to the options and expiry times of the tasks
in `S`, where the options changed at most by the Remove flag being set. -/
def touched (m m1 : Machine) (S : List Int) : Prop :=
  m1.sched = m.sched ∧ m1.now = m.now ∧ m1.sched_at = m.sched_at ∧
  (∀ q, q ∉ S → m1.tasks q = m.tasks q) ∧
  ∀ q, ∃ o e, m1.tasks q = { m.tasks q with opts := o, expire_time := e } ∧
    (o = (m.tasks q).opts ∨ o = (m.tasks q).opts ||| IO_SCHEDULER_REMOVE)

instance (sched_at : Int) (t : io_scheduler_task) : Decidable (task_ok sched_at t) := by
  unfold task_ok
  infer_instance

/-! ## The outcome of the coalescing pass, as sequences -/

/-- The members of a list that the coalescing pass destroys. -/
def reaped (m : Machine) (l : List Int) : List Int :=
  l.filter (fun a => reapable (m.tasks a))

/-- The members of a list that the coalescing pass keeps. -/
def survivors (m : Machine) (l : List Int) : List Int :=
  l.filter (fun a => !reapable (m.tasks a))

/-- The pseudo-ids (descriptors below `INVALID_GENERAL_FD`) among the
descriptors `F a` of the members `a` of a list. -/
def ids_of (F : Int → Int) (l : List Int) : List Int :=
  (l.filter (fun a => decide (F a < INVALID_GENERAL_FD))).map F

/-- The pseudo-ids (descriptors below `INVALID_GENERAL_FD`) of the tasks of a list. -/
def timer_ids_of (m : Machine) (l : List Int) : List Int :=
  ids_of (fun a => (m.tasks a).fd) l

/-- The machine `m1` is `m` after the tasks `r`, whose descriptors are given by
`F`, have been destroyed in this order: the slots were pushed on the task pool
and their pseudo-ids on the timer pool, the slots are zeroed, and the stop
flag, the thread and the clock are as before. -/
def destroyed (F : Int → Int) (m m1 : Machine) (r : List Int) : Prop :=
  stack_contents m1.sched.task_pool = r.reverse ++ stack_contents m.sched.task_pool ∧
  m1.sched.task_pool.limit = m.sched.task_pool.limit ∧
  m1.sched.task_pool.current + r.length = m.sched.task_pool.current ∧
  stack_contents m1.sched.timer_id_pool =
    (ids_of F r).reverse ++ stack_contents m.sched.timer_id_pool ∧
  m1.sched.timer_id_pool.limit = m.sched.timer_id_pool.limit ∧
  m1.sched.timer_id_pool.current + (ids_of F r).length = m.sched.timer_id_pool.current ∧
  m1.sched.stop_scheduler = m.sched.stop_scheduler ∧
  m1.sched.scheduler_thread = m.sched.scheduler_thread ∧
  m1.sched_at = m.sched_at ∧ m1.now = m.now ∧
  ∀ a ∈ r, m1.tasks a = zero_task

/-- Both pools of `m` are well formed and have room for the slots `r` and their
pseudo-ids. -/
def room (F : Int → Int) (m : Machine) (r : List Int) : Prop :=
  r.length ≤ m.sched.task_pool.current ∧
  m.sched.task_pool.current ≤ m.sched.task_pool.limit ∧
  (ids_of F r).length ≤ m.sched.timer_id_pool.current ∧
  m.sched.timer_id_pool.current ≤ m.sched.timer_id_pool.limit

instance (F : Int → Int) (m : Machine) (r : List Int) : Decidable (room F m r) := by
  unfold room
  infer_instance

/-- The live list of `m` is the sequence `l` of well-formed tasks, and both
pools are well formed with at least as many free places as `l` has tasks and
pseudo-ids. -/
def sched_ok (m : Machine) (l : List Int) : Prop :=
  isList m.tasks m.sched.scheduled_tasks l ∧
  (∀ a ∈ l, task_ok m.sched_at (m.tasks a)) ∧
  room (fun a => (m.tasks a).fd) m l

instance (m : Machine) (l : List Int) : Decidable (sched_ok m l) := by
  unfold sched_ok
  infer_instance

/-- A task that a pump iteration handles without a fault: it is owned by the
scheduler at `sched_at` and, unless it carries Remove (a task with Remove is
never handed to `io_sched_process_task`), it is well formed. -/
def task_fit (sched_at : Int) (t : io_scheduler_task) : Prop :=
  t.owner = sched_at ∧ (S_IOSCHED_OPTS_REMOVE t = false → task_ok sched_at t)

instance (sched_at : Int) (t : io_scheduler_task) : Decidable (task_fit sched_at t) := by
  unfold task_fit
  infer_instance

/-- The option word holds option bits only: Read, Write, Error, Timer, Remove. -/
def opts_typed (t : io_scheduler_task) : Prop :=
  t.opts &&& (0xFFFFFFFF ^^^ 0x8000000F) = 0 ∧ t.opts < 2 ^ 32

instance (t : io_scheduler_task) : Decidable (opts_typed t) := by
  unfold opts_typed
  infer_instance

/-- None of the options that the task carries has its callback. -/
def no_callback (t : io_scheduler_task) : Prop :=
  (S_IOSCHED_OPTS_READ t = true → t.on_read_rdy_cbk = 0) ∧
  (S_IOSCHED_OPTS_WRITE t = true → t.on_write_rdy_cbk = 0) ∧
  (S_IOSCHED_OPTS_ERROR t = true → t.on_err_rdy_cbk = 0) ∧
  (S_IOSCHED_OPTS_TIMER t = true → t.on_timeout_cbk = 0)

instance (t : io_scheduler_task) : Decidable (no_callback t) := by
  unfold no_callback
  infer_instance

/-- The record that `io_sched_create_task` writes into the slot it took from
the task pool. -/
def new_task (sched_at fd : Int) (opts : Nat)
    (time_out user_data read_cbk write_cbk err_cbk time_out_cbk : Int) : io_scheduler_task :=
  { zero_task with
    owner := sched_at, fd := fd,
    opts := if opts &&& IO_SCHEDULER_REMOVE ≠ 0 then clear_opt opts IO_SCHEDULER_REMOVE else opts,
    time_out := time_out, user_data := user_data, on_read_rdy_cbk := read_cbk,
    on_write_rdy_cbk := write_cbk, on_err_rdy_cbk := err_cbk, on_timeout_cbk := time_out_cbk }

/-! ## The convenience constructors, as the spec words them -/

/-- The option word of a set of distinct option flags, with Timer added exactly
when the timeout is positive. -/
def spec_opts (flags : List Nat) (time_out : Int) : Nat :=
  (flags ++ if 0 < time_out then [IO_SCHEDULER_TIMER] else []).sum

/-- The reader constructor in the words of the spec: `io_sched_create_task`
with opts = Read, plus Timer iff the timeout is positive, the callback as
on_read and as on_timeout, and no write or error callback. -/
def spec_create_reader_task (m : Machine) (fd time_out user_data cb : Int) : Int × Machine :=
  io_sched_create_task m fd (spec_opts [IO_SCHEDULER_READ] time_out) time_out user_data
    cb 0 0 cb

/-- The writer constructor in the words of the spec: the same with Write, the
callback as on_write and as on_timeout. -/
def spec_create_writer_task (m : Machine) (fd time_out user_data cb : Int) : Int × Machine :=
  io_sched_create_task m fd (spec_opts [IO_SCHEDULER_WRITE] time_out) time_out user_data
    0 cb 0 cb

/-- The extended reader constructor in the words of the spec: the reader with
the Error option added and a separate error callback. -/
def spec_create_reader_task_ex (m : Machine) (fd time_out user_data cb err_cb : Int) :
    Int × Machine :=
  io_sched_create_task m fd (spec_opts [IO_SCHEDULER_READ, IO_SCHEDULER_ERROR] time_out)
    time_out user_data cb 0 err_cb cb

/-! ## Reachable states -/

/-- One call of the client into the scheduler of the machine: the creation of
a timer task, the creation of a task on a descriptor `fd >= 0`, the scheduling
of a task (when the call returns), the unscheduling of a task; the clock may
advance between two calls. -/
inductive client_step : Machine → Machine → Prop
  | create_timer (m : Machine) (time_out user_data time_out_cbk : Int) :
    client_step m (io_sched_create_timer_task m time_out user_data time_out_cbk).2
  | create (m : Machine) (fd : Int) (opts : Nat)
      (time_out user_data read_cbk write_cbk err_cbk time_out_cbk : Int) (hfd : 0 ≤ fd) :
    client_step m
      (io_sched_create_task m fd opts time_out user_data read_cbk write_cbk err_cbk
        time_out_cbk).2
  | schedule (fuel : Nat) (m : Machine) (io_task : Int) (b : Bool) (m2 : Machine)
      (h : io_sched_schedule_task fuel m io_task = some (b, m2)) : client_step m m2
  | unschedule (m : Machine) (io_task : Int) :
    client_step m (io_sched_unschedule_task m io_task)
  | tick (m : Machine) (now : timespec) : client_step m { m with now := now }

/-- The callbacks of the client reach the scheduler through calls of
`client_step` only. -/
def client_env (env : CbkEnv) : Prop :=
  ∀ c t e m, Relation.ReflTransGen client_step m (env c t e m).2

/-- The states of the machine that are reachable from the creation of its
scheduler, at the address `sched_at` and over the memory `mem`, by
`io_sched_create_scheduler ( max_tasks, max_timers )`, through calls of the
client and pump iterations that return. -/
inductive reachable (max_tasks max_timers : Nat) (malloc : Nat → Int) (sched_at : Int)
    (mem : Int → io_scheduler_task) : Machine → Prop
  | created (s : io_scheduler) (now : timespec)
      (h : io_sched_create_scheduler max_tasks max_timers malloc = some s) :
    reachable max_tasks max_timers malloc sched_at mem
      { sched_at := sched_at, sched := s, tasks := mem, now := now }
  | client (m m2 : Machine) (hr : reachable max_tasks max_timers malloc sched_at mem m)
      (hs : client_step m m2) : reachable max_tasks max_timers malloc sched_at mem m2
  | pump (m m2 : Machine) (fuel : Nat) (env : CbkEnv) (sel : select_result)
      (calls : List cbk_call) (hr : reachable max_tasks max_timers malloc sched_at mem m)
      (henv : client_env env) (hp : inl_io_sched_pump fuel env sel m = some (m2, calls)) :
    reachable max_tasks max_timers malloc sched_at mem m2

/-- A slot that holds a timer task which has not been reaped: its owner is the
scheduler of the machine (creation sets the owner, destruction zeroes the slot)
and its descriptor is a pseudo-id (below `INVALID_GENERAL_FD`). -/
def live_timer (m : Machine) (a : Int) : Prop :=
  (m.tasks a).owner = m.sched_at ∧ (m.tasks a).fd < INVALID_GENERAL_FD

instance (m : Machine) (a : Int) : Decidable (live_timer m a) := by
  unfold live_timer
  infer_instance

/-- The machines `m` and `m2` have the same scheduler address, the same pools
and, slot by slot, the same owners and descriptors. -/
def same_ids (m m2 : Machine) : Prop :=
  m2.sched_at = m.sched_at ∧ m2.sched.task_pool = m.sched.task_pool ∧
  m2.sched.timer_id_pool = m.sched.timer_id_pool ∧
  ∀ a, (m2.tasks a).owner = (m.tasks a).owner ∧ (m2.tasks a).fd = (m.tasks a).fd

/-- The invariant of the pools of a scheduler whose slots are `S` and whose
pseudo-ids start at `lo`: the task pool holds distinct slots of `S`, the timer
pool holds distinct ids of `[lo, -2)`, a slot owned by the scheduler is a slot
of `S` outside the task pool, and the pseudo-ids of such slots are ids of
`[lo, -2)` outside the timer pool, two slots never holding the same one. -/
def ids_inv (S : List Int) (lo : Int) (m : Machine) : Prop :=
  m.sched_at ≠ 0 ∧ S.Nodup ∧
  m.sched.task_pool.limit = S.length ∧
  m.sched.task_pool.current ≤ m.sched.task_pool.limit ∧
  (stack_contents m.sched.task_pool).Nodup ∧
  (∀ x ∈ stack_contents m.sched.task_pool, x ∈ S) ∧
  m.sched.timer_id_pool.current ≤ m.sched.timer_id_pool.limit ∧
  (stack_contents m.sched.timer_id_pool).Nodup ∧
  (∀ x ∈ stack_contents m.sched.timer_id_pool, lo ≤ x ∧ x < -2) ∧
  (∀ a, (m.tasks a).owner = m.sched_at →
    a ∈ S ∧ a ∉ stack_contents m.sched.task_pool) ∧
  (∀ a, live_timer m a →
    lo ≤ (m.tasks a).fd ∧ (m.tasks a).fd < -2 ∧
      (m.tasks a).fd ∉ stack_contents m.sched.timer_id_pool) ∧
  ∀ a b, live_timer m a → live_timer m b → (m.tasks a).fd = (m.tasks b).fd → a = b

/-! ## Example machines -/

/-- The allocator of the examples: slot `ii` lives at address `1001 + ii`. -/
def ex_malloc (ii : Nat) : Int := 1001 + ii

/-- The scheduler made by `io_sched_create_scheduler ( 2, 2 )`. -/
def ex_sched : io_scheduler :=
  (io_sched_create_scheduler 2 2 ex_malloc).getD
    ⟨0, ⟨0, 0, fun _ => 0⟩, ⟨0, 0, fun _ => 0⟩, 0, false⟩

/-- A machine that holds the fresh scheduler of the examples at address 1, with
zeroed task memory and the clock at 1000 s. -/
def ex_machine : Machine :=
  { sched_at := 1, sched := ex_sched, tasks := fun _ => zero_task, now := ⟨1000, 0⟩ }

/-- A timer task with a timeout of 5 ns and the callback at address 77, created
on the fresh scheduler: the pointer and the machine. -/
def ex_timer5 : Int × Machine := io_sched_create_timer_task ex_machine 5 0 77

/-- The machine of `ex_timer5` after the timer task has been scheduled. -/
def ex_live5 : Machine :=
  match io_sched_schedule_task 0 ex_timer5.2 ex_timer5.1 with
  | some r => r.2
  | none => ex_timer5.2

/-- A client whose callbacks all return false and leave the machine alone. -/
def ex_env_false : CbkEnv := fun _ _ _ m => (false, m)

/-- A client whose callbacks all return true and leave the machine alone. -/
def ex_env_true : CbkEnv := fun _ _ _ m => (true, m)

/-- The machine `ex_live5` with the clock at 2000 s, when the timer has expired. -/
def ex_later5 : Machine := { ex_live5 with now := ⟨2000, 0⟩ }

/-- A task on the descriptor `INVALID_GENERAL_FD` with a timer callback, created
on the fresh scheduler: the pointer and the machine. -/
def ex_invalid_fd : Int × Machine :=
  io_sched_create_task ex_machine INVALID_GENERAL_FD IO_SCHEDULER_TIMER 5 0 0 0 0 77

/-- A reader task on descriptor 5 without timeout and with the callback at
address 88, created (and not scheduled) on `ex_live5`. -/
def ex_reader : Int × Machine := io_sched_create_reader_task ex_live5 5 (-1) 0 88

/-- An outcome of `select` that reports nothing ready at the clock reading 2000 s. -/
def ex_select_idle : select_result :=
  { failed := false, rd := fun _ => false, wr := fun _ => false, er := fun _ => false,
    now := ⟨2000, 0⟩ }

/-- A timer task with timeout 0 and the callback at address 99, created (and
not scheduled) on `ex_live5`. -/
def ex_timer0 : Int × Machine := io_sched_create_timer_task ex_live5 0 0 99

/-- A client whose callback at address 77, invoked on the 5 ns timer, schedules
the task `ex_timer0` and returns false; every other callback returns true and
does nothing. -/
def ex_env_sched : CbkEnv := fun cbk task _ m =>
  if cbk = 77 ∧ task = ex_timer5.1 then
    (false, match io_sched_schedule_task 5 m ex_timer0.1 with
            | some r => r.2
            | none => m)
  else (true, m)

/-- The machine `ex_timer0` when the dispatch pass starts, the clock at 2000 s. -/
def ex_dispatch0 : Machine := { ex_timer0.2 with now := ⟨2000, 0⟩ }

/-- The outcome of processing the 5 ns timer on `ex_dispatch0`. -/
def ex_dispatch0_st : proc :=
  match io_sched_process_task ex_env_sched ex_dispatch0 ex_timer5.1
      (fun _ => false) (fun _ => false) (fun _ => false) with
  | some st => st
  | none => { rv := false, m := ex_dispatch0, rds := fun _ => false, wrs := fun _ => false,
              ers := fun _ => false, calls := [] }


/-- A machine that holds the scheduler made by `io_sched_create_scheduler ( 2, 1 )`
at address 1, with zeroed task memory and the clock at 1000 s. -/
def ex_pool_machine : Machine :=
  { sched_at := 1,
    sched := (io_sched_create_scheduler 2 1 ex_malloc).getD
      ⟨0, ⟨0, 0, fun _ => 0⟩, ⟨0, 0, fun _ => 0⟩, 0, false⟩,
    tasks := fun _ => zero_task, now := ⟨1000, 0⟩ }

/-- The first reader task of the pool example, on descriptor 5 with the
callback at address 88. -/
def ex_reader_a : Int × Machine := io_sched_create_reader_task ex_pool_machine 5 (-1) 0 88

/-- The second reader task of the pool example, on descriptor 6, created after
the first one has been scheduled. -/
def ex_reader_b : Int × Machine :=
  io_sched_create_reader_task
    (match io_sched_schedule_task 4 ex_reader_a.2 ex_reader_a.1 with
     | some r => r.2
     | none => ex_reader_a.2) 6 (-1) 0 88

/-- The machine of the pool example after both reader tasks have been created
and scheduled. -/
def ex_pool_full : Machine :=
  match io_sched_schedule_task 4 ex_reader_b.2 ex_reader_b.1 with
  | some r => r.2
  | none => ex_reader_b.2

/-- An outcome of `select` that reports nothing ready at the clock reading
1000 s, before the 5 ns timer of the examples expires. -/
def ex_select_early : select_result :=
  { failed := false, rd := fun _ => false, wr := fun _ => false, er := fun _ => false,
    now := ⟨1000, 0⟩ }

/-- A task on descriptor 5 that asks for Read and has no callback, created on
the fresh scheduler of the examples: the pointer and the machine. -/
def ex_orphan : Int × Machine :=
  io_sched_create_task ex_machine 5 IO_SCHEDULER_READ (-1) 0 0 0 0 0

/-- The pool example after its first reader task has been scheduled. -/
def ex_a_live : Machine :=
  match io_sched_schedule_task 4 ex_reader_a.2 ex_reader_a.1 with
  | some r => r.2
  | none => ex_reader_a.2

/-- The machine `ex_a_live` after the reader task has been unscheduled and one
idle pump iteration has run. -/
def ex_a_reaped : Machine :=
  match inl_io_sched_pump 4 ex_env_true ex_select_idle
      (io_sched_unschedule_task ex_a_live ex_reader_a.1) with
  | some r => r.1
  | none => ex_a_live

/-! ## The socket manager (socket-mgr.c) -/

/-- The constant `INVALID_SOCKET_FD`: what `socket` and `accept` return on
failure.  Its header is not among the sources; the code compares the results
of these calls with it. -/
def INVALID_SOCKET_FD : Int := -1

/-- The largest value of a `size_t` counter (64-bit). -/
def SIZE_MAX : Nat := 2 ^ 64 - 1

/-- The statement `connections++` on a `size_t`. -/
def size_incr (c : Nat) : Nat := (c + 1) % (SIZE_MAX + 1)

/-- The statement `connections--` on a `size_t`. -/
def size_decr (c : Nat) : Nat := (c + SIZE_MAX) % (SIZE_MAX + 1)

/-- The record `struct _sockmgr_sockinf` without its link.  The records are
private to the module and allocated one by one in `create_sockinf`, so a
registry is the sequence of records met along the `next` pointers. -/
structure sockmgr_sockinf where
  port : Nat
  sockfd : Int
  connections : Nat
deriving DecidableEq, Repr

/-- What the socket manager does to the world outside it: `close ( fd )` and
the call `cbkfn ( fd )` of a registered close handler. -/
inductive sock_event where
  | closed (fd : Int)
  | notified (cbkfn fd : Int)
deriving DecidableEq, Repr

/-- The module variables of socket-mgr.c: the two registries, the close
handlers in list order (as addresses), and the record of the calls made. -/
structure SockMgr where
  sockmgr_tcp_socket_list : List sockmgr_sockinf
  sockmgr_udp_socket_list : List sockmgr_sockinf
  sockmgr_event_list : List Int
  trace : List sock_event
deriving DecidableEq, Repr

/-- The module variables at program start. -/
def sockmgr_start : SockMgr := ⟨[], [], [], []⟩

/-- The function `create_sockinf`; `alloc` tells whether `malloc` succeeds.
The result is the new record, or none for the null pointer. -/
def create_sockinf (alloc : Bool) (port : Nat) (sockfd : Int) : Option sockmgr_sockinf :=
  if alloc then some ⟨port, sockfd, 1⟩ else none

/-- The loop `while ( pinf->next )` of `sockmgr_get_or_create_tcp` over the
records behind `pinf`: the value of `rv`, the records behind the first `pinf`
after the loop, and the number of steps `pinf` has advanced. -/
def get_scan (port : Nat) : List sockmgr_sockinf → Int × List sockmgr_sockinf × Nat
  | [] => (INVALID_SOCKET_FD, [], 0)
  | n :: rest =>
    if n.port = port then
      (n.sockfd, { n with connections := size_incr n.connections } :: rest, 0)
    else
      let r := get_scan port rest
      (r.1, n :: r.2.1, r.2.2 + 1)

/-- The body shared by `sockmgr_get_or_create_tcp` and
`sockmgr_get_or_create_udp` on the registry `l`; `bound` is what
`tcp_create_bound_socket ( port )` (or the UDP one) returns if it is called.
The result is the returned descriptor and the registry, or none when the code
writes through the null `pinf`. -/
def get_or_create (bound : Int) (alloc : Bool) (port : Nat) (l : List sockmgr_sockinf) :
    Option (Int × List sockmgr_sockinf) :=
  let found : Int × List sockmgr_sockinf × Option Nat :=
    match l with
    | [] => (INVALID_SOCKET_FD, [], none)
    | h :: rest =>
      if h.port = port then
        (h.sockfd, { h with connections := size_incr h.connections } :: rest, none)
      else
        let r := get_scan port rest
        (r.1, h :: r.2.1, some r.2.2)
  if found.1 = INVALID_SOCKET_FD then
    if bound ≠ INVALID_SOCKET_FD then
      match found.2.1, found.2.2 with
      | [], _ => some (bound, (create_sockinf alloc port bound).toList)
      | _ :: _, none => none
      | h :: rest, some k =>
        some (bound, (h :: rest).take (k + 1) ++ (create_sockinf alloc port bound).toList)
    else some (bound, found.2.1)
  else some (found.1, found.2.1)

/-- The function `sockmgr_get_or_create_tcp`. -/
def sockmgr_get_or_create_tcp (bound : Int) (alloc : Bool) (port : Nat) (s : SockMgr) :
    Option (Int × SockMgr) :=
  (get_or_create bound alloc port s.sockmgr_tcp_socket_list).map
    (fun r => (r.1, { s with sockmgr_tcp_socket_list := r.2 }))

/-- The function `sockmgr_get_or_create_udp`. -/
def sockmgr_get_or_create_udp (bound : Int) (alloc : Bool) (port : Nat) (s : SockMgr) :
    Option (Int × SockMgr) :=
  (get_or_create bound alloc port s.sockmgr_udp_socket_list).map
    (fun r => (r.1, { s with sockmgr_udp_socket_list := r.2 }))

/-- The function `notify_listeners_socket_closed`: the handler calls, in list
order. -/
def notify_listeners_socket_closed (events : List Int) (sockfd : Int) : List sock_event :=
  events.map (fun cbkfn => sock_event.notified cbkfn sockfd)

/-- The loop `while ( pinf->next )` of `close_socket` over the records behind
`pinf`: these records after the loop, and the calls made. -/
def close_scan (events : List Int) (sockfd : Int) :
    List sockmgr_sockinf → List sockmgr_sockinf × List sock_event
  | [] => ([], [])
  | n :: rest =>
    if n.sockfd ≠ sockfd then
      let r := close_scan events sockfd rest
      (n :: r.1, r.2)
    else if size_decr n.connections > 0 then
      ({ n with connections := size_decr n.connections } :: rest, [])
    else
      (rest, sock_event.closed sockfd :: notify_listeners_socket_closed events sockfd)

/-- The function `close_socket` on the registry `l`: the registry and the
calls made. -/
def close_socket (events : List Int) (sockfd : Int) (l : List sockmgr_sockinf) :
    List sockmgr_sockinf × List sock_event :=
  match l with
  | [] => ([], [])
  | phead :: rest =>
    if phead.sockfd = sockfd then
      if size_decr phead.connections < 1 then
        (rest, sock_event.closed sockfd :: notify_listeners_socket_closed events sockfd)
      else ({ phead with connections := size_decr phead.connections } :: rest, [])
    else
      let r := close_scan events sockfd rest
      (phead :: r.1, r.2)

/-- The function `sockmgr_close_tcp`. -/
def sockmgr_close_tcp (sockfd : Int) (s : SockMgr) : SockMgr :=
  let r := close_socket s.sockmgr_event_list sockfd s.sockmgr_tcp_socket_list
  { s with sockmgr_tcp_socket_list := r.1, trace := s.trace ++ r.2 }

/-- The function `sockmgr_close_udp`. -/
def sockmgr_close_udp (sockfd : Int) (s : SockMgr) : SockMgr :=
  let r := close_socket s.sockmgr_event_list sockfd s.sockmgr_udp_socket_list
  { s with sockmgr_udp_socket_list := r.1, trace := s.trace ++ r.2 }

/-- The function `sockmgr_add_socket_closed_evhandler`; `alloc` tells whether
`malloc` succeeds. -/
def sockmgr_add_socket_closed_evhandler (alloc : Bool) (onclosecbk : Int) (s : SockMgr) :
    SockMgr :=
  if onclosecbk = 0 then s
  else if alloc then { s with sockmgr_event_list := s.sockmgr_event_list ++ [onclosecbk] }
  else s

/-- The calls `sockmgr_get_or_create_tcp ( port )` made one after the other,
one for each element of `env` (what binding would return, and whether the
allocation succeeds): the descriptors returned and the final state. -/
def get_or_create_tcp_run (port : Nat) : List (Int × Bool) → SockMgr → Option (List Int × SockMgr)
  | [], s => some ([], s)
  | e :: env, s =>
    match sockmgr_get_or_create_tcp e.1 e.2 port s with
    | none => none
    | some r =>
      match get_or_create_tcp_run port env r.2 with
      | none => none
      | some q => some (r.1 :: q.1, q.2)

/-- The call `sockmgr_close_tcp ( sockfd )` made `n` times. -/
def close_tcp_run (sockfd : Int) : Nat → SockMgr → SockMgr
  | 0, s => s
  | n + 1, s => close_tcp_run sockfd n (sockmgr_close_tcp sockfd s)

/-- The registrations `sockmgr_add_socket_closed_evhandler ( c )` for the
handlers of `cs`, in this order, every allocation succeeding. -/
def add_evhandlers (cs : List Int) (s : SockMgr) : SockMgr :=
  cs.foldl (fun s c => sockmgr_add_socket_closed_evhandler true c s) s

/-- The function `sockmgr_shutdown`: every descriptor of the two registries is
closed, without a notification, and both registries are emptied. -/
def sockmgr_shutdown (s : SockMgr) : SockMgr :=
  { s with
    sockmgr_tcp_socket_list := [], sockmgr_udp_socket_list := [],
    trace := s.trace ++ s.sockmgr_tcp_socket_list.map (fun x => sock_event.closed x.sockfd)
      ++ s.sockmgr_udp_socket_list.map (fun x => sock_event.closed x.sockfd) }

/-- The states of the socket manager that calls of its exposed functions reach
from program start. -/
inductive sock_reachable : SockMgr → Prop where
  | start : sock_reachable sockmgr_start
  | get_tcp (s : SockMgr) (bound : Int) (alloc : Bool) (port : Nat) (r : Int × SockMgr) :
      sock_reachable s → sockmgr_get_or_create_tcp bound alloc port s = some r →
      sock_reachable r.2
  | get_udp (s : SockMgr) (bound : Int) (alloc : Bool) (port : Nat) (r : Int × SockMgr) :
      sock_reachable s → sockmgr_get_or_create_udp bound alloc port s = some r →
      sock_reachable r.2
  | close_tcp (s : SockMgr) (sockfd : Int) :
      sock_reachable s → sock_reachable (sockmgr_close_tcp sockfd s)
  | close_udp (s : SockMgr) (sockfd : Int) :
      sock_reachable s → sock_reachable (sockmgr_close_udp sockfd s)
  | add_evhandler (s : SockMgr) (alloc : Bool) (onclosecbk : Int) :
      sock_reachable s → sock_reachable (sockmgr_add_socket_closed_evhandler alloc onclosecbk s)
  | shutdown (s : SockMgr) : sock_reachable s → sock_reachable (sockmgr_shutdown s)

/-- A socket manager with the TCP ports 80 (descriptor 7, two holders) and 443
(descriptor 9, one holder), the UDP port 53 (descriptor 8, one holder) and the
close handlers at the addresses 500 and 501. -/
def ex_sock : SockMgr :=
  { sockmgr_tcp_socket_list := [⟨80, 7, 2⟩, ⟨443, 9, 1⟩],
    sockmgr_udp_socket_list := [⟨53, 8, 1⟩],
    sockmgr_event_list := [500, 501], trace := [] }

/-! ## TCP services (tcp_service.c) -/

/-- The record `struct _tcp_listener` without its mutex; callbacks are held as
addresses. -/
structure tcp_listener where
  next : Int
  prev : Int
  port : Nat
  fd : Int
  io_task : Int
  user_data : Int
  clients : Int
  on_client_connected : Int
  on_client_disconnected : Int
  on_client_request : Int
  on_client_waiting : Int
  on_closed : Int
deriving DecidableEq, Repr

/-- A listener record after `memset ( rv, 0, SIZE_tcp_listener )`. -/
def zero_listener : tcp_listener :=
  { next := 0, prev := 0, port := 0, fd := 0, io_task := 0, user_data := 0, clients := 0,
    on_client_connected := 0, on_client_disconnected := 0, on_client_request := 0,
    on_client_waiting := 0, on_closed := 0 }

/-- The record `struct _tcp_remote_client` without the address string. -/
structure tcp_remote_client where
  next : Int
  prev : Int
  fd : Int
  remote_ip : Nat
  remote_port : Nat
  io_task : Int
  read_buffer : Int
  read_buffer_size : Nat
  user_data : Int
  owner : Int
deriving DecidableEq, Repr

/-- A remote-client record after `memset ( rv, 0, SIZE_tcp_remote_client )`. -/
def zero_remote_client : tcp_remote_client :=
  { next := 0, prev := 0, fd := 0, remote_ip := 0, remote_port := 0, io_task := 0,
    read_buffer := 0, read_buffer_size := 0, user_data := 0, owner := 0 }

/-- What tcp_service.c does to the world outside the records: the calls
`tcp_accept_full ( sockfd, ... )`, `close ( fd )`, `free ( p )` and
`tcp_receive ( sockfd, ... )`, and the calls of the listener callbacks. -/
inductive tcp_event where
  | accept (sockfd : Int)
  | close (fd : Int)
  | free (p : Int)
  | client_waiting (cbk listener : Int)
  | client_connected (cbk listener remcli : Int)
  | listener_closed (cbk listener : Int)
  | receive (sockfd : Int)
  | client_request (cbk listener remcli : Int) (request_length : Int)
  | client_disconnected (cbk listener remcli : Int)
deriving DecidableEq, Repr

/-- The program state of the TCP services: the scheduler machine, the socket
manager, the memory of listener and remote-client records, and the record of
the calls made. -/
structure World where
  m : Machine
  sock : SockMgr
  listeners : Int → tcp_listener
  remclis : Int → tcp_remote_client
  log : List tcp_event

/-- The call `e` is added to the record. -/
def World.note (w : World) (e : tcp_event) : World := { w with log := w.log ++ [e] }

/-- Memory write `*p = l` of a listener record. -/
def World.set_listener (w : World) (p : Int) (l : tcp_listener) : World :=
  { w with listeners := fun q => if q = p then l else w.listeners q }

/-- Memory write `*p = c` of a remote-client record. -/
def World.set_remcli (w : World) (p : Int) (c : tcp_remote_client) : World :=
  { w with remclis := fun q => if q = p then c else w.remclis q }

/-- The listener callbacks of the client program: the callback at an address,
called on a listener (and a remote client), returns a value and a new state. -/
structure LsnEnv where
  on_client_waiting : Int → Int → World → Bool × World
  on_client_connected : Int → Int → Int → World → World
  on_closed : Int → Int → World → World
  on_client_request : Int → Int → Int → List Nat → Int → World → Bool × World
  on_client_disconnected : Int → Int → Int → World → World

/-- The address of the function `on_tcp_listener_client_request`. -/
def on_tcp_listener_client_request_addr : Int := 0x7001

/-- The address of the function `on_tcp_listener_client_waiting`. -/
def on_tcp_listener_client_waiting_addr : Int := 0x7002

/-- The function `tcp_remote_client_init`; `rv` is what `NEW_tcp_remote_client ()`
returns.  The argument `owner->io_task->owner` is a fault when `owner` or its
`io_task` is null; a scheduler other than the one of the machine is outside the
model. -/
def tcp_remote_client_init (w : World) (owner fd : Int) (rem_ip rem_port : Nat) (rv : Int) :
    Option (Int × World) :=
  if rv = 0 then some (0, w)
  else if owner = 0 ∨ (w.listeners owner).io_task = 0 then none
  else
    let scheduler := (w.m.tasks (w.listeners owner).io_task).owner
    let rec0 : tcp_remote_client :=
      { zero_remote_client with fd := fd, remote_ip := rem_ip, remote_port := rem_port }
    if scheduler = 0 then
      some (rv, w.set_remcli rv { rec0 with io_task := 0, owner := owner })
    else if scheduler = w.m.sched_at then
      let r := io_sched_create_reader_task w.m fd IO_SCHEDULER_NO_TIMEOUT rv
        on_tcp_listener_client_request_addr
      some (rv, ({ w with m := r.2 } : World).set_remcli rv
        { rec0 with io_task := r.1, owner := owner })
    else none

/-- The function `tcp_remote_client_destroy`. -/
def tcp_remote_client_destroy (w : World) (remcli : Int) : World :=
  if remcli = 0 then w
  else
    let w1 : World :=
      if (w.remclis remcli).io_task ≠ 0
      then { w with m := io_sched_unschedule_task w.m (w.remclis remcli).io_task }
      else w
    let w2 : World :=
      if (w.remclis remcli).fd ≠ INVALID_SOCKET_FD
      then w1.note (tcp_event.close (w.remclis remcli).fd)
      else w1
    w2.note (tcp_event.free remcli)

/-- The function `tcp_remote_client_start`. -/
def tcp_remote_client_start (fuel : Nat) (w : World) (remcli : Int) : Option (Bool × World) :=
  if remcli ≠ 0 then
    (io_sched_schedule_task fuel w.m (w.remclis remcli).io_task).map
      (fun r => (r.1, { w with m := r.2 }))
  else some (false, w)

/-- The function `tcp_listener_drop_client`; a failed assertion and a write
through a null pointer are faults. -/
def tcp_listener_drop_client (w : World) (listener remcli : Int) : Option World :=
  if listener = 0 ∨ remcli = 0 ∨ (w.remclis remcli).prev = 0 ∨ (w.remclis remcli).next = 0 then none
  else
    let w1 := w.set_remcli (w.remclis remcli).prev
      { w.remclis (w.remclis remcli).prev with next := (w.remclis remcli).next }
    let w2 := w1.set_remcli (w1.remclis remcli).next
      { w1.remclis (w1.remclis remcli).next with prev := (w1.remclis remcli).prev }
    some (tcp_remote_client_destroy w2 remcli)

/-- Lines 462-519 of `on_tcp_listener_client_waiting`: the connection is
accepted and the remote client is made, announced, linked and started.
`accepted` is what `tcp_accept_full` yields (descriptor, address, port) and
`new_remcli` is what `NEW_tcp_remote_client ()` returns. -/
def accept_client (env : LsnEnv) (accepted : Int × Nat × Nat) (new_remcli : Int) (fuel : Nat)
    (w : World) (listener : Int) : Option (Bool × World) :=
  let w1 := w.note (tcp_event.accept (w.listeners listener).fd)
  if accepted.1 ≠ INVALID_SOCKET_FD then
    if (w1.listeners listener).on_client_connected = 0 then
      some (false, w1.note (tcp_event.close accepted.1))
    else
      match tcp_remote_client_init w1 listener accepted.1 accepted.2.1 accepted.2.2
          new_remcli with
      | none => none
      | some c =>
        if c.1 = 0 then some (false, c.2.note (tcp_event.close accepted.1))
        else
          let w2 := env.on_client_connected (c.2.listeners listener).on_client_connected
            listener c.1
            (c.2.note (tcp_event.client_connected
              (c.2.listeners listener).on_client_connected listener c.1))
          if (w2.remclis c.1).io_task = 0 then some (false, tcp_remote_client_destroy w2 c.1)
          else
            let clients := (w2.listeners listener).clients
            let last_elem := (w2.remclis clients).prev
            if clients = 0 ∨ last_elem = 0 then none
            else
              let w3 := w2.set_remcli last_elem { w2.remclis last_elem with next := c.1 }
              let w4 := w3.set_remcli c.1 { w3.remclis c.1 with prev := last_elem }
              let w5 := w4.set_remcli c.1 { w4.remclis c.1 with next := clients }
              let w6 := w5.set_remcli clients { w5.remclis clients with prev := c.1 }
              match tcp_remote_client_start fuel w6 c.1 with
              | none => none
              | some s =>
                if !s.1 then
                  (tcp_listener_drop_client s.2 listener c.1).map (fun x => (false, x))
                else some (false, s.2)
  else some (false, w1)

/-- The function `on_tcp_listener_client_waiting`, the read callback of a
listener task; the result is the returned value (true for
`IO_SCHEDULER_TASK_COMPLETE`) and the state. -/
def on_tcp_listener_client_waiting (env : LsnEnv) (accepted : Int × Nat × Nat)
    (new_remcli : Int) (fuel : Nat) (w : World) (task _errcode : Int) : Option (Bool × World) :=
  let listener := (w.m.tasks task).user_data
  if listener = 0 ∨ (w.listeners listener).fd = INVALID_SOCKET_FD then some (true, w)
  else
    let cbk := (w.listeners listener).on_client_waiting
    let r : Bool × World :=
      if cbk ≠ 0
      then env.on_client_waiting cbk listener (w.note (tcp_event.client_waiting cbk listener))
      else (true, w)
    if cbk ≠ 0 ∧ r.1 = false then some (false, r.2)
    else accept_client env accepted new_remcli fuel r.2 listener

/-- The function `tcp_listener_init`; `new_listener` is what `NEW_tcp_listener ()`
returns, `bound` and `alloc` are the outcome of binding and of the allocation
in the socket manager, and `new_remcli` is what `NEW_tcp_remote_client ()`
returns for the head of the client ring.  The result is the returned pointer
and the state; the failed `assert ( rv->clients )` is a fault. -/
def tcp_listener_init (w : World) (port : Nat) (listener_userdata : Int)
    (new_listener bound : Int) (alloc : Bool) (new_remcli : Int) : Option (Int × World) :=
  if new_listener = 0 then some (0, w)
  else
    match sockmgr_get_or_create_tcp bound alloc port w.sock with
    | none => none
    | some r =>
      let w1 := ({ w with sock := r.2 } : World).set_listener new_listener
        { zero_listener with port := port, fd := r.1 }
      if r.1 = INVALID_SOCKET_FD then some (0, w1.note (tcp_event.free new_listener))
      else
        match tcp_remote_client_init w1 new_listener INVALID_SOCKET_FD 0 0 new_remcli with
        | none => none
        | some c =>
          if c.1 = 0 then none
          else
            let w2 := c.2.set_remcli c.1 { c.2.remclis c.1 with next := c.1, prev := c.1 }
            some (new_listener, w2.set_listener new_listener
              { w2.listeners new_listener with clients := c.1, user_data := listener_userdata })

/-- The listener handler as a scheduler callback: the callback at the address
of `on_tcp_listener_client_waiting` runs the handler on the state `w` with the
machine of the scheduler in it; every other callback only returns true. -/
def listener_cbk_env (env : LsnEnv) (accepted : Int × Nat × Nat) (new_remcli : Int)
    (fuel : Nat) (w : World) : CbkEnv :=
  fun cbk task errcode m =>
    if cbk = on_tcp_listener_client_waiting_addr then
      match on_tcp_listener_client_waiting env accepted new_remcli fuel
          { w with m := m } task errcode with
      | some r => (r.1, r.2.m)
      | none => (true, m)
    else (true, m)

/-- The state at program start around the fresh scheduler of the examples. -/
def ex_world : World :=
  { m := ex_machine, sock := sockmgr_start, listeners := fun _ => zero_listener,
    remclis := fun _ => zero_remote_client, log := [] }

/-- The reader task that `tcp_listener_start` creates for the listener at the
address 300 on the descriptor 7, scheduled on the fresh scheduler. -/
def ex_listener_task : Int × Machine :=
  io_sched_create_reader_task ex_machine 7 IO_SCHEDULER_NO_TIMEOUT 300
    on_tcp_listener_client_waiting_addr

/-- A state with a started listener at the address 300 on the port 80 and the
descriptor 7, whose `on_client_waiting` callback is at the address 600 and
whose client ring is the head at the address 400 alone. -/
def ex_listening : World :=
  { m := match io_sched_schedule_task 4 ex_listener_task.2 ex_listener_task.1 with
         | some r => r.2
         | none => ex_listener_task.2,
    sock := { sockmgr_start with sockmgr_tcp_socket_list := [⟨80, 7, 1⟩] },
    listeners := fun q =>
      if q = 300 then
        { zero_listener with port := 80, fd := 7, io_task := ex_listener_task.1, clients := 400,
                             on_client_waiting := 600, on_client_connected := 601 }
      else zero_listener,
    remclis := fun q =>
      if q = 400 then
        { zero_remote_client with next := 400, prev := 400, fd := INVALID_SOCKET_FD, owner := 300 }
      else zero_remote_client,
    log := [] }

/-- A client whose `on_client_waiting` callback refuses every connection and
whose callbacks leave the state alone. -/
def ex_lsn_refuse : LsnEnv :=
  { on_client_waiting := fun _ _ w => (false, w),
    on_client_connected := fun _ _ _ w => w,
    on_closed := fun _ _ w => w,
    on_client_request := fun _ _ _ _ _ w => (false, w),
    on_client_disconnected := fun _ _ _ w => w }

/-! ## Circular doubly-linked rings with a sentinel -/

/-- From the node `p`, the `next` links run through the nodes of `l` and then
to the sentinel `head`, and each `prev` link points one node back. -/
def ring_chain (next prev : Int → Int) (head : Int) : Int → List Int → Prop
  | p, [] => next p = head ∧ prev head = p
  | p, a :: l => next p = a ∧ prev a = p ∧ ring_chain next prev head a l

instance ring_chain_decidable (next prev : Int → Int) (head : Int) :
    (p : Int) → (l : List Int) → Decidable (ring_chain next prev head p l)
  | p, [] => inferInstanceAs (Decidable (next p = head ∧ prev head = p))
  | p, a :: l =>
    have := ring_chain_decidable next prev head a l
    inferInstanceAs (Decidable (next p = a ∧ prev a = p ∧ ring_chain next prev head a l))

/-- The links `next` and `prev` form a well-formed circular ring through the
sentinel `head` whose members, followed along `next` from the sentinel, are
the nodes of `l`: distinct, non-null and other than the sentinel. -/
def isRing (next prev : Int → Int) (head : Int) (l : List Int) : Prop :=
  head ≠ 0 ∧ (head :: l).Nodup ∧ (∀ a ∈ l, a ≠ 0) ∧ ring_chain next prev head head l

instance (next prev : Int → Int) (head : Int) (l : List Int) :
    Decidable (isRing next prev head l) := by
  unfold isRing
  infer_instance

/-! ## The request handler and the end of a listener (tcp_service.c) -/

/-- The value of `EINTR` on Linux. -/
def EINTR : Int := 4

/-- The value of `EAGAIN` on Linux. -/
def EAGAIN : Int := 11

/-- The outcome of a `tcp_receive` call: the value returned, `errno` after it,
and the bytes put into the buffer. -/
structure read_outcome where
  bytes_read : Int
  errno : Int
  data : List Nat
deriving DecidableEq, Repr

/-- The client ring of the listener at `listener` has the members `l`, in the
order of the `next` links from its sentinel `listener->clients`. -/
def client_ring (w : World) (listener : Int) (l : List Int) : Prop :=
  isRing (fun p => (w.remclis p).next) (fun p => (w.remclis p).prev)
    (w.listeners listener).clients l

instance (w : World) (listener : Int) (l : List Int) : Decidable (client_ring w listener l) := by
  unfold client_ring
  infer_instance

/-- Lines 424-427 and 436-439 of `on_tcp_listener_client_request`: the
`on_client_disconnected` callback, if set, is called, the client is dropped and
the task is complete. -/
def client_gone (env : LsnEnv) (w : World) (listener remcli : Int) : Option (Bool × World) :=
  let cbk := (w.listeners listener).on_client_disconnected
  let w1 : World :=
    if cbk ≠ 0
    then env.on_client_disconnected cbk listener remcli
      (w.note (tcp_event.client_disconnected cbk listener remcli))
    else w
  (tcp_listener_drop_client w1 listener remcli).map (fun x => (true, x))

/-- The function `on_tcp_listener_client_request`, the read callback of the
task of a remote client; `rd` is the outcome of its `tcp_receive` call.  The
result is the returned value (true for `IO_SCHEDULER_TASK_COMPLETE`) and the
state; the failed assertion on the read buffer is a fault. -/
def on_tcp_listener_client_request (env : LsnEnv) (rd : read_outcome) (w : World)
    (task _errcode : Int) : Option (Bool × World) :=
  let remcli := (w.m.tasks task).user_data
  if remcli = 0 ∨ (w.remclis remcli).fd = INVALID_SOCKET_FD then some (true, w)
  else
    let listener := (w.remclis remcli).owner
    if listener = 0 ∨ (w.listeners listener).fd = INVALID_SOCKET_FD then some (true, w)
    else if (w.remclis remcli).read_buffer = 0 then none
    else
      let w1 := w.note (tcp_event.receive (w.remclis remcli).fd)
      if rd.bytes_read ≤ 0 then
        if rd.bytes_read < 0 ∧ (rd.errno = EAGAIN ∨ rd.errno = EINTR) then some (false, w1)
        else client_gone env w1 listener remcli
      else
        let cbk := (w1.listeners listener).on_client_request
        if cbk ≠ 0 then
          let r := env.on_client_request cbk listener remcli rd.data rd.bytes_read
            (w1.note (tcp_event.client_request cbk listener remcli rd.bytes_read))
          if r.1 then client_gone env r.2 listener remcli else some (false, r.2)
        else some (false, w1)

/-- The function `tcp_remote_client_stop`. -/
def tcp_remote_client_stop (w : World) (remcli : Int) : World :=
  if remcli ≠ 0 then
    ({ w with m := io_sched_unschedule_task w.m (w.remclis remcli).io_task } : World).set_remcli
      remcli { w.remclis remcli with io_task := 0 }
  else w

/-- Lines 254-260 of `tcp_listener_stop`: the loop that takes the clients off
the ring, from the front, and stops and destroys each. -/
def stop_clients : Nat → World → Int → Option World
  | 0, _, _ => none
  | fuel + 1, w, listener =>
    let clients := (w.listeners listener).clients
    if clients = 0 then none
    else if (w.remclis clients).next ≠ clients then
      let nn := (w.remclis clients).next
      if nn = 0 then none
      else
        let w1 := w.set_remcli clients { w.remclis clients with next := (w.remclis nn).next }
        stop_clients fuel (tcp_remote_client_destroy (tcp_remote_client_stop w1 nn) nn) listener
    else some w

/-- The function `tcp_listener_stop`. -/
def tcp_listener_stop (fuel : Nat) (w : World) (listener : Int) : Option World :=
  if listener = 0 then some w
  else
    let w1 : World :=
      if (w.listeners listener).io_task ≠ 0 then
        ({ w with m := io_sched_unschedule_task w.m (w.listeners listener).io_task } :
          World).set_listener listener { w.listeners listener with io_task := 0 }
      else w
    match stop_clients fuel w1 listener with
    | none => none
    | some w2 =>
      let clients := (w2.listeners listener).clients
      some (w2.set_remcli clients { w2.remclis clients with prev := clients })

/-- The function `tcp_listener_destroy`; the failed assertion on the client
ring is a fault. -/
def tcp_listener_destroy (env : LsnEnv) (fuel : Nat) (w : World) (listener : Int) :
    Option World :=
  if listener = 0 then some w
  else
    match (if (w.listeners listener).io_task ≠ 0 then tcp_listener_stop fuel w listener
           else some w) with
    | none => none
    | some w1 =>
      let l := w1.listeners listener
      if l.clients = 0 ∨ (w1.remclis l.clients).next ≠ l.clients then none
      else
        let w2 : World :=
          if l.fd ≠ INVALID_SOCKET_FD then
            let w3 : World := { w1 with sock := sockmgr_close_tcp l.fd w1.sock }
            if l.on_closed ≠ 0
            then env.on_closed l.on_closed listener
              (w3.note (tcp_event.listener_closed l.on_closed listener))
            else w3
          else w1
        some ((tcp_remote_client_destroy w2 (w2.listeners listener).clients).note
          (tcp_event.free listener))

/-- A client whose callbacks leave the state alone; `on_client_request` tells
that the transaction is complete. -/
def ex_lsn_echo : LsnEnv :=
  { on_client_waiting := fun _ _ w => (true, w),
    on_client_connected := fun _ _ _ w => w,
    on_closed := fun _ _ w => w,
    on_client_request := fun _ _ _ _ _ w => (true, w),
    on_client_disconnected := fun _ _ _ w => w }

/-- The reader task of the remote client at the address 410 on the descriptor
12, created on the machine of `ex_listening`. -/
def ex_client_task : Int × Machine :=
  io_sched_create_reader_task ex_listening.m 12 IO_SCHEDULER_NO_TIMEOUT 410
    on_tcp_listener_client_request_addr

/-- The state `ex_listening` with one accepted client, at the address 410 on
the descriptor 12, in the ring of the listener at 300, whose callbacks
`on_client_request` and `on_client_disconnected` are at 602 and 603. -/
def ex_serving : World :=
  { m := match io_sched_schedule_task 4 ex_client_task.2 ex_client_task.1 with
         | some r => r.2
         | none => ex_client_task.2,
    sock := ex_listening.sock,
    listeners := fun q =>
      if q = 300 then
        { ex_listening.listeners 300 with on_client_request := 602,
                                          on_client_disconnected := 603 }
      else zero_listener,
    remclis := fun q =>
      if q = 400 then
        { zero_remote_client with next := 410, prev := 410, fd := INVALID_SOCKET_FD,
                                  owner := 300 }
      else if q = 410 then
        { zero_remote_client with next := 400, prev := 400, fd := 12, remote_port := 5555,
                                  io_task := ex_client_task.1, read_buffer := 900,
                                  read_buffer_size := 512, owner := 300 }
      else zero_remote_client,
    log := [] }

/-- A state with two stopped listeners, at the addresses 300 and 310, that
share the descriptor 7 of the TCP port 80, which the registry counts twice;
the `on_closed` callback of the first is at the address 700. -/
def ex_shared : World :=
  { m := ex_machine,
    sock := { sockmgr_start with sockmgr_tcp_socket_list := [⟨80, 7, 2⟩] },
    listeners := fun q =>
      if q = 300 then
        { zero_listener with port := 80, fd := 7, clients := 400, on_closed := 700 }
      else if q = 310 then
        { zero_listener with port := 80, fd := 7, clients := 401 }
      else zero_listener,
    remclis := fun q =>
      if q = 400 then
        { zero_remote_client with next := 400, prev := 400, fd := INVALID_SOCKET_FD,
                                  owner := 300 }
      else if q = 401 then
        { zero_remote_client with next := 401, prev := 401, fd := INVALID_SOCKET_FD,
                                  owner := 310 }
      else zero_remote_client,
    log := [] }

/-- The cases in which the request handler keeps the client: the read failed
with `EAGAIN` or `EINTR`, or it gave bytes and `on_client_request` is absent or
returns false on them. -/
def request_pending (env : LsnEnv) (rd : read_outcome) (w : World) (listener remcli : Int) :
    Prop :=
  (rd.bytes_read < 0 ∧ (rd.errno = EAGAIN ∨ rd.errno = EINTR)) ∨
  (0 < rd.bytes_read ∧
    ((w.listeners listener).on_client_request = 0 ∨
      (env.on_client_request (w.listeners listener).on_client_request listener remcli rd.data
        rd.bytes_read
        ((w.note (tcp_event.receive (w.remclis remcli).fd)).note
          (tcp_event.client_request (w.listeners listener).on_client_request listener remcli
            rd.bytes_read))).1 = false))

instance (env : LsnEnv) (rd : read_outcome) (w : World) (listener remcli : Int) :
    Decidable (request_pending env rd w listener remcli) := by
  unfold request_pending
  infer_instance

/-- The record of the `on_client_request` call of the request handler: the
call is made when the read gave bytes and the callback is set. -/
def request_log (rd : read_outcome) (w : World) (listener remcli : Int) : List tcp_event :=
  if 0 < rd.bytes_read ∧ (w.listeners listener).on_client_request ≠ 0
  then [tcp_event.client_request (w.listeners listener).on_client_request listener remcli
          rd.bytes_read]
  else []

/-- From the node `p`, the `next` links run through the nodes of `l` and then
to the sentinel `head`. -/
def next_chain (next : Int → Int) (head : Int) : Int → List Int → Prop
  | p, [] => next p = head
  | p, a :: l => next p = a ∧ next_chain next head a l

/-- The record of `tcp_remote_client_destroy` on the clients of `l`, one after
the other: the descriptor of each, if valid, is closed and its record freed. -/
def destroy_log (w : World) : List Int → List tcp_event
  | [] => []
  | nn :: l =>
    (if (w.remclis nn).fd ≠ INVALID_SOCKET_FD then [tcp_event.close (w.remclis nn).fd] else [])
      ++ [tcp_event.free nn] ++ destroy_log w l

/-- Lines 501-505 of `on_tcp_listener_client_waiting`: the four writes that
link the client `c` behind the last member of the ring of `clients`. -/
def ring_link (w : World) (clients c : Int) : World :=
  let last_elem := (w.remclis clients).prev
  let w3 := w.set_remcli last_elem { w.remclis last_elem with next := c }
  let w4 := w3.set_remcli c { w3.remclis c with prev := last_elem }
  let w5 := w4.set_remcli c { w4.remclis c with next := clients }
  w5.set_remcli clients { w5.remclis clients with prev := c }

/-- The state inside `tcp_listener_init ( 8080, 0 )` at program start, when the
socket manager has handed out the descriptor 11 and the listener record at the
address 300 has its port and descriptor: the state in which the head of the
client ring is to be made. -/
def ex_half_init : World :=
  ({ ex_world with
      sock := { sockmgr_start with sockmgr_tcp_socket_list := [⟨8080, 11, 1⟩] } } :
    World).set_listener 300 { zero_listener with port := 8080, fd := 11 }

/-! ## TCP clients (tcp_service.c) and pending connects (tcp_socks.c) -/

def TCP_CLIENT_CLOSED_LOCAL : Int := 0x0001
def TCP_CLIENT_CLOSED_REMOTE : Int := 0x0002

/-- The value of `EINPROGRESS` on Linux. -/
def EINPROGRESS : Int := 115

/-- The record `struct _tcp_client` without the address string; callbacks are
held as addresses. -/
structure tcp_client where
  next : Int
  prev : Int
  fd : Int
  remote_ip : Nat
  remote_port : Nat
  io_task : Int
  read_buffer : Int
  read_buffer_size : Nat
  user_data : Int
  on_closed : Int
  on_connected : Int
  on_server_responded : Int
deriving DecidableEq, Repr

/-- A client record after `memset ( rv, 0, SIZE_tcp_client )`. -/
def zero_client : tcp_client :=
  { next := 0, prev := 0, fd := 0, remote_ip := 0, remote_port := 0, io_task := 0,
    read_buffer := 0, read_buffer_size := 0, user_data := 0, on_closed := 0,
    on_connected := 0, on_server_responded := 0 }

/-- The record `struct _pending_connection` without its link: the pending list
is the sequence of the addresses of the records along `next`. -/
structure pending_connection where
  sockfd : Int
  status : Int
  on_connect : Int
  on_connect_ud : Int
  user_data : Int
  remote_ip : Nat
  remote_port : Nat
deriving DecidableEq, Repr

/-- What the TCP client code and tcp_socks.c do to the world outside their
records: system calls on a descriptor, `free`, and the calls of the client
callbacks and of the connect-completion callbacks. -/
inductive net_event where
  | close (fd : Int)
  | receive (fd : Int)
  | connect (fd : Int)
  | set_nonblocking (fd : Int)
  | set_blocking (fd : Int)
  | getsockopt (fd : Int)
  | free (p : Int)
  | client_closed (cbk client reason : Int)
  | client_connected (cbk client : Int)
  | server_responded (cbk client response_len : Int)
  | on_connect (cbk sockfd errcode : Int)
  | on_connect_ud (cbk scheduler sockfd errcode userdata : Int)
deriving DecidableEq, Repr

/-- The program state of the TCP clients: the scheduler machine, the memory of
client records, the module variable `pending_connections` of tcp_socks.c as
the sequence of record addresses, the memory of pending-connection records,
and the record of the calls made. -/
structure Net where
  m : Machine
  clients : Int → tcp_client
  pending_connections : List Int
  pconns : Int → pending_connection
  log : List net_event

/-- The call `e` is added to the record. -/
def Net.note (n : Net) (e : net_event) : Net := { n with log := n.log ++ [e] }

/-- Memory write `*p = c` of a client record. -/
def Net.set_client (n : Net) (p : Int) (c : tcp_client) : Net :=
  { n with clients := fun q => if q = p then c else n.clients q }

/-- Memory write `*p = c` of a pending-connection record. -/
def Net.set_pconn (n : Net) (p : Int) (c : pending_connection) : Net :=
  { n with pconns := fun q => if q = p then c else n.pconns q }

/-- The callbacks of the client program on the client side: the callback at
an address, called with its arguments, returns a value and a new state. -/
structure NetEnv where
  on_closed : Int → Int → Int → Net → Net
  on_connected : Int → Int → Net → Net
  on_server_responded : Int → Int → List Nat → Int → Net → Bool × Net
  on_connect : Int → Int → Int → Net → Net
  on_connect_ud : Int → Int → Int → Int → Int → Net → Net

/-- The callbacks leave the state alone (they only return a value). -/
def net_pure (env : NetEnv) : Prop :=
  (∀ c p r n, env.on_closed c p r n = n) ∧ (∀ c p n, env.on_connected c p n = n) ∧
  (∀ c p d k n, (env.on_server_responded c p d k n).2 = n) ∧
  (∀ c f e n, env.on_connect c f e n = n) ∧ (∀ c s f e u n, env.on_connect_ud c s f e u n = n)

/-- The function `tcp_client_disconnect`. -/
def tcp_client_disconnect (env : NetEnv) (n : Net) (client : Int) : Net :=
  if client = 0 then n
  else
    let n1 : Net :=
      if (n.clients client).io_task ≠ 0 then
        ({ n with m := io_sched_unschedule_task n.m (n.clients client).io_task } : Net).set_client
          client { n.clients client with io_task := 0 }
      else n
    if (n1.clients client).fd ≠ INVALID_SOCKET_FD then
      let n2 := (n1.note (net_event.close (n1.clients client).fd)).set_client client
        { n1.clients client with fd := INVALID_SOCKET_FD }
      if (n2.clients client).on_closed ≠ 0 then
        env.on_closed (n2.clients client).on_closed client TCP_CLIENT_CLOSED_LOCAL
          (n2.note (net_event.client_closed (n2.clients client).on_closed client
            TCP_CLIENT_CLOSED_LOCAL))
      else n2
    else n1

/-- The function `tcp_client_stop`. -/
def tcp_client_stop (n : Net) (client : Int) : Net :=
  if client ≠ 0 ∧ (n.clients client).io_task ≠ 0 then
    ({ n with m := io_sched_unschedule_task n.m (n.clients client).io_task } : Net).set_client
      client { n.clients client with io_task := 0 }
  else n

/-- The function `tcp_client_destroy`. -/
def tcp_client_destroy (env : NetEnv) (n : Net) (client : Int) : Net :=
  if client ≠ 0 then
    let n1 := tcp_client_disconnect env n client
    (n1.note (net_event.free (n1.clients client).read_buffer)).note (net_event.free client)
  else n

/-- The function `on_tcp_client_server_responded`, the read callback of the
task of a client; `rd` is the outcome of its `tcp_receive` call.  The result
is the returned value (true for `IO_SCHEDULER_TASK_COMPLETE`) and the state;
the failed assertion on the read buffer is a fault. -/
def on_tcp_client_server_responded (env : NetEnv) (rd : read_outcome) (n : Net)
    (task _errcode : Int) : Option (Bool × Net) :=
  let client := (n.m.tasks task).user_data
  if client = 0 ∨ (n.clients client).fd = INVALID_SOCKET_FD then some (true, n)
  else if (n.clients client).read_buffer = 0 then none
  else
    let n1 := n.note (net_event.receive (n.clients client).fd)
    if rd.bytes_read ≤ 0 then
      if rd.bytes_read < 0 ∧ (rd.errno = EAGAIN ∨ rd.errno = EINTR) then some (false, n1)
      else
        let n2 := n1.set_client client { n1.clients client with io_task := 0 }
        let n3 := (n2.note (net_event.close (n2.clients client).fd)).set_client client
          { n2.clients client with fd := INVALID_SOCKET_FD }
        if (n3.clients client).on_closed ≠ 0 then
          some (true, env.on_closed (n3.clients client).on_closed client
            TCP_CLIENT_CLOSED_REMOTE
            (n3.note (net_event.client_closed (n3.clients client).on_closed client
              TCP_CLIENT_CLOSED_REMOTE)))
        else some (true, n3)
    else
      let cbk := (n1.clients client).on_server_responded
      if cbk ≠ 0 then
        let r := env.on_server_responded cbk client rd.data rd.bytes_read
          (n1.note (net_event.server_responded cbk client rd.bytes_read))
        if r.1 then some (true, tcp_client_disconnect env r.2 client)
        else some (false, r.2)
      else some (false, n1)

/-- The address of the function `on_tcp_client_server_responded`. -/
def on_tcp_client_server_responded_addr : Int := 0x7003

/-- A client whose callbacks leave the state alone; `on_server_responded`
tells that the conversation is over. -/
def ex_net_env : NetEnv :=
  { on_closed := fun _ _ _ n => n,
    on_connected := fun _ _ n => n,
    on_server_responded := fun _ _ _ _ n => (true, n),
    on_connect := fun _ _ _ n => n,
    on_connect_ud := fun _ _ _ _ _ n => n }

/-- The reader task that `tcp_client_start` creates for the client at the
address 800 on the descriptor 15, on the fresh scheduler of the examples. -/
def ex_conn_task : Int × Machine :=
  io_sched_create_reader_task ex_machine 15 IO_SCHEDULER_NO_TIMEOUT 800
    on_tcp_client_server_responded_addr

/-- A state with one connected client, at the address 800 on the descriptor
15, whose read task is scheduled and whose callbacks `on_closed` and
`on_server_responded` are at the addresses 850 and 851. -/
def ex_connected : Net :=
  { m := match io_sched_schedule_task 4 ex_conn_task.2 ex_conn_task.1 with
         | some r => r.2
         | none => ex_conn_task.2,
    clients := fun q =>
      if q = 800 then
        { zero_client with fd := 15, remote_port := 7777, io_task := ex_conn_task.1,
                           read_buffer := 900, read_buffer_size := 512, on_closed := 850,
                           on_server_responded := 851 }
      else zero_client,
    pending_connections := [],
    pconns := fun _ => ⟨0, 0, 0, 0, 0, 0, 0⟩,
    log := [] }

/-- The cases in which the client read handler keeps the connection: the read
failed with `EAGAIN` or `EINTR`, or it gave bytes and `on_server_responded` is
absent or returns false on them. -/
def response_pending (env : NetEnv) (rd : read_outcome) (n : Net) (client : Int) : Prop :=
  (rd.bytes_read < 0 ∧ (rd.errno = EAGAIN ∨ rd.errno = EINTR)) ∨
  (0 < rd.bytes_read ∧
    ((n.clients client).on_server_responded = 0 ∨
      (env.on_server_responded (n.clients client).on_server_responded client rd.data
        rd.bytes_read
        ((n.note (net_event.receive (n.clients client).fd)).note
          (net_event.server_responded (n.clients client).on_server_responded client
            rd.bytes_read))).1 = false))

instance (env : NetEnv) (rd : read_outcome) (n : Net) (client : Int) :
    Decidable (response_pending env rd n client) := by
  unfold response_pending
  infer_instance

/-- The record of the `on_server_responded` call of the client read handler:
the call is made when the read gave bytes and the callback is set. -/
def response_log (rd : read_outcome) (n : Net) (client : Int) : List net_event :=
  if 0 < rd.bytes_read ∧ (n.clients client).on_server_responded ≠ 0
  then [net_event.server_responded (n.clients client).on_server_responded client
          rd.bytes_read]
  else []

/-- The address of the function `tcp_io_scheduler_connect_cbk`. -/
def tcp_io_scheduler_connect_cbk_addr : Int := 0x7004

/-- The outcome of the `getsockopt ( sockfd, SOL_SOCKET, SO_ERROR, ... )` call
of the completion handler: the value returned, the socket error read, and
`errno` after the call. -/
structure sockopt_outcome where
  rc : Int
  sockerr : Int
  errno : Int
deriving DecidableEq, Repr

/-- The outcome of the `connect` call: the value returned and `errno`. -/
structure connect_outcome where
  rc : Int
  errno : Int
deriving DecidableEq, Repr

/-- The record of the completion callback of the pending connection `pconn`,
called by the handler of `task` with the error code `code`: `on_connect_ud` if
set, else `on_connect`. -/
def connect_event (n : Net) (pconn task code : Int) : net_event :=
  if (n.pconns pconn).on_connect_ud ≠ 0 then
    net_event.on_connect_ud (n.pconns pconn).on_connect_ud (n.m.tasks task).owner
      (n.m.tasks task).fd code (n.pconns pconn).user_data
  else net_event.on_connect (n.pconns pconn).on_connect (n.m.tasks task).fd code

/-- The call of the completion callback in `tcp_io_scheduler_connect_cbk`:
`pconn->on_connect_ud` if set, else `pconn->on_connect`; calling the null
pointer is a fault. -/
def call_on_connect (env : NetEnv) (n : Net) (pconn task code : Int) : Option Net :=
  if (n.pconns pconn).on_connect_ud ≠ 0 then
    some (env.on_connect_ud (n.pconns pconn).on_connect_ud (n.m.tasks task).owner
      (n.m.tasks task).fd code (n.pconns pconn).user_data
      (n.note (connect_event n pconn task code)))
  else if (n.pconns pconn).on_connect = 0 then none
  else
    some (env.on_connect (n.pconns pconn).on_connect (n.m.tasks task).fd code
      (n.note (connect_event n pconn task code)))

/-- The function `tcp_io_scheduler_connect_cbk`, the write and timeout callback
of the task of a pending connect; `so` is the outcome of its `getsockopt` call.
The record `task->user_data` is unlinked from the pending list, where it is
linked, before anything else.  With a null `task->user_data` the code reads
through the null pointer, in the unlinking or at the callback: a fault. -/
def tcp_io_scheduler_connect_cbk (env : NetEnv) (so : sockopt_outcome) (n : Net)
    (task errcode : Int) : Option (Bool × Net) :=
  let pconn := (n.m.tasks task).user_data
  if pconn = 0 then none
  else
    let n1 : Net := { n with pending_connections := n.pending_connections.erase pconn }
    let sockfd := (n1.m.tasks task).fd
    if errcode = IO_SCHEDULER_ERR_OP_TIMEOUT then
      match call_on_connect env n1 pconn task 1 with
      | none => none
      | some n2 => some (true, n2.note (net_event.close sockfd))
    else
      let n2 := n1.note (net_event.getsockopt sockfd)
      if so.rc ≠ 0 ∨ so.sockerr ≠ 0 then
        match call_on_connect env n2 pconn task (if so.rc ≠ 0 then so.errno else so.sockerr) with
        | none => none
        | some n3 => some (true, n3.note (net_event.close sockfd))
      else
        match call_on_connect env (n2.note (net_event.set_blocking sockfd)) pconn task 0 with
        | none => none
        | some n3 => some (true, n3)

/-- The body shared by `tcp_connect_timeout` and `tcp_connect_timeout_ud`
(`with_ud` tells which); `new_pconn` is what `tcp_pending_connection_new`
returns and `co` the outcome of `connect`.  A scheduler other than the one of
the machine is outside the model. -/
def connect_timeout_body (with_ud : Bool) (env : NetEnv) (new_pconn : Int)
    (co : connect_outcome) (fuel : Nat) (n : Net) (sockfd : Int) (remote_ip remote_port : Nat)
    (scheduler userdata on_conn_cbk timeout_secs : Int) : Option (Bool × Net) :=
  if sockfd = INVALID_SOCKET_FD then some (false, n)
  else if new_pconn = 0 then some (false, n)
  else
    let rec0 : pending_connection :=
      { sockfd := sockfd, status := EINPROGRESS, on_connect := 0, on_connect_ud := 0,
        user_data := if with_ud then userdata else 0, remote_ip := remote_ip,
        remote_port := remote_port }
    let n1 := ((n.set_pconn new_pconn rec0).note (net_event.set_nonblocking sockfd)).note
      (net_event.connect sockfd)
    if co.rc = 0 then
      let n2 := n1.note (net_event.free new_pconn)
      if on_conn_cbk ≠ 0 then
        if with_ud then
          some (true, env.on_connect_ud on_conn_cbk scheduler sockfd 0 userdata
            (n2.note (net_event.on_connect_ud on_conn_cbk scheduler sockfd 0 userdata)))
        else
          some (true, env.on_connect on_conn_cbk sockfd 0
            (n2.note (net_event.on_connect on_conn_cbk sockfd 0)))
      else some (true, n2)
    else if co.rc = -1 ∧ co.errno ≠ EINPROGRESS then
      some (false, n1.note (net_event.free new_pconn))
    else if scheduler = 0 then
      some (false, (n1.note (net_event.free new_pconn)).note (net_event.close sockfd))
    else if scheduler ≠ n.m.sched_at then none
    else
      let n2 := n1.set_pconn new_pconn
        (if with_ud then { n1.pconns new_pconn with on_connect_ud := on_conn_cbk }
         else { n1.pconns new_pconn with on_connect := on_conn_cbk })
      let n3 : Net := { n2 with pending_connections := new_pconn :: n2.pending_connections }
      let t := io_sched_create_writer_task n3.m sockfd
        (IO_SCHEDULER_TIME_ONE_SECOND * timeout_secs) new_pconn
        tcp_io_scheduler_connect_cbk_addr
      match io_sched_schedule_task fuel t.2 t.1 with
      | none => none
      | some r => some (true, { n3 with m := r.2 })

/-- The function `tcp_connect_timeout`. -/
def tcp_connect_timeout (env : NetEnv) (new_pconn : Int) (co : connect_outcome) (fuel : Nat)
    (n : Net) (sockfd : Int) (remote_ip remote_port : Nat)
    (scheduler on_conn_cbk timeout_secs : Int) : Option (Bool × Net) :=
  connect_timeout_body false env new_pconn co fuel n sockfd remote_ip remote_port scheduler 0
    on_conn_cbk timeout_secs

/-- The function `tcp_connect_timeout_ud`. -/
def tcp_connect_timeout_ud (env : NetEnv) (new_pconn : Int) (co : connect_outcome) (fuel : Nat)
    (n : Net) (sockfd : Int) (remote_ip remote_port : Nat)
    (scheduler userdata on_conn_cbk timeout_secs : Int) : Option (Bool × Net) :=
  connect_timeout_body true env new_pconn co fuel n sockfd remote_ip remote_port scheduler
    userdata on_conn_cbk timeout_secs

/-- The calls that the completion handler records around its callback, for the
error code it was called with and the outcome of `getsockopt`. -/
def completion_log (so : sockopt_outcome) (n : Net) (pconn task errcode : Int) :
    List net_event :=
  if errcode = IO_SCHEDULER_ERR_OP_TIMEOUT then
    [connect_event n pconn task 1, net_event.close (n.m.tasks task).fd]
  else if so.rc ≠ 0 ∨ so.sockerr ≠ 0 then
    [net_event.getsockopt (n.m.tasks task).fd,
     connect_event n pconn task (if so.rc ≠ 0 then so.errno else so.sockerr),
     net_event.close (n.m.tasks task).fd]
  else
    [net_event.getsockopt (n.m.tasks task).fd, net_event.set_blocking (n.m.tasks task).fd,
     connect_event n pconn task 0]

/-- The state at program start around the fresh scheduler of the examples: no
client, no pending connect. -/
def ex_idle : Net :=
  { m := ex_machine, clients := fun _ => zero_client, pending_connections := [],
    pconns := fun _ => ⟨0, 0, 0, 0, 0, 0, 0⟩, log := [] }

/-- The state `ex_idle` after `tcp_connect_timeout` on the descriptor 20 with
the callback at 860 and a timeout of 3 s, the connect being in progress and
the pending record allocated at the address 950. -/
def ex_connecting : Net :=
  match tcp_connect_timeout ex_net_env 950 ⟨-1, EINPROGRESS⟩ 4 ex_idle 20 0 17777 1 860 3 with
  | some r => r.2
  | none => ex_idle

/-- The writer task of the pending connect of `ex_connecting`. -/
def ex_connect_task : Int := ex_connecting.m.sched.scheduled_tasks

/-- The state `ex_idle` around the scheduler of the pool example, whose two
task slots are both in use. -/
def ex_busy : Net := { ex_idle with m := ex_pool_full }

/-! ## The child-process monitor (child-process.c, child-process-mgr.c) -/

/-- The record `struct _child_proc`. -/
structure child_proc where
  pid : Int
  fd : Int
  user_data : Int
  on_exit : Int
deriving DecidableEq, Repr

/-- The record `struct _monitored_proc`. -/
structure monitored_proc where
  next : Int
  prev : Int
  child : Int
  owned_by_mgr : Bool
deriving DecidableEq, Repr

/-- The record `struct _child_proc_mgr`, without its mutex. -/
structure child_proc_mgr where
  monitor_task : Int
  monitored_procs_head : Int
deriving DecidableEq, Repr

/-- The calls that the monitor makes and that the claims speak of: an `on_exit`
callback with the child and the raw status, and the `free` of a child
descriptor, of a monitor record and of a manager. -/
inductive proc_event where
  | on_exit (cbk child status : Int)
  | free_child (child : Int)
  | free_monitor (mp : Int)
  | free_mgr (cpmgr : Int)
deriving DecidableEq, Repr

/-- The state of the child-process monitor: the memories of the three record
types and the record of calls. -/
structure Procs where
  mgrs : Int → child_proc_mgr
  mps : Int → monitored_proc
  children : Int → child_proc
  log : List proc_event

def Procs.note (s : Procs) (e : proc_event) : Procs := { s with log := s.log ++ [e] }

def Procs.set_mp (s : Procs) (p : Int) (r : monitored_proc) : Procs :=
  { s with mps := fun q => if q = p then r else s.mps q }

def Procs.set_child (s : Procs) (p : Int) (r : child_proc) : Procs :=
  { s with children := fun q => if q = p then r else s.children q }

def Procs.set_mgr (s : Procs) (p : Int) (r : child_proc_mgr) : Procs :=
  { s with mgrs := fun q => if q = p then r else s.mgrs q }

/-- The `on_exit` callbacks of the children: the callback address, the child,
the status and the state give the state after the call. -/
structure ProcEnv where
  on_exit : Int → Int → Int → Procs → Procs

/-- The function `child_proc_destroy`. -/
def child_proc_destroy (s : Procs) (child : Int) : Procs :=
  if child ≠ 0 then s.note (proc_event.free_child child) else s

/-- The function `child_proc_init_full`; `new_child` is what `NEW_child_proc ()`
returns. -/
def child_proc_init_full (new_child : Int) (s : Procs) (pid fd userdata on_exit_cbk : Int) :
    Int × Procs :=
  if new_child ≠ 0 then
    (new_child, s.set_child new_child
      { pid := pid, fd := fd, user_data := userdata, on_exit := on_exit_cbk })
  else (0, s)

/-- The function `monitored_proc_init`; `new_mp` is what `NEW_monitored_proc ()`
returns.  The macros `ASSERT_EXIT_NULL`, `ASSERT_EXIT_FALSE` and
`ASSERT_EXIT_VOID` are defined in a header that is not among the sources: an
argument that fails one of them is outside the model (`none`), here and
below. -/
def monitored_proc_init (new_mp : Int) (s : Procs) (child : Int) (owns_child : Bool) :
    Option (Int × Procs) :=
  if child = 0 then none
  else if new_mp ≠ 0 then
    some (new_mp, s.set_mp new_mp
      { next := 0, prev := 0, child := child, owned_by_mgr := owns_child })
  else some (0, s)

/-- The function `monitored_proc_destroy`. -/
def monitored_proc_destroy (s : Procs) (mp : Int) : Option Procs :=
  if mp = 0 then none
  else
    let s1 := if (s.mps mp).owned_by_mgr then child_proc_destroy s (s.mps mp).child else s
    some (s1.note (proc_event.free_monitor mp))

/-- The function `child_proc_mgr_init`; `new_mgr` and `new_mp` are what
`NEW_child_proc_mgr ()` and `NEW_monitored_proc ()` return. -/
def child_proc_mgr_init (new_mgr new_mp : Int) (s : Procs) : Int × Procs :=
  if new_mgr ≠ 0 then
    let s1 := s.set_mgr new_mgr { s.mgrs new_mgr with monitor_task := 0 }
    if new_mp = 0 then (0, s1.note (proc_event.free_mgr new_mgr))
    else
      let s2 := s1.set_mp new_mp { s1.mps new_mp with next := new_mp, prev := new_mp }
      let s3 := s2.set_mp new_mp { s2.mps new_mp with child := 0 }
      let s4 := s3.set_mp new_mp { s3.mps new_mp with owned_by_mgr := false }
      (new_mgr, s4.set_mgr new_mgr { s4.mgrs new_mgr with monitored_procs_head := new_mp })
  else (0, s)

/-- The search loop of `child_proc_mgr_monitor_child` (lines 126-131),
`child_proc_mgr_monitor_pid` (lines 175-180) and `find_monitored_proc`
(lines 257-262): from `mp`, along the `next` links, to the first record whose
child has the pid, or to the head, or to a null link.  Reading the pid through
a null child pointer is a fault. -/
def find_scan (s : Procs) (head pid : Int) : Nat → Int → Option Int
  | 0, _ => none
  | fuel + 1, mp =>
    if mp = 0 ∨ mp = head then some mp
    else if (s.mps mp).child = 0 then none
    else if (s.children (s.mps mp).child).pid = pid then some mp
    else find_scan s head pid fuel (s.mps mp).next

/-- Lines 143-147 of `child_proc_mgr_monitor_child` and lines 191-195 of
`child_proc_mgr_monitor_pid`: the four writes that link the record `mp` behind
the last member of the ring of `head`.  Writing through a null `last` is a
fault. -/
def monitor_link (s : Procs) (head mp : Int) : Option Procs :=
  let last := (s.mps head).prev
  if last = 0 then none
  else
    let s2 := s.set_mp last { s.mps last with next := mp }
    let s3 := s2.set_mp mp { s2.mps mp with prev := last }
    let s4 := s3.set_mp mp { s3.mps mp with next := head }
    some (s4.set_mp head { s4.mps head with prev := mp })

/-- The function `child_proc_mgr_monitor_child`; `fuel` bounds the search. -/
def child_proc_mgr_monitor_child (new_mp : Int) (fuel : Nat) (s : Procs) (cpmgr child : Int) :
    Option (Bool × Procs) :=
  if cpmgr = 0 ∨ child = 0 then none
  else
    let head := (s.mgrs cpmgr).monitored_procs_head
    if head = 0 then none
    else
      match find_scan s head (s.children child).pid fuel (s.mps head).next with
      | none => none
      | some mp =>
        if mp ≠ head then
          if mp = 0 then none
          else if (s.mps mp).child ≠ child then some (false, s)
          else some (true, s)
        else
          match monitored_proc_init new_mp s child false with
          | none => none
          | some r =>
            if r.1 ≠ 0 then (monitor_link r.2 head r.1).map (fun x => (true, x))
            else some (false, r.2)

/-- The function `child_proc_mgr_monitor_pid`; `fuel` bounds the search. -/
def child_proc_mgr_monitor_pid (new_child new_mp : Int) (fuel : Nat) (s : Procs)
    (cpmgr pid fd userdata on_pid_exit : Int) : Option (Bool × Procs) :=
  if cpmgr = 0 ∨ ¬ (pid > 1) then none
  else
    let head := (s.mgrs cpmgr).monitored_procs_head
    if head = 0 then none
    else
      match find_scan s head pid fuel (s.mps head).next with
      | none => none
      | some mp =>
        if mp ≠ head then some (false, s)
        else
          let c := child_proc_init_full new_child s pid fd userdata on_pid_exit
          match monitored_proc_init new_mp c.2 c.1 true with
          | none => none
          | some r =>
            if r.1 ≠ 0 then (monitor_link r.2 head r.1).map (fun x => (true, x))
            else some (false, child_proc_destroy r.2 c.1)

/-- The function `find_monitored_proc`. -/
def find_monitored_proc (fuel : Nat) (s : Procs) (cpmgr pid : Int) : Option Int :=
  if cpmgr = 0 ∨ ¬ (pid > 1) ∨ (s.mgrs cpmgr).monitored_procs_head = 0 then none
  else
    match find_scan s (s.mgrs cpmgr).monitored_procs_head pid fuel
        (s.mps (s.mgrs cpmgr).monitored_procs_head).next with
    | none => none
    | some rv => some (if rv = (s.mgrs cpmgr).monitored_procs_head then 0 else rv)

/-- Lines 319-320 of `on_monitor_timer`: the two writes that unlink the record
`mp` from its ring. -/
def monitor_unlink (s : Procs) (mp : Int) : Procs :=
  let s1 := s.set_mp (s.mps mp).prev { s.mps (s.mps mp).prev with next := (s.mps mp).next }
  s1.set_mp (s1.mps mp).next { s1.mps (s1.mps mp).next with prev := (s1.mps mp).prev }

/-- Lines 317-325 of `on_monitor_timer`: the record `mp` is unlinked, the
`on_exit` callback of its child, if set, is called with the status, and the
record is destroyed.  Null links and a null child are faults. -/
def reap_child (env : ProcEnv) (s : Procs) (mp status : Int) : Option Procs :=
  if (s.mps mp).prev = 0 ∨ (s.mps mp).next = 0 ∨ (s.mps mp).child = 0 then none
  else
    let s2 := monitor_unlink s mp
    let cbk := (s2.children (s2.mps mp).child).on_exit
    let s3 :=
      if cbk ≠ 0
      then env.on_exit cbk (s2.mps mp).child status
        (s2.note (proc_event.on_exit cbk (s2.mps mp).child status))
      else s2
    monitored_proc_destroy s3 mp

/-- The loop of the function `on_monitor_timer`; `waits` holds the outcomes
(pid, status) of its successive `waitpid ( 0, &status, WNOHANG )` calls.  The
loop ends with the first outcome whose pid is not positive; it cannot go on
when the outcomes are used up. -/
def monitor_loop (env : ProcEnv) (fuel : Nat) (cpmgr : Int) :
    List (Int × Int) → Procs → Option Procs
  | [], _ => none
  | (child_pid, status) :: rest, s =>
    if child_pid > 0 then
      match find_monitored_proc fuel s cpmgr child_pid with
      | none => none
      | some mp =>
        if mp ≠ 0 then
          match reap_child env s mp status with
          | none => none
          | some s1 => monitor_loop env fuel cpmgr rest s1
        else monitor_loop env fuel cpmgr rest s
    else some s

/-- The function `on_monitor_timer`, the timeout callback of the monitor task;
`user_data` is the `user_data` of the task, the manager.  The result is the
returned value (false for `IO_SCHEDULER_TASK_INCOMPLETE`) and the state. -/
def on_monitor_timer (env : ProcEnv) (waits : List (Int × Int)) (fuel : Nat) (s : Procs)
    (user_data _errcode : Int) : Option (Bool × Procs) :=
  (monitor_loop env fuel user_data waits s).map (fun x => (false, x))

/-- The pid of the child of the monitor record `a`. -/
def pid_of (s : Procs) (a : Int) : Int := (s.children (s.mps a).child).pid

/-- The monitored set of the manager `cpmgr` has the records `l`, in the order
of the `next` links from the head record, each with a child. -/
def monitored (s : Procs) (cpmgr : Int) (l : List Int) : Prop :=
  isRing (fun p => (s.mps p).next) (fun p => (s.mps p).prev)
    (s.mgrs cpmgr).monitored_procs_head l ∧ ∀ a ∈ l, (s.mps a).child ≠ 0

instance (s : Procs) (cpmgr : Int) (l : List Int) : Decidable (monitored s cpmgr l) := by
  unfold monitored
  infer_instance

/-- The pids of the children of the records `l`, in their order. -/
def monitored_pids (s : Procs) (l : List Int) : List Int := l.map (pid_of s)

/-- The calls that reaping the record `mp` with the status `status` records:
the `on_exit` callback of the child, if set; the `free` of the child
descriptor, if the manager owns it; the `free` of the record. -/
def exit_events (s : Procs) (mp status : Int) : List proc_event :=
  (if (s.children (s.mps mp).child).on_exit ≠ 0
    then [proc_event.on_exit (s.children (s.mps mp).child).on_exit (s.mps mp).child status]
    else []) ++
  (if (s.mps mp).owned_by_mgr = true ∧ (s.mps mp).child ≠ 0
    then [proc_event.free_child (s.mps mp).child] else []) ++
  [proc_event.free_monitor mp]

/-- The calls of one reap tick over the monitored records `l`, for the
outcomes `waits` of the successive waits: a pid that is monitored gives the
calls of `exit_events` for its record, which is monitored no longer; any other
pid gives none. -/
def tick_log (s : Procs) : List Int → List (Int × Int) → List proc_event
  | _, [] => []
  | l, w :: rest =>
    match l.find? (fun a => decide (pid_of s a = w.1)) with
    | some a => exit_events s a w.2 ++ tick_log s (l.erase a) rest
    | none => tick_log s l rest

/-- The event is an `on_exit` call for the child `c`. -/
def is_exit_of (c : Int) : proc_event → Bool
  | proc_event.on_exit _ ch _ => decide (ch = c)
  | _ => false

/-- The status of the first of the outcomes `waits` that has the pid. -/
def first_status (waits : List (Int × Int)) (pid : Int) : Option Int :=
  (waits.find? (fun w => decide (w.1 = pid))).map Prod.snd

/-- A monitor state at program start: all memories zeroed, nothing recorded. -/
def ex_procs_zero : Procs :=
  { mgrs := fun _ => ⟨0, 0⟩, mps := fun _ => ⟨0, 0, 0, false⟩,
    children := fun _ => ⟨0, 0, 0, 0⟩, log := [] }

/-- The state after `child_proc_mgr_init`, the manager allocated at the address
500 and its head record at 510, with a child descriptor made by the caller at
600: pid 4242, no descriptor, the `on_exit` callback at 77. -/
def ex_procs : Procs :=
  (child_proc_mgr_init 500 510 ex_procs_zero).2.set_child 600 ⟨4242, -1, 0, 77⟩

/-- The state `ex_procs` after `child_proc_mgr_monitor_child` has adopted the
child at 600, the monitor record allocated at 520. -/
def ex_adopted : Procs :=
  match child_proc_mgr_monitor_child 520 4 ex_procs 500 600 with
  | some r => r.2
  | none => ex_procs

/-- The state `ex_adopted` after `child_proc_mgr_monitor_pid` for the pid 4243
with the `on_exit` callback at 78, the child descriptor allocated at 610 and
the monitor record at 530. -/
def ex_two_children : Procs :=
  match child_proc_mgr_monitor_pid 610 530 4 ex_adopted 500 4243 (-1) 0 78 with
  | some r => r.2
  | none => ex_adopted

/-- A monitor whose `on_exit` callbacks leave the state alone. -/
def ex_proc_env : ProcEnv := { on_exit := fun _ _ _ s => s }

/-- The `on_exit` calls that a tick with the outcomes `waits` owes to the child
of the monitored record `a`: one call with the status of the first outcome
that has its pid, if there is such an outcome and the callback is set. -/
def owed_exit_calls (s : Procs) (a : Int) (waits : List (Int × Int)) : List proc_event :=
  match first_status waits (pid_of s a) with
  | some st =>
    if (s.children (s.mps a).child).on_exit ≠ 0
    then [proc_event.on_exit (s.children (s.mps a).child).on_exit (s.mps a).child st]
    else []
  | none => []

/-! ## Sending (tcp_socks.c) -/

/-- The outcome of one `send` call: the value returned and `errno`. -/
structure send_outcome where
  rv : Int
  errno : Int
deriving DecidableEq, Repr

/-- The loop of `tcp_send` (lines 322-334); `sends` holds the outcomes of its
successive `send` calls, `off` is how far `bytes` is past `data`.  The result is
the value returned and the calls made, each as the offset and the length it was
given.  The test after a failed call compares `bytes_sent` (not `errno`) with
`EAGAIN` and `EINTR`, as the code does.  `bytes_remaining` is a `size_t`.  The
loop cannot go on when the outcomes are used up. -/
def send_loop : List send_outcome → Int → Nat → Int → List (Int × Nat) →
    Option (Int × List (Int × Nat))
  | sends, off, bytes_remaining, tot_bytes_sent, calls =>
    if bytes_remaining = 0 then some (tot_bytes_sent, calls)
    else
      match sends with
      | [] => none
      | o :: rest =>
        if o.rv = -1 then
          if o.rv = EAGAIN ∨ o.rv = EINTR then
            send_loop rest off bytes_remaining tot_bytes_sent (calls ++ [(off, bytes_remaining)])
          else some (-1, calls ++ [(off, bytes_remaining)])
        else if o.rv = 0 then some (0, calls ++ [(off, bytes_remaining)])
        else
          send_loop rest (off + o.rv)
            ((((bytes_remaining : Int) - o.rv) % ((SIZE_MAX : Int) + 1)).toNat)
            (tot_bytes_sent + o.rv) (calls ++ [(off, bytes_remaining)])

/-- The function `tcp_send`. -/
def tcp_send (sends : List send_outcome) (sockfd data : Int) (data_length : Nat) :
    Option (Int × List (Int × Nat)) :=
  if sockfd ≠ INVALID_SOCKET_FD ∧ data ≠ 0 ∧ data_length ≠ 0
  then send_loop sends 0 data_length 0 []
  else some (0, [])

/-- The calls that transmit `bytes_remaining` bytes from the offset `off` in
the chunks `chunks`: each call is given the bytes not yet sent. -/
def chunk_calls : Int → Nat → List Nat → List (Int × Nat)
  | _, _, [] => []
  | off, bytes_remaining, c :: cs =>
    (off, bytes_remaining) :: chunk_calls (off + c) (bytes_remaining - c) cs

/-! ## The outcome of `io_sched_process_task` for a real descriptor, in words -/

/-- The call that `io_sched_process_task` owes to a direction (Read or Write)
of the task `a`: the callback `cbk` of the direction with
`IO_SCHEDULER_ERR_NONE` when the descriptor is ready for it, else the timeout
callback with `IO_SCHEDULER_ERR_OP_TIMEOUT` when the task is expired, else
none. -/
def dir_call (m : Machine) (a : Int) (ready : Bool) (cbk : Int) : List cbk_call :=
  if ready then [⟨cbk, a, IO_SCHEDULER_ERR_NONE⟩]
  else if task_expired m.now (m.tasks a)
  then [⟨(m.tasks a).on_timeout_cbk, a, IO_SCHEDULER_ERR_OP_TIMEOUT⟩]
  else []

/-- The call owed to the direction exists and the callback returns true on it. -/
def dir_done (env : CbkEnv) (m : Machine) (a : Int) (ready : Bool) (cbk : Int) : Bool :=
  (dir_call m a ready cbk).any (fun c => (env c.cbk c.task c.errcode m).1)

/-- The value of `rv` in `io_sched_process_task` after the read-ready check, for
a task with a real descriptor: true unless the task carries Read and the call
owed to Read is missing or returned false. -/
def read_done (env : CbkEnv) (m : Machine) (a : Int) (rds : Int → Bool) : Bool :=
  if S_IOSCHED_OPTS_READ (m.tasks a)
  then dir_done env m a (rds (m.tasks a).fd) (m.tasks a).on_read_rdy_cbk else true

/-- The same for Write: true unless the task carries Write and the call owed to
Write is missing or returned false. -/
def write_done (env : CbkEnv) (m : Machine) (a : Int) (wrs : Int → Bool) : Bool :=
  if S_IOSCHED_OPTS_WRITE (m.tasks a)
  then dir_done env m a (wrs (m.tasks a).fd) (m.tasks a).on_write_rdy_cbk else true

/-- A reader task on descriptor 5 that also watches for errors, without
timeout, with the read callback at 88 and the error callback at 89, created on
the fresh scheduler of the examples: the pointer and the machine. -/
def ex_reader_err : Int × Machine := io_sched_create_reader_task_ex ex_machine 5 (-1) 0 88 89

/-- The machine of `ex_reader_err` after the task has been scheduled. -/
def ex_reader_err_live : Machine :=
  match io_sched_schedule_task 4 ex_reader_err.2 ex_reader_err.1 with
  | some r => r.2
  | none => ex_reader_err.2

/-- The descriptor set that holds the descriptor 5 only. -/
def ex_set5 : Int → Bool := fun fd => decide (fd = 5)

/-- The empty descriptor set. -/
def ex_set_none : Int → Bool := fun _ => false

/-- A task on descriptor 5 that carries Read and Write, without timeout, with
the read callback at 88 and the write callback at 89, created on the fresh
scheduler of the examples with `io_sched_create_task`: the pointer and the
machine. -/
def ex_duplex : Int × Machine :=
  io_sched_create_task ex_machine 5 (IO_SCHEDULER_READ ||| IO_SCHEDULER_WRITE) (-1) 0 88 89 0 0

/-- The machine of `ex_duplex` after the task has been scheduled. -/
def ex_duplex_live : Machine :=
  match io_sched_schedule_task 4 ex_duplex.2 ex_duplex.1 with
  | some r => r.2
  | none => ex_duplex.2

/-! ## The descriptor sets of the pump, in words -/

/-- A reader task on descriptor 5 with a timeout of 0 and the callback at 88,
created on the fresh scheduler of the examples: the pointer and the machine. -/
def ex_reader0 : Int × Machine := io_sched_create_reader_task ex_machine 5 0 0 88

/-- The machine of `ex_reader0` after the task has been scheduled. -/
def ex_reader0_live : Machine :=
  match io_sched_schedule_task 4 ex_reader0.2 ex_reader0.1 with
  | some r => r.2
  | none => ex_reader0.2

/-- A task on descriptor 5 that asks for Read and Timer with a timeout of 5 ns,
with the read callback at 88 and no timeout callback, created on the fresh
scheduler of the examples with `io_sched_create_task`: the pointer and the
machine. -/
def ex_untimed : Int × Machine :=
  io_sched_create_task ex_machine 5 (IO_SCHEDULER_READ ||| IO_SCHEDULER_TIMER) 5 0 88 0 0 0

/-- The machine of `ex_untimed` after the task has been scheduled. -/
def ex_untimed_live : Machine :=
  match io_sched_schedule_task 4 ex_untimed.2 ex_untimed.1 with
  | some r => r.2
  | none => ex_untimed.2

/-- A timer task with a timeout of one second (`IO_SCHEDULER_TIME_ONE_SECOND`)
and the callback at 77, created on the fresh scheduler of the examples: the
pointer and the machine. -/
def ex_timer_1s : Int × Machine :=
  io_sched_create_timer_task ex_machine IO_SCHEDULER_TIME_ONE_SECOND 0 77

/-- The machine of `ex_timer_1s` after the task has been scheduled. -/
def ex_timer_1s_live : Machine :=
  match io_sched_schedule_task 4 ex_timer_1s.2 ex_timer_1s.1 with
  | some r => r.2
  | none => ex_timer_1s.2

/-! ## Runs of a fixed stack -/

/-- One call on a fixed stack: `stack_fixed_push` of a value, or
`stack_fixed_pop_and_return`. -/
inductive stack_op where
  | push (data : Int)
  | pop
deriving DecidableEq

/-- The stack after one call. -/
def stack_step (s : stack) : stack_op → stack
  | .push d => (stack_fixed_push s d).2
  | .pop => (stack_fixed_pop_and_return s).2

/-- The stack after a sequence of calls, the first call first. -/
def stack_run (s : stack) (ops : List stack_op) : stack := ops.foldl stack_step s

/-! ## Connecting a TCP client (tcp_service.c) -/

/-- The function `tcp_client_start`; a failed assertion is a fault, and a
scheduler other than the one of the machine is outside the model. -/
def tcp_client_start (fuel : Nat) (n : Net) (client scheduler : Int) : Option (Bool × Net) :=
  if client = 0 ∨ scheduler = 0 ∨ (n.clients client).io_task ≠ 0 then none
  else if scheduler ≠ n.m.sched_at then none
  else
    let t := io_sched_create_reader_task n.m (n.clients client).fd IO_SCHEDULER_NO_TIMEOUT client
      on_tcp_client_server_responded_addr
    let n1 := ({ n with m := t.2 } : Net).set_client client
      { n.clients client with io_task := t.1 }
    match io_sched_schedule_task fuel n1.m t.1 with
    | none => none
    | some r => some (r.1, { n1 with m := r.2 })

/-- The function `on_tcp_client_connected_to_server`, the completion callback
that `tcp_client_connect` hands to `tcp_connect_timeout_ud`; the failed
assertion on the client is a fault. -/
def on_tcp_client_connected_to_server (env : NetEnv) (fuel : Nat) (n : Net)
    (scheduler _fd err userdata : Int) : Option Net :=
  let client := userdata
  if client = 0 then none
  else if err ≠ 0 then some n
  else
    let n1 :=
      if (n.clients client).on_connected ≠ 0 then
        env.on_connected (n.clients client).on_connected client
          (n.note (net_event.client_connected (n.clients client).on_connected client))
      else n
    match tcp_client_start fuel n1 client scheduler with
    | none => none
    | some r => if r.1 then some r.2 else some (tcp_client_disconnect env r.2 client)

/-- The address of the function `on_tcp_client_connected_to_server`. -/
def on_tcp_client_connected_to_server_addr : Int := 0x7005

/-- The callbacks of a program that uses `tcp_client_connect`: those of `env`,
and at the address of `on_tcp_client_connected_to_server` that function.  A
fault inside that function is not represented here (the state is then given
back as it was). -/
def connect_env (env : NetEnv) (fuel : Nat) : NetEnv :=
  { env with
    on_connect_ud := fun cbk scheduler fd err userdata n =>
      if cbk = on_tcp_client_connected_to_server_addr then
        match on_tcp_client_connected_to_server env fuel n scheduler fd err userdata with
        | some n2 => n2
        | none => n
      else env.on_connect_ud cbk scheduler fd err userdata n }

/-- The function `tcp_client_connect`; `new_socket` is what
`tcp_create_client_socket` returns when it is called, `new_pconn` and `co` are
the allocation and the outcome of `connect` inside `tcp_connect_timeout_ud`.
A failed assertion is a fault. -/
def tcp_client_connect (env : NetEnv) (new_socket new_pconn : Int) (co : connect_outcome)
    (fuel : Nat) (n : Net) (client scheduler : Int) : Option (Bool × Net) :=
  if client = 0 ∨ scheduler = 0 then none
  else
    let n1 :=
      if (n.clients client).fd = INVALID_SOCKET_FD then
        n.set_client client { n.clients client with fd := new_socket }
      else n
    if (n1.clients client).fd ≠ INVALID_SOCKET_FD then
      match tcp_connect_timeout_ud (connect_env env fuel) new_pconn co fuel n1
          (n1.clients client).fd (n1.clients client).remote_ip (n1.clients client).remote_port
          scheduler client on_tcp_client_connected_to_server_addr 3 with
      | none => none
      | some r =>
        if r.1 then some (true, r.2)
        else
          some (false, (r.2.note (net_event.close (r.2.clients client).fd)).set_client client
            { r.2.clients client with fd := INVALID_SOCKET_FD })
    else some (false, n1)

/-- A state with one client as `tcp_client_init` leaves it, at the address 800
with the read buffer at 900 and the callback `on_closed` at 850, around the
fresh scheduler of the examples (at the address 1). -/
def ex_unconnected : Net :=
  { m := ex_machine,
    clients := fun q =>
      if q = 800 then
        { zero_client with fd := INVALID_SOCKET_FD, remote_port := 7777, read_buffer := 900,
                           read_buffer_size := 512, on_closed := 850 }
      else zero_client,
    pending_connections := [],
    pconns := fun _ => ⟨0, 0, 0, 0, 0, 0, 0⟩,
    log := [] }

/-- The state `ex_unconnected` after `tcp_client_connect` on the client at 800:
the new socket is the descriptor 20, its connect is in progress and the pending
record is allocated at the address 950. -/
def ex_client_connecting : Net :=
  match tcp_client_connect ex_net_env 20 950 ⟨-1, EINPROGRESS⟩ 4 ex_unconnected 800 1 with
  | some r => r.2
  | none => ex_unconnected

/-- The writer task of the pending connect of `ex_client_connecting`. -/
def ex_client_connect_task : Int := ex_client_connecting.m.sched.scheduled_tasks

/-- The state `ex_client_connecting` after the completion handler of the
pending connect was called with a timeout. -/
def ex_client_timed_out : Net :=
  match tcp_io_scheduler_connect_cbk (connect_env ex_net_env 4) ⟨0, 0, 0⟩ ex_client_connecting
      ex_client_connect_task IO_SCHEDULER_ERR_OP_TIMEOUT with
  | some r => r.2
  | none => ex_client_connecting

/-- The state `ex_client_connecting` after the completion handler of the
pending connect was called for a writable socket whose connect has failed with
the socket error 111. -/
def ex_client_refused : Net :=
  match tcp_io_scheduler_connect_cbk (connect_env ex_net_env 4) ⟨0, 111, 0⟩ ex_client_connecting
      ex_client_connect_task IO_SCHEDULER_ERR_NONE with
  | some r => r.2
  | none => ex_client_connecting

/-- The machine of `ex_reader` after the reader task has been scheduled behind
the 5 ns timer. -/
def ex_timer_reader_live : Machine :=
  match io_sched_schedule_task 4 ex_reader.2 ex_reader.1 with
  | some r => r.2
  | none => ex_reader.2

/-- An outcome of `select` at the clock reading 2000 s that reports the
descriptor 5 readable. -/
def ex_select_5 : select_result :=
  { failed := false, rd := fun fd => decide (fd = 5), wr := fun _ => false,
    er := fun _ => false, now := ⟨2000, 0⟩ }

/-- The machine `ex_live5` after `io_sched_schedule_task` has been called a
second time on its timer task, which is in the live list already. -/
def ex_twice5 : Machine :=
  match io_sched_schedule_task 4 ex_live5 ex_timer5.1 with
  | some r => r.2
  | none => ex_live5

/-- The machine `ex_pool_full` after `io_sched_schedule_task` has been called a
second time on the first of its two reader tasks. -/
def ex_twice_first : Machine :=
  match io_sched_schedule_task 4 ex_pool_full 1002 with
  | some r => r.2
  | none => ex_pool_full

/-! ## The states that tcp_listener_init and tcp_listener_destroy reach -/

@[simp] theorem write_tasks_same (m : Machine) (p : Int) (t : io_scheduler_task) :
    (m.write p t).tasks p = t := by
  simp [Machine.write]

theorem write_tasks_other (m : Machine) (p q : Int) (t : io_scheduler_task) (h : q ≠ p) :
    (m.write p t).tasks q = m.tasks q := by
  simp [Machine.write, h]

@[simp] theorem write_sched (m : Machine) (p : Int) (t : io_scheduler_task) :
    (m.write p t).sched = m.sched := rfl

@[simp] theorem write_now (m : Machine) (p : Int) (t : io_scheduler_task) :
    (m.write p t).now = m.now := rfl

@[simp] theorem write_sched_at (m : Machine) (p : Int) (t : io_scheduler_task) :
    (m.write p t).sched_at = m.sched_at := rfl

theorem and_two_pow_ne_zero (o i : Nat) : (o &&& 2 ^ i != 0) = o.testBit i := by
  cases h : o.testBit i
  · have h0 : o &&& 2 ^ i = 0 := by
      apply Nat.eq_of_testBit_eq
      intro j
      simp only [Nat.testBit_and, Nat.testBit_two_pow, Nat.zero_testBit]
      by_cases hj : i = j
      · subst hj; simp [h]
      · simp [hj]
    simp [h0]
  · have h1 : (o &&& 2 ^ i).testBit i = true := by
      simp [Nat.testBit_and, h, Nat.testBit_two_pow_self]
    have hne : o &&& 2 ^ i ≠ 0 := by
      intro h0; rw [h0] at h1; simp at h1
    simp [hne]

theorem opts_read_eq (t : io_scheduler_task) : S_IOSCHED_OPTS_READ t = t.opts.testBit 0 :=
  and_two_pow_ne_zero t.opts 0

theorem opts_write_eq (t : io_scheduler_task) : S_IOSCHED_OPTS_WRITE t = t.opts.testBit 1 :=
  and_two_pow_ne_zero t.opts 1

theorem opts_error_eq (t : io_scheduler_task) : S_IOSCHED_OPTS_ERROR t = t.opts.testBit 2 :=
  and_two_pow_ne_zero t.opts 2

theorem opts_timer_eq (t : io_scheduler_task) : S_IOSCHED_OPTS_TIMER t = t.opts.testBit 3 :=
  and_two_pow_ne_zero t.opts 3

theorem opts_remove_eq (t : io_scheduler_task) : S_IOSCHED_OPTS_REMOVE t = t.opts.testBit 31 :=
  and_two_pow_ne_zero t.opts 31

theorem testBit_clear_opt (o i j : Nat) (hi : i < 32) :
    (clear_opt o (2 ^ i)).testBit j =
      (o.testBit j && (decide (j < 32) && !decide (i = j))) := by
  have h32 : (0xFFFFFFFF : Nat) = 2 ^ 32 - 1 := by norm_num
  unfold clear_opt
  rw [Nat.testBit_and, Nat.testBit_xor, h32, Nat.testBit_two_pow_sub_one, Nat.testBit_two_pow]
  by_cases h1 : j < 32 <;> by_cases h2 : i = j <;> simp [h1, h2]
  omega

theorem testBit_set_remove (o j : Nat) :
    (o ||| IO_SCHEDULER_REMOVE).testBit j = (o.testBit j || decide (j = 31)) := by
  have h : IO_SCHEDULER_REMOVE = 2 ^ 31 := by norm_num [IO_SCHEDULER_REMOVE]
  rw [h, Nat.testBit_or, Nat.testBit_two_pow]
  by_cases h1 : j = 31
  · simp [h1]
  · have h2 : ¬ (31 = j) := fun h3 => h1 h3.symm
    simp [h1, h2]

theorem testBit_of_lt_32 (o j : Nat) (ho : o < 2 ^ 32) (hj : 32 ≤ j) : o.testBit j = false :=
  Nat.testBit_lt_two_pow (lt_of_lt_of_le ho (Nat.pow_le_pow_right (by norm_num) hj))

theorem flag_read_pow : IO_SCHEDULER_READ = 2 ^ 0 := by norm_num [IO_SCHEDULER_READ]
theorem flag_write_pow : IO_SCHEDULER_WRITE = 2 ^ 1 := by norm_num [IO_SCHEDULER_WRITE]
theorem flag_error_pow : IO_SCHEDULER_ERROR = 2 ^ 2 := by norm_num [IO_SCHEDULER_ERROR]
theorem flag_timer_pow : IO_SCHEDULER_TIMER = 2 ^ 3 := by norm_num [IO_SCHEDULER_TIMER]
theorem flag_remove_pow : IO_SCHEDULER_REMOVE = 2 ^ 31 := by norm_num [IO_SCHEDULER_REMOVE]

theorem clear_opt_lt (o f : Nat) : clear_opt o f < 2 ^ 32 ∨ clear_opt o f ≤ o := by
  right
  exact Nat.and_le_left

/-- One downgrade step `if ( c ) opts &= ~flag` on a task record. -/
theorem clear_step (t : io_scheduler_task) (c : Bool) (i : Nat) (hi : i < 32)
    (ho : t.opts < 2 ^ 32) :
    (if c then { t with opts := clear_opt t.opts (2 ^ i) } else t).opts < 2 ^ 32 ∧
    ∀ j, (if c then { t with opts := clear_opt t.opts (2 ^ i) } else t).opts.testBit j =
      (t.opts.testBit j && !(c && decide (i = j))) := by
  cases c
  · exact ⟨ho, fun j => by simp⟩
  · refine ⟨lt_of_le_of_lt Nat.and_le_left ho, fun j => ?_⟩
    simp only [if_true, testBit_clear_opt _ _ _ hi, Bool.true_and]
    by_cases hj : j < 32
    · simp [hj]
    · simp [hj, testBit_of_lt_32 _ _ ho (by omega : 32 ≤ j)]

theorem schedule_opts_frame (t : io_scheduler_task) :
    (schedule_opts t).next = t.next ∧ (schedule_opts t).prev = t.prev ∧
    (schedule_opts t).owner = t.owner ∧ (schedule_opts t).fd = t.fd ∧
    (schedule_opts t).time_out = t.time_out ∧
    (schedule_opts t).time_scheduled = t.time_scheduled ∧
    (schedule_opts t).expire_time = t.expire_time ∧
    (schedule_opts t).user_data = t.user_data ∧
    (schedule_opts t).on_read_rdy_cbk = t.on_read_rdy_cbk ∧
    (schedule_opts t).on_write_rdy_cbk = t.on_write_rdy_cbk ∧
    (schedule_opts t).on_err_rdy_cbk = t.on_err_rdy_cbk ∧
    (schedule_opts t).on_timeout_cbk = t.on_timeout_cbk := by
  unfold schedule_opts
  simp only []
  split_ifs <;> simp

/-- The option word after the four downgrade steps of `schedule_opts`. -/
theorem schedule_opts_bits (t : io_scheduler_task) (ho : t.opts < 2 ^ 32) :
    ∃ d : Nat, d < 2 ^ 32 ∧
      (∀ j, d.testBit j = (t.opts.testBit j &&
        !(decide (j = 0) && t.on_read_rdy_cbk == 0) &&
        !(decide (j = 1) && t.on_write_rdy_cbk == 0) &&
        !(decide (j = 2) && t.on_err_rdy_cbk == 0) &&
        !(decide (j = 3) && (t.on_timeout_cbk == 0 || t.time_out == IO_SCHEDULER_NO_TIMEOUT)))) ∧
      (schedule_opts t).opts = if d = 0 then IO_SCHEDULER_REMOVE else d := by
  obtain ⟨h1, b1⟩ := clear_step t (S_IOSCHED_OPTS_READ t && t.on_read_rdy_cbk == 0) 0 (by norm_num) ho
  set t1 := (if (S_IOSCHED_OPTS_READ t && t.on_read_rdy_cbk == 0) = true
    then { t with opts := clear_opt t.opts (2 ^ 0) } else t) with ht1
  have f1 : t1.on_write_rdy_cbk = t.on_write_rdy_cbk ∧ t1.on_err_rdy_cbk = t.on_err_rdy_cbk ∧
      t1.on_timeout_cbk = t.on_timeout_cbk ∧ t1.time_out = t.time_out := by
    rw [ht1]; split_ifs <;> simp
  obtain ⟨h2, b2⟩ := clear_step t1 (S_IOSCHED_OPTS_WRITE t1 && t1.on_write_rdy_cbk == 0) 1 (by norm_num) h1
  set t2 := (if (S_IOSCHED_OPTS_WRITE t1 && t1.on_write_rdy_cbk == 0) = true
    then { t1 with opts := clear_opt t1.opts (2 ^ 1) } else t1) with ht2
  have f2 : t2.on_err_rdy_cbk = t1.on_err_rdy_cbk ∧
      t2.on_timeout_cbk = t1.on_timeout_cbk ∧ t2.time_out = t1.time_out := by
    rw [ht2]; split_ifs <;> simp
  obtain ⟨h3, b3⟩ := clear_step t2 (S_IOSCHED_OPTS_ERROR t2 && t2.on_err_rdy_cbk == 0) 2 (by norm_num) h2
  set t3 := (if (S_IOSCHED_OPTS_ERROR t2 && t2.on_err_rdy_cbk == 0) = true
    then { t2 with opts := clear_opt t2.opts (2 ^ 2) } else t2) with ht3
  have f3 : t3.on_timeout_cbk = t2.on_timeout_cbk ∧ t3.time_out = t2.time_out := by
    rw [ht3]; split_ifs <;> simp
  obtain ⟨h4, b4⟩ := clear_step t3 (S_IOSCHED_OPTS_TIMER t3 &&
    (t3.on_timeout_cbk == 0 || t3.time_out == IO_SCHEDULER_NO_TIMEOUT)) 3 (by norm_num) h3
  set t4 := (if (S_IOSCHED_OPTS_TIMER t3 &&
      (t3.on_timeout_cbk == 0 || t3.time_out == IO_SCHEDULER_NO_TIMEOUT)) = true
    then { t3 with opts := clear_opt t3.opts (2 ^ 3) } else t3) with ht4
  refine ⟨t4.opts, h4, ?_, ?_⟩
  · intro j
    rw [b4, b3, b2, b1, opts_timer_eq, opts_error_eq, opts_write_eq, opts_read_eq, b3, b2, b1,
      b2, b1, b1, f3.1, f3.2, f2.1, f2.2.1, f2.2.2, f1.1, f1.2.1, f1.2.2.1, f1.2.2.2]
    by_cases j0 : j = 0
    · subst j0; generalize t.opts.testBit 0 = b; cases b <;> simp
    by_cases j1 : j = 1
    · subst j1; generalize t.opts.testBit 1 = b; cases b <;> simp
    by_cases j2 : j = 2
    · subst j2; generalize t.opts.testBit 2 = b; cases b <;> simp
    by_cases j3 : j = 3
    · subst j3; generalize t.opts.testBit 3 = b; cases b <;> simp
    have e0 : ¬ (0 = j) := fun h => j0 h.symm
    have e1 : ¬ (1 = j) := fun h => j1 h.symm
    have e2 : ¬ (2 = j) := fun h => j2 h.symm
    have e3 : ¬ (3 = j) := fun h => j3 h.symm
    simp [j0, j1, j2, j3, e0, e1, e2, e3]
  · have hs : (schedule_opts t).opts =
        (if t4.opts == IO_SCHEDULER_NONE then { t4 with opts := t4.opts ||| IO_SCHEDULER_REMOVE }
          else t4).opts := by
      simp only [schedule_opts, ht4, ht3, ht2, ht1, flag_read_pow, flag_write_pow,
        flag_error_pow, flag_timer_pow]
    rw [hs]
    by_cases hz : t4.opts = 0
    · simp [hz, IO_SCHEDULER_NONE]
    · simp [hz, IO_SCHEDULER_NONE]

/-! ## Expiry time -/

theorem expire_loop_total (fuel : Nat) (sec t : Int) :
    (expire_loop fuel sec t).1 * IO_SCHEDULER_TIME_ONE_SECOND + (expire_loop fuel sec t).2 =
      sec * IO_SCHEDULER_TIME_ONE_SECOND + t := by
  induction fuel generalizing sec t with
  | zero => simp [expire_loop]
  | succ k ih =>
    unfold expire_loop
    split_ifs with h
    · rw [ih]; ring
    · rfl

theorem expire_loop_nonneg (fuel : Nat) (sec t : Int) (ht : 0 ≤ t) :
    0 ≤ (expire_loop fuel sec t).2 := by
  induction fuel generalizing sec t with
  | zero => simpa [expire_loop] using ht
  | succ k ih =>
    unfold expire_loop
    split_ifs with h
    · apply ih
      unfold IO_SCHEDULER_TIME_ONE_SECOND at h ⊢
      omega
    · exact ht

theorem expire_loop_neg (fuel : Nat) (sec t : Int) (ht : t < 0) :
    expire_loop fuel sec t = (sec, t) := by
  cases fuel with
  | zero => rfl
  | succ k =>
    unfold expire_loop
    have : ¬ t > IO_SCHEDULER_TIME_ONE_SECOND := by
      unfold IO_SCHEDULER_TIME_ONE_SECOND; omega
    simp [this]

theorem expire_at_total (now : timespec) (time_out : Int) :
    (expire_at now time_out).total = now.total + time_out := by
  unfold expire_at timespec.total
  have h := expire_loop_total time_out.toNat now.tv_sec time_out
  simp only []
  split_ifs with h1
  · simp only []; linarith
  · simp only []; linarith

theorem populate_some (m : Machine) (p : Int) (h : 0 ≤ (m.tasks p).time_out) :
    inl_io_sched_populate_expire_time m p =
      some (m.write p { m.tasks p with expire_time := expire_at m.now (m.tasks p).time_out }) := by
  unfold inl_io_sched_populate_expire_time
  simp only []
  rw [if_pos (expire_loop_nonneg _ _ _ h)]
  rfl

theorem populate_none (m : Machine) (p : Int) (h : (m.tasks p).time_out < 0) :
    inl_io_sched_populate_expire_time m p = none := by
  unfold inl_io_sched_populate_expire_time
  simp only []
  rw [expire_loop_neg _ _ _ h]
  simp [h]

/-! ## The live list -/

theorem isList_congr (tasks tasks2 : Int → io_scheduler_task) (l : List Int) (h : Int)
    (hn : ∀ a ∈ l, (tasks2 a).next = (tasks a).next) (hl : isList tasks h l) :
    isList tasks2 h l := by
  induction l generalizing h with
  | nil => exact hl
  | cons a l ih =>
    obtain ⟨h1, h2, h3⟩ := hl
    refine ⟨h1, h2, ?_⟩
    rw [hn a (List.mem_cons_self a l)]
    exact ih _ (fun b hb => hn b (List.mem_cons_of_mem a hb)) h3

theorem isList_functional (tasks : Int → io_scheduler_task) (l1 l2 : List Int) (h : Int)
    (h1 : isList tasks h l1) (h2 : isList tasks h l2) : l1 = l2 := by
  induction l1 generalizing h l2 with
  | nil =>
    cases l2 with
    | nil => rfl
    | cons b l2 =>
      obtain ⟨e, ne, _⟩ := h2
      exact absurd (e.symm.trans h1) ne
  | cons a l1 ih =>
    cases l2 with
    | nil =>
      obtain ⟨e, ne, _⟩ := h1
      exact absurd (e.symm.trans h2) ne
    | cons b l2 =>
      obtain ⟨e1, _, r1⟩ := h1
      obtain ⟨e2, _, r2⟩ := h2
      have hab : a = b := e1.symm.trans e2
      subst hab
      rw [ih l2 _ r1 r2]

theorem isList_not_mem_zero (tasks : Int → io_scheduler_task) (l : List Int) (h : Int)
    (hl : isList tasks h l) : (0 : Int) ∉ l := by
  induction l generalizing h with
  | nil => simp
  | cons a l ih =>
    obtain ⟨_, ne, r⟩ := hl
    intro hm
    rcases List.mem_cons.mp hm with h0 | h0
    · exact ne h0.symm
    · exact ih _ r h0

/-- The chain from a member of the list is a proper suffix of the list. -/
theorem isList_suffix (tasks : Int → io_scheduler_task) (l : List Int) (h a : Int)
    (hl : isList tasks h l) (ha : a ∈ l) :
    ∃ l1 l2, l = l1 ++ a :: l2 ∧ isList tasks (tasks a).next l2 := by
  induction l generalizing h with
  | nil => simp at ha
  | cons b l ih =>
    obtain ⟨_, _, r⟩ := hl
    rcases List.mem_cons.mp ha with h0 | h0
    · subst h0
      exact ⟨[], l, rfl, r⟩
    · obtain ⟨l1, l2, e, r2⟩ := ih _ r h0
      exact ⟨b :: l1, l2, by rw [e]; rfl, r2⟩

theorem isList_nodup (tasks : Int → io_scheduler_task) (l : List Int) (h : Int)
    (hl : isList tasks h l) : l.Nodup := by
  induction l generalizing h with
  | nil => exact List.nodup_nil
  | cons a l ih =>
    obtain ⟨_, _, r⟩ := hl
    refine List.nodup_cons.mpr ⟨?_, ih _ r⟩
    intro ha
    obtain ⟨l1, l2, e, r2⟩ := isList_suffix tasks l _ a r ha
    have := isList_functional tasks _ _ _ r r2
    have hlen := congrArg List.length e
    rw [this] at hlen
    simp at hlen
    omega

theorem find_tail_some (tasks : Int → io_scheduler_task) (l : List Int) (h : Int) (fuel : Nat)
    (hl : isList tasks h l) (hne : h ≠ 0) (hf : l.length ≤ fuel) :
    ∃ l1 a, l = l1 ++ [a] ∧ find_tail tasks fuel h = some a ∧ (tasks a).next = 0 := by
  induction l generalizing h fuel with
  | nil => exact absurd hl hne
  | cons b l ih =>
    obtain ⟨e, ne, r⟩ := hl
    subst e
    cases fuel with
    | zero => simp at hf
    | succ k =>
      unfold find_tail
      by_cases hn : (tasks h).next = 0
      · rw [hn] at r
        cases l with
        | nil => exact ⟨[], h, rfl, by simp [hn], hn⟩
        | cons c l =>
          obtain ⟨e2, ne2, _⟩ := r
          exact absurd e2.symm ne2
      · obtain ⟨l1, a, e1, e2, e3⟩ := ih _ k r hn (by simpa using hf)
        exact ⟨h :: l1, a, by rw [e1]; rfl, by simp [hn, e2], e3⟩

theorem isList_append_tail (tasks : Int → io_scheduler_task) (l1 : List Int) (h a p : Int)
    (hl : isList tasks h (l1 ++ [a])) (hp : p ≠ 0) (hpn : (tasks p).next = 0)
    (hpl : p ∉ l1 ++ [a]) :
    isList (fun q => if q = a then { tasks a with next := p } else tasks q) h (l1 ++ [a, p]) := by
  have hnd := isList_nodup tasks _ _ hl
  induction l1 generalizing h with
  | nil =>
    obtain ⟨e, ne, _⟩ := hl
    have hpa : p ≠ a := by
      intro hh; apply hpl; simp [hh]
    refine ⟨e, ne, ?_⟩
    simp only [if_true]
    refine ⟨rfl, hp, ?_⟩
    show (if p = a then { tasks a with next := p } else tasks p).next = 0
    rw [if_neg hpa, hpn]
  | cons b l1 ih =>
    obtain ⟨e, ne, r⟩ := hl
    have hba : b ≠ a := by
      intro hh
      have := List.nodup_cons.mp hnd
      apply this.1; simp [hh]
    refine ⟨e, ne, ?_⟩
    simp only [if_neg hba]
    apply ih _ r
    · intro hm; exact hpl (List.mem_cons_of_mem b hm)
    · exact (List.nodup_cons.mp hnd).2

/-! ## Admission -/

theorem write_write (m : Machine) (p : Int) (t1 t2 : io_scheduler_task) :
    (m.write p t1).write p t2 = m.write p t2 := by
  unfold Machine.write
  congr 1
  funext q
  by_cases h : q = p <;> simp [h]

/-- The task record that `schedule_admit` leaves behind. -/
theorem schedule_admit_some (m : Machine) (p : Int)
    (hto : S_IOSCHED_OPTS_TIMER (schedule_opts (m.tasks p)) = true → 0 ≤ (m.tasks p).time_out) :
    schedule_admit m p = some (m.write p
      (if S_IOSCHED_OPTS_TIMER (schedule_opts (m.tasks p))
       then { schedule_opts (m.tasks p) with
              expire_time := expire_at m.now (m.tasks p).time_out }
       else schedule_opts (m.tasks p))) := by
  unfold schedule_admit
  simp only [write_tasks_same]
  by_cases ht : S_IOSCHED_OPTS_TIMER (schedule_opts (m.tasks p)) = true
  · have h0 : 0 ≤ ((m.write p (schedule_opts (m.tasks p))).tasks p).time_out := by
      rw [write_tasks_same, (schedule_opts_frame (m.tasks p)).2.2.2.2.1]
      exact hto ht
    rw [if_pos ht, if_pos ht, populate_some _ _ h0, write_write, write_tasks_same, write_now]
    simp only [(schedule_opts_frame (m.tasks p)).2.2.2.2.1]
  · rw [if_neg ht, if_neg ht]

theorem schedule_link_some (fuel : Nat) (m : Machine) (p : Int) (l : List Int)
    (howner : (m.tasks p).owner = m.sched_at)
    (hl : isList m.tasks m.sched.scheduled_tasks l) (hfuel : l.length ≤ fuel) :
    ∃ m2, schedule_link fuel m p = some (true, m2) ∧
      m2.sched_at = m.sched_at ∧ m2.now = m.now ∧
      m2.sched.task_pool = m.sched.task_pool ∧ m2.sched.timer_id_pool = m.sched.timer_id_pool ∧
      m2.sched.scheduler_thread = m.sched.scheduler_thread ∧
      m2.sched.stop_scheduler = m.sched.stop_scheduler ∧
      (∀ q, ∃ n, m2.tasks q = { m.tasks q with next := n }) ∧
      (p ≠ 0 → p ∉ l → (m.tasks p).next = 0 →
        isList m2.tasks m2.sched.scheduled_tasks (l ++ [p]) ∧
        ∀ q, q ∉ l → m2.tasks q = m.tasks q) := by
  unfold schedule_link
  rw [if_neg (not_not.mpr howner)]
  by_cases hh : m.sched.scheduled_tasks = 0
  · rw [if_pos hh]
    refine ⟨_, rfl, rfl, rfl, rfl, rfl, rfl, rfl, fun q => ⟨(m.tasks q).next, rfl⟩, ?_⟩
    intro hp _ hn
    have hnil : l = [] := by
      cases l with
      | nil => rfl
      | cons a l =>
        obtain ⟨e, ne, _⟩ := hl
        exact absurd (e.symm.trans hh) ne
    subst hnil
    exact ⟨⟨rfl, hp, hn⟩, fun q _ => rfl⟩
  · rw [if_neg hh]
    obtain ⟨l1, a, e1, e2, e3⟩ := find_tail_some m.tasks l _ fuel hl hh hfuel
    rw [e2]
    refine ⟨_, rfl, rfl, rfl, rfl, rfl, rfl, rfl, ?_, ?_⟩
    · intro q
      by_cases hq : q = a
      · subst hq; exact ⟨p, by simp⟩
      · exact ⟨(m.tasks q).next, by rw [write_tasks_other _ _ _ _ hq]⟩
    · intro hp hpl hn
      subst e1
      refine ⟨?_, ?_⟩
      · have := isList_append_tail m.tasks l1 _ a p hl hp hn hpl
        simpa [Machine.write] using this
      · intro q hq
        have hqa : q ≠ a := by
          intro h; apply hq; simp [h]
        exact write_tasks_other _ _ _ _ hqa

/-- What `schedule_opts` does to the five option flags. -/
theorem schedule_opts_flags (t : io_scheduler_task) (ho : t.opts < 2 ^ 32) :
    S_IOSCHED_OPTS_READ (schedule_opts t) =
      (S_IOSCHED_OPTS_READ t && t.on_read_rdy_cbk != 0) ∧
    S_IOSCHED_OPTS_WRITE (schedule_opts t) =
      (S_IOSCHED_OPTS_WRITE t && t.on_write_rdy_cbk != 0) ∧
    S_IOSCHED_OPTS_ERROR (schedule_opts t) =
      (S_IOSCHED_OPTS_ERROR t && t.on_err_rdy_cbk != 0) ∧
    S_IOSCHED_OPTS_TIMER (schedule_opts t) =
      (S_IOSCHED_OPTS_TIMER t && (t.on_timeout_cbk != 0 && t.time_out != IO_SCHEDULER_NO_TIMEOUT)) ∧
    S_IOSCHED_OPTS_REMOVE (schedule_opts t) =
      (S_IOSCHED_OPTS_REMOVE t || (schedule_opts t).opts &&& 0x7FFFFFFF == 0) := by
  obtain ⟨d, hd, hb, he⟩ := schedule_opts_bits t ho
  have low : ∀ j, j < 31 → (schedule_opts t).opts.testBit j = d.testBit j := by
    intro j hj
    rw [he]
    by_cases hz : d = 0
    · have : ¬ (31 = j) := by omega
      rw [if_pos hz, hz, flag_remove_pow, Nat.testBit_two_pow]
      simp [this]
    · rw [if_neg hz]
  simp only [opts_read_eq, opts_write_eq, opts_error_eq, opts_timer_eq, opts_remove_eq]
  refine ⟨?_, ?_, ?_, ?_, ?_⟩
  · rw [low 0 (by norm_num), hb]
    generalize t.opts.testBit 0 = b
    cases b <;> simp [bne]
  · rw [low 1 (by norm_num), hb]
    generalize t.opts.testBit 1 = b
    cases b <;> simp [bne]
  · rw [low 2 (by norm_num), hb]
    generalize t.opts.testBit 2 = b
    cases b <;> simp [bne]
  · rw [low 3 (by norm_num), hb]
    generalize t.opts.testBit 3 = b
    cases b <;> simp [bne]
  · rw [he]
    by_cases hz : d = 0
    · have e1 : IO_SCHEDULER_REMOVE.testBit 31 = true := by
        rw [flag_remove_pow]; exact Nat.testBit_two_pow_self
      have e2 : IO_SCHEDULER_REMOVE &&& 0x7FFFFFFF = 0 := by decide
      rw [if_pos hz, e1, e2]
      simp
    · rw [if_neg hz]
      have h31 : d.testBit 31 = t.opts.testBit 31 := by rw [hb]; simp
      rw [h31]
      cases hr : t.opts.testBit 31
      · have hm : d &&& 0x7FFFFFFF ≠ 0 := by
          intro h0
          have e : (0x7FFFFFFF : Nat) = 2 ^ 31 - 1 := by norm_num
          rw [e, Nat.and_pow_two_sub_one_eq_mod] at h0
          have hd31 : d = 2 ^ 31 := by
            norm_num at h0 hd ⊢
            omega
          rw [hd31, Nat.testBit_two_pow_self] at h31
          rw [hr] at h31
          exact Bool.noConfusion h31
        simp [hm]
      · simp

theorem flags_congr (t1 t2 : io_scheduler_task) (h : t1.opts = t2.opts) :
    S_IOSCHED_OPTS_READ t1 = S_IOSCHED_OPTS_READ t2 ∧
    S_IOSCHED_OPTS_WRITE t1 = S_IOSCHED_OPTS_WRITE t2 ∧
    S_IOSCHED_OPTS_ERROR t1 = S_IOSCHED_OPTS_ERROR t2 ∧
    S_IOSCHED_OPTS_TIMER t1 = S_IOSCHED_OPTS_TIMER t2 ∧
    S_IOSCHED_OPTS_REMOVE t1 = S_IOSCHED_OPTS_REMOVE t2 := by
  simp [S_IOSCHED_OPTS_READ, S_IOSCHED_OPTS_WRITE, S_IOSCHED_OPTS_ERROR, S_IOSCHED_OPTS_TIMER,
    S_IOSCHED_OPTS_REMOVE, h]

/-! ## C1 -/

/-- C1, as stated, fails: `io_sched_schedule_task` does not return for a timer
task (Timer set, on_timeout present) whose timeout is -2: the assertion
`time_to_add >= 0` of `inl_io_sched_populate_expire_time` fails. -/
theorem schedule_task_negative_timeout_faults :
    ¬ ∃ fuel m2, io_sched_schedule_task fuel (io_sched_create_timer_task ex_machine (-2) 0 77).2
        (io_sched_create_timer_task ex_machine (-2) 0 77).1 = some (true, m2) := by
  rintro ⟨fuel, m2, h⟩
  have h1 : schedule_admit (io_sched_create_timer_task ex_machine (-2) 0 77).2
      (io_sched_create_timer_task ex_machine (-2) 0 77).1 = none := by rfl
  have h2 : (io_sched_create_timer_task ex_machine (-2) 0 77).1 ≠ 0 := by decide
  unfold io_sched_schedule_task at h
  rw [if_neg h2, h1] at h
  exact Option.noConfusion h

/-- C1 (amended): for a non-null task of the scheduler whose live list is
well formed, and unless the task keeps Timer with a timeout below -1 (then the
assertion on the timeout fails), `io_sched_schedule_task` returns true and
leaves the task with: each of Read, Write, Error kept exactly when it was set
and its callback is present; Timer kept exactly when it was set, on_timeout is
present and the timeout is not -1; Remove set when no bit other than Remove is
left (and otherwise as it was); expire-at equal to the clock plus the timeout
when Timer is left; descriptor, timeout and callbacks unchanged.  Hence the
admitted task has a callback for every option it carries and a timeout other
than -1 if it carries Timer. -/
theorem schedule_task_admission (fuel : Nat) (m : Machine) (p : Int) (l : List Int)
    (hp : p ≠ 0) (howner : (m.tasks p).owner = m.sched_at)
    (hopts : (m.tasks p).opts < 2 ^ 32)
    (hl : isList m.tasks m.sched.scheduled_tasks l) (hfuel : l.length ≤ fuel)
    (hto : S_IOSCHED_OPTS_TIMER (m.tasks p) = true → (m.tasks p).on_timeout_cbk ≠ 0 →
      IO_SCHEDULER_NO_TIMEOUT ≤ (m.tasks p).time_out) :
    ∃ m2, io_sched_schedule_task fuel m p = some (true, m2) ∧
      S_IOSCHED_OPTS_READ (m2.tasks p) =
        (S_IOSCHED_OPTS_READ (m.tasks p) && (m.tasks p).on_read_rdy_cbk != 0) ∧
      S_IOSCHED_OPTS_WRITE (m2.tasks p) =
        (S_IOSCHED_OPTS_WRITE (m.tasks p) && (m.tasks p).on_write_rdy_cbk != 0) ∧
      S_IOSCHED_OPTS_ERROR (m2.tasks p) =
        (S_IOSCHED_OPTS_ERROR (m.tasks p) && (m.tasks p).on_err_rdy_cbk != 0) ∧
      S_IOSCHED_OPTS_TIMER (m2.tasks p) =
        (S_IOSCHED_OPTS_TIMER (m.tasks p) &&
          ((m.tasks p).on_timeout_cbk != 0 && (m.tasks p).time_out != IO_SCHEDULER_NO_TIMEOUT)) ∧
      S_IOSCHED_OPTS_REMOVE (m2.tasks p) =
        (S_IOSCHED_OPTS_REMOVE (m.tasks p) || (m2.tasks p).opts &&& 0x7FFFFFFF == 0) ∧
      (S_IOSCHED_OPTS_TIMER (m2.tasks p) = true →
        (m2.tasks p).expire_time.total = m.now.total + (m.tasks p).time_out) ∧
      (S_IOSCHED_OPTS_TIMER (m2.tasks p) = false →
        (m2.tasks p).expire_time = (m.tasks p).expire_time) ∧
      (m2.tasks p).fd = (m.tasks p).fd ∧ (m2.tasks p).time_out = (m.tasks p).time_out ∧
      (m2.tasks p).on_read_rdy_cbk = (m.tasks p).on_read_rdy_cbk ∧
      (m2.tasks p).on_write_rdy_cbk = (m.tasks p).on_write_rdy_cbk ∧
      (m2.tasks p).on_err_rdy_cbk = (m.tasks p).on_err_rdy_cbk ∧
      (m2.tasks p).on_timeout_cbk = (m.tasks p).on_timeout_cbk ∧
      (S_IOSCHED_OPTS_READ (m2.tasks p) = true → (m2.tasks p).on_read_rdy_cbk ≠ 0) ∧
      (S_IOSCHED_OPTS_WRITE (m2.tasks p) = true → (m2.tasks p).on_write_rdy_cbk ≠ 0) ∧
      (S_IOSCHED_OPTS_ERROR (m2.tasks p) = true → (m2.tasks p).on_err_rdy_cbk ≠ 0) ∧
      (S_IOSCHED_OPTS_TIMER (m2.tasks p) = true →
        (m2.tasks p).on_timeout_cbk ≠ 0 ∧ (m2.tasks p).time_out ≠ IO_SCHEDULER_NO_TIMEOUT) := by
  obtain ⟨fR, fW, fE, fT, fRm⟩ := schedule_opts_flags (m.tasks p) hopts
  obtain ⟨g1, g2, g3, g4, g5, g6, g7, g8, g9, g10, g11, g12⟩ := schedule_opts_frame (m.tasks p)
  have hto2 : S_IOSCHED_OPTS_TIMER (schedule_opts (m.tasks p)) = true → 0 ≤ (m.tasks p).time_out := by
    intro h
    rw [fT] at h
    simp only [Bool.and_eq_true, bne_iff_ne, ne_eq] at h
    have h3 := hto h.1 h.2.1
    have h4 := h.2.2
    unfold IO_SCHEDULER_NO_TIMEOUT at h3 h4
    omega
  have hadm := schedule_admit_some m p hto2
  generalize hta : (if S_IOSCHED_OPTS_TIMER (schedule_opts (m.tasks p)) = true
       then { schedule_opts (m.tasks p) with
              expire_time := expire_at m.now (m.tasks p).time_out }
       else schedule_opts (m.tasks p)) = ta at hadm
  have hta_opts : ta.opts = (schedule_opts (m.tasks p)).opts := by
    rw [← hta]; split_ifs <;> rfl
  have hta_next : ta.next = (m.tasks p).next := by
    rw [← hta, ← g1]; split_ifs <;> rfl
  have hta_frame : ta.owner = (m.tasks p).owner ∧ ta.fd = (m.tasks p).fd ∧
      ta.time_out = (m.tasks p).time_out ∧
      ta.on_read_rdy_cbk = (m.tasks p).on_read_rdy_cbk ∧
      ta.on_write_rdy_cbk = (m.tasks p).on_write_rdy_cbk ∧
      ta.on_err_rdy_cbk = (m.tasks p).on_err_rdy_cbk ∧
      ta.on_timeout_cbk = (m.tasks p).on_timeout_cbk := by
    rw [← hta, ← g3, ← g4, ← g5, ← g9, ← g10, ← g11, ← g12]
    split_ifs <;> exact ⟨rfl, rfl, rfl, rfl, rfl, rfl, rfl⟩
  have hl1 : isList (m.write p ta).tasks (m.write p ta).sched.scheduled_tasks l := by
    apply isList_congr m.tasks _ l _ _ hl
    intro a _
    by_cases ha : a = p
    · subst ha; rw [write_tasks_same, hta_next]
    · rw [write_tasks_other _ _ _ _ ha]
  have hown1 : ((m.write p ta).tasks p).owner = (m.write p ta).sched_at := by
    rw [write_tasks_same, hta_frame.1, howner]; rfl
  obtain ⟨m2, hlink, _, _, _, _, _, _, hq, _⟩ :=
    schedule_link_some fuel (m.write p ta) p l hown1 hl1 hfuel
  obtain ⟨n, hn⟩ := hq p
  rw [write_tasks_same] at hn
  have hopts2 : (m2.tasks p).opts = (schedule_opts (m.tasks p)).opts := by
    rw [hn, ← hta_opts]
  obtain ⟨c1, c2, c3, c4, c5⟩ := flags_congr _ _ hopts2
  have hexp : (m2.tasks p).expire_time = ta.expire_time := by rw [hn]
  have k2 : (m2.tasks p).fd = (m.tasks p).fd := by rw [hn]; exact hta_frame.2.1
  have k3 : (m2.tasks p).time_out = (m.tasks p).time_out := by rw [hn]; exact hta_frame.2.2.1
  have k4 : (m2.tasks p).on_read_rdy_cbk = (m.tasks p).on_read_rdy_cbk := by
    rw [hn]; exact hta_frame.2.2.2.1
  have k5 : (m2.tasks p).on_write_rdy_cbk = (m.tasks p).on_write_rdy_cbk := by
    rw [hn]; exact hta_frame.2.2.2.2.1
  have k6 : (m2.tasks p).on_err_rdy_cbk = (m.tasks p).on_err_rdy_cbk := by
    rw [hn]; exact hta_frame.2.2.2.2.2.1
  have k7 : (m2.tasks p).on_timeout_cbk = (m.tasks p).on_timeout_cbk := by
    rw [hn]; exact hta_frame.2.2.2.2.2.2
  refine ⟨m2, ?_, ?_, ?_, ?_, ?_, ?_, ?_, ?_, k2, k3, k4, k5, k6, k7, ?_, ?_, ?_, ?_⟩
  · unfold io_sched_schedule_task
    rw [if_neg hp, hadm]
    exact hlink
  · rw [c1, fR]
  · rw [c2, fW]
  · rw [c3, fE]
  · rw [c4, fT]
  · rw [c5, hopts2, fRm]
  · intro h
    rw [c4] at h
    rw [hexp, ← hta, if_pos h]
    exact expire_at_total _ _
  · intro h
    rw [c4] at h
    have h2 : ¬ (S_IOSCHED_OPTS_TIMER (schedule_opts (m.tasks p)) = true) := by
      rw [h]; exact Bool.false_ne_true
    rw [hexp, ← hta, if_neg h2]
    exact g7
  · intro h
    rw [c1, fR] at h
    simp only [Bool.and_eq_true, bne_iff_ne, ne_eq] at h
    rw [k4]; exact h.2
  · intro h
    rw [c2, fW] at h
    simp only [Bool.and_eq_true, bne_iff_ne, ne_eq] at h
    rw [k5]; exact h.2
  · intro h
    rw [c3, fE] at h
    simp only [Bool.and_eq_true, bne_iff_ne, ne_eq] at h
    rw [k6]; exact h.2
  · intro h
    rw [c4, fT] at h
    simp only [Bool.and_eq_true, bne_iff_ne, ne_eq] at h
    rw [k7, k3]; exact h.2

/-- Witness of C1 (amended): a timer task with a timeout of 5 ns on a fresh
scheduler is admitted with Timer kept and expire-at 5 ns after the clock. -/
theorem schedule_task_admission_witness :
    (ex_timer5.1 ≠ 0 ∧ (ex_timer5.2.tasks ex_timer5.1).owner = ex_timer5.2.sched_at ∧
      isList ex_timer5.2.tasks ex_timer5.2.sched.scheduled_tasks []) ∧
    ∃ m2, io_sched_schedule_task 0 ex_timer5.2 ex_timer5.1 = some (true, m2) ∧
      S_IOSCHED_OPTS_TIMER (m2.tasks ex_timer5.1) = true ∧
      (m2.tasks ex_timer5.1).expire_time.total = 1000000000005 := by
  refine ⟨⟨by decide, by decide, by decide⟩, ?_⟩
  obtain ⟨m2, h1, _, _, _, h5, _, h7, _⟩ :=
    schedule_task_admission 0 ex_timer5.2 ex_timer5.1 [] (by decide) (by decide) (by decide)
      (by decide) (by decide) (by decide)
  have hT : S_IOSCHED_OPTS_TIMER (m2.tasks ex_timer5.1) = true := by rw [h5]; decide
  exact ⟨m2, h1, hT, by rw [h7 hT]; decide⟩

/-! ## C3 -/

theorem expire_loop_le (fuel : Nat) (sec t : Int) (hf : t ≤ fuel) :
    (expire_loop fuel sec t).2 ≤ IO_SCHEDULER_TIME_ONE_SECOND := by
  induction fuel generalizing sec t with
  | zero =>
    simp only [expire_loop]
    unfold IO_SCHEDULER_TIME_ONE_SECOND
    simp at hf
    omega
  | succ k ih =>
    unfold expire_loop
    split_ifs with h
    · apply ih
      unfold IO_SCHEDULER_TIME_ONE_SECOND at h
      push_cast at hf
      unfold IO_SCHEDULER_TIME_ONE_SECOND
      omega
    · simpa using h

theorem expire_at_nsec (now : timespec) (time_out : Int) (hn : now.normal) (ht : 0 ≤ time_out) :
    0 ≤ (expire_at now time_out).tv_nsec ∧
      (expire_at now time_out).tv_nsec ≤ IO_SCHEDULER_TIME_ONE_SECOND := by
  have h1 := expire_loop_nonneg time_out.toNat now.tv_sec time_out ht
  have h2 := expire_loop_le time_out.toNat now.tv_sec time_out (by rw [Int.toNat_of_nonneg ht])
  obtain ⟨n1, n2⟩ := hn
  unfold expire_at
  simp only []
  unfold IO_SCHEDULER_TIME_ONE_SECOND at *
  split_ifs with h
  · simp only []; omega
  · simp only []; omega

/-- The test `task_expired` compares the denoted nanoseconds, also against an
expiry time whose `tv_nsec` is exactly one second. -/
theorem task_expired_iff (c : timespec) (t : io_scheduler_task) (hc : c.normal)
    (h0 : 0 ≤ t.expire_time.tv_nsec) (h1 : t.expire_time.tv_nsec ≤ IO_SCHEDULER_TIME_ONE_SECOND)
    (hto : t.time_out ≠ IO_SCHEDULER_NO_TIMEOUT) :
    task_expired c t = true ↔ t.expire_time.total ≤ c.total := by
  obtain ⟨n1, n2⟩ := hc
  unfold task_expired timespec.total
  simp only [Bool.and_eq_true, bne_iff_ne, ne_eq, Bool.or_eq_true, decide_eq_true_eq,
    beq_iff_eq, ge_iff_le, gt_iff_lt]
  unfold IO_SCHEDULER_TIME_ONE_SECOND at *
  constructor
  · rintro ⟨_, h | ⟨h, h2⟩⟩
    · omega
    · omega
  · intro h
    refine ⟨hto, ?_⟩
    by_cases hs : t.expire_time.tv_sec < c.tv_sec
    · exact Or.inl hs
    · right
      omega

/-- C3: `io_sched_process_task` on a pure-timer task (negative descriptor,
on_timeout present).  Not expired: no callback is invoked and the result is
not-complete, machine and sets unchanged.  Expired: on_timeout is invoked
exactly once, with the OpTimeout code; when it returns true the result is
complete; when it returns false (the timeout being non-negative) the result is
not-complete and expire-at is set to the clock plus the timeout of the task,
so that the task is expired again exactly from one timeout period later on. -/
theorem process_task_pure_timer (env : CbkEnv) (m : Machine) (p : Int)
    (rds wrs ers : Int → Bool)
    (hfd : (m.tasks p).fd < 0) (hcb : (m.tasks p).on_timeout_cbk ≠ 0) :
    (task_expired m.now (m.tasks p) = false →
      io_sched_process_task env m p rds wrs ers =
        some { rv := false, m := m, rds := rds, wrs := wrs, ers := ers, calls := [] }) ∧
    (task_expired m.now (m.tasks p) = true →
      (env (m.tasks p).on_timeout_cbk p IO_SCHEDULER_ERR_OP_TIMEOUT m).1 = true →
      io_sched_process_task env m p rds wrs ers =
        some { rv := true, m := (env (m.tasks p).on_timeout_cbk p IO_SCHEDULER_ERR_OP_TIMEOUT m).2,
               rds := rds, wrs := wrs, ers := ers,
               calls := [⟨(m.tasks p).on_timeout_cbk, p, IO_SCHEDULER_ERR_OP_TIMEOUT⟩] }) ∧
    (task_expired m.now (m.tasks p) = true →
      (env (m.tasks p).on_timeout_cbk p IO_SCHEDULER_ERR_OP_TIMEOUT m).1 = false →
      0 ≤ ((env (m.tasks p).on_timeout_cbk p IO_SCHEDULER_ERR_OP_TIMEOUT m).2.tasks p).time_out →
      ∃ st, io_sched_process_task env m p rds wrs ers = some st ∧
        st.rv = false ∧
        st.calls = [⟨(m.tasks p).on_timeout_cbk, p, IO_SCHEDULER_ERR_OP_TIMEOUT⟩] ∧
        st.rds = rds ∧ st.wrs = wrs ∧ st.ers = ers ∧
        (st.m.tasks p).expire_time.total =
          (env (m.tasks p).on_timeout_cbk p IO_SCHEDULER_ERR_OP_TIMEOUT m).2.now.total +
            (st.m.tasks p).time_out ∧
        (st.m.tasks p).time_out =
          ((env (m.tasks p).on_timeout_cbk p IO_SCHEDULER_ERR_OP_TIMEOUT m).2.tasks p).time_out ∧
        (st.m.tasks p).opts =
          ((env (m.tasks p).on_timeout_cbk p IO_SCHEDULER_ERR_OP_TIMEOUT m).2.tasks p).opts ∧
        ((env (m.tasks p).on_timeout_cbk p IO_SCHEDULER_ERR_OP_TIMEOUT m).2.now.normal →
          ∀ c : timespec, c.normal →
            (task_expired c (st.m.tasks p) = true ↔
              (env (m.tasks p).on_timeout_cbk p IO_SCHEDULER_ERR_OP_TIMEOUT m).2.now.total +
                (st.m.tasks p).time_out ≤ c.total))) := by
  have hbr : ¬ ((m.tasks p).fd > INVALID_GENERAL_FD) := by
    unfold INVALID_GENERAL_FD; omega
  refine ⟨?_, ?_, ?_⟩
  · intro he
    unfold io_sched_process_task
    simp only [if_neg hbr, he, process_timer]
    rfl
  · intro he hr
    unfold io_sched_process_task
    simp only [if_neg hbr, he, process_timer, call_cbk, if_neg hcb, if_true, List.nil_append, hr]
    rfl
  · intro he hr hto
    generalize hm1 : (env (m.tasks p).on_timeout_cbk p IO_SCHEDULER_ERR_OP_TIMEOUT m).2 = m1
      at hto ⊢
    unfold io_sched_process_task
    simp only [if_neg hbr, he, process_timer, call_cbk, if_neg hcb, if_true, List.nil_append, hr,
      hm1, Bool.not_false, populate_some m1 p hto]
    refine ⟨_, rfl, rfl, rfl, rfl, rfl, rfl, ?_, ?_, ?_, ?_⟩
    · simp only [write_tasks_same]
      exact expire_at_total _ _
    · simp only [write_tasks_same]
    · simp only [write_tasks_same]
    · intro hn c hc
      simp only [write_tasks_same]
      obtain ⟨a1, a2⟩ := expire_at_nsec m1.now (m1.tasks p).time_out hn hto
      have hne : (m1.tasks p).time_out ≠ IO_SCHEDULER_NO_TIMEOUT := by
        unfold IO_SCHEDULER_NO_TIMEOUT; omega
      have := task_expired_iff c
        { m1.tasks p with expire_time := expire_at m1.now (m1.tasks p).time_out } hc a1 a2 hne
      rw [this]
      simp only [expire_at_total]

/-- Witness of C3: the expired 5 ns timer of the examples, with a callback that
returns false, is re-armed for 5 ns after the clock reading. -/
theorem process_task_pure_timer_witness :
    ((ex_later5.tasks ex_timer5.1).fd < 0 ∧ (ex_later5.tasks ex_timer5.1).on_timeout_cbk ≠ 0 ∧
      task_expired ex_later5.now (ex_later5.tasks ex_timer5.1) = true) ∧
    ∃ st, io_sched_process_task ex_env_false ex_later5 ex_timer5.1
        (fun _ => false) (fun _ => false) (fun _ => false) = some st ∧
      st.rv = false ∧ st.calls = [⟨77, ex_timer5.1, IO_SCHEDULER_ERR_OP_TIMEOUT⟩] ∧
      (st.m.tasks ex_timer5.1).expire_time.total = 2000000000005 := by
  refine ⟨⟨by decide, by decide, by decide⟩, ?_⟩
  obtain ⟨st, h1, h2, h3, _, _, _, h4, h5, _⟩ :=
    (process_task_pure_timer ex_env_false ex_later5 ex_timer5.1
      (fun _ => false) (fun _ => false) (fun _ => false) (by decide) (by decide)).2.2
      (by decide) (by decide) (by decide)
  refine ⟨st, h1, h2, ?_, ?_⟩
  · rw [h3]; decide
  · rw [h4, h5]; decide

/-! ## The fixed stack -/

theorem stack_contents_length (s : stack) : (stack_contents s).length = stack_fixed_size s := by
  simp [stack_contents, stack_fixed_size]

theorem stack_pop_nonempty (s : stack) (h : s.current < s.limit) :
    stack_contents s =
      (stack_fixed_pop_and_return s).1 :: stack_contents (stack_fixed_pop_and_return s).2 := by
  unfold stack_fixed_pop_and_return stack_contents
  rw [if_pos h]
  simp only []
  have e : s.limit - s.current = (s.limit - (s.current + 1)) + 1 := by omega
  rw [e, List.range'_succ, List.map_cons]
  congr 1
  apply List.map_congr_left
  intro a ha
  have := (List.mem_range'_1.mp ha).1
  have hne : a ≠ s.current := by omega
  simp [store, hne]

theorem stack_pop_empty (s : stack) (h : ¬ s.current < s.limit) :
    stack_fixed_pop_and_return s = (0, s) := by
  unfold stack_fixed_pop_and_return
  rw [if_neg h]

theorem stack_push_ok (s : stack) (d : Int) (h : 0 < s.current) (hwf : s.current ≤ s.limit) :
    (stack_fixed_push s d).1 ≠ STACK_ERROR_FULL ∧
    stack_contents (stack_fixed_push s d).2 = d :: stack_contents s ∧
    (stack_fixed_push s d).2.limit = s.limit ∧
    (stack_fixed_push s d).2.current + 1 = s.current := by
  unfold stack_fixed_push stack_contents
  rw [if_pos h]
  simp only []
  refine ⟨?_, ?_, trivial, by omega⟩
  · unfold STACK_ERROR_FULL; omega
  · have e : s.limit - (s.current - 1) = (s.limit - s.current) + 1 := by omega
    have e2 : s.current - 1 + 1 = s.current := by omega
    rw [e, List.range'_succ, List.map_cons, e2]
    congr 1
    · simp [store]
    · apply List.map_congr_left
      intro a ha
      have := (List.mem_range'_1.mp ha).1
      have hne : a ≠ s.current - 1 := by omega
      simp [store, hne]

theorem stack_push_full (s : stack) (d : Int) (h : ¬ 0 < s.current) :
    stack_fixed_push s d = (STACK_ERROR_FULL, s) := by
  unfold stack_fixed_push
  rw [if_neg h]

/-! ## C6 -/

theorem create_tasks_spec (malloc : Nat → Int) (left ii : Nat) (s : stack)
    (hc : s.current = left) (hwf : s.current ≤ s.limit)
    (hm : ∀ i, ii ≤ i → i < ii + left → malloc i ≠ 0) :
    ∃ s2, create_tasks malloc left ii s = some s2 ∧
      stack_contents s2 = ((List.range' ii left).map malloc).reverse ++ stack_contents s ∧
      s2.current = 0 ∧ s2.limit = s.limit := by
  induction left generalizing ii s with
  | zero => exact ⟨s, rfl, by simp, hc, rfl⟩
  | succ k ih =>
    unfold create_tasks
    have hne : malloc ii ≠ 0 := hm ii (le_refl _) (by omega)
    obtain ⟨p1, p2, p3, p4⟩ := stack_push_ok s (malloc ii) (by omega) hwf
    simp only [if_neg hne, if_neg p1]
    obtain ⟨s2, e1, e2, e3, e4⟩ := ih (ii + 1) (stack_fixed_push s (malloc ii)).2 (by omega)
      (by omega) (fun i h1 h2 => hm i (by omega) (by omega))
    refine ⟨s2, e1, ?_, e3, by rw [e4, p3]⟩
    rw [e2, p2, List.range'_succ, List.map_cons, List.reverse_cons, List.append_assoc]
    rfl

theorem create_timers_spec (fuel : Nat) (timer_id : Int) (s : stack)
    (hc : s.current = fuel) (hwf : s.current ≤ s.limit) (hid : timer_id = -2 - (fuel : Int)) :
    stack_contents (create_timers fuel timer_id s) =
        (List.range fuel).map (fun i : Nat => -3 - (i : Int)) ++ stack_contents s ∧
      (create_timers fuel timer_id s).current = 0 ∧
      (create_timers fuel timer_id s).limit = s.limit := by
  induction fuel generalizing timer_id s with
  | zero => exact ⟨by simp [create_timers], hc, rfl⟩
  | succ k ih =>
    unfold create_timers
    have hlt : timer_id < -2 := by rw [hid]; push_cast; omega
    obtain ⟨p1, p2, p3, p4⟩ := stack_push_ok s timer_id (by omega) hwf
    simp only [if_pos hlt, if_neg p1]
    obtain ⟨e2, e3, e4⟩ := ih (timer_id + 1) (stack_fixed_push s timer_id).2 (by omega)
      (by omega) (by rw [hid]; push_cast; ring)
    refine ⟨?_, e3, by rw [e4, p3]⟩
    rw [e2, p2, List.range_succ, List.map_append, List.append_assoc]
    congr 1
    simp only [List.map_cons, List.map_nil, List.singleton_append, List.cons.injEq, and_true]
    rw [hid]; push_cast; ring

theorem timer_ids_mem (n : Nat) (t : Int) :
    t ∈ (List.range n).map (fun i : Nat => -3 - (i : Int)) ↔ -(n : Int) - 2 ≤ t ∧ t < -2 := by
  simp only [List.mem_map, List.mem_range]
  constructor
  · rintro ⟨i, hi, rfl⟩
    constructor <;> omega
  · rintro ⟨h1, h2⟩
    refine ⟨(-3 - t).toNat, ?_, ?_⟩
    · omega
    · rw [Int.toNat_of_nonneg (by omega)]; ring

theorem timer_ids_nodup (n : Nat) : ((List.range n).map (fun i : Nat => -3 - (i : Int))).Nodup := by
  apply List.Nodup.map _ (List.nodup_range n)
  intro a b h
  simp only at h
  omega

/-- The pools of the scheduler that `io_sched_create_scheduler` makes for
positive counts when every slot allocation succeeds. -/
theorem create_scheduler_pools (max_tasks max_timers : Nat) (malloc : Nat → Int)
    (h1 : 0 < max_tasks) (h2 : 0 < max_timers) (hm : ∀ i, i < max_tasks → malloc i ≠ 0) :
    ∃ s, io_sched_create_scheduler max_tasks max_timers malloc = some s ∧
      s.scheduled_tasks = 0 ∧ s.stop_scheduler = false ∧ s.scheduler_thread = 0 ∧
      stack_fixed_size s.task_pool = max_tasks ∧
      s.task_pool.limit = max_tasks ∧
      stack_contents s.task_pool = ((List.range max_tasks).map malloc).reverse ∧
      stack_fixed_size s.timer_id_pool = max_timers ∧
      s.timer_id_pool.limit = max_timers ∧
      (stack_contents s.timer_id_pool).Nodup ∧
      (∀ t : Int, t ∈ stack_contents s.timer_id_pool ↔
        -(max_timers : Int) - 2 ≤ t ∧ t < -2) ∧
      (∀ t ∈ stack_contents s.timer_id_pool, t ≠ INVALID_GENERAL_FD ∧ ¬ 0 ≤ t) := by
  have hn : ¬ (max_tasks = 0 ∨ max_timers = 0) := by omega
  have i1 : stack_fixed_init max_tasks =
      some { current := max_tasks, limit := max_tasks, fixed_base := fun _ => 0 } := by
    unfold stack_fixed_init; rw [if_neg (by omega)]
  have i2 : stack_fixed_init max_timers =
      some { current := max_timers, limit := max_timers, fixed_base := fun _ => 0 } := by
    unfold stack_fixed_init; rw [if_neg (by omega)]
  obtain ⟨tp, e1, e2, e3, e4⟩ := create_tasks_spec malloc max_tasks 0
    { current := max_tasks, limit := max_tasks, fixed_base := fun _ => 0 } rfl (le_refl _)
    (fun i _ hi => hm i (by omega))
  have hfuel : (-2 - (-(max_timers : Int) - 2)).toNat = max_timers := by omega
  obtain ⟨t2, t3, t4⟩ := create_timers_spec max_timers (-(max_timers : Int) - 2)
    { current := max_timers, limit := max_timers, fixed_base := fun _ => 0 } rfl (le_refl _)
    (by ring)
  have hempty : ∀ n : Nat, stack_contents
      { current := n, limit := n, fixed_base := fun _ => 0 } = [] := by
    intro n; simp [stack_contents]
  rw [hempty, List.append_nil] at e2 t2
  unfold io_sched_create_scheduler
  simp only [if_neg hn, i1, i2, e1, hfuel]
  refine ⟨_, rfl, rfl, rfl, rfl, ?_, e4, ?_, ?_, t4, ?_, ?_, ?_⟩
  · simp only [stack_fixed_size, e3, e4]; omega
  · rw [e2, List.range_eq_range']
  · simp only [stack_fixed_size, t3, t4]; omega
  · rw [t2]; exact timer_ids_nodup _
  · intro t; rw [t2]; exact timer_ids_mem _ _
  · intro t ht
    rw [t2] at ht
    have := (timer_ids_mem _ _).mp ht
    unfold INVALID_GENERAL_FD
    constructor <;> omega

/-- C8: `io_sched_create_scheduler` yields no scheduler when either count is
zero.  For positive counts, every slot allocation succeeding, the new scheduler
has an empty live list, a clear stop flag and no worker thread; its task pool
holds exactly the `max_concurrent_tasks` allocated slots; its timer-id pool holds
`max_num_timers` pairwise distinct ids, and an integer is in it exactly when it
lies in `[-max_num_timers-2, -2)`, so no id is -1 or a descriptor >= 0. -/
theorem create_scheduler_spec (max_tasks max_timers : Nat) (malloc : Nat → Int) :
    ((max_tasks = 0 ∨ max_timers = 0) →
      io_sched_create_scheduler max_tasks max_timers malloc = none) ∧
    (0 < max_tasks → 0 < max_timers → (∀ i, i < max_tasks → malloc i ≠ 0) →
      ∃ s, io_sched_create_scheduler max_tasks max_timers malloc = some s ∧
        s.scheduled_tasks = 0 ∧ s.stop_scheduler = false ∧ s.scheduler_thread = 0 ∧
        stack_fixed_size s.task_pool = max_tasks ∧
        s.task_pool.limit = max_tasks ∧
        stack_contents s.task_pool = ((List.range max_tasks).map malloc).reverse ∧
        stack_fixed_size s.timer_id_pool = max_timers ∧
        s.timer_id_pool.limit = max_timers ∧
        (stack_contents s.timer_id_pool).Nodup ∧
        (∀ t : Int, t ∈ stack_contents s.timer_id_pool ↔
          -(max_timers : Int) - 2 ≤ t ∧ t < -2) ∧
        (∀ t ∈ stack_contents s.timer_id_pool, t ≠ INVALID_GENERAL_FD ∧ ¬ 0 ≤ t)) := by
  constructor
  · intro h
    unfold io_sched_create_scheduler
    rw [if_pos h]
  · exact create_scheduler_pools max_tasks max_timers malloc

/-- Witness of C8: `io_sched_create_scheduler ( 2, 2 )` with both allocations
succeeding gives two free slots and the ids -4 and -3. -/
theorem create_scheduler_spec_witness :
    ((0 : Nat) < 2 ∧ ∀ i, i < 2 → ex_malloc i ≠ 0) ∧
    ∃ s, io_sched_create_scheduler 2 2 ex_malloc = some s ∧
      stack_fixed_size s.task_pool = 2 ∧ stack_fixed_size s.timer_id_pool = 2 ∧
      ∀ t : Int, t ∈ stack_contents s.timer_id_pool ↔ -4 ≤ t ∧ t < -2 := by
  have hm : ∀ i, i < 2 → ex_malloc i ≠ 0 := by
    intro i _; unfold ex_malloc; omega
  refine ⟨⟨by decide, hm⟩, ?_⟩
  obtain ⟨s, h1, _, _, _, h2, _, _, h3, _, _, h4, _⟩ :=
    (create_scheduler_spec 2 2 ex_malloc).2 (by decide) (by decide) hm
  exact ⟨s, h1, h2, h3, fun t => by simpa using h4 t⟩

/-! ## C10 -/

/-- C10, as stated, fails: on a task whose descriptor is `INVALID_GENERAL_FD`
`io_sched_unschedule_task` does not set the Remove flag. -/
theorem unschedule_invalid_fd_keeps_flag :
    ex_invalid_fd.1 ≠ 0 ∧
    S_IOSCHED_OPTS_REMOVE
      ((io_sched_unschedule_task ex_invalid_fd.2 ex_invalid_fd.1).tasks ex_invalid_fd.1) = false := by
  decide

/-- C10 (amended): for a non-null task whose descriptor is not
`INVALID_GENERAL_FD`, `io_sched_unschedule_task` sets the Remove flag and
changes nothing else: the other option bits and every other field of the task,
every other task, the scheduler record (live-list head, both pools, stop flag)
and the clock are unchanged, so the live list is the same sequence as before;
a second call changes nothing.  For a task whose descriptor is
`INVALID_GENERAL_FD` the call changes nothing at all. -/
theorem unschedule_task_spec (m : Machine) (p : Int) (l : List Int) (hp : p ≠ 0)
    (hl : isList m.tasks m.sched.scheduled_tasks l) :
    ((m.tasks p).fd ≠ INVALID_GENERAL_FD →
      S_IOSCHED_OPTS_REMOVE ((io_sched_unschedule_task m p).tasks p) = true ∧
      (∀ j, j ≠ 31 → ((io_sched_unschedule_task m p).tasks p).opts.testBit j =
        (m.tasks p).opts.testBit j) ∧
      (io_sched_unschedule_task m p).tasks p =
        { m.tasks p with opts := ((io_sched_unschedule_task m p).tasks p).opts } ∧
      (∀ q, q ≠ p → (io_sched_unschedule_task m p).tasks q = m.tasks q) ∧
      (io_sched_unschedule_task m p).sched = m.sched ∧
      (io_sched_unschedule_task m p).now = m.now ∧
      (io_sched_unschedule_task m p).sched_at = m.sched_at ∧
      isList (io_sched_unschedule_task m p).tasks
        (io_sched_unschedule_task m p).sched.scheduled_tasks l ∧
      io_sched_unschedule_task (io_sched_unschedule_task m p) p = io_sched_unschedule_task m p) ∧
    ((m.tasks p).fd = INVALID_GENERAL_FD → io_sched_unschedule_task m p = m) := by
  constructor
  · intro hfd
    have hu : io_sched_unschedule_task m p =
        m.write p { m.tasks p with opts := (m.tasks p).opts ||| IO_SCHEDULER_REMOVE } := by
      unfold io_sched_unschedule_task
      rw [if_pos ⟨hp, hfd⟩]
    rw [hu]
    refine ⟨?_, ?_, ?_, ?_, rfl, rfl, rfl, ?_, ?_⟩
    · rw [write_tasks_same, opts_remove_eq]
      simp only []
      rw [testBit_set_remove]
      simp
    · intro j hj
      rw [write_tasks_same]
      simp only []
      rw [testBit_set_remove]
      simp [hj]
    · rw [write_tasks_same]
    · intro q hq
      exact write_tasks_other _ _ _ _ hq
    · apply isList_congr m.tasks _ l _ _ hl
      intro a _
      by_cases ha : a = p
      · subst ha; rw [write_tasks_same]
      · rw [write_tasks_other _ _ _ _ ha]
    · unfold io_sched_unschedule_task
      have hfd2 : ((m.write p { m.tasks p with
          opts := (m.tasks p).opts ||| IO_SCHEDULER_REMOVE }).tasks p).fd ≠ INVALID_GENERAL_FD := by
        rw [write_tasks_same]; exact hfd
      rw [if_pos ⟨hp, hfd2⟩, write_write, write_tasks_same]
      simp only [Nat.or_assoc, Nat.or_self]
  · intro hfd
    unfold io_sched_unschedule_task
    rw [if_neg (fun h => h.2 hfd)]

/-- Witness of C10 (amended): unscheduling the scheduled timer of the examples
sets its Remove flag and leaves it in the live list. -/
theorem unschedule_task_spec_witness :
    (ex_timer5.1 ≠ 0 ∧ isList ex_live5.tasks ex_live5.sched.scheduled_tasks [ex_timer5.1] ∧
      (ex_live5.tasks ex_timer5.1).fd ≠ INVALID_GENERAL_FD) ∧
    S_IOSCHED_OPTS_REMOVE ((io_sched_unschedule_task ex_live5 ex_timer5.1).tasks ex_timer5.1) = true ∧
    isList (io_sched_unschedule_task ex_live5 ex_timer5.1).tasks
      (io_sched_unschedule_task ex_live5 ex_timer5.1).sched.scheduled_tasks [ex_timer5.1] :=
  ⟨⟨by decide, by decide, by decide⟩,
    ((unschedule_task_spec ex_live5 ex_timer5.1 [ex_timer5.1] (by decide) (by decide)).1
      (by decide)).1,
    ((unschedule_task_spec ex_live5 ex_timer5.1 [ex_timer5.1] (by decide) (by decide)).1
      (by decide)).2.2.2.2.2.2.2.1⟩

/-! ## Destroying a task -/

/-- The effect of `io_sched_destroy_task` when both pools have room. -/
theorem destroy_task_spec (m : Machine) (a : Int) (ha : a ≠ 0)
    (hown : (m.tasks a).owner = m.sched_at)
    (htp : 0 < m.sched.task_pool.current)
    (hwf1 : m.sched.task_pool.current ≤ m.sched.task_pool.limit)
    (hip : (m.tasks a).fd < INVALID_GENERAL_FD → 0 < m.sched.timer_id_pool.current)
    (hwf2 : m.sched.timer_id_pool.current ≤ m.sched.timer_id_pool.limit) :
    ∃ m1, io_sched_destroy_task m a = some m1 ∧
      m1.tasks a = zero_task ∧ (∀ q, q ≠ a → m1.tasks q = m.tasks q) ∧
      stack_contents m1.sched.task_pool = a :: stack_contents m.sched.task_pool ∧
      m1.sched.task_pool.limit = m.sched.task_pool.limit ∧
      m1.sched.task_pool.current + 1 = m.sched.task_pool.current ∧
      stack_contents m1.sched.timer_id_pool =
        timer_ids_of m [a] ++ stack_contents m.sched.timer_id_pool ∧
      m1.sched.timer_id_pool.limit = m.sched.timer_id_pool.limit ∧
      m1.sched.timer_id_pool.current + (timer_ids_of m [a]).length =
        m.sched.timer_id_pool.current ∧
      m1.sched.scheduled_tasks = m.sched.scheduled_tasks ∧
      m1.sched.stop_scheduler = m.sched.stop_scheduler ∧
      m1.sched.scheduler_thread = m.sched.scheduler_thread ∧
      m1.sched_at = m.sched_at ∧ m1.now = m.now := by
  unfold io_sched_destroy_task
  rw [if_neg ha, if_neg (not_not.mpr hown)]
  by_cases hfd : (m.tasks a).fd < INVALID_GENERAL_FD
  · obtain ⟨_, q2, q3, q4⟩ := stack_push_ok m.sched.timer_id_pool (m.tasks a).fd (hip hfd) hwf2
    obtain ⟨p1, p2, p3, p4⟩ := stack_push_ok m.sched.task_pool a htp hwf1
    simp only [if_pos hfd, if_neg p1]
    refine ⟨_, rfl, write_tasks_same _ _ _, fun q hq => write_tasks_other _ _ _ _ hq,
      p2, p3, p4, ?_, q3, ?_, rfl, rfl, rfl, rfl, rfl⟩
    · simp only [write_sched, q2, timer_ids_of, ids_of, List.filter_cons, hfd, decide_True, if_true,
        List.filter_nil, List.map_cons, List.map_nil, List.singleton_append]
    · simp only [write_sched, timer_ids_of, ids_of, List.filter_cons, hfd, decide_True, if_true,
        List.filter_nil, List.map_cons, List.map_nil, List.length_singleton]
      exact q4
  · obtain ⟨p1, p2, p3, p4⟩ := stack_push_ok m.sched.task_pool a htp hwf1
    simp only [if_neg hfd, if_neg p1]
    refine ⟨_, rfl, write_tasks_same _ _ _, fun q hq => write_tasks_other _ _ _ _ hq,
      p2, p3, p4, ?_, rfl, ?_, rfl, rfl, rfl, rfl, rfl⟩
    · simp [timer_ids_of, ids_of, hfd]
    · simp [timer_ids_of, ids_of, hfd]

theorem ids_of_append (F : Int → Int) (r1 r2 : List Int) :
    ids_of F (r1 ++ r2) = ids_of F r1 ++ ids_of F r2 := by
  simp [ids_of]

theorem ids_of_congr (F G : Int → Int) (r : List Int) (h : ∀ a ∈ r, F a = G a) :
    ids_of F r = ids_of G r := by
  induction r with
  | nil => rfl
  | cons a r ih =>
    have ha := h a (List.mem_cons_self a r)
    have ih2 := ih (fun b hb => h b (List.mem_cons_of_mem a hb))
    unfold ids_of at ih2 ⊢
    simp only [List.filter_cons, ha]
    split_ifs
    · simp only [List.map_cons, ha, ih2]
    · exact ih2

theorem destroyed_nil (F : Int → Int) (m : Machine) : destroyed F m m [] := by
  unfold destroyed
  simp [ids_of]

theorem destroyed_trans (F : Int → Int) (m m1 m2 : Machine) (r1 r2 : List Int)
    (h1 : destroyed F m m1 r1) (h2 : destroyed F m1 m2 r2)
    (hk : ∀ a ∈ r1, m2.tasks a = m1.tasks a) : destroyed F m m2 (r1 ++ r2) := by
  obtain ⟨a1, a2, a3, a4, a5, a6, a7, a8, a9, a10, a11⟩ := h1
  obtain ⟨b1, b2, b3, b4, b5, b6, b7, b8, b9, b10, b11⟩ := h2
  refine ⟨?_, ?_, ?_, ?_, ?_, ?_, ?_, ?_, ?_, ?_, ?_⟩
  · rw [b1, a1, List.reverse_append, List.append_assoc]
  · rw [b2, a2]
  · rw [List.length_append]; omega
  · rw [b4, a4, ids_of_append, List.reverse_append, List.append_assoc]
  · rw [b5, a5]
  · rw [ids_of_append, List.length_append]; omega
  · rw [b7, a7]
  · rw [b8, a8]
  · rw [b9, a9]
  · rw [b10, a10]
  · intro a ha
    rcases List.mem_append.mp ha with h | h
    · rw [hk a h]; exact a11 a h
    · exact b11 a h

theorem room_tail (F : Int → Int) (m m1 : Machine) (a : Int) (r : List Int)
    (hr : room F m (a :: r)) (hd : destroyed F m m1 [a]) : room F m1 r := by
  obtain ⟨r1, r2, r3, r4⟩ := hr
  obtain ⟨_, a2, a3, _, a5, a6, _⟩ := hd
  have e : ids_of F (a :: r) = ids_of F [a] ++ ids_of F r := ids_of_append F [a] r
  rw [e, List.length_append] at r3
  simp only [List.length_cons, List.length_singleton, List.length_nil] at r1 a3
  refine ⟨by omega, by omega, by omega, by omega⟩

theorem destroy_one (F : Int → Int) (m : Machine) (a : Int) (ha : a ≠ 0)
    (hown : (m.tasks a).owner = m.sched_at) (hF : F a = (m.tasks a).fd)
    (hr : room F m [a]) :
    ∃ m1, io_sched_destroy_task m a = some m1 ∧ destroyed F m m1 [a] ∧
      (∀ q, q ≠ a → m1.tasks q = m.tasks q) ∧
      m1.sched.scheduled_tasks = m.sched.scheduled_tasks := by
  obtain ⟨r1, r2, r3, r4⟩ := hr
  have hids : ids_of F [a] = timer_ids_of m [a] := by
    unfold timer_ids_of
    apply ids_of_congr
    intro b hb
    rw [List.mem_singleton.mp hb, hF]
  rw [hids] at r3
  have hip : (m.tasks a).fd < INVALID_GENERAL_FD → 0 < m.sched.timer_id_pool.current := by
    intro h
    have : (timer_ids_of m [a]).length = 1 := by simp [timer_ids_of, ids_of, h]
    omega
  obtain ⟨m1, e, d1, d2, d3, d4, d5, d6, d7, d8, d9, d10, d11, d12, d13⟩ :=
    destroy_task_spec m a ha hown (by simpa using r1) r2 hip r4
  refine ⟨m1, e, ⟨?_, d4, ?_, ?_, d7, ?_, d10, d11, d12, d13, ?_⟩, d2, d9⟩
  · rw [d3]; rfl
  · simpa using d5
  · rw [d6, hids]
    have : (timer_ids_of m [a]).reverse = timer_ids_of m [a] := by
      unfold timer_ids_of ids_of
      by_cases h : (m.tasks a).fd < INVALID_GENERAL_FD <;> simp [h]
    rw [this]
  · rw [hids]; exact d8
  · intro b hb
    rw [List.mem_singleton.mp hb]; exact d1

/-- The loop that clears removes from the front of the live list. -/
theorem reap_front_spec (P : Int → Bool) (F : Int → Int) (l : List Int) (fuel : Nat)
    (m : Machine)
    (hl : isList m.tasks m.sched.scheduled_tasks l)
    (hP : ∀ a ∈ l, reapable (m.tasks a) = P a) (hF : ∀ a ∈ l, F a = (m.tasks a).fd)
    (hown : ∀ a ∈ l, (m.tasks a).owner = m.sched_at)
    (hr : room F m (l.takeWhile P)) (hfuel : l.length < fuel) :
    ∃ m1, reap_front fuel m = some m1 ∧
      isList m1.tasks m1.sched.scheduled_tasks (l.dropWhile P) ∧
      destroyed F m m1 (l.takeWhile P) ∧
      (∀ q, q ∉ l.takeWhile P → m1.tasks q = m.tasks q) := by
  induction l generalizing fuel m with
  | nil =>
    cases fuel with
    | zero => simp at hfuel
    | succ k =>
      unfold reap_front
      have h0 : m.sched.scheduled_tasks = 0 := hl
      simp only [h0, ne_eq, not_true_eq_false, false_and, if_false]
      exact ⟨m, rfl, hl, destroyed_nil F m, fun q _ => rfl⟩
  | cons a l ih =>
    obtain ⟨e, ne, rest⟩ := hl
    have hnd := isList_nodup m.tasks (a :: l) _ ⟨e, ne, rest⟩
    have hal : a ∉ l := (List.nodup_cons.mp hnd).1
    cases fuel with
    | zero => simp at hfuel
    | succ k =>
      unfold reap_front
      rw [e]
      by_cases hp : P a = true
      · have hra : reapable (m.tasks a) = true := by
          rw [hP a (List.mem_cons_self a l)]; exact hp
        rw [List.takeWhile_cons_of_pos hp] at hr ⊢
        rw [List.dropWhile_cons_of_pos hp]
        have hr1 : room F m [a] := by
          obtain ⟨r1, r2, r3, r4⟩ := hr
          have e2 : ids_of F (a :: List.takeWhile P l) =
              ids_of F [a] ++ ids_of F (List.takeWhile P l) := ids_of_append F [a] _
          rw [e2, List.length_append] at r3
          simp only [List.length_cons] at r1
          exact ⟨by simp; omega, r2, by omega, r4⟩
        obtain ⟨m1, d1, d2, d3, d4⟩ := destroy_one F m a ne
          (hown a (List.mem_cons_self a l)) (hF a (List.mem_cons_self a l)) hr1
        simp only [ne_eq, ne, not_false_eq_true, hra, and_self, if_true, d1]
        have hsame : ∀ b ∈ l, m1.tasks b = m.tasks b := by
          intro b hb
          apply d3
          intro h; rw [h] at hb; exact hal hb
        obtain ⟨m2, f1, f2, f3, f4⟩ := ih k
          { m1 with sched := { m1.sched with scheduled_tasks := (m.tasks a).next } }
          (isList_congr m.tasks _ l _ (fun b hb => by rw [hsame b hb]) rest)
          (fun b hb => by
            show reapable (m1.tasks b) = P b
            rw [hsame b hb]; exact hP b (List.mem_cons_of_mem a hb))
          (fun b hb => by
            show F b = (m1.tasks b).fd
            rw [hsame b hb]; exact hF b (List.mem_cons_of_mem a hb))
          (fun b hb => by
            show (m1.tasks b).owner = m1.sched_at
            rw [hsame b hb, d2.2.2.2.2.2.2.2.2.1]; exact hown b (List.mem_cons_of_mem a hb))
          (room_tail F m _ a _ hr d2) (by simpa using hfuel)
        refine ⟨m2, f1, f2, ?_, ?_⟩
        · have := destroyed_trans F m
            { m1 with sched := { m1.sched with scheduled_tasks := (m.tasks a).next } } m2
            [a] (l.takeWhile P) d2 f3 (fun b hb => by
              rw [List.mem_singleton.mp hb]
              apply f4
              intro h
              exact hal (( List.takeWhile_prefix P).subset h))
          simpa using this
        · intro q hq
          have hq1 : q ≠ a := by
            intro h; apply hq; rw [h]; exact List.mem_cons_self _ _
          have hq2 : q ∉ l.takeWhile P := by
            intro h; exact hq (List.mem_cons_of_mem a h)
          rw [f4 q hq2]
          exact d3 q hq1
      · have hra : reapable (m.tasks a) = false := by
          rw [hP a (List.mem_cons_self a l)]; simpa using hp
        rw [List.takeWhile_cons_of_neg hp, List.dropWhile_cons_of_neg hp]
        simp only [hra, Bool.false_eq_true, and_false, if_false]
        exact ⟨m, rfl, ⟨e, ne, rest⟩, destroyed_nil F m, fun q _ => rfl⟩

theorem destroyed_write (F : Int → Int) (m m1 : Machine) (r : List Int) (b : Int)
    (t : io_scheduler_task) (h : destroyed F m m1 r) (hb : b ∉ r) :
    destroyed F m (m1.write b t) r := by
  obtain ⟨a1, a2, a3, a4, a5, a6, a7, a8, a9, a10, a11⟩ := h
  refine ⟨a1, a2, a3, a4, a5, a6, a7, a8, a9, a10, ?_⟩
  intro a ha
  have hne : a ≠ b := by
    intro h; rw [h] at ha; exact hb ha
  rw [write_tasks_other _ _ _ _ hne]
  exact a11 a ha

/-- The scan ahead that unlinks the removes behind a task. -/
theorem scan_ahead_spec (P : Int → Bool) (F : Int → Int) (rest : List Int) (fuel : Nat)
    (m : Machine) (b : Int)
    (hl : isList m.tasks (m.tasks b).next rest) (hb : b ∉ rest)
    (hP : ∀ a ∈ rest, reapable (m.tasks a) = P a) (hF : ∀ a ∈ rest, F a = (m.tasks a).fd)
    (hown : ∀ a ∈ rest, (m.tasks a).owner = m.sched_at)
    (hr : room F m (rest.takeWhile P)) (hfuel : rest.length < fuel) :
    ∃ m1, scan_ahead fuel m b = some m1 ∧
      isList m1.tasks (m1.tasks b).next (rest.dropWhile P) ∧
      destroyed F m m1 (rest.takeWhile P) ∧
      (∃ n, m1.tasks b = { m.tasks b with next := n }) ∧
      (∀ q, q ∉ rest.takeWhile P → q ≠ b → m1.tasks q = m.tasks q) ∧
      m1.sched.scheduled_tasks = m.sched.scheduled_tasks := by
  induction rest generalizing fuel m with
  | nil =>
    cases fuel with
    | zero => simp at hfuel
    | succ k =>
      unfold scan_ahead
      have h0 : (m.tasks b).next = 0 := hl
      simp only [h0, ne_eq, not_true_eq_false, false_and, if_false]
      refine ⟨m, rfl, ?_, destroyed_nil F m, ⟨0, ?_⟩, fun q _ _ => rfl, rfl⟩
      · show (m.tasks b).next = 0
        exact h0
      · rw [← h0]
  | cons c rest ih =>
    obtain ⟨e, ne, rest1⟩ := hl
    have hnd := isList_nodup m.tasks (c :: rest) _ ⟨e, ne, rest1⟩
    have hcl : c ∉ rest := (List.nodup_cons.mp hnd).1
    have hbc : b ≠ c := by
      intro h; apply hb; rw [h]; exact List.mem_cons_self _ _
    have hbr : b ∉ rest := fun h => hb (List.mem_cons_of_mem c h)
    cases fuel with
    | zero => simp at hfuel
    | succ k =>
      unfold scan_ahead
      rw [e]
      by_cases hp : P c = true
      · have hra : reapable (m.tasks c) = true := by
          rw [hP c (List.mem_cons_self c rest)]; exact hp
        rw [List.takeWhile_cons_of_pos hp] at hr ⊢
        rw [List.dropWhile_cons_of_pos hp]
        have hr1 : room F m [c] := by
          obtain ⟨r1, r2, r3, r4⟩ := hr
          have e2 : ids_of F (c :: List.takeWhile P rest) =
              ids_of F [c] ++ ids_of F (List.takeWhile P rest) := ids_of_append F [c] _
          rw [e2, List.length_append] at r3
          simp only [List.length_cons] at r1
          exact ⟨by simp; omega, r2, by omega, r4⟩
        obtain ⟨m1, d1, d2, d3, d4⟩ := destroy_one F m c ne
          (hown c (List.mem_cons_self c rest)) (hF c (List.mem_cons_self c rest)) hr1
        simp only [ne_eq, ne, not_false_eq_true, hra, and_self, if_true, d1]
        have hm1b : m1.tasks b = m.tasks b := d3 b hbc
        have hsame : ∀ q ∈ rest,
            (m1.write b { m1.tasks b with next := (m.tasks c).next }).tasks q = m.tasks q := by
          intro q hq
          have h1 : q ≠ b := by
            intro h; rw [h] at hq; exact hbr hq
          have h2 : q ≠ c := by
            intro h; rw [h] at hq; exact hcl hq
          rw [write_tasks_other _ _ _ _ h1]
          exact d3 q h2
        obtain ⟨m2, f1, f2, f3, f4, f5, f6⟩ := ih k
          (m1.write b { m1.tasks b with next := (m.tasks c).next })
          (by
            rw [write_tasks_same]
            exact isList_congr m.tasks _ rest _ (fun q hq => by rw [hsame q hq]) rest1)
          hbr
          (fun q hq => by rw [hsame q hq]; exact hP q (List.mem_cons_of_mem c hq))
          (fun q hq => by rw [hsame q hq]; exact hF q (List.mem_cons_of_mem c hq))
          (fun q hq => by
            rw [hsame q hq, write_sched_at, d2.2.2.2.2.2.2.2.2.1]
            exact hown q (List.mem_cons_of_mem c hq))
          (room_tail F m _ c _ hr (destroyed_write F m m1 [c] b _ d2 (by simpa using hbc)))
          (by simpa using hfuel)
        refine ⟨m2, f1, f2, ?_, ?_, ?_, ?_⟩
        · have := destroyed_trans F m
            (m1.write b { m1.tasks b with next := (m.tasks c).next }) m2
            [c] (rest.takeWhile P) (destroyed_write F m m1 [c] b _ d2 (by simpa using hbc)) f3
            (fun q hq => by
              rw [List.mem_singleton.mp hq]
              apply f5
              · intro h
                exact hcl (( List.takeWhile_prefix P).subset h)
              · exact fun h => hbc h.symm)
          simpa using this
        · obtain ⟨n, hn⟩ := f4
          refine ⟨n, ?_⟩
          rw [hn, write_tasks_same, hm1b]
        · intro q hq hq3
          have hq1 : q ≠ c := by
            intro h; apply hq; rw [h]; exact List.mem_cons_self _ _
          have hq2 : q ∉ rest.takeWhile P := by
            intro h; exact hq (List.mem_cons_of_mem c h)
          rw [f5 q hq2 hq3, write_tasks_other _ _ _ _ hq3]
          exact d3 q hq1
        · rw [f6, write_sched, d4]
      · have hra : reapable (m.tasks c) = false := by
          rw [hP c (List.mem_cons_self c rest)]; simpa using hp
        rw [List.takeWhile_cons_of_neg hp, List.dropWhile_cons_of_neg hp]
        simp only [hra, Bool.false_eq_true, and_false, if_false]
        refine ⟨m, rfl, ⟨e, ne, rest1⟩, destroyed_nil F m, ⟨c, ?_⟩, fun q _ _ => rfl, rfl⟩
        rw [← e]

theorem filter_takeWhile_dropWhile (P : Int → Bool) (l : List Int) :
    l.filter P = l.takeWhile P ++ (l.dropWhile P).filter P := by
  induction l with
  | nil => rfl
  | cons a l ih =>
    by_cases h : P a = true
    · rw [List.takeWhile_cons_of_pos h, List.dropWhile_cons_of_pos h, List.filter_cons_of_pos h,
        ih, List.cons_append]
    · rw [List.takeWhile_cons_of_neg h, List.dropWhile_cons_of_neg h, List.nil_append]

theorem filter_not_dropWhile (P : Int → Bool) (l : List Int) :
    (l.dropWhile P).filter (fun a => !P a) = l.filter (fun a => !P a) := by
  induction l with
  | nil => rfl
  | cons a l ih =>
    by_cases h : P a = true
    · rw [List.dropWhile_cons_of_pos h, ih, List.filter_cons_of_neg (by simp [h])]
    · rw [List.dropWhile_cons_of_neg h]

theorem dropWhile_first (P : Int → Bool) (l : List Int) (a : Int) (r : List Int)
    (h : l.dropWhile P = a :: r) : P a = false := by
  induction l with
  | nil => simp at h
  | cons b l ih =>
    by_cases hb : P b = true
    · rw [List.dropWhile_cons_of_pos hb] at h
      exact ih h
    · rw [List.dropWhile_cons_of_neg hb] at h
      have : b = a := (List.cons.inj h).1
      rw [← this]
      simpa using hb

theorem dropWhile_not_mem_takeWhile (P : Int → Bool) (l : List Int) (hnd : l.Nodup) (q : Int)
    (hq : q ∈ l.dropWhile P) : q ∉ l.takeWhile P := by
  have e := List.takeWhile_append_dropWhile P l
  rw [← e] at hnd
  have := List.disjoint_of_nodup_append hnd
  intro h
  exact this h hq

theorem room_front (F : Int → Int) (m : Machine) (r1 r2 : List Int)
    (h : room F m (r1 ++ r2)) : room F m r1 := by
  obtain ⟨a1, a2, a3, a4⟩ := h
  rw [ids_of_append, List.length_append] at a3
  rw [List.length_append] at a1
  exact ⟨by omega, a2, by omega, a4⟩

theorem room_after (F : Int → Int) (m m1 : Machine) (r1 r2 : List Int)
    (h : room F m (r1 ++ r2)) (hd : destroyed F m m1 r1) : room F m1 r2 := by
  obtain ⟨a1, a2, a3, a4⟩ := h
  obtain ⟨_, b2, b3, _, b5, b6, _⟩ := hd
  rw [ids_of_append, List.length_append] at a3
  rw [List.length_append] at a1
  exact ⟨by omega, by omega, by omega, by omega⟩

/-- The walk over the live list, from a first task that is not a remove. -/
theorem reap_walk_spec (T : Int → io_scheduler_task) (n : Nat) :
    ∀ (l : List Int) (fuel : Nat) (m : Machine) (h : Int) (fs : pump_sets),
      l.length ≤ n → isList m.tasks h l →
      (∀ a r, l = a :: r → reapable (T a) = false) →
      (∀ a ∈ l, m.tasks a = T a) →
      (∀ a ∈ l, (m.tasks a).owner = m.sched_at) →
      room (fun a => (T a).fd) m (l.filter (fun a => reapable (T a))) →
      l.length < fuel →
      ∃ m1 fs1, reap_walk fuel m h fs = some (m1, fs1) ∧
        isList m1.tasks h (l.filter (fun a => !reapable (T a))) ∧
        destroyed (fun a => (T a).fd) m m1 (l.filter (fun a => reapable (T a))) ∧
        (∀ a ∈ l.filter (fun a => !reapable (T a)), ∃ k, m1.tasks a = { T a with next := k }) ∧
        (∀ q, q ∉ l → m1.tasks q = m.tasks q) ∧
        m1.sched.scheduled_tasks = m.sched.scheduled_tasks ∧
        fs1 = (l.filter (fun a => !reapable (T a))).foldl
          (fun acc a => pump_add_task (T a) acc) fs := by
  induction n with
  | zero =>
    intro l fuel m h fs hlen hl _ _ _ _ hfuel
    have hnil : l = [] := List.length_eq_zero.mp (Nat.le_zero.mp hlen)
    subst hnil
    cases fuel with
    | zero => simp at hfuel
    | succ k =>
      have h0 : h = 0 := hl
      subst h0
      unfold reap_walk
      simp only [if_true]
      exact ⟨m, fs, rfl, rfl, destroyed_nil _ m, fun a ha => by simp at ha, fun q _ => rfl,
        rfl, rfl⟩
  | succ n ih =>
    intro l fuel m h fs hlen hl hfirst hT hown hr hfuel
    cases l with
    | nil =>
      cases fuel with
      | zero => simp at hfuel
      | succ k =>
        have h0 : h = 0 := hl
        subst h0
        unfold reap_walk
        simp only [if_true]
        exact ⟨m, fs, rfl, rfl, destroyed_nil _ m, fun a ha => by simp at ha, fun q _ => rfl,
          rfl, rfl⟩
    | cons b rest =>
      obtain ⟨e, ne, rest1⟩ := hl
      subst e
      have hnd := isList_nodup m.tasks (h :: rest) _ ⟨rfl, ne, rest1⟩
      have hbr : h ∉ rest := (List.nodup_cons.mp hnd).1
      have hndr : rest.Nodup := (List.nodup_cons.mp hnd).2
      have hPb : reapable (T h) = false := hfirst h rest rfl
      cases fuel with
      | zero => simp at hfuel
      | succ k =>
        have hfilt : (h :: rest).filter (fun a => reapable (T a)) =
            rest.takeWhile (fun a => reapable (T a)) ++
              (rest.dropWhile (fun a => reapable (T a))).filter (fun a => reapable (T a)) := by
          rw [List.filter_cons_of_neg (by simp [hPb])]
          exact filter_takeWhile_dropWhile (fun a => reapable (T a)) rest
        rw [hfilt] at hr ⊢
        obtain ⟨m1, s1, s2, s3, s4, s5, s6⟩ := scan_ahead_spec (fun a => reapable (T a))
          (fun a => (T a).fd) rest (k + 1) m h rest1 hbr
          (fun a ha => by rw [hT a (List.mem_cons_of_mem h ha)])
          (fun a ha => by rw [hT a (List.mem_cons_of_mem h ha)])
          (fun a ha => hown a (List.mem_cons_of_mem h ha))
          (room_front _ m _ _ hr) (by simp at hfuel ⊢; omega)
        have hsame : ∀ q ∈ rest.dropWhile (fun a => reapable (T a)), m1.tasks q = m.tasks q := by
          intro q hq
          apply s5 q (dropWhile_not_mem_takeWhile _ rest hndr q hq)
          intro hh
          rw [hh] at hq
          exact hbr ((List.dropWhile_suffix _).subset hq)
        have hsub : ∀ q ∈ rest.dropWhile (fun a => reapable (T a)), q ∈ h :: rest :=
          fun q hq => List.mem_cons_of_mem h ((List.dropWhile_suffix _).subset hq)
        have hlen2 : (rest.dropWhile (fun a => reapable (T a))).length ≤ rest.length :=
          (List.dropWhile_suffix _).length_le
        obtain ⟨m2, fs2, w1, w2, w3, w4, w5, w6, w7⟩ := ih
          (rest.dropWhile (fun a => reapable (T a))) k m1 (m1.tasks h).next
          (pump_add_task (m.tasks h) fs)
          (by simp at hlen; omega) s2
          (fun a r ha => dropWhile_first _ rest a r ha)
          (fun q hq => by rw [hsame q hq]; exact hT q (hsub q hq))
          (fun q hq => by
            rw [hsame q hq, s3.2.2.2.2.2.2.2.2.1]; exact hown q (hsub q hq))
          (room_after _ m m1 _ _ hr s3) (by simp at hfuel; omega)
        have hm2h : m2.tasks h = m1.tasks h := by
          apply w5
          intro hh
          exact hbr ((List.dropWhile_suffix _).subset hh)
        unfold reap_walk
        simp only [if_neg ne, s1, w1]
        refine ⟨m2, fs2, rfl, ?_, ?_, ?_, ?_, ?_, ?_⟩
        · rw [List.filter_cons_of_pos (by simp [hPb]),
            ← filter_not_dropWhile (fun a => reapable (T a)) rest]
          refine ⟨rfl, ne, ?_⟩
          rw [hm2h]
          exact w2
        · apply destroyed_trans _ m m1 m2 _ _ s3 w3
          intro a ha
          apply w5
          intro hh
          exact dropWhile_not_mem_takeWhile _ rest hndr a hh ha
        · intro a ha
          rw [List.filter_cons_of_pos (by simp [hPb])] at ha
          rcases List.mem_cons.mp ha with h1 | h1
          · obtain ⟨k2, hk2⟩ := s4
            refine ⟨k2, ?_⟩
            rw [h1, hm2h, hk2, hT h (List.mem_cons_self h rest)]
          · rw [← filter_not_dropWhile (fun a => reapable (T a)) rest] at h1
            exact w4 a h1
        · intro q hq
          have hq1 : q ≠ h := by
            intro hh; apply hq; rw [hh]; exact List.mem_cons_self _ _
          have hq2 : q ∉ rest := fun hh => hq (List.mem_cons_of_mem h hh)
          rw [w5 q (fun hh => hq2 ((List.dropWhile_suffix _).subset hh))]
          exact s5 q (fun hh => hq2 (( List.takeWhile_prefix _).subset hh)) hq1
        · rw [w6, s6]
        · rw [w7, List.filter_cons_of_pos (by simp [hPb]),
            ← filter_not_dropWhile (fun a => reapable (T a)) rest, List.foldl_cons,
            hT h (List.mem_cons_self h rest)]

/-- The coalescing pass on a well-formed live list `l`: the live list becomes
the survivors of `l` in their order, the reaped tasks are destroyed in list
order, a survivor changes at most in its `next` link, and tasks outside the
list are untouched; the descriptor sets are those of the survivors. -/
theorem reap_pass_spec (m : Machine) (l : List Int) (fuel : Nat)
    (hl : isList m.tasks m.sched.scheduled_tasks l)
    (hown : ∀ a ∈ l, (m.tasks a).owner = m.sched_at)
    (hr : room (fun a => (m.tasks a).fd) m (reaped m l)) (hfuel : l.length < fuel) :
    ∃ m1 fs, reap_pass fuel m = some (m1, fs) ∧
      isList m1.tasks m1.sched.scheduled_tasks (survivors m l) ∧
      destroyed (fun a => (m.tasks a).fd) m m1 (reaped m l) ∧
      (∀ a ∈ survivors m l, ∃ k, m1.tasks a = { m.tasks a with next := k }) ∧
      (∀ q, q ∉ l → m1.tasks q = m.tasks q) ∧
      fs = (survivors m l).foldl (fun acc a => pump_add_task (m.tasks a) acc) pump_sets_zero := by
  have hnd := isList_nodup m.tasks l _ hl
  have hsplit := filter_takeWhile_dropWhile (fun a => reapable (m.tasks a)) l
  unfold reaped at hr ⊢
  unfold survivors
  rw [hsplit] at hr ⊢
  obtain ⟨m1, f1, f2, f3, f4⟩ := reap_front_spec (fun a => reapable (m.tasks a))
    (fun a => (m.tasks a).fd) l fuel m hl (fun a _ => rfl) (fun a _ => rfl) hown
    (room_front _ m _ _ hr) hfuel
  have hsame : ∀ q ∈ l.dropWhile (fun a => reapable (m.tasks a)), m1.tasks q = m.tasks q :=
    fun q hq => f4 q (dropWhile_not_mem_takeWhile _ l hnd q hq)
  have hsub : ∀ q ∈ l.dropWhile (fun a => reapable (m.tasks a)), q ∈ l :=
    fun q hq => (List.dropWhile_suffix _).subset hq
  have hlen2 : (l.dropWhile (fun a => reapable (m.tasks a))).length ≤ l.length :=
    (List.dropWhile_suffix _).length_le
  obtain ⟨m2, fs2, w1, w2, w3, w4, w5, w6, w7⟩ := reap_walk_spec m.tasks l.length
    (l.dropWhile (fun a => reapable (m.tasks a))) fuel m1 m1.sched.scheduled_tasks
    pump_sets_zero hlen2 f2
    (fun a r ha => dropWhile_first _ l a r ha) hsame
    (fun q hq => by rw [hsame q hq, f3.2.2.2.2.2.2.2.2.1]; exact hown q (hsub q hq))
    (room_after _ m m1 _ _ hr f3) (by omega)
  unfold reap_pass
  simp only [f1, w1]
  refine ⟨m2, fs2, rfl, ?_, ?_, ?_, ?_, ?_⟩
  · rw [w6, ← filter_not_dropWhile (fun a => reapable (m.tasks a)) l]
    exact w2
  · apply destroyed_trans _ m m1 m2 _ _ f3 w3
    intro a ha
    apply w5
    intro hh
    exact dropWhile_not_mem_takeWhile _ l hnd a hh ha
  · intro a ha
    rw [← filter_not_dropWhile (fun a => reapable (m.tasks a)) l] at ha
    exact w4 a ha
  · intro q hq
    rw [w5 q (fun hh => hq (hsub q hh))]
    exact f4 q (fun hh => hq (( List.takeWhile_prefix _).subset hh))
  · rw [w7, filter_not_dropWhile (fun a => reapable (m.tasks a)) l]

/-! ## Processing a task: what is left alone -/

theorem populate_frame (m m1 : Machine) (p : Int)
    (h : inl_io_sched_populate_expire_time m p = some m1) :
    ∃ e, m1 = m.write p { m.tasks p with expire_time := e } := by
  by_cases h0 : 0 ≤ (m.tasks p).time_out
  · rw [populate_some m p h0] at h
    exact ⟨_, (Option.some.inj h).symm⟩
  · rw [populate_none m p (by omega)] at h
    exact Option.noConfusion h

/-- A relation between machines that holds across every callback and every
write of an expiry time holds across `io_sched_process_task`. -/
theorem process_task_rel (R : Machine → Machine → Prop) (env : CbkEnv)
    (hrefl : ∀ m, R m m) (htrans : ∀ m1 m2 m3, R m1 m2 → R m2 m3 → R m1 m3)
    (henv : ∀ c t e m, R m (env c t e m).2)
    (hexp : ∀ m p e, R m (m.write p { m.tasks p with expire_time := e }))
    (m : Machine) (a : Int) (rds wrs ers : Int → Bool) (st : proc)
    (h : io_sched_process_task env m a rds wrs ers = some st) : R m st.m := by
  have hcall : ∀ (s : proc) c t e r, call_cbk env s c t e = some r → R s.m r.2.m := by
    intro s c t e r hr
    unfold call_cbk at hr
    split_ifs at hr
    rw [← Option.some.inj hr]
    exact henv _ _ _ _
  have herr : ∀ s s2, process_error env s a = some s2 → R s.m s2.m := by
    intro s s2 hs
    unfold process_error at hs
    simp only [] at hs
    split_ifs at hs
    · cases hc : call_cbk env s (s.m.tasks a).on_err_rdy_cbk a IO_SCHEDULER_ERR_NONE with
      | none => rw [hc] at hs; exact Option.noConfusion hs
      | some r =>
        rw [hc] at hs
        rw [← Option.some.inj hs]
        exact hcall _ _ _ _ _ hc
    · rw [← Option.some.inj hs]; exact hrefl _
  have hread : ∀ ex s s2, process_read env ex s a = some s2 → R s.m s2.m := by
    intro ex s s2 hs
    unfold process_read at hs
    simp only [] at hs
    split_ifs at hs
    · cases hc : call_cbk env s (s.m.tasks a).on_read_rdy_cbk a IO_SCHEDULER_ERR_NONE with
      | none => rw [hc] at hs; exact Option.noConfusion hs
      | some r =>
        rw [hc] at hs
        rw [← Option.some.inj hs]
        exact hcall _ _ _ _ _ hc
    · rw [← Option.some.inj hs]; exact hrefl _
    · cases hc : call_cbk env s (s.m.tasks a).on_timeout_cbk a IO_SCHEDULER_ERR_OP_TIMEOUT with
      | none => rw [hc] at hs; exact Option.noConfusion hs
      | some r =>
        rw [hc] at hs
        rw [← Option.some.inj hs]
        exact hcall _ _ _ _ _ hc
    · rw [← Option.some.inj hs]; exact hrefl _
    · rw [← Option.some.inj hs]; exact hrefl _
    · rw [← Option.some.inj hs]; exact hrefl _
  have hwrite : ∀ ex s s2, process_write env ex s a = some s2 → R s.m s2.m := by
    intro ex s s2 hs
    unfold process_write at hs
    simp only [] at hs
    split_ifs at hs
    · cases hc : call_cbk env s (s.m.tasks a).on_write_rdy_cbk a IO_SCHEDULER_ERR_NONE with
      | none => rw [hc] at hs; exact Option.noConfusion hs
      | some r =>
        rw [hc] at hs
        rw [← Option.some.inj hs]
        exact hcall _ _ _ _ _ hc
    · rw [← Option.some.inj hs]; exact hrefl _
    · cases hc : call_cbk env s (s.m.tasks a).on_timeout_cbk a IO_SCHEDULER_ERR_OP_TIMEOUT with
      | none => rw [hc] at hs; exact Option.noConfusion hs
      | some r =>
        rw [hc] at hs
        rw [← Option.some.inj hs]
        exact hcall _ _ _ _ _ hc
    · rw [← Option.some.inj hs]; exact hrefl _
    · rw [← Option.some.inj hs]; exact hrefl _
    · rw [← Option.some.inj hs]; exact hrefl _
  have htimer : ∀ ex s s2, process_timer env ex s a = some s2 → R s.m s2.m := by
    intro ex s s2 hs
    unfold process_timer at hs
    split_ifs at hs
    · cases hc : call_cbk env s (s.m.tasks a).on_timeout_cbk a IO_SCHEDULER_ERR_OP_TIMEOUT with
      | none => rw [hc] at hs; exact Option.noConfusion hs
      | some r =>
        rw [hc] at hs
        simp only [] at hs
        split_ifs at hs
        · cases hp : inl_io_sched_populate_expire_time r.2.m a with
          | none => rw [hp] at hs; exact Option.noConfusion hs
          | some m2 =>
            rw [hp] at hs
            rw [← Option.some.inj hs]
            obtain ⟨e, he⟩ := populate_frame _ _ _ hp
            simp only []
            rw [he]
            exact htrans _ _ _ (hcall _ _ _ _ _ hc) (hexp _ _ _)
        · rw [← Option.some.inj hs]
          exact hcall _ _ _ _ _ hc
    · rw [← Option.some.inj hs]; exact hrefl _
  unfold io_sched_process_task at h
  simp only [] at h
  split_ifs at h
  · cases h1 : process_error env
        { rv := true, m := m, rds := rds, wrs := wrs, ers := ers, calls := [] } a with
    | none => rw [h1] at h; exact Option.noConfusion h
    | some s1 =>
      rw [h1] at h
      simp only [] at h
      cases h2 : process_read env (task_expired m.now (m.tasks a)) s1 a with
      | none => rw [h2] at h; exact Option.noConfusion h
      | some s2 =>
        rw [h2] at h
        simp only [] at h
        exact htrans _ _ _ (htrans _ _ _ (herr _ _ h1) (hread _ _ _ h2)) (hwrite _ _ _ h)
  · exact htimer _ _ _ h

theorem process_task_next (env : CbkEnv) (hk : links_kept env)
    (m : Machine) (a : Int) (rds wrs ers : Int → Bool) (st : proc)
    (h : io_sched_process_task env m a rds wrs ers = some st) :
    ∀ q, (st.m.tasks q).next = (m.tasks q).next := by
  apply process_task_rel (fun m1 m2 => ∀ q, (m2.tasks q).next = (m1.tasks q).next) env
    (fun _ _ => rfl) (fun m1 m2 m3 h1 h2 q => by rw [h2 q, h1 q]) (fun c t e m q => hk c t e m q)
    _ m a rds wrs ers st h
  intro m p e q
  by_cases hq : q = p
  · subst hq; rw [write_tasks_same]
  · rw [write_tasks_other _ _ _ _ hq]

theorem unschedule_next (m : Machine) (a q : Int) :
    ((io_sched_unschedule_task m a).tasks q).next = (m.tasks q).next := by
  unfold io_sched_unschedule_task
  split_ifs
  · by_cases hq : q = a
    · subst hq; rw [write_tasks_same]
    · rw [write_tasks_other _ _ _ _ hq]
  · rfl

/-- The dispatch loop, which follows the `next` links, is the dispatch pass
over the sequence of the live list when no callback changes a link. -/
theorem dispatch_loop_eq_list (env : CbkEnv) (hk : links_kept env) (l : List Int) :
    ∀ (fuel : Nat) (m : Machine) (h : Int) (rds wrs ers : Int → Bool),
      isList m.tasks h l → l.length < fuel →
      dispatch_loop env fuel m h rds wrs ers =
        (dispatch_list env l m rds wrs ers).map (fun r => (r.m, r.calls)) := by
  induction l with
  | nil =>
    intro fuel m h rds wrs ers hl hfuel
    cases fuel with
    | zero => simp at hfuel
    | succ k =>
      have h0 : h = 0 := hl
      subst h0
      unfold dispatch_loop dispatch_list
      simp
  | cons a l ih =>
    intro fuel m h rds wrs ers hl hfuel
    obtain ⟨e, ne, rest⟩ := hl
    subst e
    cases fuel with
    | zero => simp at hfuel
    | succ k =>
      unfold dispatch_loop dispatch_list
      by_cases hs : m.sched.stop_scheduler = true
      · simp [hs]
      · simp only [ne, false_or, hs, if_false]
        by_cases hrm : S_IOSCHED_OPTS_REMOVE (m.tasks h) = true
        · simp only [hrm, Bool.not_true, Bool.false_eq_true, if_false]
          exact ih k m _ rds wrs ers rest (by simpa using hfuel)
        · simp only [hrm, Bool.not_false, if_true]
          cases hp : io_sched_process_task env m h rds wrs ers with
          | none => rfl
          | some st =>
            simp only []
            have hn1 := process_task_next env hk m h rds wrs ers st hp
            have hn2 : ∀ q, ((if st.rv = true then io_sched_unschedule_task st.m h
                else st.m).tasks q).next = (m.tasks q).next := by
              intro q
              split_ifs
              · rw [unschedule_next, hn1]
              · exact hn1 q
            have hl2 : isList (if st.rv = true then io_sched_unschedule_task st.m h
                else st.m).tasks ((if st.rv = true then io_sched_unschedule_task st.m h
                else st.m).tasks h).next l := by
              rw [hn2 h]
              exact isList_congr m.tasks _ l _ (fun q _ => hn2 q) rest
            rw [ih k _ _ st.rds st.wrs st.ers hl2 (by simpa using hfuel)]
            cases dispatch_list env l (if st.rv = true then io_sched_unschedule_task st.m h
                else st.m) st.rds st.wrs st.ers with
            | none => rfl
            | some r => rfl

/-- An invariant of the processing state that holds initially and across every
callback invocation, every change of the return value or of a descriptor set,
and every re-arming, holds for the result of `io_sched_process_task`. -/
theorem process_task_inv (I : proc → Prop) (env : CbkEnv) (a : Int)
    (hcall : ∀ (s : proc) c e r, I s → call_cbk env s c a e = some r → I r.2)
    (hrv : ∀ (s : proc) b, I s → I { s with rv := b })
    (hrds : ∀ (s : proc) x, I s → I { s with rds := x })
    (hwrs : ∀ (s : proc) x, I s → I { s with wrs := x })
    (hers : ∀ (s : proc) x, I s → I { s with ers := x })
    (hpop : ∀ (s : proc) m2, I s → inl_io_sched_populate_expire_time s.m a = some m2 →
      I { s with m := m2, rv := false })
    (m : Machine) (rds wrs ers : Int → Bool) (st : proc)
    (h0 : I { rv := true, m := m, rds := rds, wrs := wrs, ers := ers, calls := [] })
    (h : io_sched_process_task env m a rds wrs ers = some st) : I st := by
  have herr : ∀ s s2, I s → process_error env s a = some s2 → I s2 := by
    intro s s2 hi hs
    unfold process_error at hs
    simp only [] at hs
    split_ifs at hs
    · cases hc : call_cbk env s (s.m.tasks a).on_err_rdy_cbk a IO_SCHEDULER_ERR_NONE with
      | none => rw [hc] at hs; exact Option.noConfusion hs
      | some r =>
        rw [hc] at hs
        rw [← Option.some.inj hs]
        exact hers _ _ (hcall _ _ _ _ hi hc)
    · rw [← Option.some.inj hs]; exact hi
  have hread : ∀ ex s s2, I s → process_read env ex s a = some s2 → I s2 := by
    intro ex s s2 hi hs
    unfold process_read at hs
    simp only [] at hs
    split_ifs at hs
    · cases hc : call_cbk env s (s.m.tasks a).on_read_rdy_cbk a IO_SCHEDULER_ERR_NONE with
      | none => rw [hc] at hs; exact Option.noConfusion hs
      | some r =>
        rw [hc] at hs
        rw [← Option.some.inj hs]
        exact hrds { r.2 with rv := r.1 } _ (hrv _ _ (hcall _ _ _ _ hi hc))
    · rw [← Option.some.inj hs]; exact hrds _ _ hi
    · cases hc : call_cbk env s (s.m.tasks a).on_timeout_cbk a IO_SCHEDULER_ERR_OP_TIMEOUT with
      | none => rw [hc] at hs; exact Option.noConfusion hs
      | some r =>
        rw [hc] at hs
        rw [← Option.some.inj hs]
        exact hrv _ _ (hcall _ _ _ _ hi hc)
    · rw [← Option.some.inj hs]; exact hi
    · rw [← Option.some.inj hs]; exact hrv _ _ hi
    · rw [← Option.some.inj hs]; exact hi
  have hwrite : ∀ ex s s2, I s → process_write env ex s a = some s2 → I s2 := by
    intro ex s s2 hi hs
    unfold process_write at hs
    simp only [] at hs
    split_ifs at hs
    · cases hc : call_cbk env s (s.m.tasks a).on_write_rdy_cbk a IO_SCHEDULER_ERR_NONE with
      | none => rw [hc] at hs; exact Option.noConfusion hs
      | some r =>
        rw [hc] at hs
        rw [← Option.some.inj hs]
        exact hwrs { r.2 with rv := r.1 } _ (hrv _ _ (hcall _ _ _ _ hi hc))
    · rw [← Option.some.inj hs]; exact hwrs _ _ hi
    · cases hc : call_cbk env s (s.m.tasks a).on_timeout_cbk a IO_SCHEDULER_ERR_OP_TIMEOUT with
      | none => rw [hc] at hs; exact Option.noConfusion hs
      | some r =>
        rw [hc] at hs
        rw [← Option.some.inj hs]
        exact hrv _ _ (hcall _ _ _ _ hi hc)
    · rw [← Option.some.inj hs]; exact hi
    · rw [← Option.some.inj hs]; exact hrv _ _ hi
    · rw [← Option.some.inj hs]; exact hi
  have htimer : ∀ ex s s2, I s → process_timer env ex s a = some s2 → I s2 := by
    intro ex s s2 hi hs
    unfold process_timer at hs
    split_ifs at hs
    · cases hc : call_cbk env s (s.m.tasks a).on_timeout_cbk a IO_SCHEDULER_ERR_OP_TIMEOUT with
      | none => rw [hc] at hs; exact Option.noConfusion hs
      | some r =>
        rw [hc] at hs
        simp only [] at hs
        split_ifs at hs
        · cases hp : inl_io_sched_populate_expire_time r.2.m a with
          | none => rw [hp] at hs; exact Option.noConfusion hs
          | some m2 =>
            rw [hp] at hs
            rw [← Option.some.inj hs]
            exact hpop _ _ (hcall _ _ _ _ hi hc) hp
        · rw [← Option.some.inj hs]
          exact hcall _ _ _ _ hi hc
    · rw [← Option.some.inj hs]; exact hrv _ _ hi
  unfold io_sched_process_task at h
  simp only [] at h
  split_ifs at h
  · cases h1 : process_error env
        { rv := true, m := m, rds := rds, wrs := wrs, ers := ers, calls := [] } a with
    | none => rw [h1] at h; exact Option.noConfusion h
    | some s1 =>
      rw [h1] at h
      simp only [] at h
      cases h2 : process_read env (task_expired m.now (m.tasks a)) s1 a with
      | none => rw [h2] at h; exact Option.noConfusion h
      | some s2 =>
        rw [h2] at h
        simp only [] at h
        exact hwrite _ _ _ (hread _ _ _ (herr _ _ h0 h1) h2) h
  · exact htimer _ _ _ h0 h

/-- Every callback that `io_sched_process_task` invokes is invoked on the task
that is processed. -/
theorem process_task_calls (env : CbkEnv) (m : Machine) (a : Int) (rds wrs ers : Int → Bool)
    (st : proc) (h : io_sched_process_task env m a rds wrs ers = some st) :
    ∀ c ∈ st.calls, c.task = a := by
  apply process_task_inv (fun s => ∀ c ∈ s.calls, c.task = a) env a _
    (fun _ _ hi => hi) (fun _ _ hi => hi) (fun _ _ hi => hi) (fun _ _ hi => hi)
    (fun _ _ hi _ => hi) m rds wrs ers st (fun c hc => by simp at hc) h
  intro s c e r hi hr
  unfold call_cbk at hr
  split_ifs at hr
  rw [← Option.some.inj hr]
  intro x hx
  simp only [List.mem_append, List.mem_singleton] at hx
  rcases hx with hx | hx
  · exact hi x hx
  · rw [hx]

/-! ## C5 -/

theorem schedule_opts_eq (t : io_scheduler_task) :
    schedule_opts t = { t with opts := (schedule_opts t).opts } := by
  unfold schedule_opts
  simp only []
  split_ifs <;> rfl

/-- Admission changes the task in its options and expiry time only. -/
theorem schedule_admit_frame (m : Machine) (p : Int)
    (hopts : (m.tasks p).opts < 2 ^ 32)
    (hto : S_IOSCHED_OPTS_TIMER (m.tasks p) = true → (m.tasks p).on_timeout_cbk ≠ 0 →
      IO_SCHEDULER_NO_TIMEOUT ≤ (m.tasks p).time_out) :
    ∃ o e, schedule_admit m p =
      some (m.write p { m.tasks p with opts := o, expire_time := e }) := by
  obtain ⟨_, _, _, fT, _⟩ := schedule_opts_flags (m.tasks p) hopts
  have hto2 : S_IOSCHED_OPTS_TIMER (schedule_opts (m.tasks p)) = true → 0 ≤ (m.tasks p).time_out := by
    intro h
    rw [fT] at h
    simp only [Bool.and_eq_true, bne_iff_ne, ne_eq] at h
    have h3 := hto h.1 h.2.1
    have h4 := h.2.2
    unfold IO_SCHEDULER_NO_TIMEOUT at h3 h4
    omega
  rw [schedule_admit_some m p hto2]
  by_cases ht : S_IOSCHED_OPTS_TIMER (schedule_opts (m.tasks p)) = true
  · refine ⟨(schedule_opts (m.tasks p)).opts, expire_at m.now (m.tasks p).time_out, ?_⟩
    rw [if_pos ht]
    conv_lhs => rw [schedule_opts_eq (m.tasks p)]
  · refine ⟨(schedule_opts (m.tasks p)).opts, (m.tasks p).expire_time, ?_⟩
    rw [if_neg ht]
    conv_lhs => rw [schedule_opts_eq (m.tasks p)]

/-- Scheduling a task that is not linked yet appends it to the live list. -/
theorem schedule_task_appends (fuel : Nat) (m : Machine) (p : Int) (l : List Int)
    (hp : p ≠ 0) (howner : (m.tasks p).owner = m.sched_at)
    (hopts : (m.tasks p).opts < 2 ^ 32)
    (hto : S_IOSCHED_OPTS_TIMER (m.tasks p) = true → (m.tasks p).on_timeout_cbk ≠ 0 →
      IO_SCHEDULER_NO_TIMEOUT ≤ (m.tasks p).time_out)
    (hl : isList m.tasks m.sched.scheduled_tasks l) (hfuel : l.length ≤ fuel)
    (hpl : p ∉ l) (hnext : (m.tasks p).next = 0) :
    ∃ (m2 : Machine) (o : Nat) (e : timespec) (k : Int → Int),
      io_sched_schedule_task fuel m p = some (true, m2) ∧
      isList m2.tasks m2.sched.scheduled_tasks (l ++ [p]) ∧
      m2.tasks p = { m.tasks p with opts := o, expire_time := e } ∧
      (∀ q, q ≠ p → m2.tasks q = { m.tasks q with next := k q }) ∧
      (∀ q, q ∉ l → q ≠ p → m2.tasks q = m.tasks q) ∧
      m2.sched.task_pool = m.sched.task_pool ∧
      m2.sched.timer_id_pool = m.sched.timer_id_pool ∧
      m2.sched.stop_scheduler = m.sched.stop_scheduler ∧
      m2.sched.scheduler_thread = m.sched.scheduler_thread ∧
      m2.sched_at = m.sched_at ∧ m2.now = m.now := by
  obtain ⟨o, e, hadm⟩ := schedule_admit_frame m p hopts hto
  have hl1 : isList (m.write p { m.tasks p with opts := o, expire_time := e }).tasks
      (m.write p { m.tasks p with opts := o, expire_time := e }).sched.scheduled_tasks l := by
    apply isList_congr m.tasks _ l _ _ hl
    intro a ha
    have hne : a ≠ p := by
      intro h; rw [h] at ha; exact hpl ha
    rw [write_tasks_other _ _ _ _ hne]
  obtain ⟨m2, hlink, s1, s2, s3, s4, s5, s6, hq, happ⟩ :=
    schedule_link_some fuel (m.write p { m.tasks p with opts := o, expire_time := e }) p l
      (by rw [write_tasks_same]; exact howner) hl1 hfuel
  obtain ⟨h1, h2⟩ := happ hp hpl (by rw [write_tasks_same]; exact hnext)
  have hk : ∀ q, ∃ n, q ≠ p → m2.tasks q = { m.tasks q with next := n } := by
    intro q
    obtain ⟨n, hn⟩ := hq q
    refine ⟨n, fun hqp => ?_⟩
    rw [hn, write_tasks_other _ _ _ _ hqp]
  choose k hk2 using hk
  refine ⟨m2, o, e, k, ?_, h1, ?_, hk2, ?_, s3, s4, s6, s5, s1, s2⟩
  · unfold io_sched_schedule_task
    rw [if_neg hp, hadm]
    exact hlink
  · rw [h2 p hpl, write_tasks_same]
  · intro q hq1 hq2
    rw [h2 q hq1, write_tasks_other _ _ _ _ hq2]

/-- The callbacks of a dispatch pass over a duplicate-free sequence are invoked
on members of the sequence, in the order of the sequence. -/
theorem dispatch_list_order (env : CbkEnv) (l : List Int) (hnd : l.Nodup) :
    ∀ (m : Machine) (rds wrs ers : Int → Bool) (r : pass),
      dispatch_list env l m rds wrs ers = some r →
      (∀ c ∈ r.calls, c.task ∈ l) ∧
      (r.calls.map (fun c => l.indexOf c.task)).Pairwise (fun i j => i ≤ j) := by
  induction l with
  | nil =>
    intro m rds wrs ers r h
    unfold dispatch_list at h
    rw [← Option.some.inj h]
    simp
  | cons a l ih =>
    intro m rds wrs ers r h
    have hal : a ∉ l := (List.nodup_cons.mp hnd).1
    have hndl : l.Nodup := (List.nodup_cons.mp hnd).2
    have hshift : ∀ (r2 : pass), (∀ c ∈ r2.calls, c.task ∈ l) →
        (r2.calls.map (fun c => l.indexOf c.task)).Pairwise (fun i j => i ≤ j) →
        (r2.calls.map (fun c => (a :: l).indexOf c.task)).Pairwise (fun i j => i ≤ j) := by
      intro r2 hm hp
      have e : r2.calls.map (fun c => (a :: l).indexOf c.task) =
          (r2.calls.map (fun c => l.indexOf c.task)).map (fun i => i + 1) := by
        rw [List.map_map]
        apply List.map_congr_left
        intro c hc
        have hne : c.task ≠ a := by
          intro hh; rw [← hh] at hal; exact hal (hm c hc)
        simp only [Function.comp, List.indexOf_cons_ne _ (Ne.symm hne)]
      rw [e]
      exact List.Pairwise.map _ (fun i j hij => Nat.succ_le_succ hij) hp
    unfold dispatch_list at h
    split_ifs at h with hs hrm
    · rw [← Option.some.inj h]; simp
    · cases hp : io_sched_process_task env m a rds wrs ers with
      | none => rw [hp] at h; exact Option.noConfusion h
      | some st =>
        rw [hp] at h
        simp only [] at h
        cases hd : dispatch_list env l (if st.rv = true then io_sched_unschedule_task st.m a
            else st.m) st.rds st.wrs st.ers with
        | none => rw [hd] at h; exact Option.noConfusion h
        | some r2 =>
          rw [hd] at h
          rw [← Option.some.inj h]
          obtain ⟨i1, i2⟩ := ih hndl _ _ _ _ r2 hd
          have hc := process_task_calls env m a rds wrs ers st hp
          constructor
          · intro c hcm
            simp only [List.mem_append] at hcm
            rcases hcm with hcm | hcm
            · rw [hc c hcm]; exact List.mem_cons_self _ _
            · exact List.mem_cons_of_mem a (i1 c hcm)
          · simp only [List.map_append]
            rw [List.pairwise_append]
            refine ⟨?_, hshift r2 i1 i2, ?_⟩
            · have e0 : st.calls.map (fun c => (a :: l).indexOf c.task) =
                  st.calls.map (fun _ => 0) := by
                apply List.map_congr_left
                intro c hcm
                rw [hc c hcm]
                simp
              rw [e0, List.pairwise_map]
              exact List.pairwise_of_forall (fun _ _ => le_refl _)
            · intro i hi j _
              simp only [List.mem_map] at hi
              obtain ⟨c, hcm, rfl⟩ := hi
              rw [hc c hcm]
              simp
    · obtain ⟨i1, i2⟩ := ih hndl _ _ _ _ r h
      exact ⟨fun c hcm => List.mem_cons_of_mem a (i1 c hcm), hshift r i1 i2⟩

/-- One pump iteration on a non-empty, not stopped scheduler: the coalescing
pass, then (unless `select` fails) the dispatch pass over the survivors. -/
theorem pump_eq (fuel : Nat) (env : CbkEnv) (sel : select_result) (m : Machine) (l : List Int)
    (hk : links_kept env)
    (hl : isList m.tasks m.sched.scheduled_tasks l) (hne : l ≠ [])
    (hstop : m.sched.stop_scheduler = false)
    (hown : ∀ a ∈ l, (m.tasks a).owner = m.sched_at)
    (hr : room (fun a => (m.tasks a).fd) m (reaped m l)) (hfuel : l.length < fuel) :
    ∃ m1 fs, reap_pass fuel m = some (m1, fs) ∧
      isList m1.tasks m1.sched.scheduled_tasks (survivors m l) ∧
      destroyed (fun a => (m.tasks a).fd) m m1 (reaped m l) ∧
      (∀ a ∈ survivors m l, ∃ k, m1.tasks a = { m.tasks a with next := k }) ∧
      (∀ q, q ∉ l → m1.tasks q = m.tasks q) ∧
      inl_io_sched_pump fuel env sel m =
        if sel.failed then some ({ m1 with now := sel.now }, [])
        else (dispatch_list env (survivors m l) { m1 with now := sel.now }
          (fun fd => fs.rd fd && sel.rd fd) (fun fd => fs.wr fd && sel.wr fd)
          (fun fd => fs.er fd && sel.er fd)).map (fun r => (r.m, r.calls)) := by
  obtain ⟨m1, fs, r1, r2, r3, r4, r5, _⟩ := reap_pass_spec m l fuel hl hown hr hfuel
  refine ⟨m1, fs, r1, r2, r3, r4, r5, ?_⟩
  have hh : m.sched.scheduled_tasks ≠ 0 := by
    cases l with
    | nil => exact absurd rfl hne
    | cons a l => obtain ⟨e, ne, _⟩ := hl; rw [e]; exact ne
  have hs1 : m1.sched.stop_scheduler = false := by rw [r3.2.2.2.2.2.2.1, hstop]
  have hlen : (survivors m l).length < fuel :=
    lt_of_le_of_lt (List.length_filter_le _ _) hfuel
  unfold inl_io_sched_pump
  simp only [hh, false_and, if_false, ne_eq, not_false_eq_true, hstop, Bool.not_false,
    and_self, if_true, r1, hs1]
  by_cases hf : sel.failed = true
  · simp only [hf, if_true]
  · simp only [hf, if_false]
    exact dispatch_loop_eq_list env hk (survivors m l) fuel { m1 with now := sel.now } _ _ _ _
      r2 hlen

/-- A chain of `next` pointers that comes back to a task is no null-terminated
sequence: here the task is its own successor. -/
theorem isList_self_cycle (tasks : Int → io_scheduler_task) (p : Int) (hp : p ≠ 0)
    (hn : (tasks p).next = p) : ∀ l, ¬ isList tasks p l := by
  intro l
  induction l with
  | nil => exact fun h => hp h
  | cons a t ih =>
    intro h
    obtain ⟨h1, _, h3⟩ := h
    rw [← h1, hn] at h3
    exact ih h3

/-- A chain of `next` pointers through two tasks that are each the successor of
the other is no null-terminated sequence. -/
theorem isList_two_cycle (tasks : Int → io_scheduler_task) (p q : Int) (hp : p ≠ 0)
    (hq : q ≠ 0) (hpq : (tasks p).next = q) (hqp : (tasks q).next = p) :
    ∀ l, ¬ isList tasks p l ∧ ¬ isList tasks q l := by
  intro l
  induction l with
  | nil => exact ⟨fun h => hp h, fun h => hq h⟩
  | cons a t ih =>
    constructor
    · intro h
      obtain ⟨h1, _, h3⟩ := h
      rw [← h1, hpq] at h3
      exact ih.2 h3
    · intro h
      obtain ⟨h1, _, h3⟩ := h
      rw [← h1, hqp] at h3
      exact ih.1 h3

/-- C5, as stated, fails for a task that is in the live list already.  On
`ex_live5` the live list is the timer task alone; `io_sched_schedule_task` on
that task returns true and makes the task its own successor, so the live list
is not the list before followed by the task, and no null-terminated sequence at
all.  On `ex_pool_full` the live list is the reader tasks 1002 and 1001;
scheduling 1002 again links it behind 1001 and closes the chain into a
cycle. -/
theorem schedule_of_live_task_closes_cycle :
    isList ex_live5.tasks ex_live5.sched.scheduled_tasks [ex_timer5.1] ∧
    (io_sched_schedule_task 4 ex_live5 ex_timer5.1).map (fun r => r.1) = some true ∧
    (ex_twice5.tasks ex_timer5.1).next = ex_timer5.1 ∧
    ¬ isList ex_twice5.tasks ex_twice5.sched.scheduled_tasks ([ex_timer5.1] ++ [ex_timer5.1]) ∧
    (∀ l, ¬ isList ex_twice5.tasks ex_twice5.sched.scheduled_tasks l) ∧
    isList ex_pool_full.tasks ex_pool_full.sched.scheduled_tasks [1002, 1001] ∧
    (io_sched_schedule_task 4 ex_pool_full 1002).map (fun r => r.1) = some true ∧
    (ex_twice_first.tasks 1002).next = 1001 ∧ (ex_twice_first.tasks 1001).next = 1002 ∧
    ¬ isList ex_twice_first.tasks ex_twice_first.sched.scheduled_tasks ([1002, 1001] ++ [1002]) ∧
    (∀ l, ¬ isList ex_twice_first.tasks ex_twice_first.sched.scheduled_tasks l) :=
  ⟨by decide, by decide, by decide, by decide,
    isList_self_cycle ex_twice5.tasks ex_twice5.sched.scheduled_tasks (by decide) (by decide),
    by decide, by decide, by decide, by decide, by decide,
    fun l => (isList_two_cycle ex_twice_first.tasks ex_twice_first.sched.scheduled_tasks 1001
      (by decide) (by decide) (by decide) (by decide) l).1⟩


/-- C5 (amended): (1) `io_sched_schedule_task` on a task that is not linked
yet (it is not in the live list and its `next` pointer is null, as for a task
fresh from `io_sched_create_task`) appends it at the tail: the live list
afterwards is the list before followed by the task.  (2) One pump iteration on
a non-empty, not stopped scheduler, with callbacks that leave the links alone,
is the coalescing pass followed (unless `select` fails) by the dispatch pass
over the surviving tasks in list order: `io_sched_process_task` is applied to
each task that is not flagged Remove when its turn comes; every callback is
invoked on a live task, and the callbacks are invoked in the order of the live
list, that is, in the order in which their tasks were scheduled. -/
theorem schedule_order_is_dispatch_order :
    (∀ (fuel : Nat) (m : Machine) (p : Int) (l : List Int),
      p ≠ 0 → (m.tasks p).owner = m.sched_at → (m.tasks p).opts < 2 ^ 32 →
      (S_IOSCHED_OPTS_TIMER (m.tasks p) = true → (m.tasks p).on_timeout_cbk ≠ 0 →
        IO_SCHEDULER_NO_TIMEOUT ≤ (m.tasks p).time_out) →
      isList m.tasks m.sched.scheduled_tasks l → l.length ≤ fuel →
      p ∉ l → (m.tasks p).next = 0 →
      ∃ m2, io_sched_schedule_task fuel m p = some (true, m2) ∧
        isList m2.tasks m2.sched.scheduled_tasks (l ++ [p])) ∧
    (∀ (fuel : Nat) (env : CbkEnv) (sel : select_result) (m : Machine) (l : List Int),
      links_kept env → isList m.tasks m.sched.scheduled_tasks l → l ≠ [] →
      m.sched.stop_scheduler = false → (∀ a ∈ l, (m.tasks a).owner = m.sched_at) →
      room (fun a => (m.tasks a).fd) m (reaped m l) → l.length < fuel →
      ∃ m1 fs, reap_pass fuel m = some (m1, fs) ∧
        isList m1.tasks m1.sched.scheduled_tasks (survivors m l) ∧
        inl_io_sched_pump fuel env sel m =
          (if sel.failed then some ({ m1 with now := sel.now }, [])
          else (dispatch_list env (survivors m l) { m1 with now := sel.now }
            (fun fd => fs.rd fd && sel.rd fd) (fun fd => fs.wr fd && sel.wr fd)
            (fun fd => fs.er fd && sel.er fd)).map (fun r => (r.m, r.calls))) ∧
        ∀ m2 calls, inl_io_sched_pump fuel env sel m = some (m2, calls) →
          (∀ c ∈ calls, c.task ∈ survivors m l) ∧
          (calls.map (fun c => (survivors m l).indexOf c.task)).Pairwise (fun i j => i ≤ j)) := by
  constructor
  · intro fuel m p l hp howner hopts hto hl hfuel hpl hnext
    obtain ⟨m2, _, _, _, h1, h2, _⟩ :=
      schedule_task_appends fuel m p l hp howner hopts hto hl hfuel hpl hnext
    exact ⟨m2, h1, h2⟩
  · intro fuel env sel m l hk hl hne hstop hown hr hfuel
    obtain ⟨m1, fs, r1, r2, _, _, _, r6⟩ := pump_eq fuel env sel m l hk hl hne hstop hown hr hfuel
    refine ⟨m1, fs, r1, r2, r6, ?_⟩
    intro m2 calls hp
    rw [r6] at hp
    by_cases hf : sel.failed = true
    · rw [if_pos hf] at hp
      have : calls = [] := by
        have := Option.some.inj hp
        exact (Prod.mk.inj this).2.symm
      rw [this]
      simp
    · rw [if_neg hf] at hp
      cases hd : dispatch_list env (survivors m l) { m1 with now := sel.now }
          (fun fd => fs.rd fd && sel.rd fd) (fun fd => fs.wr fd && sel.wr fd)
          (fun fd => fs.er fd && sel.er fd) with
      | none => rw [hd] at hp; exact Option.noConfusion hp
      | some r =>
        rw [hd] at hp
        have hc : r.calls = calls := (Prod.mk.inj (Option.some.inj hp)).2
        have hnd : (survivors m l).Nodup :=
          List.Nodup.filter _ (isList_nodup m.tasks l _ hl)
        rw [← hc]
        exact dispatch_list_order env (survivors m l) hnd _ _ _ _ r hd

/-- Witness of C5 on the example scheduler that runs the 5 ns timer (task
1002).  (1) The reader task 1001 on the descriptor 5, fresh from
`io_sched_create_reader_task`, is appended behind the timer: the live list
becomes 1002, 1001.  (2) On the machine with both tasks live, one pump
iteration at the clock reading 2000 s with the descriptor 5 readable is the
coalescing pass followed by the dispatch pass over 1002, 1001, and its
callbacks are invoked in that order: first the timeout callback of the timer
(at 77), then the read callback of the reader (at 88). -/
theorem schedule_order_is_dispatch_order_witness :
    (ex_reader.1 ≠ 0 ∧ (ex_reader.2.tasks ex_reader.1).owner = ex_reader.2.sched_at ∧
      isList ex_reader.2.tasks ex_reader.2.sched.scheduled_tasks [ex_timer5.1] ∧
      ex_reader.1 ∉ [ex_timer5.1] ∧ (ex_reader.2.tasks ex_reader.1).next = 0) ∧
    (∃ m2, io_sched_schedule_task 1 ex_reader.2 ex_reader.1 = some (true, m2) ∧
      isList m2.tasks m2.sched.scheduled_tasks ([ex_timer5.1] ++ [ex_reader.1])) ∧
    (links_kept ex_env_false ∧
      isList ex_timer_reader_live.tasks ex_timer_reader_live.sched.scheduled_tasks
        [ex_timer5.1, ex_reader.1] ∧
      ex_timer_reader_live.sched.stop_scheduler = false ∧
      room (fun a => (ex_timer_reader_live.tasks a).fd) ex_timer_reader_live
        (reaped ex_timer_reader_live [ex_timer5.1, ex_reader.1])) ∧
    (∃ m1 fs, reap_pass 3 ex_timer_reader_live = some (m1, fs) ∧
      isList m1.tasks m1.sched.scheduled_tasks
        (survivors ex_timer_reader_live [ex_timer5.1, ex_reader.1]) ∧
      inl_io_sched_pump 3 ex_env_false ex_select_5 ex_timer_reader_live =
        (if ex_select_5.failed then some ({ m1 with now := ex_select_5.now }, [])
        else (dispatch_list ex_env_false
          (survivors ex_timer_reader_live [ex_timer5.1, ex_reader.1])
          { m1 with now := ex_select_5.now }
          (fun fd => fs.rd fd && ex_select_5.rd fd) (fun fd => fs.wr fd && ex_select_5.wr fd)
          (fun fd => fs.er fd && ex_select_5.er fd)).map (fun r => (r.m, r.calls))) ∧
      ∀ m2 calls, inl_io_sched_pump 3 ex_env_false ex_select_5 ex_timer_reader_live =
          some (m2, calls) →
        (∀ c ∈ calls, c.task ∈ survivors ex_timer_reader_live [ex_timer5.1, ex_reader.1]) ∧
        (calls.map (fun c =>
          (survivors ex_timer_reader_live [ex_timer5.1, ex_reader.1]).indexOf c.task)).Pairwise
            (fun i j => i ≤ j)) ∧
    survivors ex_timer_reader_live [ex_timer5.1, ex_reader.1] = [ex_timer5.1, ex_reader.1] ∧
    [ex_timer5.1, ex_reader.1] = [1002, 1001] ∧
    (inl_io_sched_pump 3 ex_env_false ex_select_5 ex_timer_reader_live).map (fun r => r.2) =
      some [⟨77, 1002, IO_SCHEDULER_ERR_OP_TIMEOUT⟩, ⟨88, 1001, IO_SCHEDULER_ERR_NONE⟩] :=
  ⟨⟨by decide, by decide, by decide, by decide, by decide⟩,
    schedule_order_is_dispatch_order.1 1 ex_reader.2 ex_reader.1 [ex_timer5.1]
      (by decide) (by decide) (by decide) (by decide) (by decide) (by decide) (by decide)
      (by decide),
    ⟨fun _ _ _ _ _ => rfl, by decide, by decide, by decide⟩,
    schedule_order_is_dispatch_order.2 3 ex_env_false ex_select_5 ex_timer_reader_live
      [ex_timer5.1, ex_reader.1] (fun _ _ _ _ _ => rfl) (by decide) (by decide) (by decide)
      (by decide) (by decide) (by decide),
    by decide, by decide, rfl⟩

/-! ## C4 -/

/-- C4, as stated, fails: the 5 ns timer of the examples has a callback (at 77)
that schedules a second timer task with timeout 0 (callback at 99).  The second
task is not in the live list when the pump iteration starts, it is scheduled
from inside the callback during the dispatch pass, and its callback is invoked
in that same iteration. -/
theorem task_added_in_dispatch_fires_same_iteration :
    isList ex_timer0.2.tasks ex_timer0.2.sched.scheduled_tasks [ex_timer5.1] ∧
    ex_timer0.1 ∉ [ex_timer5.1] ∧
    (inl_io_sched_pump 5 ex_env_sched ex_select_idle ex_timer0.2).map (fun r => r.2) =
      some [⟨77, ex_timer5.1, IO_SCHEDULER_ERR_OP_TIMEOUT⟩,
            ⟨99, ex_timer0.1, IO_SCHEDULER_ERR_OP_TIMEOUT⟩] := by
  refine ⟨by decide, by decide, ?_⟩
  rfl

theorem process_task_next_on (env : CbkEnv) (a : Int)
    (hk : ∀ c e m q, ((env c a e m).2.tasks q).next = (m.tasks q).next)
    (m : Machine) (rds wrs ers : Int → Bool) (st : proc)
    (h : io_sched_process_task env m a rds wrs ers = some st) :
    ∀ q, (st.m.tasks q).next = (m.tasks q).next := by
  apply process_task_inv (fun s => ∀ q, (s.m.tasks q).next = (m.tasks q).next) env a _
    (fun _ _ hi => hi) (fun _ _ hi => hi) (fun _ _ hi => hi) (fun _ _ hi => hi)
    _ m rds wrs ers st (fun _ => rfl) h
  · intro s c e r hi hr
    unfold call_cbk at hr
    split_ifs at hr
    rw [← Option.some.inj hr]
    intro q
    simp only []
    rw [hk, hi]
  · intro s m2 hi hp q
    obtain ⟨e, he⟩ := populate_frame _ _ _ hp
    simp only []
    rw [he]
    by_cases hq : q = a
    · subst hq; rw [write_tasks_same]; exact hi q
    · rw [write_tasks_other _ _ _ _ hq]; exact hi q

/-- The dispatch loop is the dispatch pass over the sequence of the live list
when the callbacks of the tasks of that sequence leave the links alone. -/
theorem dispatch_loop_eq_list_on (env : CbkEnv) (l : List Int) (hk : links_kept_on env l) :
    ∀ (fuel : Nat) (m : Machine) (h : Int) (rds wrs ers : Int → Bool),
      isList m.tasks h l → l.length < fuel →
      dispatch_loop env fuel m h rds wrs ers =
        (dispatch_list env l m rds wrs ers).map (fun r => (r.m, r.calls)) := by
  induction l with
  | nil =>
    intro fuel m h rds wrs ers hl hfuel
    cases fuel with
    | zero => simp at hfuel
    | succ k =>
      have h0 : h = 0 := hl
      subst h0
      unfold dispatch_loop dispatch_list
      simp
  | cons a l ih =>
    intro fuel m h rds wrs ers hl hfuel
    obtain ⟨e, ne, rest⟩ := hl
    subst e
    have hkl : links_kept_on env l :=
      fun c t e m q ht => hk c t e m q (List.mem_cons_of_mem h ht)
    cases fuel with
    | zero => simp at hfuel
    | succ k =>
      unfold dispatch_loop dispatch_list
      by_cases hs : m.sched.stop_scheduler = true
      · simp [hs]
      · simp only [ne, false_or, hs, if_false]
        by_cases hrm : S_IOSCHED_OPTS_REMOVE (m.tasks h) = true
        · simp only [hrm, Bool.not_true, Bool.false_eq_true, if_false]
          exact ih hkl k m _ rds wrs ers rest (by simpa using hfuel)
        · simp only [hrm, Bool.not_false, if_true]
          cases hp : io_sched_process_task env m h rds wrs ers with
          | none => rfl
          | some st =>
            simp only []
            have hn1 := process_task_next_on env h
              (fun c e m q => hk c h e m q (List.mem_cons_self h l)) m rds wrs ers st hp
            have hn2 : ∀ q, ((if st.rv = true then io_sched_unschedule_task st.m h
                else st.m).tasks q).next = (m.tasks q).next := by
              intro q
              split_ifs
              · rw [unschedule_next, hn1]
              · exact hn1 q
            have hl2 : isList (if st.rv = true then io_sched_unschedule_task st.m h
                else st.m).tasks ((if st.rv = true then io_sched_unschedule_task st.m h
                else st.m).tasks h).next l := by
              rw [hn2 h]
              exact isList_congr m.tasks _ l _ (fun q _ => hn2 q) rest
            rw [ih hkl k _ _ st.rds st.wrs st.ers hl2 (by simpa using hfuel)]
            cases dispatch_list env l (if st.rv = true then io_sched_unschedule_task st.m h
                else st.m) st.rds st.wrs st.ers with
            | none => rfl
            | some r => rfl

theorem dispatch_list_cons (env : CbkEnv) (a : Int) (l : List Int) (m : Machine)
    (rds wrs ers : Int → Bool) :
    dispatch_list env (a :: l) m rds wrs ers =
      if m.sched.stop_scheduler then
        some { m := m, rds := rds, wrs := wrs, ers := ers, calls := [] }
      else if !S_IOSCHED_OPTS_REMOVE (m.tasks a) then
        match io_sched_process_task env m a rds wrs ers with
        | none => none
        | some st =>
          match dispatch_list env l (if st.rv then io_sched_unschedule_task st.m a else st.m)
              st.rds st.wrs st.ers with
          | none => none
          | some r => some { r with calls := st.calls ++ r.calls }
      else dispatch_list env l m rds wrs ers := by
  rw [dispatch_list]

theorem dispatch_list_stopped (env : CbkEnv) (l : List Int) (m : Machine)
    (rds wrs ers : Int → Bool) (hs : m.sched.stop_scheduler = true) :
    dispatch_list env l m rds wrs ers =
      some { m := m, rds := rds, wrs := wrs, ers := ers, calls := [] } := by
  cases l with
  | nil => rw [dispatch_list]
  | cons a l => rw [dispatch_list_cons, if_pos hs]

/-- The dispatch pass over a concatenation is the pass over the first part
followed by the pass over the second part. -/
theorem dispatch_list_append (env : CbkEnv) (l1 l2 : List Int) :
    ∀ (m : Machine) (rds wrs ers : Int → Bool),
      dispatch_list env (l1 ++ l2) m rds wrs ers =
        (dispatch_list env l1 m rds wrs ers).bind (fun r1 =>
          (dispatch_list env l2 r1.m r1.rds r1.wrs r1.ers).map
            (fun r2 => { r2 with calls := r1.calls ++ r2.calls })) := by
  induction l1 with
  | nil =>
    intro m rds wrs ers
    have e : dispatch_list env [] m rds wrs ers =
        some { m := m, rds := rds, wrs := wrs, ers := ers, calls := [] } := by
      rw [dispatch_list]
    rw [List.nil_append, e, Option.some_bind]
    cases dispatch_list env l2 m rds wrs ers <;> rfl
  | cons a l1 ih =>
    intro m rds wrs ers
    rw [List.cons_append, dispatch_list_cons, dispatch_list_cons env a l1]
    by_cases hs : m.sched.stop_scheduler = true
    · rw [if_pos hs, if_pos hs, Option.some_bind, dispatch_list_stopped env l2 m _ _ _ hs]
      rfl
    · rw [if_neg hs, if_neg hs]
      by_cases hrm : S_IOSCHED_OPTS_REMOVE (m.tasks a) = true
      · have hn : ¬ ((!S_IOSCHED_OPTS_REMOVE (m.tasks a)) = true) := by simp [hrm]
        rw [if_neg hn, if_neg hn]
        exact ih m rds wrs ers
      · have hn : (!S_IOSCHED_OPTS_REMOVE (m.tasks a)) = true := by simpa using hrm
        rw [if_pos hn, if_pos hn]
        cases hp : io_sched_process_task env m a rds wrs ers with
        | none => rfl
        | some st =>
          simp only []
          rw [ih]
          cases hd : dispatch_list env l1 (if st.rv = true then io_sched_unschedule_task st.m a
              else st.m) st.rds st.wrs st.ers with
          | none => rfl
          | some r1 =>
            simp only [Option.some_bind]
            cases dispatch_list env l2 r1.m r1.rds r1.wrs r1.ers with
            | none => rfl
            | some r2 => simp [List.append_assoc]

/-- A task that is not expired and whose descriptor is in none of the sets gets
no callback from `io_sched_process_task`, and the machine is left as it is. -/
theorem process_task_idle (env : CbkEnv) (m : Machine) (p : Int) (rds wrs ers : Int → Bool)
    (hexp : task_expired m.now (m.tasks p) = false)
    (hr : rds (m.tasks p).fd = false) (hw : wrs (m.tasks p).fd = false)
    (he : ers (m.tasks p).fd = false) :
    ∃ st, io_sched_process_task env m p rds wrs ers = some st ∧ st.calls = [] ∧ st.m = m := by
  unfold io_sched_process_task
  simp only [hexp]
  split_ifs with hfd
  · simp only [process_error, he, Bool.and_false, Bool.false_eq_true, if_false]
    simp only [process_read, hr, Bool.false_eq_true, if_false]
    by_cases h1 : S_IOSCHED_OPTS_READ (m.tasks p) = true
    · simp only [h1, if_true]
      simp only [process_write, hw, Bool.false_eq_true, if_false]
      split_ifs <;> exact ⟨_, rfl, rfl, rfl⟩
    · simp only [h1, if_false]
      simp only [process_write, hw, Bool.false_eq_true, if_false]
      split_ifs <;> exact ⟨_, rfl, rfl, rfl⟩
  · simp only [process_timer, Bool.false_eq_true, if_false]
    exact ⟨_, rfl, rfl, rfl⟩

theorem isList_chain_from (tasks : Int → io_scheduler_task) (pre suf : List Int) (a h : Int)
    (hl : isList tasks h (pre ++ a :: suf)) : isList tasks (tasks a).next suf := by
  induction pre generalizing h with
  | nil => exact hl.2.2
  | cons b pre ih => exact ih _ hl.2.2

theorem dispatch_list_single (env : CbkEnv) (p : Int) (m : Machine) (rds wrs ers : Int → Bool) :
    dispatch_list env [p] m rds wrs ers =
      if m.sched.stop_scheduler = true ∨ S_IOSCHED_OPTS_REMOVE (m.tasks p) = true then
        some { m := m, rds := rds, wrs := wrs, ers := ers, calls := [] }
      else (io_sched_process_task env m p rds wrs ers).map (fun sp =>
        { m := if sp.rv then io_sched_unschedule_task sp.m p else sp.m,
          rds := sp.rds, wrs := sp.wrs, ers := sp.ers, calls := sp.calls }) := by
  rw [dispatch_list_cons]
  by_cases hs : m.sched.stop_scheduler = true
  · simp [hs]
  · by_cases hrm : S_IOSCHED_OPTS_REMOVE (m.tasks p) = true
    · simp [hs, hrm, dispatch_list]
    · simp only [hs, hrm, if_false, Bool.not_false, or_self, if_true]
      cases io_sched_process_task env m p rds wrs ers with
      | none => rfl
      | some sp => simp [dispatch_list]

/-- An expired task without a real descriptor gets exactly its timeout callback. -/
theorem process_task_timer_expired (env : CbkEnv) (m : Machine) (p : Int)
    (rds wrs ers : Int → Bool) (st : proc)
    (hfd : (m.tasks p).fd < 0) (hexp : task_expired m.now (m.tasks p) = true)
    (h : io_sched_process_task env m p rds wrs ers = some st) :
    st.calls = [⟨(m.tasks p).on_timeout_cbk, p, IO_SCHEDULER_ERR_OP_TIMEOUT⟩] := by
  have hbr : ¬ ((m.tasks p).fd > INVALID_GENERAL_FD) := by
    unfold INVALID_GENERAL_FD; omega
  unfold io_sched_process_task at h
  simp only [if_neg hbr, hexp, process_timer, call_cbk, if_true] at h
  by_cases h0 : (m.tasks p).on_timeout_cbk = 0
  · simp only [h0, if_true] at h
    exact Option.noConfusion h
  · simp only [if_neg h0, List.nil_append] at h
    cases hb : (env (m.tasks p).on_timeout_cbk p IO_SCHEDULER_ERR_OP_TIMEOUT m).1
    · simp only [hb, Bool.not_false, if_true] at h
      cases hp : inl_io_sched_populate_expire_time
          (env (m.tasks p).on_timeout_cbk p IO_SCHEDULER_ERR_OP_TIMEOUT m).2 p with
      | none => rw [hp] at h; exact Option.noConfusion h
      | some m2 =>
        rw [hp] at h
        rw [← Option.some.inj h]
    · simp only [hb, Bool.not_true, Bool.false_eq_true, if_false] at h
      rw [← Option.some.inj h]

/-- C4 (amended): a task that is scheduled from inside a callback during the
dispatch pass is appended at the tail of the live list (1), hence behind the
task that is being processed, and the same dispatch pass reaches it (2): after
the tasks in between, unless the scheduler was stopped or the task is flagged
Remove by then, `io_sched_process_task` is applied to it in this very
iteration.  So (3) it gets no callback in this iteration when, on its turn, it
is not expired and its descriptor is in none of the remaining ready sets, and
(4) a task without a real descriptor that is expired by then (for instance a
timer with timeout 0) gets its timeout callback in this same iteration. -/
theorem dispatch_reaches_task_scheduled_in_callback :
    (∀ (fuel : Nat) (m : Machine) (p a : Int) (pre suf : List Int),
      p ≠ 0 → (m.tasks p).owner = m.sched_at → (m.tasks p).opts < 2 ^ 32 →
      (S_IOSCHED_OPTS_TIMER (m.tasks p) = true → (m.tasks p).on_timeout_cbk ≠ 0 →
        IO_SCHEDULER_NO_TIMEOUT ≤ (m.tasks p).time_out) →
      isList m.tasks m.sched.scheduled_tasks (pre ++ a :: suf) →
      (pre ++ a :: suf).length ≤ fuel → p ∉ pre ++ a :: suf → (m.tasks p).next = 0 →
      ∃ m2, io_sched_schedule_task fuel m p = some (true, m2) ∧
        isList m2.tasks m2.sched.scheduled_tasks (pre ++ a :: (suf ++ [p])) ∧
        isList m2.tasks (m2.tasks a).next (suf ++ [p])) ∧
    (∀ (env : CbkEnv) (fuel : Nat) (m : Machine) (a p : Int) (suf : List Int)
      (rds wrs ers : Int → Bool) (st : proc) (r1 : pass),
      a ≠ 0 → m.sched.stop_scheduler = false → S_IOSCHED_OPTS_REMOVE (m.tasks a) = false →
      io_sched_process_task env m a rds wrs ers = some st →
      isList (if st.rv then io_sched_unschedule_task st.m a else st.m).tasks
        ((if st.rv then io_sched_unschedule_task st.m a else st.m).tasks a).next (suf ++ [p]) →
      links_kept_on env (suf ++ [p]) → suf.length + 2 < fuel →
      dispatch_list env suf (if st.rv then io_sched_unschedule_task st.m a else st.m)
        st.rds st.wrs st.ers = some r1 →
      dispatch_loop env fuel m a rds wrs ers =
        if r1.m.sched.stop_scheduler = true ∨ S_IOSCHED_OPTS_REMOVE (r1.m.tasks p) = true then
          some (r1.m, st.calls ++ r1.calls)
        else (io_sched_process_task env r1.m p r1.rds r1.wrs r1.ers).map (fun sp =>
          (if sp.rv then io_sched_unschedule_task sp.m p else sp.m,
            st.calls ++ (r1.calls ++ sp.calls)))) ∧
    (∀ (env : CbkEnv) (m : Machine) (p : Int) (rds wrs ers : Int → Bool),
      task_expired m.now (m.tasks p) = false →
      rds (m.tasks p).fd = false → wrs (m.tasks p).fd = false → ers (m.tasks p).fd = false →
      ∃ sp, io_sched_process_task env m p rds wrs ers = some sp ∧ sp.calls = []) ∧
    (∀ (env : CbkEnv) (m : Machine) (p : Int) (rds wrs ers : Int → Bool) (sp : proc),
      (m.tasks p).fd < 0 → task_expired m.now (m.tasks p) = true →
      io_sched_process_task env m p rds wrs ers = some sp →
      sp.calls = [⟨(m.tasks p).on_timeout_cbk, p, IO_SCHEDULER_ERR_OP_TIMEOUT⟩]) := by
  refine ⟨?_, ?_, ?_, ?_⟩
  · intro fuel m p a pre suf hp howner hopts hto hl hfuel hpl hnext
    obtain ⟨m2, _, _, _, h1, h2, _⟩ :=
      schedule_task_appends fuel m p (pre ++ a :: suf) hp howner hopts hto hl hfuel hpl hnext
    have e : (pre ++ a :: suf) ++ [p] = pre ++ a :: (suf ++ [p]) := by simp
    rw [e] at h2
    exact ⟨m2, h1, h2, isList_chain_from m2.tasks pre (suf ++ [p]) a _ h2⟩
  · intro env fuel m a p suf rds wrs ers st r1 ha hstop hrm hproc hchain hk hfuel hsuf
    cases fuel with
    | zero => simp at hfuel
    | succ k =>
      unfold dispatch_loop
      simp only [ha, hstop, Bool.false_eq_true, or_self, if_false, hrm, Bool.not_false, if_true,
        hproc]
      rw [dispatch_loop_eq_list_on env (suf ++ [p]) hk k _ _ st.rds st.wrs st.ers hchain
        (by simp; omega), dispatch_list_append, hsuf, Option.some_bind, dispatch_list_single]
      by_cases hc : r1.m.sched.stop_scheduler = true ∨ S_IOSCHED_OPTS_REMOVE (r1.m.tasks p) = true
      · rw [if_pos hc, if_pos hc]
        simp
      · rw [if_neg hc, if_neg hc]
        cases io_sched_process_task env r1.m p r1.rds r1.wrs r1.ers with
        | none => rfl
        | some sp => rfl
  · intro env m p rds wrs ers hexp hr hw he
    obtain ⟨sp, h1, h2, _⟩ := process_task_idle env m p rds wrs ers hexp hr hw he
    exact ⟨sp, h1, h2⟩
  · intro env m p rds wrs ers sp hfd hexp h
    exact process_task_timer_expired env m p rds wrs ers sp hfd hexp h

/-- Witness of C4 (amended): in the example the callback of the 5 ns timer
schedules the timeout-0 timer, which is appended behind it and is processed,
and fired, by the same dispatch pass. -/
theorem dispatch_reaches_task_scheduled_in_callback_witness :
    (ex_timer5.1 ≠ 0 ∧ ex_dispatch0.sched.stop_scheduler = false ∧
      io_sched_process_task ex_env_sched ex_dispatch0 ex_timer5.1
        (fun _ => false) (fun _ => false) (fun _ => false) = some ex_dispatch0_st ∧
      isList ex_dispatch0_st.m.tasks (ex_dispatch0_st.m.tasks ex_timer5.1).next [ex_timer0.1] ∧
      ex_dispatch0_st.rv = false) ∧
    (dispatch_loop ex_env_sched 5 ex_dispatch0 ex_timer5.1
        (fun _ => false) (fun _ => false) (fun _ => false)).map (fun r => r.2) =
      some [⟨77, ex_timer5.1, IO_SCHEDULER_ERR_OP_TIMEOUT⟩,
            ⟨99, ex_timer0.1, IO_SCHEDULER_ERR_OP_TIMEOUT⟩] := by
  have hproc : io_sched_process_task ex_env_sched ex_dispatch0 ex_timer5.1
      (fun _ => false) (fun _ => false) (fun _ => false) = some ex_dispatch0_st := rfl
  have hk : links_kept_on ex_env_sched ([] ++ [ex_timer0.1]) := by
    intro c t e m q ht
    have ht2 : t = ex_timer0.1 := by simpa using ht
    have hne : ¬ (c = 77 ∧ t = ex_timer5.1) := by
      rw [ht2]
      intro h
      exact absurd h.2 (by decide)
    unfold ex_env_sched
    rw [if_neg hne]
  refine ⟨⟨by decide, by decide, hproc, by decide, by decide⟩, ?_⟩
  rw [dispatch_reaches_task_scheduled_in_callback.2.1 ex_env_sched 5 ex_dispatch0 ex_timer5.1
    ex_timer0.1 [] (fun _ => false) (fun _ => false) (fun _ => false) ex_dispatch0_st
    { m := ex_dispatch0_st.m, rds := ex_dispatch0_st.rds, wrs := ex_dispatch0_st.wrs,
      ers := ex_dispatch0_st.ers, calls := [] }
    (by decide) (by decide) (by decide) hproc (by decide) hk (by decide) rfl]
  rfl

/-! ## Dispatch with callbacks that leave the machine alone -/

theorem write_self (m : Machine) (a : Int) : m.write a (m.tasks a) = m := by
  unfold Machine.write
  have : (fun q => if q = a then m.tasks a else m.tasks q) = m.tasks := by
    funext q
    by_cases h : q = a
    · rw [if_pos h, h]
    · rw [if_neg h]
  rw [this]

theorem call_cbk_pure (env : CbkEnv) (hpure : env_pure env) (s : proc) (c t e : Int)
    (hc : c ≠ 0) :
    call_cbk env s c t e =
      some ((env c t e s.m).1, { s with calls := s.calls ++ [⟨c, t, e⟩] }) := by
  unfold call_cbk
  rw [if_neg hc, hpure]

theorem process_error_pure (env : CbkEnv) (hpure : env_pure env) (s : proc) (a : Int)
    (hok : task_ok s.m.sched_at (s.m.tasks a)) :
    ∃ s2, process_error env s a = some s2 ∧ s2.m = s.m ∧ s2.rv = s.rv := by
  unfold process_error
  simp only []
  split_ifs with h
  · have hcb : (s.m.tasks a).on_err_rdy_cbk ≠ 0 := by
      apply hok.2.2.2.1
      simp only [Bool.and_eq_true] at h
      exact h.1
    rw [call_cbk_pure env hpure s _ _ _ hcb]
    exact ⟨_, rfl, rfl, rfl⟩
  · exact ⟨_, rfl, rfl, rfl⟩

theorem process_read_pure (env : CbkEnv) (hpure : env_pure env) (s : proc) (a : Int)
    (ex : Bool) (hex : ex = true → (s.m.tasks a).time_out ≠ IO_SCHEDULER_NO_TIMEOUT)
    (hok : task_ok s.m.sched_at (s.m.tasks a)) :
    ∃ s2, process_read env ex s a = some s2 ∧ s2.m = s.m := by
  unfold process_read
  simp only []
  split_ifs with h1 h2 h3 h4 h5
  · rw [call_cbk_pure env hpure s _ _ _ (hok.2.1 h1)]
    exact ⟨_, rfl, rfl⟩
  · exact ⟨_, rfl, rfl⟩
  · rw [call_cbk_pure env hpure s _ _ _ (hok.2.2.2.2.1 (hex h4))]
    exact ⟨_, rfl, rfl⟩
  · exact ⟨_, rfl, rfl⟩
  · exact ⟨_, rfl, rfl⟩
  · exact ⟨_, rfl, rfl⟩

theorem process_write_pure (env : CbkEnv) (hpure : env_pure env) (s : proc) (a : Int)
    (ex : Bool) (hex : ex = true → (s.m.tasks a).time_out ≠ IO_SCHEDULER_NO_TIMEOUT)
    (hok : task_ok s.m.sched_at (s.m.tasks a)) :
    ∃ s2, process_write env ex s a = some s2 ∧ s2.m = s.m := by
  unfold process_write
  simp only []
  split_ifs with h1 h2 h3 h4 h5
  · rw [call_cbk_pure env hpure s _ _ _ (hok.2.2.1 h1)]
    exact ⟨_, rfl, rfl⟩
  · exact ⟨_, rfl, rfl⟩
  · rw [call_cbk_pure env hpure s _ _ _ (hok.2.2.2.2.1 (hex h4))]
    exact ⟨_, rfl, rfl⟩
  · exact ⟨_, rfl, rfl⟩
  · exact ⟨_, rfl, rfl⟩
  · exact ⟨_, rfl, rfl⟩

theorem task_expired_timeout (now : timespec) (t : io_scheduler_task)
    (h : task_expired now t = true) : t.time_out ≠ IO_SCHEDULER_NO_TIMEOUT := by
  unfold task_expired at h
  simp only [Bool.and_eq_true, bne_iff_ne, ne_eq] at h
  exact h.1

/-- With callbacks that leave the machine alone, a well-formed task is
processed without a fault, and the machine changes at most in the expiry time
of that task, and only when the result is not-complete. -/
theorem process_task_pure (env : CbkEnv) (hpure : env_pure env) (m : Machine) (a : Int)
    (rds wrs ers : Int → Bool) (hok : task_ok m.sched_at (m.tasks a)) :
    ∃ st, io_sched_process_task env m a rds wrs ers = some st ∧
      (st.m = m ∨ (st.rv = false ∧
        ∃ e, st.m = m.write a { m.tasks a with expire_time := e })) := by
  unfold io_sched_process_task
  simp only []
  split_ifs with hfd
  · obtain ⟨s1, e1, m1, _⟩ := process_error_pure env hpure
      { rv := true, m := m, rds := rds, wrs := wrs, ers := ers, calls := [] } a hok
    rw [e1]
    simp only [] at m1 ⊢
    obtain ⟨s2, e2, m2⟩ := process_read_pure env hpure s1 a (task_expired m.now (m.tasks a))
      (by rw [m1]; exact task_expired_timeout _ _) (by rw [m1]; exact hok)
    rw [e2]
    simp only []
    obtain ⟨s3, e3, m3⟩ := process_write_pure env hpure s2 a (task_expired m.now (m.tasks a))
      (by rw [m2, m1]; exact task_expired_timeout _ _) (by rw [m2, m1]; exact hok)
    exact ⟨s3, e3, Or.inl (by rw [m3, m2, m1])⟩
  · unfold process_timer
    split_ifs with hexp
    · have hto := task_expired_timeout _ _ hexp
      rw [call_cbk_pure env hpure _ _ _ _ (hok.2.2.2.2.1 hto)]
      simp only []
      split_ifs with hb
      · have h0 : 0 ≤ (m.tasks a).time_out := by
          have := hok.2.2.2.2.2 (by unfold INVALID_GENERAL_FD at hfd ⊢; omega)
          unfold IO_SCHEDULER_NO_TIMEOUT at this hto
          omega
        rw [populate_some m a h0]
        exact ⟨_, rfl, Or.inr ⟨rfl, _, rfl⟩⟩
      · exact ⟨_, rfl, Or.inl rfl⟩
    · exact ⟨_, rfl, Or.inl rfl⟩

theorem touched_refl (m : Machine) (S : List Int) : touched m m S :=
  ⟨rfl, rfl, rfl, fun _ _ => rfl, fun q => ⟨(m.tasks q).opts, (m.tasks q).expire_time, rfl,
    Or.inl rfl⟩⟩

theorem touched_trans (m m1 m2 : Machine) (S1 S2 : List Int)
    (h1 : touched m m1 S1) (h2 : touched m1 m2 S2) : touched m m2 (S1 ++ S2) := by
  obtain ⟨a1, a2, a3, a4, a5⟩ := h1
  obtain ⟨b1, b2, b3, b4, b5⟩ := h2
  refine ⟨by rw [b1, a1], by rw [b2, a2], by rw [b3, a3], ?_, ?_⟩
  · intro q hq
    rw [b4 q (fun h => hq (List.mem_append_right S1 h)),
      a4 q (fun h => hq (List.mem_append_left S2 h))]
  · intro q
    obtain ⟨o1, e1, x1, y1⟩ := a5 q
    obtain ⟨o2, e2, x2, y2⟩ := b5 q
    refine ⟨o2, e2, by rw [x2, x1], ?_⟩
    rw [x1] at y2
    simp only [] at y2
    rcases y1 with y1 | y1 <;> rcases y2 with y2 | y2
    · left; rw [y2, y1]
    · right; rw [y2, y1]
    · right; rw [y2, y1]
    · right; rw [y2, y1, Nat.or_assoc, Nat.or_self]

theorem touched_mono (m m1 : Machine) (S1 S2 : List Int) (h : touched m m1 S1)
    (hs : ∀ q ∈ S1, q ∈ S2) : touched m m1 S2 := by
  obtain ⟨a1, a2, a3, a4, a5⟩ := h
  exact ⟨a1, a2, a3, fun q hq => a4 q (fun h => hq (hs q h)), a5⟩

theorem flags_set_remove (t : io_scheduler_task) (e : timespec) (o : Nat)
    (ho : o = t.opts ∨ o = t.opts ||| IO_SCHEDULER_REMOVE) :
    S_IOSCHED_OPTS_READ { t with opts := o, expire_time := e } = S_IOSCHED_OPTS_READ t ∧
    S_IOSCHED_OPTS_WRITE { t with opts := o, expire_time := e } = S_IOSCHED_OPTS_WRITE t ∧
    S_IOSCHED_OPTS_ERROR { t with opts := o, expire_time := e } = S_IOSCHED_OPTS_ERROR t ∧
    S_IOSCHED_OPTS_TIMER { t with opts := o, expire_time := e } = S_IOSCHED_OPTS_TIMER t := by
  simp only [opts_read_eq, opts_write_eq, opts_error_eq, opts_timer_eq]
  rcases ho with ho | ho
  · rw [ho]; exact ⟨rfl, rfl, rfl, rfl⟩
  · rw [ho]
    simp only [testBit_set_remove]
    refine ⟨?_, ?_, ?_, ?_⟩ <;> simp

theorem task_ok_touched (sa : Int) (t : io_scheduler_task) (e : timespec) (o : Nat)
    (ho : o = t.opts ∨ o = t.opts ||| IO_SCHEDULER_REMOVE) (hok : task_ok sa t) :
    task_ok sa { t with opts := o, expire_time := e } := by
  obtain ⟨f1, f2, f3, f4⟩ := flags_set_remove t e o ho
  obtain ⟨k1, k2, k3, k4, k5, k6⟩ := hok
  refine ⟨k1, ?_, ?_, ?_, k5, k6⟩
  · rw [f1]; exact k2
  · rw [f2]; exact k3
  · rw [f3]; exact k4

/-- One step of the dispatch pass with callbacks that leave the machine alone. -/
theorem dispatch_step_pure (env : CbkEnv) (hpure : env_pure env) (m : Machine) (a : Int)
    (rds wrs ers : Int → Bool) (hok : task_ok m.sched_at (m.tasks a)) :
    ∃ st, io_sched_process_task env m a rds wrs ers = some st ∧
      touched m (if st.rv then io_sched_unschedule_task st.m a else st.m) [a] ∧
      ∀ c ∈ st.calls, c.task = a := by
  obtain ⟨st, h1, h2⟩ := process_task_pure env hpure m a rds wrs ers hok
  refine ⟨st, h1, ?_, process_task_calls env m a rds wrs ers st h1⟩
  have hw : ∀ (o : Nat) (e : timespec),
      (o = (m.tasks a).opts ∨ o = (m.tasks a).opts ||| IO_SCHEDULER_REMOVE) →
      touched m (m.write a { m.tasks a with opts := o, expire_time := e }) [a] := by
    intro o e ho
    refine ⟨rfl, rfl, rfl, ?_, ?_⟩
    · intro q hq
      exact write_tasks_other _ _ _ _ (fun h => hq (by rw [h]; exact List.mem_singleton_self a))
    · intro q
      by_cases hq : q = a
      · subst hq
        exact ⟨o, e, write_tasks_same _ _ _, ho⟩
      · exact ⟨(m.tasks q).opts, (m.tasks q).expire_time,
          by rw [write_tasks_other _ _ _ _ hq], Or.inl rfl⟩
  rcases h2 with h2 | ⟨hrv, e, h2⟩
  · rw [h2]
    by_cases hr : st.rv = true
    · rw [if_pos hr]
      unfold io_sched_unschedule_task
      split_ifs
      · exact hw _ (m.tasks a).expire_time (Or.inr rfl)
      · exact touched_refl m [a]
    · rw [if_neg hr]
      exact touched_refl m [a]
  · rw [hrv, h2]
    simp only [Bool.false_eq_true, if_false]
    exact hw (m.tasks a).opts e (Or.inl rfl)

/-- The dispatch pass with callbacks that leave the machine alone, over
well-formed tasks: it runs without a fault and changes the tasks of the
sequence at most in their expiry time and Remove flag. -/
theorem dispatch_list_pure (env : CbkEnv) (hpure : env_pure env) (l : List Int) :
    ∀ (m : Machine) (rds wrs ers : Int → Bool),
      (∀ a ∈ l, task_ok m.sched_at (m.tasks a)) →
      ∃ r, dispatch_list env l m rds wrs ers = some r ∧ touched m r.m l ∧
        ∀ c ∈ r.calls, c.task ∈ l := by
  induction l with
  | nil =>
    intro m rds wrs ers _
    exact ⟨_, by rw [dispatch_list], touched_refl m [], fun c hc => by simp at hc⟩
  | cons a l ih =>
    intro m rds wrs ers hok
    rw [dispatch_list_cons]
    by_cases hs : m.sched.stop_scheduler = true
    · rw [if_pos hs]
      exact ⟨_, rfl, touched_refl m _, fun c hc => by simp at hc⟩
    · rw [if_neg hs]
      by_cases hrm : S_IOSCHED_OPTS_REMOVE (m.tasks a) = true
      · have hn : ¬ ((!S_IOSCHED_OPTS_REMOVE (m.tasks a)) = true) := by simp [hrm]
        rw [if_neg hn]
        obtain ⟨r, h1, h2, h3⟩ := ih m rds wrs ers
          (fun b hb => hok b (List.mem_cons_of_mem a hb))
        exact ⟨r, h1, touched_mono m r.m l (a :: l) h2 (fun q hq => List.mem_cons_of_mem a hq),
          fun c hc => List.mem_cons_of_mem a (h3 c hc)⟩
      · have hn : (!S_IOSCHED_OPTS_REMOVE (m.tasks a)) = true := by simpa using hrm
        rw [if_pos hn]
        obtain ⟨st, p1, p2, p3⟩ := dispatch_step_pure env hpure m a rds wrs ers
          (hok a (List.mem_cons_self a l))
        rw [p1]
        simp only []
        have hok2 : ∀ b ∈ l, task_ok
            (if st.rv = true then io_sched_unschedule_task st.m a else st.m).sched_at
            ((if st.rv = true then io_sched_unschedule_task st.m a else st.m).tasks b) := by
          intro b hb
          obtain ⟨o, e, x, y⟩ := p2.2.2.2.2 b
          rw [p2.2.2.1, x]
          exact task_ok_touched _ _ e o y (hok b (List.mem_cons_of_mem a hb))
        obtain ⟨r, h1, h2, h3⟩ := ih _ st.rds st.wrs st.ers hok2
        rw [h1]
        refine ⟨_, rfl, ?_, ?_⟩
        · exact touched_trans m _ r.m [a] l p2 h2
        · intro c hc
          simp only [List.mem_append] at hc
          rcases hc with hc | hc
          · rw [p3 c hc]; exact List.mem_cons_self _ _
          · exact List.mem_cons_of_mem a (h3 c hc)

/-! ## One pump iteration with callbacks that leave the machine alone -/

theorem env_pure_links (env : CbkEnv) (hpure : env_pure env) : links_kept env := by
  intro c t e m q
  rw [hpure c t e m]

theorem ids_of_filter_length (F : Int → Int) (P : Int → Bool) (l : List Int) :
    (ids_of F (l.filter P)).length ≤ (ids_of F l).length := by
  unfold ids_of
  rw [List.length_map, List.length_map]
  exact ((List.filter_sublist l).filter _).length_le

theorem room_filter (F : Int → Int) (m : Machine) (P : Int → Bool) (l : List Int)
    (h : room F m l) : room F m (l.filter P) := by
  obtain ⟨a1, a2, a3, a4⟩ := h
  exact ⟨le_trans (List.length_filter_le _ _) a1, a2,
    le_trans (ids_of_filter_length F P l) a3, a4⟩

theorem length_reaped_survivors (m : Machine) (l : List Int) :
    (reaped m l).length + (survivors m l).length = l.length := by
  unfold reaped survivors
  induction l with
  | nil => rfl
  | cons a l ih =>
    simp only [List.filter_cons]
    cases reapable (m.tasks a) <;> simp <;> omega

theorem ids_reaped_survivors (F : Int → Int) (m : Machine) (l : List Int) :
    (ids_of F (reaped m l)).length + (ids_of F (survivors m l)).length = (ids_of F l).length := by
  unfold reaped survivors ids_of
  induction l with
  | nil => rfl
  | cons a l ih =>
    simp only [List.filter_cons]
    cases reapable (m.tasks a) <;> by_cases hf : F a < INVALID_GENERAL_FD <;>
      simp [hf] at ih ⊢ <;> omega

theorem task_ok_next (sa : Int) (t : io_scheduler_task) (k : Int) (h : task_ok sa t) :
    task_ok sa { t with next := k } := h

theorem sched_ok_touched (m m2 : Machine) (l S : List Int) (ht : touched m m2 S)
    (h : sched_ok m l) : sched_ok m2 l := by
  obtain ⟨t1, t2, t3, t4, t5⟩ := ht
  obtain ⟨h1, h2, h3⟩ := h
  have hfd : ∀ q, (m2.tasks q).fd = (m.tasks q).fd := by
    intro q
    obtain ⟨o, e, x, _⟩ := t5 q
    rw [x]
  refine ⟨?_, ?_, ?_⟩
  · rw [t1]
    refine isList_congr m.tasks m2.tasks l _ ?_ h1
    intro a _
    obtain ⟨o, e, x, _⟩ := t5 a
    rw [x]
  · intro a ha
    obtain ⟨o, e, x, y⟩ := t5 a
    rw [t3, x]
    exact task_ok_touched _ _ e o y (h2 a ha)
  · unfold room at h3 ⊢
    rw [t1, ids_of_congr (fun a => (m2.tasks a).fd) (fun a => (m.tasks a).fd) l
      (fun a _ => hfd a)]
    exact h3

/-- One pump iteration of a running scheduler whose callbacks leave the machine
alone: the coalescing pass, then the dispatch pass over the survivors. -/
theorem pump_pure (fuel : Nat) (env : CbkEnv) (sel : select_result) (m : Machine) (l : List Int)
    (hpure : env_pure env) (hok : sched_ok m l) (hne : l ≠ [])
    (hstop : m.sched.stop_scheduler = false) (hfuel : l.length < fuel) :
    ∃ (m1 : Machine) (fs : pump_sets) (r : pass),
      isList m1.tasks m1.sched.scheduled_tasks (survivors m l) ∧
      destroyed (fun a => (m.tasks a).fd) m m1 (reaped m l) ∧
      (∀ a ∈ survivors m l, ∃ k, m1.tasks a = { m.tasks a with next := k }) ∧
      (∀ q, q ∉ l → m1.tasks q = m.tasks q) ∧
      (sel.failed = true → r.m = { m1 with now := sel.now } ∧ r.calls = []) ∧
      (sel.failed = false →
        dispatch_list env (survivors m l) { m1 with now := sel.now }
          (fun fd => fs.rd fd && sel.rd fd) (fun fd => fs.wr fd && sel.wr fd)
          (fun fd => fs.er fd && sel.er fd) = some r) ∧
      inl_io_sched_pump fuel env sel m = some (r.m, r.calls) ∧
      touched { m1 with now := sel.now } r.m (survivors m l) ∧
      (∀ c ∈ r.calls, c.task ∈ survivors m l) ∧
      sched_ok r.m (survivors m l) ∧ r.m.sched.stop_scheduler = false := by
  obtain ⟨h1, h2, h3⟩ := hok
  obtain ⟨m1, fs, _, p2, p3, p4, p5, p6⟩ := pump_eq fuel env sel m l (env_pure_links env hpure)
    h1 hne hstop (fun a ha => (h2 a ha).1) (room_filter _ m _ l h3) hfuel
  have hok1 : sched_ok { m1 with now := sel.now } (survivors m l) := by
    refine ⟨p2, ?_, ?_⟩
    · intro a ha
      obtain ⟨k, hk⟩ := p4 a ha
      show task_ok m1.sched_at (m1.tasks a)
      rw [hk, p3.2.2.2.2.2.2.2.2.1]
      exact task_ok_next _ _ k (h2 a ((List.mem_filter.mp ha).1))
    · have e : ids_of (fun a => (m1.tasks a).fd) (survivors m l) =
          ids_of (fun a => (m.tasks a).fd) (survivors m l) := by
        apply ids_of_congr
        intro a ha
        obtain ⟨k, hk⟩ := p4 a ha
        show (m1.tasks a).fd = (m.tasks a).fd
        rw [hk]
      obtain ⟨a1, a2, a3, a4⟩ := h3
      obtain ⟨_, b2, b3, _, b5, b6, _⟩ := p3
      have l1 := length_reaped_survivors m l
      have l2 := ids_reaped_survivors (fun a => (m.tasks a).fd) m l
      refine ⟨?_, ?_, ?_, ?_⟩
      · show (survivors m l).length ≤ m1.sched.task_pool.current
        omega
      · show m1.sched.task_pool.current ≤ m1.sched.task_pool.limit
        omega
      · show (ids_of (fun a => (m1.tasks a).fd) (survivors m l)).length ≤
          m1.sched.timer_id_pool.current
        rw [e]; omega
      · show m1.sched.timer_id_pool.current ≤ m1.sched.timer_id_pool.limit
        omega
  have hs1 : m1.sched.stop_scheduler = false := by rw [p3.2.2.2.2.2.2.1, hstop]
  by_cases hf : sel.failed = true
  · refine ⟨m1, fs, pass.mk { m1 with now := sel.now } (fun _ => false) (fun _ => false)
      (fun _ => false) [], p2, p3, p4, p5,
      fun _ => ⟨rfl, rfl⟩, fun h => by rw [hf] at h; exact Bool.noConfusion h, ?_,
      touched_refl _ _, fun c hc => by simp at hc, hok1, hs1⟩
    rw [p6, if_pos hf]
  · obtain ⟨r, d1, d2, d3⟩ := dispatch_list_pure env hpure (survivors m l)
      { m1 with now := sel.now } (fun fd => fs.rd fd && sel.rd fd)
      (fun fd => fs.wr fd && sel.wr fd) (fun fd => fs.er fd && sel.er fd) hok1.2.1
    refine ⟨m1, fs, r, p2, p3, p4, p5, fun h => absurd h hf, fun _ => d1, ?_, d2, d3,
      sched_ok_touched _ _ _ _ d2 hok1, ?_⟩
    · rw [p6, if_neg hf, d1]; rfl
    · rw [d2.1]; exact hs1

/-! ## Pool exhaustion -/

theorem unschedule_touched (m : Machine) (t : Int) :
    touched m (io_sched_unschedule_task m t) [t] := by
  unfold io_sched_unschedule_task
  split_ifs
  · refine ⟨rfl, rfl, rfl, ?_, ?_⟩
    · intro q hq
      exact write_tasks_other _ _ _ _ (fun h => hq (by rw [h]; exact List.mem_singleton_self t))
    · intro q
      by_cases hq : q = t
      · subst hq
        exact ⟨_, (m.tasks q).expire_time, write_tasks_same _ _ _, Or.inr rfl⟩
      · exact ⟨(m.tasks q).opts, (m.tasks q).expire_time,
          by rw [write_tasks_other _ _ _ _ hq], Or.inl rfl⟩
  · exact touched_refl m [t]

theorem unschedule_reapable (m : Machine) (t : Int) (ht : t ≠ 0)
    (hfd : (m.tasks t).fd ≠ INVALID_GENERAL_FD) :
    reapable ((io_sched_unschedule_task m t).tasks t) = true := by
  unfold io_sched_unschedule_task
  rw [if_pos ⟨ht, hfd⟩, write_tasks_same]
  unfold reapable
  rw [opts_remove_eq]
  simp only [testBit_set_remove]
  simp [hfd]

/-- Claim C7: in a running scheduler whose task pool has as many places as the
live list has tasks (n well-formed tasks created and scheduled, none reaped),
creating a task returns no task and leaves the machine as it is; after one of
the live tasks, with a descriptor other than `INVALID_GENERAL_FD`, has been
unscheduled and one pump iteration has run (whatever `select` reports, the
callbacks only returning a value), creating a task returns a task, in one of
the slots of the live list. -/
theorem pool_exhaustion_recovers (fuel : Nat) (env : CbkEnv) (sel : select_result)
    (m : Machine) (l : List Int) (t fd : Int) (opts : Nat)
    (time_out user_data read_cbk write_cbk err_cbk time_out_cbk : Int)
    (hpure : env_pure env) (hok : sched_ok m l) (hn : l.length = m.sched.task_pool.limit)
    (hstop : m.sched.stop_scheduler = false) (ht : t ∈ l)
    (hfd : (m.tasks t).fd ≠ INVALID_GENERAL_FD) (hfuel : l.length < fuel) :
    io_sched_create_task m fd opts time_out user_data read_cbk write_cbk err_cbk
      time_out_cbk = (0, m) ∧
    ∃ m2 calls,
      inl_io_sched_pump fuel env sel (io_sched_unschedule_task m t) = some (m2, calls) ∧
      (io_sched_create_task m2 fd opts time_out user_data read_cbk write_cbk err_cbk
        time_out_cbk).1 ≠ 0 ∧
      (io_sched_create_task m2 fd opts time_out user_data read_cbk write_cbk err_cbk
        time_out_cbk).1 ∈ l := by
  have ht0 : t ≠ 0 := fun h => isList_not_mem_zero _ _ _ hok.1 (h ▸ ht)
  constructor
  · have hcur : ¬ m.sched.task_pool.current < m.sched.task_pool.limit := by
      obtain ⟨a1, a2, _⟩ := hok.2.2
      omega
    unfold io_sched_create_task
    rw [stack_pop_empty _ hcur]
    simp
  · have hu := unschedule_touched m t
    have hok2 := sched_ok_touched m _ l [t] hu hok
    have hs2 : (io_sched_unschedule_task m t).sched.stop_scheduler = false := by
      rw [hu.1]; exact hstop
    obtain ⟨m1, fs, r, _, p3, _, _, _, _, p6, p7, _⟩ := pump_pure fuel env sel
      (io_sched_unschedule_task m t) l hpure hok2 (List.ne_nil_of_mem ht) hs2 hfuel
    have htr : t ∈ reaped (io_sched_unschedule_task m t) l :=
      List.mem_filter.mpr ⟨ht, unschedule_reapable m t ht0 hfd⟩
    have hsch : r.m.sched = m1.sched := p7.1
    have hc : stack_contents r.m.sched.task_pool =
        (reaped (io_sched_unschedule_task m t) l).reverse ++
          stack_contents (io_sched_unschedule_task m t).sched.task_pool := by
      rw [hsch]; exact p3.1
    have hlen : 0 < (stack_contents r.m.sched.task_pool).length := by
      rw [hc, List.length_append, List.length_reverse]
      have := List.length_pos_of_mem htr
      omega
    rw [stack_contents_length] at hlen
    have hlt : r.m.sched.task_pool.current < r.m.sched.task_pool.limit := by
      unfold stack_fixed_size at hlen; omega
    have hpop := stack_pop_nonempty _ hlt
    have hmem : (stack_fixed_pop_and_return r.m.sched.task_pool).1 ∈ l := by
      have h1 : (stack_fixed_pop_and_return r.m.sched.task_pool).1 ∈
          stack_contents r.m.sched.task_pool := by
        rw [hpop]; exact List.mem_cons_self _ _
      rw [hc, List.mem_append, List.mem_reverse] at h1
      rcases h1 with h1 | h1
      · exact (List.mem_filter.mp h1).1
      · have h0 : stack_contents (io_sched_unschedule_task m t).sched.task_pool = [] := by
          apply List.eq_nil_of_length_eq_zero
          rw [stack_contents_length, hu.1]
          obtain ⟨a1, a2, _⟩ := hok.2.2
          unfold stack_fixed_size
          omega
        rw [h0] at h1
        exact absurd h1 (List.not_mem_nil _)
    have hne : (stack_fixed_pop_and_return r.m.sched.task_pool).1 ≠ 0 :=
      fun h => isList_not_mem_zero _ _ _ hok.1 (h ▸ hmem)
    have hcr : (io_sched_create_task r.m fd opts time_out user_data read_cbk write_cbk err_cbk
        time_out_cbk).1 = (stack_fixed_pop_and_return r.m.sched.task_pool).1 := by
      unfold io_sched_create_task
      simp only []
      rw [if_pos hne]
    exact ⟨r.m, r.calls, p6, by rw [hcr]; exact hne, by rw [hcr]; exact hmem⟩

/-- The spec's case of claim C7: the scheduler made with 2 task slots and 1
timer, two reader tasks created and scheduled, a third creation, then the first
reader unscheduled and one idle pump iteration. -/
theorem pool_exhaustion_recovers_witness :
    env_pure ex_env_true ∧ sched_ok ex_pool_full [1002, 1001] ∧
    [1002, 1001].length = ex_pool_full.sched.task_pool.limit ∧
    io_sched_create_task ex_pool_full 7 IO_SCHEDULER_READ (-1) 0 88 0 0 0 = (0, ex_pool_full) ∧
    ∃ m2 calls,
      inl_io_sched_pump 3 ex_env_true ex_select_idle
        (io_sched_unschedule_task ex_pool_full 1002) = some (m2, calls) ∧
      (io_sched_create_task m2 7 IO_SCHEDULER_READ (-1) 0 88 0 0 0).1 ≠ 0 ∧
      (io_sched_create_task m2 7 IO_SCHEDULER_READ (-1) 0 88 0 0 0).1 ∈ [1002, 1001] :=
  ⟨fun _ _ _ _ => rfl, by decide, by decide,
    pool_exhaustion_recovers 3 ex_env_true ex_select_idle ex_pool_full [1002, 1001] 1002 7
      IO_SCHEDULER_READ (-1) 0 88 0 0 0 (fun _ _ _ _ => rfl) (by decide) (by decide)
      (by decide) (by decide) (by decide) (by decide)⟩

/-! ## A timer whose callback returns true -/

theorem process_task_timer_cases (env : CbkEnv) (m : Machine) (p : Int)
    (rds wrs ers : Int → Bool)
    (hfd : (m.tasks p).fd < 0) (hcb : (m.tasks p).on_timeout_cbk ≠ 0) :
    (task_expired m.now (m.tasks p) = false →
      io_sched_process_task env m p rds wrs ers =
        some { rv := false, m := m, rds := rds, wrs := wrs, ers := ers, calls := [] }) ∧
    (task_expired m.now (m.tasks p) = true →
      (env (m.tasks p).on_timeout_cbk p IO_SCHEDULER_ERR_OP_TIMEOUT m).1 = true →
      io_sched_process_task env m p rds wrs ers =
        some { rv := true, m := (env (m.tasks p).on_timeout_cbk p IO_SCHEDULER_ERR_OP_TIMEOUT m).2,
               rds := rds, wrs := wrs, ers := ers,
               calls := [⟨(m.tasks p).on_timeout_cbk, p, IO_SCHEDULER_ERR_OP_TIMEOUT⟩] }) := by
  have hbr : ¬ ((m.tasks p).fd > INVALID_GENERAL_FD) := by
    unfold INVALID_GENERAL_FD; omega
  refine ⟨?_, ?_⟩
  · intro he
    unfold io_sched_process_task
    simp only [if_neg hbr, he, process_timer]
    rfl
  · intro he hr
    unfold io_sched_process_task
    simp only [if_neg hbr, he, process_timer, call_cbk, if_neg hcb, if_true, List.nil_append, hr]
    rfl

/-- The dispatch pass with callbacks that leave the machine alone, seen from a
pure timer `p` of the sequence whose timeout callback returns true: when `p` is
not expired it is left as it is and not called; when it is expired its timeout
callback is called once and the Remove flag is set. -/
theorem dispatch_list_timer (env : CbkEnv) (hpure : env_pure env) (l : List Int) (m : Machine)
    (p : Int) (rds wrs ers : Int → Bool)
    (hok : ∀ a ∈ l, task_ok m.sched_at (m.tasks a)) (hnd : l.Nodup) (hp : p ∈ l)
    (hp0 : p ≠ 0) (hstop : m.sched.stop_scheduler = false)
    (hfd : (m.tasks p).fd < INVALID_GENERAL_FD)
    (hrm : S_IOSCHED_OPTS_REMOVE (m.tasks p) = false)
    (hcb : (m.tasks p).on_timeout_cbk ≠ 0)
    (hret : ∀ e m1, (env (m.tasks p).on_timeout_cbk p e m1).1 = true) :
    ∃ r, dispatch_list env l m rds wrs ers = some r ∧ touched m r.m l ∧
      (∀ c ∈ r.calls, c.task ∈ l) ∧
      (task_expired m.now (m.tasks p) = false →
        r.m.tasks p = m.tasks p ∧ ∀ c ∈ r.calls, c.task ≠ p) ∧
      (task_expired m.now (m.tasks p) = true →
        r.m.tasks p = { m.tasks p with opts := (m.tasks p).opts ||| IO_SCHEDULER_REMOVE } ∧
        r.calls.filter (fun c => decide (c.task = p)) =
          [⟨(m.tasks p).on_timeout_cbk, p, IO_SCHEDULER_ERR_OP_TIMEOUT⟩]) := by
  obtain ⟨r, e, t, c⟩ := dispatch_list_pure env hpure l m rds wrs ers hok
  refine ⟨r, e, t, c, ?_⟩
  obtain ⟨l1, l2, rfl⟩ := List.append_of_mem hp
  have hnm := (List.nodup_cons.mp (List.nodup_middle.mp hnd)).1
  have hp1 : p ∉ l1 := fun h => hnm (List.mem_append_left _ h)
  have hp2 : p ∉ l2 := fun h => hnm (List.mem_append_right _ h)
  obtain ⟨r1, d1, t1, c1⟩ := dispatch_list_pure env hpure l1 m rds wrs ers
    (fun a ha => hok a (List.mem_append_left _ ha))
  have hdec := dispatch_list_append env l1 (p :: l2) m rds wrs ers
  have hs1 : ¬ (r1.m.sched.stop_scheduler = true) := by rw [t1.1, hstop]; simp
  have hq1 : r1.m.tasks p = m.tasks p := t1.2.2.2.1 p hp1
  have hr1 : (!S_IOSCHED_OPTS_REMOVE (r1.m.tasks p)) = true := by rw [hq1, hrm]; rfl
  have hfd0 : (r1.m.tasks p).fd < 0 := by
    rw [hq1]; unfold INVALID_GENERAL_FD at hfd; omega
  have hcb1 : (r1.m.tasks p).on_timeout_cbk ≠ 0 := by rw [hq1]; exact hcb
  have hpt := process_task_timer_cases env r1.m p r1.rds r1.wrs r1.ers hfd0 hcb1
  rw [e, d1, Option.some_bind, dispatch_list_cons, if_neg hs1, if_pos hr1] at hdec
  have hok2 : ∀ (mx : Machine), touched m mx (l1 ++ [p]) →
      ∀ a ∈ l2, task_ok mx.sched_at (mx.tasks a) := by
    intro mx tx a ha
    obtain ⟨o, ex, x, y⟩ := tx.2.2.2.2 a
    rw [tx.2.2.1, x]
    exact task_ok_touched _ _ ex o y (hok a (List.mem_append_right _ (List.mem_cons_of_mem p ha)))
  have hnow : r1.m.now = m.now := t1.2.1
  constructor
  · intro hexp
    have hexp1 : task_expired r1.m.now (r1.m.tasks p) = false := by rw [hnow, hq1]; exact hexp
    rw [hpt.1 hexp1] at hdec
    simp only [Bool.false_eq_true, if_false] at hdec
    obtain ⟨r2, d2, t2, c2⟩ := dispatch_list_pure env hpure l2 r1.m r1.rds r1.wrs r1.ers
      (hok2 r1.m (touched_mono _ _ _ _ t1 (fun q hq => List.mem_append_left _ hq)))
    rw [d2] at hdec
    have hr := Option.some.inj hdec
    rw [hr]
    refine ⟨?_, ?_⟩
    · show r2.m.tasks p = m.tasks p
      rw [t2.2.2.2.1 p hp2, hq1]
    · intro x hx
      have hx1 : x ∈ r1.calls ++ ([] ++ r2.calls) := hx
      simp only [List.nil_append, List.mem_append] at hx1
      rcases hx1 with h | h
      · exact fun hh => hp1 (hh ▸ c1 x h)
      · exact fun hh => hp2 (hh ▸ c2 x h)
  · intro hexp
    have hexp1 : task_expired r1.m.now (r1.m.tasks p) = true := by rw [hnow, hq1]; exact hexp
    have hrt : (env (r1.m.tasks p).on_timeout_cbk p IO_SCHEDULER_ERR_OP_TIMEOUT r1.m).1 = true := by
      rw [hq1]; exact hret _ _
    rw [hpt.2 hexp1 hrt, hpure] at hdec
    simp only [if_true] at hdec
    have tu := touched_trans m r1.m _ l1 [p] t1 (unschedule_touched r1.m p)
    obtain ⟨r2, d2, t2, c2⟩ := dispatch_list_pure env hpure l2 (io_sched_unschedule_task r1.m p)
      r1.rds r1.wrs r1.ers (hok2 _ tu)
    rw [d2] at hdec
    have hr := Option.some.inj hdec
    rw [hr]
    refine ⟨?_, ?_⟩
    · show r2.m.tasks p = _
      rw [t2.2.2.2.1 p hp2]
      unfold io_sched_unschedule_task
      have hfdne : (r1.m.tasks p).fd ≠ INVALID_GENERAL_FD := by
        rw [hq1]; omega
      rw [if_pos ⟨hp0, hfdne⟩, write_tasks_same, hq1]
    · show (r1.calls ++ ([cbk_call.mk (r1.m.tasks p).on_timeout_cbk p
          IO_SCHEDULER_ERR_OP_TIMEOUT] ++ r2.calls)).filter
            (fun c : cbk_call => decide (c.task = p)) = _
      rw [List.filter_append, List.filter_append, hq1]
      have f1 : r1.calls.filter (fun c => decide (c.task = p)) = [] := by
        apply List.filter_eq_nil_iff.mpr
        intro x hx
        simp only [decide_eq_true_eq]
        exact fun hh => hp1 (hh ▸ c1 x hx)
      have f2 : r2.calls.filter (fun c => decide (c.task = p)) = [] := by
        apply List.filter_eq_nil_iff.mpr
        intro x hx
        simp only [decide_eq_true_eq]
        exact fun hh => hp2 (hh ▸ c2 x hx)
      rw [f1, f2]
      simp

theorem pump_empty (fuel : Nat) (env : CbkEnv) (sel : select_result) (m : Machine)
    (h : m.sched.scheduled_tasks = 0) (hstop : m.sched.stop_scheduler = false)
    (hfuel : 0 < fuel) :
    inl_io_sched_pump fuel env sel m = some ({ m with now := sel.now }, []) := by
  obtain ⟨k, rfl⟩ : ∃ k, fuel = k + 1 := ⟨fuel - 1, by omega⟩
  unfold inl_io_sched_pump
  by_cases ht : m.sched.scheduler_thread ≠ 0
  · rw [if_pos ⟨h, ht⟩]
  · have hn : ¬ (m.sched.scheduled_tasks = 0 ∧ m.sched.scheduler_thread ≠ 0) := fun x => ht x.2
    have hn2 : ¬ (m.sched.scheduled_tasks ≠ 0 ∧ (!m.sched.stop_scheduler) = true) :=
      fun x => x.1 h
    rw [if_neg hn, if_neg hn2]
    simp only [hstop, Bool.not_false, if_true]
    by_cases hf : sel.failed = true
    · rw [if_pos hf]
    · rw [if_neg hf, h]
      unfold dispatch_loop
      simp

/-- One pump iteration of a running scheduler whose callbacks leave the machine
alone, on any live list: the live list shrinks to a part of itself, callbacks
are invoked on its tasks only, and both pools keep what they hold. -/
theorem pump_pure_any (fuel : Nat) (env : CbkEnv) (sel : select_result) (m : Machine)
    (l : List Int) (hpure : env_pure env) (hok : sched_ok m l)
    (hstop : m.sched.stop_scheduler = false) (hfuel : l.length < fuel) :
    ∃ m2 calls l2, inl_io_sched_pump fuel env sel m = some (m2, calls) ∧
      sched_ok m2 l2 ∧ m2.sched.stop_scheduler = false ∧ l2.length ≤ l.length ∧
      (∀ x ∈ l2, x ∈ l) ∧ (∀ c ∈ calls, c.task ∈ l) ∧
      (∀ q, q ∉ l → m2.tasks q = m.tasks q) ∧
      (∀ x ∈ stack_contents m.sched.task_pool, x ∈ stack_contents m2.sched.task_pool) ∧
      (∀ x ∈ stack_contents m.sched.timer_id_pool,
        x ∈ stack_contents m2.sched.timer_id_pool) := by
  by_cases hne : l = []
  · subst hne
    have h0 : m.sched.scheduled_tasks = 0 := hok.1
    refine ⟨_, _, [], pump_empty fuel env sel m h0 hstop hfuel, ?_, hstop, le_refl _,
      fun x hx => hx, fun c hc => by simp at hc, fun _ _ => rfl, fun x hx => hx,
      fun x hx => hx⟩
    exact ⟨hok.1, fun a ha => by simp at ha, hok.2.2⟩
  · obtain ⟨m1, fs, r, _, p3, _, p5, _, _, p6, p7, p8, p9, p10⟩ :=
      pump_pure fuel env sel m l hpure hok hne hstop hfuel
    refine ⟨r.m, r.calls, survivors m l, p6, p9, p10, List.length_filter_le _ _,
      fun x hx => (List.mem_filter.mp hx).1, fun c hc => (List.mem_filter.mp (p8 c hc)).1,
      ?_, ?_, ?_⟩
    · intro q hq
      rw [p7.2.2.2.1 q (fun h => hq (List.mem_filter.mp h).1)]
      exact p5 q hq
    · intro x hx
      rw [p7.1]
      show x ∈ stack_contents m1.sched.task_pool
      rw [p3.1]
      exact List.mem_append_right _ hx
    · intro x hx
      rw [p7.1]
      show x ∈ stack_contents m1.sched.timer_id_pool
      rw [p3.2.2.2.1]
      exact List.mem_append_right _ hx

/-- A run of pump iterations of a running scheduler whose callbacks leave the
machine alone: every iteration returns, callbacks are invoked on tasks of the
live list only, and both pools keep what they hold. -/
theorem pump_run_pure (fuel : Nat) (env : CbkEnv) (hpure : env_pure env)
    (sels : List select_result) :
    ∀ (m : Machine) (l : List Int), sched_ok m l → m.sched.stop_scheduler = false →
      l.length < fuel →
      ∃ m2 calls l2, pump_run fuel env sels m = some (m2, calls) ∧
        sched_ok m2 l2 ∧ m2.sched.stop_scheduler = false ∧ l2.length ≤ l.length ∧
        (∀ x ∈ l2, x ∈ l) ∧ (∀ c ∈ calls, c.task ∈ l) ∧
        (∀ q, q ∉ l → m2.tasks q = m.tasks q) ∧
        (∀ x ∈ stack_contents m.sched.task_pool, x ∈ stack_contents m2.sched.task_pool) ∧
        (∀ x ∈ stack_contents m.sched.timer_id_pool,
          x ∈ stack_contents m2.sched.timer_id_pool) := by
  induction sels with
  | nil =>
    intro m l hok hstop _
    exact ⟨m, [], l, rfl, hok, hstop, le_refl _, fun x hx => hx, fun c hc => by simp at hc,
      fun _ _ => rfl, fun x hx => hx, fun x hx => hx⟩
  | cons sel sels ih =>
    intro m l hok hstop hfuel
    obtain ⟨m1, c1, l1, a1, a2, a3, a4, a5, a6, a7, a8, a9⟩ :=
      pump_pure_any fuel env sel m l hpure hok hstop hfuel
    obtain ⟨m2, c2, l2, b1, b2, b3, b4, b5, b6, b7, b8, b9⟩ :=
      ih m1 l1 a2 a3 (lt_of_le_of_lt a4 hfuel)
    refine ⟨m2, c1 ++ c2, l2, ?_, b2, b3, le_trans b4 a4, fun x hx => a5 x (b5 x hx), ?_, ?_,
      fun x hx => b8 x (a8 x hx), fun x hx => b9 x (a9 x hx)⟩
    · unfold pump_run
      rw [a1]
      simp only [b1]
    · intro c hc
      rcases List.mem_append.mp hc with h | h
      · exact a6 c h
      · exact a5 _ (b6 c h)
    · intro q hq
      rw [b7 q (fun h => hq (a5 q h)), a7 q hq]

theorem task_ok_survivors (m m1 : Machine) (l : List Int) (now : timespec)
    (hok : ∀ a ∈ l, task_ok m.sched_at (m.tasks a))
    (hsa : m1.sched_at = m.sched_at)
    (h4 : ∀ a ∈ survivors m l, ∃ k, m1.tasks a = { m.tasks a with next := k }) :
    ∀ a ∈ survivors m l,
      task_ok ({ m1 with now := now } : Machine).sched_at
        (({ m1 with now := now } : Machine).tasks a) := by
  intro a ha
  obtain ⟨k, hk⟩ := h4 a ha
  show task_ok m1.sched_at (m1.tasks a)
  rw [hk, hsa]
  exact task_ok_next _ _ k (hok a ((List.mem_filter.mp ha).1))

/-- One pump iteration seen from a live pure timer `p` whose timeout callback
returns true, the task being `T` up to its link.  When `select` fails or the
timer is not expired, the timer stays as it is and is not called; when `select`
succeeds and the timer is expired, its timeout callback is called once and the
Remove flag is set.  The timer is in the live list afterwards. -/
theorem pump_timer_live (fuel : Nat) (env : CbkEnv) (sel : select_result) (m : Machine)
    (l : List Int) (p : Int) (T : io_scheduler_task)
    (hpure : env_pure env) (hok : sched_ok m l) (hstop : m.sched.stop_scheduler = false)
    (hfuel : l.length < fuel) (hp : p ∈ l)
    (hT : ∃ k, m.tasks p = { T with next := k })
    (hfd : T.fd < INVALID_GENERAL_FD) (hrm : S_IOSCHED_OPTS_REMOVE T = false)
    (hcb : T.on_timeout_cbk ≠ 0)
    (hret : ∀ e m1, (env T.on_timeout_cbk p e m1).1 = true) :
    ∃ m2 calls l2, inl_io_sched_pump fuel env sel m = some (m2, calls) ∧
      sched_ok m2 l2 ∧ m2.sched.stop_scheduler = false ∧ l2.length ≤ l.length ∧ p ∈ l2 ∧
      ((sel.failed = true ∨ task_expired sel.now T = false) →
        (∃ k, m2.tasks p = { T with next := k }) ∧ ∀ c ∈ calls, c.task ≠ p) ∧
      ((sel.failed = false ∧ task_expired sel.now T = true) →
        (∃ k, m2.tasks p = { T with next := k, opts := T.opts ||| IO_SCHEDULER_REMOVE }) ∧
        calls.filter (fun c => decide (c.task = p)) =
          [⟨T.on_timeout_cbk, p, IO_SCHEDULER_ERR_OP_TIMEOUT⟩]) := by
  obtain ⟨k0, hk0⟩ := hT
  obtain ⟨m1, fs, r, p2, p3, p4, _, pf, pd, p6, p7, p8, p9, p10⟩ :=
    pump_pure fuel env sel m l hpure hok (List.ne_nil_of_mem hp) hstop hfuel
  have hnr : reapable (m.tasks p) = false := by
    unfold reapable
    rw [hk0]
    show (S_IOSCHED_OPTS_REMOVE T && _) = false
    rw [hrm]; rfl
  have hps : p ∈ survivors m l := List.mem_filter.mpr ⟨hp, by rw [hnr]; rfl⟩
  obtain ⟨k1, hk1⟩ := p4 p hps
  rw [hk0] at hk1
  refine ⟨r.m, r.calls, survivors m l, p6, p9, p10, List.length_filter_le _ _, hps, ?_, ?_⟩
  · intro hq
    by_cases hf : sel.failed = true
    · obtain ⟨e1, e2⟩ := pf hf
      rw [e1, e2]
      exact ⟨⟨k1, hk1⟩, fun c hc => by simp at hc⟩
    · have hf2 : sel.failed = false := by simpa using hf
      have hne : task_expired sel.now T = false := by
        rcases hq with h | h
        · exact absurd h hf
        · exact h
      obtain ⟨r2, d1, _, _, d4, _⟩ := dispatch_list_timer env hpure (survivors m l)
        { m1 with now := sel.now } p (fun fd => fs.rd fd && sel.rd fd)
        (fun fd => fs.wr fd && sel.wr fd) (fun fd => fs.er fd && sel.er fd)
        (task_ok_survivors m m1 l sel.now hok.2.1 p3.2.2.2.2.2.2.2.2.1 p4)
        (isList_nodup _ _ _ p2) hps (fun h => isList_not_mem_zero _ _ _ hok.1 (h ▸ hp))
        (by show m1.sched.stop_scheduler = false; rw [p3.2.2.2.2.2.2.1, hstop])
        (by show (m1.tasks p).fd < INVALID_GENERAL_FD; rw [hk1]; exact hfd)
        (by show S_IOSCHED_OPTS_REMOVE (m1.tasks p) = false; rw [hk1]; exact hrm)
        (by show (m1.tasks p).on_timeout_cbk ≠ 0; rw [hk1]; exact hcb)
        (by show ∀ e mx, (env (m1.tasks p).on_timeout_cbk p e mx).1 = true; rw [hk1]; exact hret)
      rw [pd hf2] at d1
      rw [← Option.some.inj d1] at d4
      have hx : task_expired sel.now (m1.tasks p) = false := by rw [hk1]; exact hne
      obtain ⟨e1, e2⟩ := d4 hx
      exact ⟨⟨k1, by rw [e1]; exact hk1⟩, e2⟩
  · rintro ⟨hf2, hex⟩
    obtain ⟨r2, d1, _, _, _, d5⟩ := dispatch_list_timer env hpure (survivors m l)
      { m1 with now := sel.now } p (fun fd => fs.rd fd && sel.rd fd)
      (fun fd => fs.wr fd && sel.wr fd) (fun fd => fs.er fd && sel.er fd)
      (task_ok_survivors m m1 l sel.now hok.2.1 p3.2.2.2.2.2.2.2.2.1 p4)
      (isList_nodup _ _ _ p2) hps (fun h => isList_not_mem_zero _ _ _ hok.1 (h ▸ hp))
      (by show m1.sched.stop_scheduler = false; rw [p3.2.2.2.2.2.2.1, hstop])
      (by show (m1.tasks p).fd < INVALID_GENERAL_FD; rw [hk1]; exact hfd)
      (by show S_IOSCHED_OPTS_REMOVE (m1.tasks p) = false; rw [hk1]; exact hrm)
      (by show (m1.tasks p).on_timeout_cbk ≠ 0; rw [hk1]; exact hcb)
      (by show ∀ e mx, (env (m1.tasks p).on_timeout_cbk p e mx).1 = true; rw [hk1]; exact hret)
    rw [pd hf2] at d1
    rw [← Option.some.inj d1] at d5
    have hx : task_expired sel.now (m1.tasks p) = true := by rw [hk1]; exact hex
    obtain ⟨e1, e2⟩ := d5 hx
    refine ⟨⟨k1, ?_⟩, ?_⟩
    · rw [e1]
      show { m1.tasks p with opts := (m1.tasks p).opts ||| IO_SCHEDULER_REMOVE } = _
      rw [hk1]
    · rw [e2]
      show [cbk_call.mk (m1.tasks p).on_timeout_cbk p IO_SCHEDULER_ERR_OP_TIMEOUT] = _
      rw [hk1]

/-- One pump iteration seen from a live pure timer `p` that carries the Remove
flag, the task being `T` up to its link and that flag: the iteration destroys
it.  It is no more in the live list, its slot is in the task pool and zeroed,
its pseudo-id is in the timer pool, and it is not called. -/
theorem pump_timer_reap (fuel : Nat) (env : CbkEnv) (sel : select_result) (m : Machine)
    (l : List Int) (p : Int) (T : io_scheduler_task)
    (hpure : env_pure env) (hok : sched_ok m l) (hstop : m.sched.stop_scheduler = false)
    (hfuel : l.length < fuel) (hp : p ∈ l)
    (hT : ∃ k, m.tasks p = { T with next := k, opts := T.opts ||| IO_SCHEDULER_REMOVE })
    (hfd : T.fd < INVALID_GENERAL_FD) :
    ∃ m2 calls l2, inl_io_sched_pump fuel env sel m = some (m2, calls) ∧
      sched_ok m2 l2 ∧ m2.sched.stop_scheduler = false ∧ l2.length ≤ l.length ∧ p ∉ l2 ∧
      (∀ c ∈ calls, c.task ≠ p) ∧
      p ∈ stack_contents m2.sched.task_pool ∧
      T.fd ∈ stack_contents m2.sched.timer_id_pool ∧
      m2.tasks p = zero_task := by
  obtain ⟨k0, hk0⟩ := hT
  obtain ⟨m1, fs, r, p2, p3, p4, _, pf, pd, p6, p7, p8, p9, p10⟩ :=
    pump_pure fuel env sel m l hpure hok (List.ne_nil_of_mem hp) hstop hfuel
  have hfdp : (m.tasks p).fd = T.fd := by rw [hk0]
  have hr : reapable (m.tasks p) = true := by
    unfold reapable
    rw [opts_remove_eq, hk0]
    simp only [testBit_set_remove]
    have : T.fd ≠ INVALID_GENERAL_FD := by omega
    simp [this]
  have hpr : p ∈ reaped m l := List.mem_filter.mpr ⟨hp, hr⟩
  have hps : p ∉ survivors m l := by
    intro h
    have := (List.mem_filter.mp h).2
    rw [hr] at this
    exact Bool.noConfusion this
  refine ⟨r.m, r.calls, survivors m l, p6, p9, p10, List.length_filter_le _ _, hps,
    fun c hc hh => hps (hh ▸ p8 c hc), ?_, ?_, ?_⟩
  · rw [p7.1]
    show p ∈ stack_contents m1.sched.task_pool
    rw [p3.1]
    exact List.mem_append_left _ (List.mem_reverse.mpr hpr)
  · rw [p7.1]
    show T.fd ∈ stack_contents m1.sched.timer_id_pool
    rw [p3.2.2.2.1]
    apply List.mem_append_left
    apply List.mem_reverse.mpr
    unfold ids_of
    rw [← hfdp]
    refine List.mem_map.mpr ⟨p, List.mem_filter.mpr ⟨hpr, ?_⟩, rfl⟩
    show decide ((m.tasks p).fd < INVALID_GENERAL_FD) = true
    rw [hfdp]
    exact decide_eq_true hfd
  · rw [p7.2.2.2.1 p hps]
    exact p3.2.2.2.2.2.2.2.2.2.2 p hpr

theorem pump_run_append (fuel : Nat) (env : CbkEnv) (s1 s2 : List select_result) :
    ∀ (m m1 m2 : Machine) (c1 c2 : List cbk_call),
      pump_run fuel env s1 m = some (m1, c1) → pump_run fuel env s2 m1 = some (m2, c2) →
      pump_run fuel env (s1 ++ s2) m = some (m2, c1 ++ c2) := by
  induction s1 with
  | nil =>
    intro m m1 m2 c1 c2 h1 h2
    have e : (m, ([] : List cbk_call)) = (m1, c1) := Option.some.inj h1
    rw [Prod.mk.injEq] at e
    rw [e.1, ← e.2]
    exact h2
  | cons s s1 ih =>
    intro m m1 m2 c1 c2 h1 h2
    unfold pump_run at h1
    rw [List.cons_append]
    unfold pump_run
    cases hp : inl_io_sched_pump fuel env s m with
    | none => rw [hp] at h1; exact Option.noConfusion h1
    | some r =>
      rw [hp] at h1
      simp only [] at h1 ⊢
      cases hq : pump_run fuel env s1 r.1 with
      | none => rw [hq] at h1; exact Option.noConfusion h1
      | some r2 =>
        rw [hq] at h1
        simp only [] at h1
        have e := Option.some.inj h1
        rw [Prod.mk.injEq] at e
        have hq2 : pump_run fuel env s1 r.1 = some (m1, r2.2) := by rw [hq, ← e.1]
        rw [ih r.1 m1 m2 r2.2 c2 hq2 h2]
        simp only []
        rw [← e.2, List.append_assoc]

theorem pump_run_single (fuel : Nat) (env : CbkEnv) (s : select_result) (m m1 : Machine)
    (c1 : List cbk_call) (h : inl_io_sched_pump fuel env s m = some (m1, c1)) :
    pump_run fuel env [s] m = some (m1, c1) := by
  unfold pump_run
  rw [h]
  simp [pump_run]

/-- A run of pump iterations in none of which the live pure timer `p` is found
expired: the timer stays as it is and is never called. -/
theorem pump_run_quiet (fuel : Nat) (env : CbkEnv) (hpure : env_pure env) (p : Int)
    (T : io_scheduler_task) (hfd : T.fd < INVALID_GENERAL_FD)
    (hrm : S_IOSCHED_OPTS_REMOVE T = false) (hcb : T.on_timeout_cbk ≠ 0)
    (hret : ∀ e m1, (env T.on_timeout_cbk p e m1).1 = true) (sels : List select_result) :
    ∀ (m : Machine) (l : List Int), sched_ok m l → m.sched.stop_scheduler = false →
      l.length < fuel → p ∈ l → (∃ k, m.tasks p = { T with next := k }) →
      (∀ x ∈ sels, x.failed = true ∨ task_expired x.now T = false) →
      ∃ m2 calls l2, pump_run fuel env sels m = some (m2, calls) ∧
        sched_ok m2 l2 ∧ m2.sched.stop_scheduler = false ∧ l2.length ≤ l.length ∧ p ∈ l2 ∧
        (∃ k, m2.tasks p = { T with next := k }) ∧ ∀ c ∈ calls, c.task ≠ p := by
  induction sels with
  | nil =>
    intro m l hok hstop _ hp hT _
    exact ⟨m, [], l, rfl, hok, hstop, le_refl _, hp, hT, fun c hc => by simp at hc⟩
  | cons sel sels ih =>
    intro m l hok hstop hfuel hp hT hq
    obtain ⟨m1, c1, l1, a1, a2, a3, a4, a5, a6, _⟩ :=
      pump_timer_live fuel env sel m l p T hpure hok hstop hfuel hp hT hfd hrm hcb hret
    obtain ⟨a7, a8⟩ := a6 (hq sel (List.mem_cons_self _ _))
    obtain ⟨m2, c2, l2, b1, b2, b3, b4, b5, b6, b7⟩ :=
      ih m1 l1 a2 a3 (lt_of_le_of_lt a4 hfuel) a5 a7
        (fun x hx => hq x (List.mem_cons_of_mem _ hx))
    refine ⟨m2, c1 ++ c2, l2, ?_, b2, b3, le_trans b4 a4, b5, b6, ?_⟩
    · exact pump_run_append fuel env [sel] sels m m1 m2 c1 c2
        (pump_run_single fuel env sel m m1 c1 a1) b1
    · intro c hc
      rcases List.mem_append.mp hc with h | h
      · exact a8 c h
      · exact b7 c h

/-- Claim C2: a scheduled pure timer `p` (a task with a pseudo-id, as
`io_sched_create_timer_task` makes it) whose timeout callback returns true, in
a running scheduler whose callbacks leave the machine alone, over the pump
iterations `pre ++ s :: s2 :: post` where `s` is the first iteration that finds
the timer expired (its `select` call succeeds with the clock at or past the
expiry).  Every iteration returns; the timeout callback is invoked on `p`
exactly once over the whole run, in iteration `s` and with the OpTimeout code;
after `s` the timer is Remove-flagged and still in the live list; the next
iteration `s2` takes it off the live list, puts its slot on the task pool and
its pseudo-id on the timer pool and zeroes the slot, which stays so until the
end of the run. -/
theorem timer_fires_once (fuel : Nat) (env : CbkEnv) (m : Machine) (l : List Int) (p : Int)
    (pre post : List select_result) (s s2 : select_result)
    (hpure : env_pure env) (hok : sched_ok m l) (hstop : m.sched.stop_scheduler = false)
    (hfuel : l.length < fuel) (hp : p ∈ l)
    (hfd : (m.tasks p).fd < INVALID_GENERAL_FD)
    (hrm : S_IOSCHED_OPTS_REMOVE (m.tasks p) = false)
    (hcb : (m.tasks p).on_timeout_cbk ≠ 0)
    (hret : ∀ e m1, (env (m.tasks p).on_timeout_cbk p e m1).1 = true)
    (hpre : ∀ x ∈ pre, x.failed = true ∨ task_expired x.now (m.tasks p) = false)
    (hs : s.failed = false) (hexp : task_expired s.now (m.tasks p) = true) :
    ∃ m1 c1 m2 c2 m3 c3 m4 c4 l2 l3 l4,
      pump_run fuel env pre m = some (m1, c1) ∧
      inl_io_sched_pump fuel env s m1 = some (m2, c2) ∧
      inl_io_sched_pump fuel env s2 m2 = some (m3, c3) ∧
      pump_run fuel env post m3 = some (m4, c4) ∧
      pump_run fuel env (pre ++ s :: s2 :: post) m =
        some (m4, c1 ++ (c2 ++ (c3 ++ c4))) ∧
      (∀ c ∈ c1, c.task ≠ p) ∧
      c2.filter (fun c => decide (c.task = p)) =
        [⟨(m.tasks p).on_timeout_cbk, p, IO_SCHEDULER_ERR_OP_TIMEOUT⟩] ∧
      (∀ c ∈ c3, c.task ≠ p) ∧ (∀ c ∈ c4, c.task ≠ p) ∧
      (c1 ++ (c2 ++ (c3 ++ c4))).filter (fun c => decide (c.task = p)) =
        [⟨(m.tasks p).on_timeout_cbk, p, IO_SCHEDULER_ERR_OP_TIMEOUT⟩] ∧
      isList m2.tasks m2.sched.scheduled_tasks l2 ∧ p ∈ l2 ∧
      S_IOSCHED_OPTS_REMOVE (m2.tasks p) = true ∧
      isList m3.tasks m3.sched.scheduled_tasks l3 ∧ p ∉ l3 ∧
      p ∈ stack_contents m3.sched.task_pool ∧
      (m.tasks p).fd ∈ stack_contents m3.sched.timer_id_pool ∧
      m3.tasks p = zero_task ∧
      isList m4.tasks m4.sched.scheduled_tasks l4 ∧ p ∉ l4 ∧
      p ∈ stack_contents m4.sched.task_pool ∧
      (m.tasks p).fd ∈ stack_contents m4.sched.timer_id_pool ∧
      m4.tasks p = zero_task := by
  have hT : ∃ k, m.tasks p = { m.tasks p with next := k } := ⟨(m.tasks p).next, rfl⟩
  obtain ⟨m1, c1, l1, a1, a2, a3, a4, a5, a6, a7⟩ :=
    pump_run_quiet fuel env hpure p (m.tasks p) hfd hrm hcb hret pre m l hok hstop hfuel hp hT
      hpre
  obtain ⟨m2, c2, l2, b1, b2, b3, b4, b5, _, b7⟩ :=
    pump_timer_live fuel env s m1 l1 p (m.tasks p) hpure a2 a3 (lt_of_le_of_lt a4 hfuel) a5 a6
      hfd hrm hcb hret
  obtain ⟨b8, b9⟩ := b7 ⟨hs, hexp⟩
  have hl2 : l2.length < fuel := lt_of_le_of_lt (le_trans b4 a4) hfuel
  obtain ⟨m3, c3, l3, d1, d2, d3, d4, d5, d6, d7, d8, d9⟩ :=
    pump_timer_reap fuel env s2 m2 l2 p (m.tasks p) hpure b2 b3 hl2 b5 b8 hfd
  obtain ⟨m4, c4, l4, e1, e2, _, _, e5, e6, e7, e8, e9⟩ :=
    pump_run_pure fuel env hpure post m3 l3 d2 d3 (lt_of_le_of_lt d4 hl2)
  have hc4 : ∀ c ∈ c4, c.task ≠ p := fun c hc hh => d5 (hh ▸ e6 c hc)
  have f1 : c1.filter (fun c => decide (c.task = p)) = [] :=
    List.filter_eq_nil_iff.mpr (fun x hx => by simpa using a7 x hx)
  have f3 : c3.filter (fun c => decide (c.task = p)) = [] :=
    List.filter_eq_nil_iff.mpr (fun x hx => by simpa using d6 x hx)
  have f4 : c4.filter (fun c => decide (c.task = p)) = [] :=
    List.filter_eq_nil_iff.mpr (fun x hx => by simpa using hc4 x hx)
  refine ⟨m1, c1, m2, c2, m3, c3, m4, c4, l2, l3, l4, a1, b1, d1, e1, ?_, a7, b9, d6, hc4, ?_,
    b2.1, b5, ?_, d2.1, d5, d7, d8, d9, e2.1, fun h => d5 (e5 p h), e8 p d7, e9 _ d8, ?_⟩
  · refine pump_run_append fuel env pre (s :: s2 :: post) m m1 m4 c1 _ a1 ?_
    refine pump_run_append fuel env [s] (s2 :: post) m1 m2 m4 c2 _
      (pump_run_single fuel env s m1 m2 c2 b1) ?_
    exact pump_run_append fuel env [s2] post m2 m3 m4 c3 c4
      (pump_run_single fuel env s2 m2 m3 c3 d1) e1
  · rw [List.filter_append, List.filter_append, List.filter_append, f1, f3, f4, b9]
    simp
  · obtain ⟨k, hk⟩ := b8
    rw [opts_remove_eq, hk]
    simp only [testBit_set_remove]
    simp
  · rw [e7 p d5]; exact d9

/-- The timer of 5 ns of the examples, scheduled at 1000 s with a callback that
returns true: an iteration at 1000 s, then three iterations at 2000 s. -/
theorem timer_fires_once_witness :
    ∃ m1 c1 m2 c2 m3 c3 m4 c4 l2 l3 l4,
      pump_run 3 ex_env_true [ex_select_early] ex_live5 = some (m1, c1) ∧
      inl_io_sched_pump 3 ex_env_true ex_select_idle m1 = some (m2, c2) ∧
      inl_io_sched_pump 3 ex_env_true ex_select_idle m2 = some (m3, c3) ∧
      pump_run 3 ex_env_true [ex_select_idle] m3 = some (m4, c4) ∧
      pump_run 3 ex_env_true ([ex_select_early] ++ ex_select_idle :: ex_select_idle :: [ex_select_idle]) ex_live5 =
        some (m4, c1 ++ (c2 ++ (c3 ++ c4))) ∧
      (∀ c ∈ c1, c.task ≠ 1002) ∧
      c2.filter (fun c => decide (c.task = 1002)) =
        [⟨(ex_live5.tasks 1002).on_timeout_cbk, 1002, IO_SCHEDULER_ERR_OP_TIMEOUT⟩] ∧
      (∀ c ∈ c3, c.task ≠ 1002) ∧ (∀ c ∈ c4, c.task ≠ 1002) ∧
      (c1 ++ (c2 ++ (c3 ++ c4))).filter (fun c => decide (c.task = 1002)) =
        [⟨(ex_live5.tasks 1002).on_timeout_cbk, 1002, IO_SCHEDULER_ERR_OP_TIMEOUT⟩] ∧
      isList m2.tasks m2.sched.scheduled_tasks l2 ∧ 1002 ∈ l2 ∧
      S_IOSCHED_OPTS_REMOVE (m2.tasks 1002) = true ∧
      isList m3.tasks m3.sched.scheduled_tasks l3 ∧ 1002 ∉ l3 ∧
      1002 ∈ stack_contents m3.sched.task_pool ∧
      (ex_live5.tasks 1002).fd ∈ stack_contents m3.sched.timer_id_pool ∧
      m3.tasks 1002 = zero_task ∧
      isList m4.tasks m4.sched.scheduled_tasks l4 ∧ 1002 ∉ l4 ∧
      1002 ∈ stack_contents m4.sched.task_pool ∧
      (ex_live5.tasks 1002).fd ∈ stack_contents m4.sched.timer_id_pool ∧
      m4.tasks 1002 = zero_task :=
  timer_fires_once 3 ex_env_true ex_live5 [1002] 1002 [ex_select_early] [ex_select_idle]
    ex_select_idle ex_select_idle (fun _ _ _ _ => rfl) (by decide) (by decide) (by decide)
    (by decide) (by decide) (by decide) (by decide) (fun _ _ => rfl) (by decide) (by decide)
    (by decide)

/-! ## The pseudo-ids in the reachable states -/

theorem same_ids_refl (m : Machine) : same_ids m m :=
  ⟨rfl, rfl, rfl, fun _ => ⟨rfl, rfl⟩⟩

theorem same_ids_trans (m m1 m2 : Machine) (h1 : same_ids m m1) (h2 : same_ids m1 m2) :
    same_ids m m2 := by
  obtain ⟨a1, a2, a3, a4⟩ := h1
  obtain ⟨b1, b2, b3, b4⟩ := h2
  exact ⟨by rw [b1, a1], by rw [b2, a2], by rw [b3, a3],
    fun a => ⟨by rw [(b4 a).1, (a4 a).1], by rw [(b4 a).2, (a4 a).2]⟩⟩

theorem ids_inv_same (S : List Int) (lo : Int) (m m2 : Machine) (hs : same_ids m m2)
    (h : ids_inv S lo m) : ids_inv S lo m2 := by
  obtain ⟨s1, s2, s3, s4⟩ := hs
  unfold ids_inv live_timer at h ⊢
  simp only [s1, s2, s3, (s4 _).1, (s4 _).2]
  exact h

theorem same_ids_write (m : Machine) (a : Int) (t : io_scheduler_task)
    (ho : t.owner = (m.tasks a).owner) (hf : t.fd = (m.tasks a).fd) :
    same_ids m (m.write a t) := by
  refine ⟨rfl, rfl, rfl, ?_⟩
  intro q
  by_cases hq : q = a
  · subst hq
    rw [write_tasks_same]
    exact ⟨ho, hf⟩
  · rw [write_tasks_other _ _ _ _ hq]
    exact ⟨rfl, rfl⟩

theorem same_ids_unschedule (m : Machine) (t : Int) :
    same_ids m (io_sched_unschedule_task m t) := by
  unfold io_sched_unschedule_task
  split_ifs
  · exact same_ids_write m t _ rfl rfl
  · exact same_ids_refl m

theorem same_ids_populate (m m2 : Machine) (t : Int)
    (h : inl_io_sched_populate_expire_time m t = some m2) : same_ids m m2 := by
  unfold inl_io_sched_populate_expire_time at h
  simp only [] at h
  split_ifs at h
  · rw [← Option.some.inj h]
    exact same_ids_write m t _ rfl rfl
  · rw [← Option.some.inj h]
    exact same_ids_write m t _ rfl rfl

theorem schedule_opts_ids (t : io_scheduler_task) :
    (schedule_opts t).owner = t.owner ∧ (schedule_opts t).fd = t.fd := by
  unfold schedule_opts
  simp only []
  split_ifs <;> exact ⟨rfl, rfl⟩

theorem same_ids_schedule (fuel : Nat) (m m2 : Machine) (t : Int) (b : Bool)
    (h : io_sched_schedule_task fuel m t = some (b, m2)) : same_ids m m2 := by
  unfold io_sched_schedule_task at h
  split_ifs at h with h0
  · have e := Option.some.inj h
    rw [Prod.mk.injEq] at e
    rw [← e.2]
    exact same_ids_refl m
  · have hw : same_ids m (m.write t (schedule_opts (m.tasks t))) :=
      same_ids_write m t _ (schedule_opts_ids _).1 (schedule_opts_ids _).2
    cases ha : schedule_admit m t with
    | none => rw [ha] at h; exact Option.noConfusion h
    | some m1 =>
      rw [ha] at h
      simp only [] at h
      have h1 : same_ids m m1 := by
        unfold schedule_admit at ha
        simp only [] at ha
        split_ifs at ha
        · exact same_ids_trans _ _ _ hw (same_ids_populate _ _ _ ha)
        · rw [← Option.some.inj ha]; exact hw
      refine same_ids_trans _ _ _ h1 ?_
      unfold schedule_link at h
      split_ifs at h
      · have e := Option.some.inj h
        rw [Prod.mk.injEq] at e
        rw [← e.2]
        exact ⟨rfl, rfl, rfl, fun _ => ⟨rfl, rfl⟩⟩
      · cases hf : find_tail m1.tasks fuel m1.sched.scheduled_tasks with
        | none => rw [hf] at h; exact Option.noConfusion h
        | some ttt =>
          rw [hf] at h
          have e := Option.some.inj h
          rw [Prod.mk.injEq] at e
          rw [← e.2]
          exact same_ids_write m1 ttt _ rfl rfl

theorem stack_push_cases (s : stack) (d : Int) (hwf : s.current ≤ s.limit) :
    (stack_fixed_push s d).2.current ≤ (stack_fixed_push s d).2.limit ∧
    (stack_fixed_push s d).2.limit = s.limit ∧
    (stack_contents (stack_fixed_push s d).2 = d :: stack_contents s ∨
      stack_contents (stack_fixed_push s d).2 = stack_contents s) := by
  by_cases h : 0 < s.current
  · obtain ⟨_, p2, p3, p4⟩ := stack_push_ok s d h hwf
    exact ⟨by omega, p3, Or.inl p2⟩
  · rw [stack_push_full s d h]
    exact ⟨hwf, rfl, Or.inr rfl⟩

theorem nodup_length_lt (l S : List Int) (t : Int) (hl : l.Nodup) (hs : ∀ x ∈ l, x ∈ S)
    (ht : t ∈ S) (hn : t ∉ l) : l.length < S.length := by
  have h1 : (t :: l).Nodup := List.nodup_cons.mpr ⟨hn, hl⟩
  have h2 : (t :: l) ⊆ S := by
    intro x hx
    rcases List.mem_cons.mp hx with h | h
    · rw [h]; exact ht
    · exact hs x h
  have := (h1.subperm h2).length_le
  simp only [List.length_cons] at this
  omega

/-- The function `io_sched_destroy_task` keeps the invariant of the pools. -/
theorem destroy_task_inv (S : List Int) (lo : Int) (m m2 : Machine) (t : Int)
    (hi : ids_inv S lo m) (h : io_sched_destroy_task m t = some m2) : ids_inv S lo m2 := by
  unfold io_sched_destroy_task at h
  by_cases ht : t = 0
  · rw [if_pos ht] at h
    rw [← Option.some.inj h]; exact hi
  · rw [if_neg ht] at h
    by_cases ho : (m.tasks t).owner ≠ m.sched_at
    · rw [if_pos ho] at h
      exact Option.noConfusion h
    · rw [if_neg ho] at h
      have hown : (m.tasks t).owner = m.sched_at := not_not.mp ho
      obtain ⟨i1, i2, i3, i4, i5, i6, i7, i8, i9, i10, i11, i12⟩ := hi
      obtain ⟨tS, tP⟩ := i10 t hown
      have hcur : 0 < m.sched.task_pool.current := by
        have hlt := nodup_length_lt _ S t i5 i6 tS tP
        rw [stack_contents_length] at hlt
        unfold stack_fixed_size at hlt
        omega
      -- the timer pool after the push of the pseudo-id
      have hip : ∃ ip : stack, ip.current ≤ ip.limit ∧
          (stack_contents ip = stack_contents m.sched.timer_id_pool ∨
            ((m.tasks t).fd < INVALID_GENERAL_FD ∧
              stack_contents ip = (m.tasks t).fd :: stack_contents m.sched.timer_id_pool)) ∧
          (if (m.tasks t).fd < INVALID_GENERAL_FD then
            ({ m with sched := { m.sched with
                timer_id_pool := (stack_fixed_push m.sched.timer_id_pool (m.tasks t).fd).2 } } :
              Machine)
           else m) = { m with sched := { m.sched with timer_id_pool := ip } } := by
        by_cases hfd : (m.tasks t).fd < INVALID_GENERAL_FD
        · obtain ⟨q1, _, q3⟩ := stack_push_cases m.sched.timer_id_pool (m.tasks t).fd i7
          refine ⟨_, q1, ?_, by rw [if_pos hfd]⟩
          rcases q3 with q3 | q3
          · exact Or.inr ⟨hfd, q3⟩
          · exact Or.inl q3
        · exact ⟨m.sched.timer_id_pool, i7, Or.inl rfl, by rw [if_neg hfd]⟩
      obtain ⟨ip, w1, w2, w3⟩ := hip
      simp only [w3] at h
      obtain ⟨p1, p2, p3, p4⟩ := stack_push_ok m.sched.task_pool t hcur i4
      rw [if_neg p1] at h
      rw [← Option.some.inj h]
      have hz : zero_task.owner ≠ m.sched_at := fun hh => i1 hh.symm
      have hne : ∀ a, ((Machine.write { m with sched := { m.sched with
            timer_id_pool := ip, task_pool := (stack_fixed_push m.sched.task_pool t).2 } }
            t zero_task).tasks a).owner = m.sched_at → a ≠ t ∧
          (Machine.write { m with sched := { m.sched with
            timer_id_pool := ip, task_pool := (stack_fixed_push m.sched.task_pool t).2 } }
            t zero_task).tasks a = m.tasks a := by
        intro a ha
        by_cases hat : a = t
        · rw [hat, write_tasks_same] at ha
          exact absurd ha hz
        · exact ⟨hat, write_tasks_other _ _ _ _ hat⟩
      refine ⟨i1, i2, ?_, ?_, ?_, ?_, w1, ?_, ?_, ?_, ?_, ?_⟩
      · show (stack_fixed_push m.sched.task_pool t).2.limit = S.length
        rw [p3]; exact i3
      · show (stack_fixed_push m.sched.task_pool t).2.current ≤
          (stack_fixed_push m.sched.task_pool t).2.limit
        omega
      · show (stack_contents (stack_fixed_push m.sched.task_pool t).2).Nodup
        rw [p2]; exact List.nodup_cons.mpr ⟨tP, i5⟩
      · show ∀ x ∈ stack_contents (stack_fixed_push m.sched.task_pool t).2, x ∈ S
        rw [p2]
        intro x hx
        rcases List.mem_cons.mp hx with hx | hx
        · rw [hx]; exact tS
        · exact i6 x hx
      · show (stack_contents ip).Nodup
        rcases w2 with w2 | ⟨hfd, w2⟩
        · rw [w2]; exact i8
        · rw [w2]; exact List.nodup_cons.mpr ⟨(i11 t ⟨hown, hfd⟩).2.2, i8⟩
      · show ∀ x ∈ stack_contents ip, lo ≤ x ∧ x < -2
        rcases w2 with w2 | ⟨hfd, w2⟩
        · rw [w2]; exact i9
        · rw [w2]
          intro x hx
          rcases List.mem_cons.mp hx with hx | hx
          · rw [hx]; exact ⟨(i11 t ⟨hown, hfd⟩).1, (i11 t ⟨hown, hfd⟩).2.1⟩
          · exact i9 x hx
      · intro a ha
        obtain ⟨hat, hsame⟩ := hne a ha
        rw [hsame] at ha
        obtain ⟨aS, aP⟩ := i10 a ha
        refine ⟨aS, ?_⟩
        show a ∉ stack_contents (stack_fixed_push m.sched.task_pool t).2
        rw [p2]
        exact fun hx => (List.mem_cons.mp hx).elim hat aP
      · rintro a ⟨ha, hfa⟩
        obtain ⟨hat, hsame⟩ := hne a ha
        rw [hsame] at ha hfa ⊢
        obtain ⟨r1, r2, r3⟩ := i11 a ⟨ha, hfa⟩
        refine ⟨r1, r2, ?_⟩
        show (m.tasks a).fd ∉ stack_contents ip
        rcases w2 with w2 | ⟨hfd, w2⟩
        · rw [w2]; exact r3
        · rw [w2]
          intro hx
          rcases List.mem_cons.mp hx with hx | hx
          · exact hat (i12 a t ⟨ha, hfa⟩ ⟨hown, hfd⟩ hx)
          · exact r3 hx
      · rintro a b ⟨ha, hfa⟩ ⟨hb, hfb⟩ hab
        obtain ⟨_, hsa⟩ := hne a ha
        obtain ⟨_, hsb⟩ := hne b hb
        rw [hsa] at ha hfa hab
        rw [hsb] at hb hfb hab
        exact i12 a b ⟨ha, hfa⟩ ⟨hb, hfb⟩ hab

theorem stack_pop_cases (s : stack) (hwf : s.current ≤ s.limit) :
    (stack_fixed_pop_and_return s).2.current ≤ (stack_fixed_pop_and_return s).2.limit ∧
    (stack_fixed_pop_and_return s).2.limit = s.limit ∧
    (stack_contents s =
        (stack_fixed_pop_and_return s).1 :: stack_contents (stack_fixed_pop_and_return s).2 ∨
      stack_fixed_pop_and_return s = (0, s)) := by
  by_cases h : s.current < s.limit
  · refine ⟨?_, ?_, Or.inl (stack_pop_nonempty s h)⟩
    · unfold stack_fixed_pop_and_return
      rw [if_pos h]
      show s.current + 1 ≤ s.limit
      omega
    · unfold stack_fixed_pop_and_return
      rw [if_pos h]
  · rw [stack_pop_empty s h]
    exact ⟨hwf, rfl, Or.inr rfl⟩

/-- The function `io_sched_create_task` keeps the invariant of the pools when
the descriptor is not a pseudo-id, or is a pseudo-id of the range that is
neither in the timer pool nor held by a slot of the scheduler. -/
theorem create_task_inv (S : List Int) (lo : Int) (m : Machine) (fd : Int) (opts : Nat)
    (time_out user_data read_cbk write_cbk err_cbk time_out_cbk : Int)
    (hi : ids_inv S lo m)
    (hfd : fd < INVALID_GENERAL_FD → lo ≤ fd ∧ fd < -2 ∧
      fd ∉ stack_contents m.sched.timer_id_pool ∧ ∀ a, live_timer m a → (m.tasks a).fd ≠ fd) :
    ids_inv S lo (io_sched_create_task m fd opts time_out user_data read_cbk write_cbk err_cbk
      time_out_cbk).2 := by
  obtain ⟨i1, i2, i3, i4, i5, i6, i7, i8, i9, i10, i11, i12⟩ := hi
  obtain ⟨q1, q2, q3⟩ := stack_pop_cases m.sched.task_pool i4
  have hsub : ∀ x ∈ stack_contents (stack_fixed_pop_and_return m.sched.task_pool).2,
      x ∈ stack_contents m.sched.task_pool := by
    rcases q3 with q3 | q3
    · intro x hx; rw [q3]; exact List.mem_cons_of_mem _ hx
    · rw [q3]; exact fun x hx => hx
  have hnd : (stack_contents (stack_fixed_pop_and_return m.sched.task_pool).2).Nodup := by
    rcases q3 with q3 | q3
    · rw [q3] at i5; exact (List.nodup_cons.mp i5).2
    · rw [q3]; exact i5
  have h1 : ids_inv S lo { m with sched := { m.sched with
      task_pool := (stack_fixed_pop_and_return m.sched.task_pool).2 } } :=
    ⟨i1, i2, by rw [← i3]; exact q2, q1, hnd, fun x hx => i6 x (hsub x hx), i7, i8, i9,
      fun a ha => ⟨(i10 a ha).1, fun hx => (i10 a ha).2 (hsub a hx)⟩, i11, i12⟩
  unfold io_sched_create_task
  simp only []
  by_cases hp : (stack_fixed_pop_and_return m.sched.task_pool).1 ≠ 0
  · rw [if_pos hp]
    simp only []
    have hmem : stack_contents m.sched.task_pool =
        (stack_fixed_pop_and_return m.sched.task_pool).1 ::
          stack_contents (stack_fixed_pop_and_return m.sched.task_pool).2 := by
      rcases q3 with q3 | q3
      · exact q3
      · rw [q3] at hp; exact absurd rfl hp
    generalize (stack_fixed_pop_and_return m.sched.task_pool).1 = p at hp hmem ⊢
    generalize (stack_fixed_pop_and_return m.sched.task_pool).2 = tp2 at hmem h1 q1 q2 hsub hnd ⊢
    have hpS : p ∈ S := i6 p (by rw [hmem]; exact List.mem_cons_self _ _)
    have hpn : p ∉ stack_contents tp2 := by
      rw [hmem] at i5; exact (List.nodup_cons.mp i5).1
    generalize hrec : ({ zero_task with
        owner := m.sched_at, fd := fd,
        opts := if opts &&& IO_SCHEDULER_REMOVE ≠ 0 then clear_opt opts IO_SCHEDULER_REMOVE
          else opts,
        time_out := time_out, user_data := user_data, on_read_rdy_cbk := read_cbk,
        on_write_rdy_cbk := write_cbk, on_err_rdy_cbk := err_cbk,
        on_timeout_cbk := time_out_cbk } : io_scheduler_task) = rec
    have hro : rec.owner = m.sched_at := by rw [← hrec]
    have hrf : rec.fd = fd := by rw [← hrec]
    have hT : ∀ a, a ≠ p → (Machine.write { m with sched := { m.sched with task_pool := tp2 } }
        p rec).tasks a = m.tasks a := fun a ha => write_tasks_other _ _ _ _ ha
    have hP : (Machine.write { m with sched := { m.sched with task_pool := tp2 } }
        p rec).tasks p = rec := write_tasks_same _ _ _
    refine ⟨i1, i2, by rw [← i3]; exact q2, q1, hnd, fun x hx => i6 x (hsub x hx), i7, i8, i9,
      ?_, ?_, ?_⟩
    · intro a ha
      by_cases hap : a = p
      · rw [hap]; exact ⟨hpS, hpn⟩
      · rw [hT a hap] at ha
        exact ⟨(i10 a ha).1, fun hx => (i10 a ha).2 (hsub a hx)⟩
    · rintro a ⟨ha, hfa⟩
      by_cases hap : a = p
      · subst hap
        rw [hP, hrf] at hfa ⊢
        obtain ⟨r1, r2, r3, _⟩ := hfd hfa
        exact ⟨r1, r2, r3⟩
      · rw [hT a hap] at ha hfa ⊢
        exact i11 a ⟨ha, hfa⟩
    · rintro a b ⟨ha, hfa⟩ ⟨hb, hfb⟩ hab
      by_cases hap : a = p
      · by_cases hbp : b = p
        · rw [hap, hbp]
        · subst hap
          rw [hT b hbp] at hb hfb hab
          rw [hP, hrf] at hab hfa
          exact absurd hab.symm ((hfd hfa).2.2.2 b ⟨hb, hfb⟩)
      · by_cases hbp : b = p
        · subst hbp
          rw [hT a hap] at ha hfa hab
          rw [hP, hrf] at hab hfb
          exact absurd hab ((hfd hfb).2.2.2 a ⟨ha, hfa⟩)
        · rw [hT a hap] at ha hfa hab
          rw [hT b hbp] at hb hfb hab
          exact i12 a b ⟨ha, hfa⟩ ⟨hb, hfb⟩ hab
  · rw [if_neg hp]
    exact h1

/-- The function `io_sched_create_timer_task` keeps the invariant of the pools. -/
theorem create_timer_task_inv (S : List Int) (lo : Int) (m : Machine)
    (time_out user_data time_out_cbk : Int) (hi : ids_inv S lo m) :
    ids_inv S lo (io_sched_create_timer_task m time_out user_data time_out_cbk).2 := by
  have hi0 := hi
  obtain ⟨i1, i2, i3, i4, i5, i6, i7, i8, i9, i10, i11, i12⟩ := hi
  obtain ⟨q1, q2, q3⟩ := stack_pop_cases m.sched.timer_id_pool i7
  have hsub : ∀ x ∈ stack_contents (stack_fixed_pop_and_return m.sched.timer_id_pool).2,
      x ∈ stack_contents m.sched.timer_id_pool := by
    rcases q3 with q3 | q3
    · intro x hx; rw [q3]; exact List.mem_cons_of_mem _ hx
    · rw [q3]; exact fun x hx => hx
  have hnd : (stack_contents (stack_fixed_pop_and_return m.sched.timer_id_pool).2).Nodup := by
    rcases q3 with q3 | q3
    · rw [q3] at i8; exact (List.nodup_cons.mp i8).2
    · rw [q3]; exact i8
  have h1 : ids_inv S lo { m with sched := { m.sched with
      timer_id_pool := (stack_fixed_pop_and_return m.sched.timer_id_pool).2 } } :=
    ⟨i1, i2, i3, i4, i5, i6, q1, hnd, fun x hx => i9 x (hsub x hx), i10,
      fun a ha => ⟨(i11 a ha).1, (i11 a ha).2.1, fun hx => (i11 a ha).2.2 (hsub _ hx)⟩, i12⟩
  unfold io_sched_create_timer_task
  simp only []
  by_cases hp : (stack_fixed_pop_and_return m.sched.timer_id_pool).1 = 0
  · rw [if_pos hp]
    exact h1
  · rw [if_neg hp]
    have hmem : stack_contents m.sched.timer_id_pool =
        (stack_fixed_pop_and_return m.sched.timer_id_pool).1 ::
          stack_contents (stack_fixed_pop_and_return m.sched.timer_id_pool).2 := by
      rcases q3 with q3 | q3
      · exact q3
      · rw [q3] at hp; exact absurd rfl hp
    apply create_task_inv S lo _ _ _ _ _ _ _ _ _ h1
    intro _
    have hx : (stack_fixed_pop_and_return m.sched.timer_id_pool).1 ∈
        stack_contents m.sched.timer_id_pool := by
      rw [hmem]; exact List.mem_cons_self _ _
    refine ⟨(i9 _ hx).1, (i9 _ hx).2, ?_, ?_⟩
    · show _ ∉ stack_contents (stack_fixed_pop_and_return m.sched.timer_id_pool).2
      rw [hmem] at i8
      exact (List.nodup_cons.mp i8).1
    · intro a ha hh
      have ha2 : live_timer m a := ha
      have : (m.tasks a).fd = (stack_fixed_pop_and_return m.sched.timer_id_pool).1 := hh
      exact (i11 a ha2).2.2 (this ▸ hx)

theorem client_step_inv (S : List Int) (lo : Int) (m m2 : Machine) (hs : client_step m m2)
    (hi : ids_inv S lo m) : ids_inv S lo m2 := by
  cases hs
  · exact create_timer_task_inv S lo m _ _ _ hi
  · apply create_task_inv S lo m _ _ _ _ _ _ _ _ hi
    intro h
    unfold INVALID_GENERAL_FD at h
    omega
  · exact ids_inv_same S lo m m2 (same_ids_schedule _ m m2 _ _ (by assumption)) hi
  · exact ids_inv_same S lo m _ (same_ids_unschedule m _) hi
  · exact ids_inv_same S lo m _ ⟨rfl, rfl, rfl, fun _ => ⟨rfl, rfl⟩⟩ hi

theorem client_steps_inv (S : List Int) (lo : Int) (m m2 : Machine)
    (hs : Relation.ReflTransGen client_step m m2) (hi : ids_inv S lo m) : ids_inv S lo m2 := by
  induction hs with
  | refl => exact hi
  | tail _ h ih => exact client_step_inv S lo _ _ h ih

theorem reap_front_inv (S : List Int) (lo : Int) (fuel : Nat) :
    ∀ (m m2 : Machine), ids_inv S lo m → reap_front fuel m = some m2 → ids_inv S lo m2 := by
  induction fuel with
  | zero => intro m m2 _ h; exact Option.noConfusion h
  | succ k ih =>
    intro m m2 hi h
    unfold reap_front at h
    split_ifs at h
    · cases hd : io_sched_destroy_task m m.sched.scheduled_tasks with
      | none => rw [hd] at h; exact Option.noConfusion h
      | some m1 =>
        rw [hd] at h
        simp only [] at h
        refine ih _ m2 ?_ h
        exact ids_inv_same S lo m1 _ ⟨rfl, rfl, rfl, fun _ => ⟨rfl, rfl⟩⟩
          (destroy_task_inv S lo m m1 _ hi hd)
    · rw [← Option.some.inj h]; exact hi

theorem scan_ahead_inv (S : List Int) (lo : Int) (fuel : Nat) :
    ∀ (m m2 : Machine) (ptask : Int), ids_inv S lo m → scan_ahead fuel m ptask = some m2 →
      ids_inv S lo m2 := by
  induction fuel with
  | zero => intro m m2 _ _ h; exact Option.noConfusion h
  | succ k ih =>
    intro m m2 ptask hi h
    unfold scan_ahead at h
    split_ifs at h
    · cases hd : io_sched_destroy_task m (m.tasks ptask).next with
      | none => rw [hd] at h; exact Option.noConfusion h
      | some m1 =>
        rw [hd] at h
        simp only [] at h
        refine ih _ m2 ptask ?_ h
        exact ids_inv_same S lo m1 _ (same_ids_write m1 ptask _ rfl rfl)
          (destroy_task_inv S lo m m1 _ hi hd)
    · rw [← Option.some.inj h]; exact hi

theorem reap_walk_inv (S : List Int) (lo : Int) (fuel : Nat) :
    ∀ (m : Machine) (ptask : Int) (fs : pump_sets) (r : Machine × pump_sets),
      ids_inv S lo m → reap_walk fuel m ptask fs = some r → ids_inv S lo r.1 := by
  induction fuel with
  | zero => intro m _ _ r _ h; exact Option.noConfusion h
  | succ k ih =>
    intro m ptask fs r hi h
    unfold reap_walk at h
    split_ifs at h
    · rw [← Option.some.inj h]; exact hi
    · cases hd : scan_ahead (k + 1) m ptask with
      | none => rw [hd] at h; exact Option.noConfusion h
      | some m1 =>
        rw [hd] at h
        simp only [] at h
        exact ih m1 _ _ r (scan_ahead_inv S lo _ m m1 ptask hi hd) h

theorem reap_pass_inv (S : List Int) (lo : Int) (fuel : Nat) (m : Machine)
    (r : Machine × pump_sets) (hi : ids_inv S lo m) (h : reap_pass fuel m = some r) :
    ids_inv S lo r.1 := by
  unfold reap_pass at h
  cases hd : reap_front fuel m with
  | none => rw [hd] at h; exact Option.noConfusion h
  | some m1 =>
    rw [hd] at h
    simp only [] at h
    exact reap_walk_inv S lo fuel m1 _ _ r (reap_front_inv S lo fuel m m1 hi hd) h

theorem process_task_ids (S : List Int) (lo : Int) (env : CbkEnv) (henv : client_env env)
    (m : Machine) (a : Int) (rds wrs ers : Int → Bool) (st : proc)
    (hi : ids_inv S lo m) (h : io_sched_process_task env m a rds wrs ers = some st) :
    ids_inv S lo st.m := by
  apply process_task_inv (fun s => ids_inv S lo s.m) env a _
    (fun _ _ hi => hi) (fun _ _ hi => hi) (fun _ _ hi => hi) (fun _ _ hi => hi)
    ?_ m rds wrs ers st hi h
  · intro s c e r hs hc
    unfold call_cbk at hc
    split_ifs at hc
    rw [← Option.some.inj hc]
    exact client_steps_inv S lo s.m _ (henv c a e s.m) hs
  · intro s m2 hs hp
    exact ids_inv_same S lo s.m m2 (same_ids_populate s.m m2 a hp) hs

theorem dispatch_loop_inv (S : List Int) (lo : Int) (env : CbkEnv) (henv : client_env env)
    (fuel : Nat) :
    ∀ (m : Machine) (ptask : Int) (rds wrs ers : Int → Bool) (r : Machine × List cbk_call),
      ids_inv S lo m → dispatch_loop env fuel m ptask rds wrs ers = some r →
      ids_inv S lo r.1 := by
  induction fuel with
  | zero => intro m _ _ _ _ r _ h; exact Option.noConfusion h
  | succ k ih =>
    intro m ptask rds wrs ers r hi h
    unfold dispatch_loop at h
    split_ifs at h
    · rw [← Option.some.inj h]; exact hi
    · cases hp : io_sched_process_task env m ptask rds wrs ers with
      | none => rw [hp] at h; exact Option.noConfusion h
      | some st =>
        rw [hp] at h
        simp only [] at h
        have h1 := process_task_ids S lo env henv m ptask rds wrs ers st hi hp
        have h2 : ids_inv S lo (if st.rv = true then io_sched_unschedule_task st.m ptask
            else st.m) := by
          split_ifs
          · exact ids_inv_same S lo _ _ (same_ids_unschedule st.m ptask) h1
          · exact h1
        cases hd : dispatch_loop env k
            (if st.rv = true then io_sched_unschedule_task st.m ptask else st.m)
            ((if st.rv = true then io_sched_unschedule_task st.m ptask
              else st.m).tasks ptask).next st.rds st.wrs st.ers with
        | none => rw [hd] at h; exact Option.noConfusion h
        | some r2 =>
          rw [hd] at h
          simp only [] at h
          rw [← Option.some.inj h]
          exact ih _ _ _ _ _ r2 h2 hd
    · exact ih _ _ _ _ _ r hi h

/-- One pump iteration keeps the invariant of the pools. -/
theorem pump_inv (S : List Int) (lo : Int) (env : CbkEnv) (henv : client_env env)
    (fuel : Nat) (sel : select_result) (m : Machine) (r : Machine × List cbk_call)
    (hi : ids_inv S lo m) (h : inl_io_sched_pump fuel env sel m = some r) :
    ids_inv S lo r.1 := by
  have hnow : ∀ (mx : Machine) (n : timespec), ids_inv S lo mx →
      ids_inv S lo { mx with now := n } :=
    fun mx n hx => ids_inv_same S lo mx _ ⟨rfl, rfl, rfl, fun _ => ⟨rfl, rfl⟩⟩ hx
  unfold inl_io_sched_pump at h
  by_cases h1 : m.sched.scheduled_tasks = 0 ∧ m.sched.scheduler_thread ≠ 0
  · rw [if_pos h1] at h
    rw [← Option.some.inj h]; exact hnow m _ hi
  · rw [if_neg h1] at h
    cases hx : (if m.sched.scheduled_tasks ≠ 0 ∧ (!m.sched.stop_scheduler) = true
        then reap_pass fuel m else some (m, pump_sets_zero)) with
    | none => rw [hx] at h; exact Option.noConfusion h
    | some r1 =>
      rw [hx] at h
      simp only [] at h
      have hi1 : ids_inv S lo r1.1 := by
        split_ifs at hx
        · exact reap_pass_inv S lo fuel m r1 hi hx
        · rw [← Option.some.inj hx]; exact hi
      split_ifs at h
      · rw [← Option.some.inj h]; exact hnow _ _ hi1
      · exact dispatch_loop_inv S lo env henv fuel _ _ _ _ _ r (hnow _ _ hi1) h
      · rw [← Option.some.inj h]; exact hi1

theorem create_tasks_some (malloc : Nat → Int) (left : Nat) :
    ∀ (ii : Nat) (s s2 : stack), s.current = left → s.current ≤ s.limit →
      create_tasks malloc left ii s = some s2 →
      ∀ i, ii ≤ i → i < ii + left → malloc i ≠ 0 := by
  induction left with
  | zero => intro ii s s2 _ _ _ i h1 h2; omega
  | succ k ih =>
    intro ii s s2 hc hwf h i h1 h2
    unfold create_tasks at h
    by_cases hm : malloc ii = 0
    · rw [if_pos hm] at h; exact Option.noConfusion h
    · rw [if_neg hm] at h
      obtain ⟨p1, _, p3, p4⟩ := stack_push_ok s (malloc ii) (by omega) hwf
      simp only [if_neg p1] at h
      by_cases hi : i = ii
      · rw [hi]; exact hm
      · exact ih (ii + 1) _ s2 (by omega) (by omega) h i (by omega) (by omega)

theorem create_scheduler_some (max_tasks max_timers : Nat) (malloc : Nat → Int)
    (s : io_scheduler) (h : io_sched_create_scheduler max_tasks max_timers malloc = some s) :
    0 < max_tasks ∧ 0 < max_timers ∧ ∀ i, i < max_tasks → malloc i ≠ 0 := by
  unfold io_sched_create_scheduler at h
  by_cases h0 : max_tasks = 0 ∨ max_timers = 0
  · rw [if_pos h0] at h; exact Option.noConfusion h
  · rw [if_neg h0] at h
    refine ⟨by omega, by omega, ?_⟩
    have i1 : stack_fixed_init max_tasks =
        some { current := max_tasks, limit := max_tasks, fixed_base := fun _ => 0 } := by
      unfold stack_fixed_init; rw [if_neg (by omega)]
    have i2 : stack_fixed_init max_timers =
        some { current := max_timers, limit := max_timers, fixed_base := fun _ => 0 } := by
      unfold stack_fixed_init; rw [if_neg (by omega)]
    simp only [i1, i2] at h
    cases hc : create_tasks malloc max_tasks 0
        { current := max_tasks, limit := max_tasks, fixed_base := fun _ => 0 } with
    | none => rw [hc] at h; exact Option.noConfusion h
    | some tp =>
      intro i hi
      exact create_tasks_some malloc max_tasks 0 _ tp rfl (le_refl _) hc i (Nat.zero_le _)
        (by omega)

/-- The invariant of the pools holds for the machine of a new scheduler, over a
memory that holds no task of it, the slots having distinct addresses. -/
theorem created_inv (max_tasks max_timers : Nat) (malloc : Nat → Int) (sched_at : Int)
    (mem : Int → io_scheduler_task) (s : io_scheduler) (now : timespec)
    (hsa : sched_at ≠ 0) (hmem : ∀ a, (mem a).owner ≠ sched_at)
    (hinj : ∀ i j, i < max_tasks → j < max_tasks → malloc i = malloc j → i = j)
    (h : io_sched_create_scheduler max_tasks max_timers malloc = some s) :
    ids_inv ((List.range max_tasks).map malloc).reverse (-(max_timers : Int) - 2)
      { sched_at := sched_at, sched := s, tasks := mem, now := now } := by
  obtain ⟨h1, h2, hm⟩ := create_scheduler_some max_tasks max_timers malloc s h
  obtain ⟨s2, e, _, _, _, c1, c2, c3, d1, d2, d3, d4, _⟩ :=
    create_scheduler_pools max_tasks max_timers malloc h1 h2 hm
  rw [h] at e
  have es : s = s2 := Option.some.inj e
  subst es
  have hS : ((List.range max_tasks).map malloc).reverse.Nodup := by
    rw [List.nodup_reverse]
    apply List.Nodup.map_on _ (List.nodup_range max_tasks)
    intro x hx y hy hxy
    exact hinj x y (List.mem_range.mp hx) (List.mem_range.mp hy) hxy
  unfold stack_fixed_size at c1 d1
  refine ⟨hsa, hS, ?_, ?_, ?_, ?_, ?_, d3, ?_, ?_, ?_, ?_⟩
  · show s.task_pool.limit = _
    rw [c2]; simp
  · show s.task_pool.current ≤ s.task_pool.limit
    omega
  · show (stack_contents s.task_pool).Nodup
    rw [c3]; exact hS
  · show ∀ x ∈ stack_contents s.task_pool, x ∈ _
    rw [c3]; exact fun x hx => hx
  · show s.timer_id_pool.current ≤ s.timer_id_pool.limit
    omega
  · exact fun x hx => (d4 x).mp hx
  · exact fun a ha => absurd ha (hmem a)
  · exact fun a ha => absurd ha.1 (hmem a)
  · exact fun a b ha => absurd ha.1 (hmem a)

/-- Every reachable state satisfies the invariant of the pools, and the
scheduler stays at its address. -/
theorem reachable_inv (max_tasks max_timers : Nat) (malloc : Nat → Int) (sched_at : Int)
    (mem : Int → io_scheduler_task) (m : Machine)
    (hsa : sched_at ≠ 0) (hmem : ∀ a, (mem a).owner ≠ sched_at)
    (hinj : ∀ i j, i < max_tasks → j < max_tasks → malloc i = malloc j → i = j)
    (hr : reachable max_tasks max_timers malloc sched_at mem m) :
    ids_inv ((List.range max_tasks).map malloc).reverse (-(max_timers : Int) - 2) m := by
  induction hr with
  | created s now h =>
    exact created_inv max_tasks max_timers malloc sched_at mem s now hsa hmem hinj h
  | client m m2 _ hs ih => exact client_step_inv _ _ m m2 hs ih
  | pump m m2 fuel env sel calls _ henv hp ih =>
    exact pump_inv _ _ env henv fuel sel m (m2, calls) ih hp

/-- The timer task that `io_sched_create_timer_task` returns is a slot of the
scheduler with a pseudo-id taken from the timer pool. -/
theorem create_timer_task_live (m : Machine) (time_out user_data time_out_cbk : Int)
    (hwf : m.sched.timer_id_pool.current ≤ m.sched.timer_id_pool.limit)
    (hp : (io_sched_create_timer_task m time_out user_data time_out_cbk).1 ≠ 0) :
    ((io_sched_create_timer_task m time_out user_data time_out_cbk).2.tasks
      (io_sched_create_timer_task m time_out user_data time_out_cbk).1).owner = m.sched_at ∧
    ((io_sched_create_timer_task m time_out user_data time_out_cbk).2.tasks
      (io_sched_create_timer_task m time_out user_data time_out_cbk).1).fd ∈
        stack_contents m.sched.timer_id_pool ∧
    (io_sched_create_timer_task m time_out user_data time_out_cbk).2.sched_at = m.sched_at := by
  unfold io_sched_create_timer_task at hp ⊢
  simp only [] at hp ⊢
  by_cases h0 : (stack_fixed_pop_and_return m.sched.timer_id_pool).1 = 0
  · rw [if_pos h0] at hp
    exact absurd rfl hp
  · rw [if_neg h0] at hp ⊢
    have hmemb : (stack_fixed_pop_and_return m.sched.timer_id_pool).1 ∈
        stack_contents m.sched.timer_id_pool := by
      rcases (stack_pop_cases m.sched.timer_id_pool hwf).2.2 with q | q
      · rw [q]; exact List.mem_cons_self _ _
      · rw [q] at h0; exact absurd rfl h0
    unfold io_sched_create_task at hp ⊢
    simp only [] at hp ⊢
    by_cases hq : (stack_fixed_pop_and_return m.sched.task_pool).1 ≠ 0
    · rw [if_pos hq]
      refine ⟨?_, ?_, rfl⟩
      · rw [write_tasks_same]
      · rw [write_tasks_same]
        exact hmemb
    · rw [if_neg hq] at hp
      exact absurd rfl hp

/-- Claim C9: in every state reachable from `io_sched_create_scheduler` through
`io_sched_create_timer_task`, `io_sched_create_task` with `fd >= 0`,
`io_sched_schedule_task`, `io_sched_unschedule_task` and pump iterations (whose
callbacks use these calls), the descriptors of the timer tasks that have not
been reaped lie in `[-max_timers-2, -2)`, are not in the timer-id pool and are
pairwise distinct; the task that `io_sched_create_timer_task` returns is such a
timer task, so its pseudo-id is held by no other task. -/
theorem timer_ids_never_shared (max_tasks max_timers : Nat) (malloc : Nat → Int)
    (sched_at : Int) (mem : Int → io_scheduler_task) (m : Machine)
    (hsa : sched_at ≠ 0) (hmem : ∀ a, (mem a).owner ≠ sched_at)
    (hinj : ∀ i j, i < max_tasks → j < max_tasks → malloc i = malloc j → i = j)
    (hr : reachable max_tasks max_timers malloc sched_at mem m) :
    (∀ a, live_timer m a →
      -(max_timers : Int) - 2 ≤ (m.tasks a).fd ∧ (m.tasks a).fd < -2 ∧
      (m.tasks a).fd ∉ stack_contents m.sched.timer_id_pool) ∧
    (∀ a b, live_timer m a → live_timer m b → a ≠ b →
      (m.tasks a).fd ≠ (m.tasks b).fd) ∧
    ∀ time_out user_data time_out_cbk,
      (io_sched_create_timer_task m time_out user_data time_out_cbk).1 ≠ 0 →
      live_timer (io_sched_create_timer_task m time_out user_data time_out_cbk).2
        (io_sched_create_timer_task m time_out user_data time_out_cbk).1 ∧
      ∀ a, a ≠ (io_sched_create_timer_task m time_out user_data time_out_cbk).1 →
        live_timer (io_sched_create_timer_task m time_out user_data time_out_cbk).2 a →
        ((io_sched_create_timer_task m time_out user_data time_out_cbk).2.tasks a).fd ≠
          ((io_sched_create_timer_task m time_out user_data time_out_cbk).2.tasks
            (io_sched_create_timer_task m time_out user_data time_out_cbk).1).fd := by
  have hi := reachable_inv max_tasks max_timers malloc sched_at mem m hsa hmem hinj hr
  refine ⟨hi.2.2.2.2.2.2.2.2.2.2.1, ?_, ?_⟩
  · intro a b ha hb hab hfd
    exact hab (hi.2.2.2.2.2.2.2.2.2.2.2 a b ha hb hfd)
  · intro time_out user_data time_out_cbk hp
    have hi2 := create_timer_task_inv _ _ m time_out user_data time_out_cbk hi
    obtain ⟨l1, l2, l3⟩ := create_timer_task_live m time_out user_data time_out_cbk
      hi.2.2.2.2.2.2.1 hp
    have hlive : live_timer (io_sched_create_timer_task m time_out user_data time_out_cbk).2
        (io_sched_create_timer_task m time_out user_data time_out_cbk).1 := by
      refine ⟨by rw [l1, l3], ?_⟩
      have := (hi.2.2.2.2.2.2.2.2.1 _ l2).2
      unfold INVALID_GENERAL_FD
      omega
    refine ⟨hlive, ?_⟩
    intro a hne ha hfd
    exact hne (hi2.2.2.2.2.2.2.2.2.2.2.2 a _ ha hlive hfd)

/-- The scheduler of the examples after a first timer task has been created and
scheduled and a second one created: the state is reachable, and the claim holds
in it. -/
theorem timer_ids_never_shared_witness :
    reachable 2 2 ex_malloc 1 (fun _ => zero_task) ex_timer0.2 ∧
    live_timer ex_timer0.2 1002 ∧ live_timer ex_timer0.2 1001 ∧
    ((∀ a, live_timer ex_timer0.2 a →
      -((2 : Nat) : Int) - 2 ≤ (ex_timer0.2.tasks a).fd ∧ (ex_timer0.2.tasks a).fd < -2 ∧
      (ex_timer0.2.tasks a).fd ∉ stack_contents ex_timer0.2.sched.timer_id_pool) ∧
    (∀ a b, live_timer ex_timer0.2 a → live_timer ex_timer0.2 b → a ≠ b →
      (ex_timer0.2.tasks a).fd ≠ (ex_timer0.2.tasks b).fd) ∧
    ∀ time_out user_data time_out_cbk,
      (io_sched_create_timer_task ex_timer0.2 time_out user_data time_out_cbk).1 ≠ 0 →
      live_timer (io_sched_create_timer_task ex_timer0.2 time_out user_data time_out_cbk).2
        (io_sched_create_timer_task ex_timer0.2 time_out user_data time_out_cbk).1 ∧
      ∀ a, a ≠ (io_sched_create_timer_task ex_timer0.2 time_out user_data time_out_cbk).1 →
        live_timer (io_sched_create_timer_task ex_timer0.2 time_out user_data time_out_cbk).2 a →
        ((io_sched_create_timer_task ex_timer0.2 time_out user_data time_out_cbk).2.tasks a).fd ≠
          ((io_sched_create_timer_task ex_timer0.2 time_out user_data time_out_cbk).2.tasks
            (io_sched_create_timer_task ex_timer0.2 time_out user_data time_out_cbk).1).fd) := by
  have r0 : reachable 2 2 ex_malloc 1 (fun _ => zero_task) ex_machine :=
    reachable.created ex_sched ⟨1000, 0⟩ rfl
  have r1 : reachable 2 2 ex_malloc 1 (fun _ => zero_task) ex_timer5.2 :=
    reachable.client _ _ r0 (client_step.create_timer ex_machine 5 0 77)
  have r2 : reachable 2 2 ex_malloc 1 (fun _ => zero_task) ex_live5 :=
    reachable.client _ _ r1 (client_step.schedule 0 ex_timer5.2 ex_timer5.1 true ex_live5 rfl)
  have r3 : reachable 2 2 ex_malloc 1 (fun _ => zero_task) ex_timer0.2 :=
    reachable.client _ _ r2 (client_step.create_timer ex_live5 0 0 99)
  exact ⟨r3, by decide, by decide,
    timer_ids_never_shared 2 2 ex_malloc 1 (fun _ => zero_task) ex_timer0.2 (by decide)
      (fun _ => (by decide : zero_task.owner ≠ (1 : Int)))
      (fun i j _ _ h => by unfold ex_malloc at h; omega) r3⟩

/-! ## C11 -/

/-- Claim C11: `io_sched_reschedule_task` returns false and leaves the machine
as it is when the task is Remove-flagged; otherwise, for a non-null task with a
timeout that is not negative, it returns true, changes only the expiry time of
that task, and the new expiry time, in nanoseconds, is the clock reading plus
the timeout. -/
theorem reschedule_task_spec (m : Machine) (p : Int) :
    (S_IOSCHED_OPTS_REMOVE (m.tasks p) = true →
      io_sched_reschedule_task m p = some (false, m)) ∧
    (p ≠ 0 → S_IOSCHED_OPTS_REMOVE (m.tasks p) = false → 0 ≤ (m.tasks p).time_out →
      ∃ m1, io_sched_reschedule_task m p = some (true, m1) ∧
        m1 = m.write p { m.tasks p with expire_time := (m1.tasks p).expire_time } ∧
        (m1.tasks p).expire_time.total = m.now.total + (m.tasks p).time_out) := by
  constructor
  · intro hr
    unfold io_sched_reschedule_task
    split_ifs
    · rfl
    · rfl
  · intro hp hr hto
    unfold io_sched_reschedule_task
    rw [if_neg hp, hr, populate_some m p hto]
    refine ⟨_, rfl, ?_, ?_⟩
    · rw [write_tasks_same]
    · rw [write_tasks_same]
      exact expire_at_total m.now (m.tasks p).time_out

/-- The 5 ns timer of the examples: rescheduled at 2000 s it expires at
2000 s + 5 ns; once unscheduled it is not rescheduled. -/
theorem reschedule_task_spec_witness :
    io_sched_reschedule_task (io_sched_unschedule_task ex_later5 1002) 1002 =
      some (false, io_sched_unschedule_task ex_later5 1002) ∧
    ∃ m1, io_sched_reschedule_task ex_later5 1002 = some (true, m1) ∧
      m1 = ex_later5.write 1002
        { ex_later5.tasks 1002 with expire_time := (m1.tasks 1002).expire_time } ∧
      (m1.tasks 1002).expire_time.total = ex_later5.now.total + (ex_later5.tasks 1002).time_out :=
  ⟨(reschedule_task_spec (io_sched_unschedule_task ex_later5 1002) 1002).1 (by decide),
   (reschedule_task_spec ex_later5 1002).2 (by decide) (by decide) (by decide)⟩

/-! ## C15 -/

theorem spec_opts_eq (time_out : Int) :
    spec_opts [IO_SCHEDULER_READ] time_out =
      (if time_out > 0 then IO_SCHEDULER_READ ||| IO_SCHEDULER_TIMER else IO_SCHEDULER_READ) ∧
    spec_opts [IO_SCHEDULER_WRITE] time_out =
      (if time_out > 0 then IO_SCHEDULER_WRITE ||| IO_SCHEDULER_TIMER
        else IO_SCHEDULER_WRITE) ∧
    spec_opts [IO_SCHEDULER_READ, IO_SCHEDULER_ERROR] time_out =
      (if time_out > 0 then (IO_SCHEDULER_READ ||| IO_SCHEDULER_ERROR) ||| IO_SCHEDULER_TIMER
        else IO_SCHEDULER_READ ||| IO_SCHEDULER_ERROR) := by
  unfold spec_opts
  by_cases h : time_out > 0
  · have h2 : 0 < time_out := h
    simp only [if_pos h, if_pos h2]
    exact ⟨by decide, by decide, by decide⟩
  · have h2 : ¬ 0 < time_out := h
    simp only [if_neg h, if_neg h2]
    exact ⟨by decide, by decide, by decide⟩

/-- Claim C15: the three convenience constructors are `io_sched_create_task`
with fixed arguments.  The reader has opts = Read plus Timer iff the timeout is
positive, the callback as on_read and on_timeout, no write and no error
callback; the writer is the same with Write and on_write; the extended reader
adds Error with its own callback.  The option words have exactly these bits. -/
theorem convenience_constructors (m : Machine) (fd time_out user_data cb err_cb : Int) :
    io_sched_create_reader_task m fd time_out user_data cb =
      spec_create_reader_task m fd time_out user_data cb ∧
    io_sched_create_writer_task m fd time_out user_data cb =
      spec_create_writer_task m fd time_out user_data cb ∧
    io_sched_create_reader_task_ex m fd time_out user_data cb err_cb =
      spec_create_reader_task_ex m fd time_out user_data cb err_cb ∧
    (∀ j, (spec_opts [IO_SCHEDULER_READ] time_out).testBit j =
      (decide (j = 0) || (decide (j = 3) && decide (0 < time_out)))) ∧
    (∀ j, (spec_opts [IO_SCHEDULER_WRITE] time_out).testBit j =
      (decide (j = 1) || (decide (j = 3) && decide (0 < time_out)))) ∧
    (∀ j, (spec_opts [IO_SCHEDULER_READ, IO_SCHEDULER_ERROR] time_out).testBit j =
      (decide (j = 0) || decide (j = 2) || (decide (j = 3) && decide (0 < time_out)))) := by
  obtain ⟨e1, e2, e3⟩ := spec_opts_eq time_out
  refine ⟨?_, ?_, ?_, ?_, ?_, ?_⟩
  · unfold io_sched_create_reader_task spec_create_reader_task
    rw [e1]
  · unfold io_sched_create_writer_task spec_create_writer_task
    rw [e2]
  · unfold io_sched_create_reader_task_ex spec_create_reader_task_ex
    rw [e3]
  · intro j
    rw [e1]
    have h1 : IO_SCHEDULER_READ = 2 ^ 0 := by decide
    have h3 : IO_SCHEDULER_TIMER = 2 ^ 3 := by decide
    by_cases h : time_out > 0
    · have h2 : 0 < time_out := h
      rw [if_pos h, h1, h3, Nat.testBit_or, Nat.testBit_two_pow, Nat.testBit_two_pow]
      simp [h2, eq_comm]
    · have h2 : ¬ 0 < time_out := h
      rw [if_neg h, h1, Nat.testBit_two_pow]
      simp [h2, eq_comm]
  · intro j
    rw [e2]
    have h1 : IO_SCHEDULER_WRITE = 2 ^ 1 := by decide
    have h3 : IO_SCHEDULER_TIMER = 2 ^ 3 := by decide
    by_cases h : time_out > 0
    · have h2 : 0 < time_out := h
      rw [if_pos h, h1, h3, Nat.testBit_or, Nat.testBit_two_pow, Nat.testBit_two_pow]
      simp [h2, eq_comm]
    · have h2 : ¬ 0 < time_out := h
      rw [if_neg h, h1, Nat.testBit_two_pow]
      simp [h2, eq_comm]
  · intro j
    rw [e3]
    have h1 : IO_SCHEDULER_READ = 2 ^ 0 := by decide
    have h2' : IO_SCHEDULER_ERROR = 2 ^ 2 := by decide
    have h3 : IO_SCHEDULER_TIMER = 2 ^ 3 := by decide
    by_cases h : time_out > 0
    · have h2 : 0 < time_out := h
      rw [if_pos h, h1, h2', h3, Nat.testBit_or, Nat.testBit_or, Nat.testBit_two_pow,
        Nat.testBit_two_pow, Nat.testBit_two_pow]
      simp [h2, eq_comm]
    · have h2 : ¬ 0 < time_out := h
      rw [if_neg h, h1, h2', Nat.testBit_or, Nat.testBit_two_pow, Nat.testBit_two_pow]
      simp [h2, eq_comm]

/-! ## C14 -/

/-- The loop of `io_sched_stop_scheduler` over a well-formed list: every task
of the list gets the Remove flag, nothing else is written. -/
theorem stop_loop_spec (l : List Int) :
    ∀ (fuel : Nat) (m : Machine) (h : Int), isList m.tasks h l → l.length < fuel →
      stop_loop fuel m h = some (Machine.mk m.sched_at m.sched
        (fun q => if q ∈ l
          then { m.tasks q with opts := (m.tasks q).opts ||| IO_SCHEDULER_REMOVE }
          else m.tasks q) m.now) := by
  induction l with
  | nil =>
    intro fuel m h hl hfuel
    obtain ⟨k, rfl⟩ : ∃ k, fuel = k + 1 := ⟨fuel - 1, by simp at hfuel; omega⟩
    have h0 : h = 0 := hl
    unfold stop_loop
    rw [if_pos h0]
    simp
  | cons a l ih =>
    intro fuel m h hl hfuel
    obtain ⟨k, rfl⟩ : ∃ k, fuel = k + 1 := ⟨fuel - 1, by simp at hfuel; omega⟩
    have hnd := isList_nodup _ _ _ hl
    obtain ⟨e, ne, hr⟩ := hl
    subst e
    have hal : h ∉ l := (List.nodup_cons.mp hnd).1
    unfold stop_loop
    rw [if_neg ne]
    have hl2 : isList (m.write h { m.tasks h with
        opts := (m.tasks h).opts ||| IO_SCHEDULER_REMOVE }).tasks (m.tasks h).next l := by
      apply isList_congr m.tasks _ l _ _ hr
      intro b hb
      have hbh : b ≠ h := fun hh => hal (hh ▸ hb)
      rw [write_tasks_other _ _ _ _ hbh]
    rw [ih k _ _ hl2 (by simp at hfuel ⊢; omega)]
    congr 1
    unfold Machine.write
    simp only [Machine.mk.injEq, true_and, and_true]
    funext q
    by_cases hq : q = h
    · subst hq
      simp [hal]
    · by_cases hql : q ∈ l
      · simp [hq, hql]
      · simp [hq, hql]

/-- Claim C14: `io_sched_stop_scheduler` on a scheduler without a worker thread
(the function calls no callback) returns with the stop flag set and the Remove
flag set on every task of the live list; the other fields of the scheduler
(live list, pools, thread), the other fields of the tasks, the tasks outside the
list and the clock are unchanged, and the live list is the same sequence.  A
second call leaves the machine as it is. -/
theorem stop_scheduler_spec (fuel : Nat) (m : Machine) (l : List Int)
    (hl : isList m.tasks m.sched.scheduled_tasks l) (hfuel : l.length < fuel) :
    ∃ m1, io_sched_stop_scheduler fuel m = some m1 ∧
      m1.sched = { m.sched with stop_scheduler := true } ∧
      m1.sched_at = m.sched_at ∧ m1.now = m.now ∧
      (∀ a ∈ l, m1.tasks a =
        { m.tasks a with opts := (m.tasks a).opts ||| IO_SCHEDULER_REMOVE }) ∧
      (∀ a ∈ l, S_IOSCHED_OPTS_REMOVE (m1.tasks a) = true) ∧
      (∀ a, a ∉ l → m1.tasks a = m.tasks a) ∧
      isList m1.tasks m1.sched.scheduled_tasks l ∧
      io_sched_stop_scheduler fuel m1 = some m1 := by
  have h1 := stop_loop_spec l fuel m _ hl hfuel
  have hT : ∀ a ∈ l, (if a ∈ l
      then { m.tasks a with opts := (m.tasks a).opts ||| IO_SCHEDULER_REMOVE }
      else m.tasks a) =
      { m.tasks a with opts := (m.tasks a).opts ||| IO_SCHEDULER_REMOVE } :=
    fun a ha => if_pos ha
  have hl1 : isList (fun q => if q ∈ l
      then { m.tasks q with opts := (m.tasks q).opts ||| IO_SCHEDULER_REMOVE }
      else m.tasks q) m.sched.scheduled_tasks l := by
    apply isList_congr m.tasks _ l _ _ hl
    intro a ha
    show (if a ∈ l then _ else _ : io_scheduler_task).next = _
    rw [if_pos ha]
  refine ⟨Machine.mk m.sched_at { m.sched with stop_scheduler := true }
    (fun q => if q ∈ l
      then { m.tasks q with opts := (m.tasks q).opts ||| IO_SCHEDULER_REMOVE }
      else m.tasks q) m.now,
    by unfold io_sched_stop_scheduler; rw [h1]; rfl, rfl, rfl, rfl, hT, ?_,
    fun a ha => if_neg ha, hl1, ?_⟩
  · intro a ha
    show S_IOSCHED_OPTS_REMOVE (if a ∈ l then _ else _) = true
    rw [if_pos ha, opts_remove_eq]
    simp only [testBit_set_remove]
    simp
  · unfold io_sched_stop_scheduler
    rw [stop_loop_spec l fuel _ _ hl1 hfuel]
    simp only [Option.map_some', Option.some.injEq, Machine.mk.injEq, true_and, and_true]
    funext q
    by_cases hq : q ∈ l
    · simp only [if_pos hq, Nat.or_assoc, Nat.or_self]
    · simp only [if_neg hq]

/-- The pool example with its two scheduled reader tasks: stopping flags both
and sets the stop flag; a second stop changes nothing. -/
theorem stop_scheduler_spec_witness :
    ∃ m1, io_sched_stop_scheduler 3 ex_pool_full = some m1 ∧
      m1.sched = { ex_pool_full.sched with stop_scheduler := true } ∧
      m1.sched_at = ex_pool_full.sched_at ∧ m1.now = ex_pool_full.now ∧
      (∀ a ∈ [1002, 1001], m1.tasks a =
        { ex_pool_full.tasks a with
          opts := (ex_pool_full.tasks a).opts ||| IO_SCHEDULER_REMOVE }) ∧
      (∀ a ∈ [1002, 1001], S_IOSCHED_OPTS_REMOVE (m1.tasks a) = true) ∧
      (∀ a, a ∉ [1002, 1001] → m1.tasks a = ex_pool_full.tasks a) ∧
      isList m1.tasks m1.sched.scheduled_tasks [1002, 1001] ∧
      io_sched_stop_scheduler 3 m1 = some m1 :=
  stop_scheduler_spec 3 ex_pool_full [1002, 1001] (by decide) (by decide)

/-! ## Tasks that carry Remove in the dispatch pass -/

theorem remove_touched (t : io_scheduler_task) (e : timespec) (o : Nat)
    (ho : o = t.opts ∨ o = t.opts ||| IO_SCHEDULER_REMOVE) :
    (S_IOSCHED_OPTS_REMOVE t = true →
      S_IOSCHED_OPTS_REMOVE { t with opts := o, expire_time := e } = true) ∧
    (S_IOSCHED_OPTS_REMOVE { t with opts := o, expire_time := e } = false →
      o = t.opts) := by
  simp only [opts_remove_eq]
  rcases ho with ho | ho
  · rw [ho]; exact ⟨fun h => h, fun _ => rfl⟩
  · rw [ho]
    simp only [testBit_set_remove]
    constructor
    · intro _; simp
    · intro h; simp at h

theorem task_fit_touched (sa : Int) (t : io_scheduler_task) (e : timespec) (o : Nat)
    (ho : o = t.opts ∨ o = t.opts ||| IO_SCHEDULER_REMOVE) (hfit : task_fit sa t) :
    task_fit sa { t with opts := o, expire_time := e } := by
  refine ⟨hfit.1, ?_⟩
  intro hr
  have hoe := (remove_touched t e o ho).2 hr
  have hr0 : S_IOSCHED_OPTS_REMOVE t = false := by
    rw [opts_remove_eq] at hr ⊢
    rw [← hoe]; exact hr
  exact task_ok_touched sa t e o ho (hfit.2 hr0)

/-- The dispatch pass with callbacks that leave the machine alone, over tasks
that are well formed unless they carry Remove: it runs without a fault, and
every callback goes to a task of the sequence that did not carry Remove when the
pass started. -/
theorem dispatch_list_fit (env : CbkEnv) (hpure : env_pure env) (l : List Int) :
    ∀ (m : Machine) (rds wrs ers : Int → Bool),
      (∀ a ∈ l, task_fit m.sched_at (m.tasks a)) →
      ∃ r, dispatch_list env l m rds wrs ers = some r ∧ touched m r.m l ∧
        ∀ c ∈ r.calls, c.task ∈ l ∧ S_IOSCHED_OPTS_REMOVE (m.tasks c.task) = false := by
  induction l with
  | nil =>
    intro m rds wrs ers _
    exact ⟨_, by rw [dispatch_list], touched_refl m [], fun c hc => by simp at hc⟩
  | cons a l ih =>
    intro m rds wrs ers hok
    rw [dispatch_list_cons]
    by_cases hs : m.sched.stop_scheduler = true
    · rw [if_pos hs]
      exact ⟨_, rfl, touched_refl m _, fun c hc => by simp at hc⟩
    · rw [if_neg hs]
      by_cases hrm : S_IOSCHED_OPTS_REMOVE (m.tasks a) = true
      · have hn : ¬ ((!S_IOSCHED_OPTS_REMOVE (m.tasks a)) = true) := by simp [hrm]
        rw [if_neg hn]
        obtain ⟨r, h1, h2, h3⟩ := ih m rds wrs ers
          (fun b hb => hok b (List.mem_cons_of_mem a hb))
        exact ⟨r, h1, touched_mono m r.m l (a :: l) h2 (fun q hq => List.mem_cons_of_mem a hq),
          fun c hc => ⟨List.mem_cons_of_mem a (h3 c hc).1, (h3 c hc).2⟩⟩
      · have hrf : S_IOSCHED_OPTS_REMOVE (m.tasks a) = false := by simpa using hrm
        have hn : (!S_IOSCHED_OPTS_REMOVE (m.tasks a)) = true := by simpa using hrm
        rw [if_pos hn]
        obtain ⟨st, p1, p2, p3⟩ := dispatch_step_pure env hpure m a rds wrs ers
          ((hok a (List.mem_cons_self a l)).2 hrf)
        rw [p1]
        simp only []
        have hok2 : ∀ b ∈ l, task_fit
            (if st.rv = true then io_sched_unschedule_task st.m a else st.m).sched_at
            ((if st.rv = true then io_sched_unschedule_task st.m a else st.m).tasks b) := by
          intro b hb
          obtain ⟨o, e, x, y⟩ := p2.2.2.2.2 b
          rw [p2.2.2.1, x]
          exact task_fit_touched _ _ e o y (hok b (List.mem_cons_of_mem a hb))
        obtain ⟨r, h1, h2, h3⟩ := ih _ st.rds st.wrs st.ers hok2
        rw [h1]
        refine ⟨_, rfl, ?_, ?_⟩
        · exact touched_trans m _ r.m [a] l p2 h2
        · intro c hc
          simp only [List.mem_append] at hc
          rcases hc with hc | hc
          · rw [p3 c hc]; exact ⟨List.mem_cons_self _ _, hrf⟩
          · refine ⟨List.mem_cons_of_mem a (h3 c hc).1, ?_⟩
            obtain ⟨o, e, x, y⟩ := p2.2.2.2.2 c.task
            have hh := (h3 c hc).2
            rw [x] at hh
            have hoe := (remove_touched _ e o y).2 hh
            rw [opts_remove_eq] at hh ⊢
            rw [← hoe]; exact hh

/-- One pump iteration of a running scheduler whose callbacks leave the machine
alone, the live tasks being well formed unless they carry Remove: the
iteration returns, the live list shrinks to a part of itself, callbacks go to
live tasks that did not carry Remove when the iteration started, and a task
with Remove that stays in the list keeps it. -/
theorem pump_fit (fuel : Nat) (env : CbkEnv) (sel : select_result) (m : Machine)
    (l : List Int) (hpure : env_pure env)
    (hl : isList m.tasks m.sched.scheduled_tasks l)
    (hfit : ∀ a ∈ l, task_fit m.sched_at (m.tasks a))
    (hroom : room (fun a => (m.tasks a).fd) m l)
    (hstop : m.sched.stop_scheduler = false) (hfuel : l.length < fuel) :
    ∃ m2 calls l2, inl_io_sched_pump fuel env sel m = some (m2, calls) ∧
      isList m2.tasks m2.sched.scheduled_tasks l2 ∧
      (∀ a ∈ l2, task_fit m2.sched_at (m2.tasks a)) ∧
      room (fun a => (m2.tasks a).fd) m2 l2 ∧
      m2.sched.stop_scheduler = false ∧ l2.length ≤ l.length ∧
      (∀ x ∈ l2, x ∈ l) ∧
      (∀ c ∈ calls, c.task ∈ l ∧ S_IOSCHED_OPTS_REMOVE (m.tasks c.task) = false) ∧
      (∀ q ∈ l2, S_IOSCHED_OPTS_REMOVE (m.tasks q) = true →
        S_IOSCHED_OPTS_REMOVE (m2.tasks q) = true) := by
  by_cases hne : l = []
  · subst hne
    have h0 : m.sched.scheduled_tasks = 0 := hl
    exact ⟨_, _, [], pump_empty fuel env sel m h0 hstop hfuel, hl,
      fun a ha => by simp at ha, hroom, hstop, le_refl _, fun x hx => hx,
      fun c hc => by simp at hc, fun q hq => by simp at hq⟩
  · obtain ⟨m1, fs, _, p2, p3, p4, p5, p6⟩ := pump_eq fuel env sel m l
      (env_pure_links env hpure) hl hne hstop (fun a ha => (hfit a ha).1)
      (room_filter _ m _ l hroom) hfuel
    have hs1 : m1.sched.stop_scheduler = false := by rw [p3.2.2.2.2.2.2.1, hstop]
    have hfit1 : ∀ a ∈ survivors m l, task_fit ({ m1 with now := sel.now } : Machine).sched_at
        (({ m1 with now := sel.now } : Machine).tasks a) := by
      intro a ha
      obtain ⟨k, hk⟩ := p4 a ha
      show task_fit m1.sched_at (m1.tasks a)
      rw [hk, p3.2.2.2.2.2.2.2.2.1]
      exact hfit a ((List.mem_filter.mp ha).1)
    have hroom1 : room (fun a => (m1.tasks a).fd) m1 (survivors m l) := by
      have e : ids_of (fun a => (m1.tasks a).fd) (survivors m l) =
          ids_of (fun a => (m.tasks a).fd) (survivors m l) := by
        apply ids_of_congr
        intro a ha
        obtain ⟨k, hk⟩ := p4 a ha
        show (m1.tasks a).fd = (m.tasks a).fd
        rw [hk]
      obtain ⟨a1, a2, a3, a4⟩ := hroom
      obtain ⟨_, b2, b3, _, b5, b6, _⟩ := p3
      have l1 := length_reaped_survivors m l
      have l2 := ids_reaped_survivors (fun a => (m.tasks a).fd) m l
      refine ⟨by omega, by omega, ?_, by omega⟩
      rw [e]; omega
    have hrem1 : ∀ q ∈ survivors m l, S_IOSCHED_OPTS_REMOVE (m1.tasks q) =
        S_IOSCHED_OPTS_REMOVE (m.tasks q) := by
      intro q hq
      obtain ⟨k, hk⟩ := p4 q hq
      rw [hk]; rfl
    by_cases hf : sel.failed = true
    · rw [if_pos hf] at p6
      exact ⟨_, _, survivors m l, p6, p2, hfit1, hroom1, hs1, List.length_filter_le _ _,
        fun x hx => (List.mem_filter.mp hx).1, fun c hc => by simp at hc,
        fun q hq h => by show S_IOSCHED_OPTS_REMOVE (m1.tasks q) = true; rw [hrem1 q hq]; exact h⟩
    · rw [if_neg hf] at p6
      obtain ⟨r, d1, d2, d3⟩ := dispatch_list_fit env hpure (survivors m l)
        { m1 with now := sel.now } (fun fd => fs.rd fd && sel.rd fd)
        (fun fd => fs.wr fd && sel.wr fd) (fun fd => fs.er fd && sel.er fd) hfit1
      rw [d1] at p6
      obtain ⟨t1, t2, t3, t4, t5⟩ := d2
      have hfd : ∀ q, (r.m.tasks q).fd = (m1.tasks q).fd := by
        intro q
        obtain ⟨o, e, x, _⟩ := t5 q
        rw [x]
      refine ⟨r.m, r.calls, survivors m l, p6, ?_, ?_, ?_, ?_, List.length_filter_le _ _,
        fun x hx => (List.mem_filter.mp hx).1, ?_, ?_⟩
      · rw [t1]
        refine isList_congr m1.tasks r.m.tasks _ _ ?_ p2
        intro a _
        obtain ⟨o, e, x, _⟩ := t5 a
        rw [x]
      · intro a ha
        obtain ⟨o, e, x, y⟩ := t5 a
        rw [t3, x]
        exact task_fit_touched _ _ e o y (hfit1 a ha)
      · unfold room at hroom1 ⊢
        rw [t1, ids_of_congr (fun a => (r.m.tasks a).fd) (fun a => (m1.tasks a).fd) _
          (fun a _ => hfd a)]
        exact hroom1
      · rw [t1]; exact hs1
      · intro c hc
        obtain ⟨c1, c2⟩ := d3 c hc
        refine ⟨(List.mem_filter.mp c1).1, ?_⟩
        rw [← hrem1 _ c1]; exact c2
      · intro q hq h
        obtain ⟨o, e, x, y⟩ := t5 q
        rw [x]
        apply (remove_touched _ e o y).1
        show S_IOSCHED_OPTS_REMOVE (m1.tasks q) = true
        rw [hrem1 q hq]; exact h

/-- A run of pump iterations of a running scheduler whose callbacks leave the
machine alone: every iteration returns, and a task that is not in the live list
or carries Remove receives no callback. -/
theorem pump_run_fit (fuel : Nat) (env : CbkEnv) (hpure : env_pure env) (p : Int)
    (sels : List select_result) :
    ∀ (m : Machine) (l : List Int), isList m.tasks m.sched.scheduled_tasks l →
      (∀ a ∈ l, task_fit m.sched_at (m.tasks a)) →
      room (fun a => (m.tasks a).fd) m l →
      m.sched.stop_scheduler = false → l.length < fuel →
      (p ∈ l → S_IOSCHED_OPTS_REMOVE (m.tasks p) = true) →
      ∃ m2 calls, pump_run fuel env sels m = some (m2, calls) ∧
        ∀ c ∈ calls, c.task ≠ p := by
  induction sels with
  | nil =>
    intro m l _ _ _ _ _ _
    exact ⟨m, [], rfl, fun c hc => by simp at hc⟩
  | cons sel sels ih =>
    intro m l hl hfit hroom hstop hfuel hp
    obtain ⟨m1, c1, l1, a1, a2, a3, a4, a5, a6, a7, a8, a9⟩ :=
      pump_fit fuel env sel m l hpure hl hfit hroom hstop hfuel
    obtain ⟨m2, c2, b1, b2⟩ := ih m1 l1 a2 a3 a4 a5 (lt_of_le_of_lt a6 hfuel)
      (fun h => a9 p h (hp (a7 p h)))
    refine ⟨m2, c1 ++ c2, ?_, ?_⟩
    · exact pump_run_append fuel env [sel] sels m m1 m2 c1 c2
        (pump_run_single fuel env sel m m1 c1 a1) b1
    · intro c hc
      rcases List.mem_append.mp hc with h | h
      · intro hh
        obtain ⟨x1, x2⟩ := a8 c h
        rw [hh] at x1 x2
        rw [hp x1] at x2
        exact Bool.noConfusion x2
      · exact b2 c h

/-! ## C13 -/

theorem typed_bits (o j : Nat) (h1 : o &&& (0xFFFFFFFF ^^^ 0x8000000F) = 0) (h2 : o < 2 ^ 32)
    (hj : o.testBit j = true) : j = 0 ∨ j = 1 ∨ j = 2 ∨ j = 3 ∨ j = 31 := by
  have hlt : j < 32 := by
    by_contra hge
    have : o.testBit j = false := by
      apply Nat.testBit_lt_two_pow
      calc o < 2 ^ 32 := h2
        _ ≤ 2 ^ j := Nat.pow_le_pow_right (by decide) (by omega)
    rw [this] at hj
    exact Bool.noConfusion hj
  have hm : (o &&& (0xFFFFFFFF ^^^ 0x8000000F)).testBit j = false := by
    rw [h1]; exact Nat.zero_testBit j
  rw [Nat.testBit_and, hj, Bool.true_and] at hm
  interval_cases j
  all_goals first
    | omega
    | (exfalso; revert hm; decide)

/-- Admission of a task none of whose options has its callback: every option is
cleared and Remove is set. -/
theorem schedule_opts_no_callback (t : io_scheduler_task) (ht : opts_typed t)
    (hn : no_callback t) :
    S_IOSCHED_OPTS_REMOVE (schedule_opts t) = true ∧
    S_IOSCHED_OPTS_TIMER (schedule_opts t) = false := by
  obtain ⟨n1, n2, n3, n4⟩ := hn
  obtain ⟨f1, f2, f3, f4, f5⟩ := schedule_opts_flags t ht.2
  constructor
  · obtain ⟨d, _, hd, he⟩ := schedule_opts_bits t ht.2
    rw [opts_remove_eq, he]
    by_cases h0 : d = 0
    · rw [if_pos h0]; decide
    · rw [if_neg h0]
      obtain ⟨j, hj⟩ := Nat.ne_zero_implies_bit_true h0
      have hj2 := hj
      rw [hd j] at hj2
      simp only [Bool.and_eq_true, Bool.not_eq_true', Bool.and_eq_false_iff,
        decide_eq_false_iff_not, beq_eq_false_iff_ne, ne_eq, Bool.or_eq_false_iff] at hj2
      obtain ⟨⟨⟨⟨b0, b1⟩, b2⟩, b3⟩, b4⟩ := hj2
      rcases typed_bits t.opts j ht.1 ht.2 b0 with h | h | h | h | h
      · subst h
        rw [opts_read_eq] at n1
        rcases b1 with b | b
        · exact absurd rfl b
        · exact absurd (n1 b0) b
      · subst h
        rw [opts_write_eq] at n2
        rcases b2 with b | b
        · exact absurd rfl b
        · exact absurd (n2 b0) b
      · subst h
        rw [opts_error_eq] at n3
        rcases b3 with b | b
        · exact absurd rfl b
        · exact absurd (n3 b0) b
      · subst h
        rw [opts_timer_eq] at n4
        rcases b4 with b | b
        · exact absurd rfl b
        · exact absurd (n4 b0) b.1
      · subst h; exact hj
  · rw [f4]
    by_cases h : S_IOSCHED_OPTS_TIMER t = true
    · rw [h, n4 h]; rfl
    · have : S_IOSCHED_OPTS_TIMER t = false := by simpa using h
      rw [this]; rfl

/-- Claim C13: a task none of whose options has its callback (the option word
holding option bits only), scheduled on a running scheduler with well-formed
live tasks: `io_sched_schedule_task` returns true and leaves the task
Remove-flagged, and over any sequence of pump iterations afterwards, with
callbacks that leave the machine alone, every iteration returns and no callback
is invoked on the task.  More generally, when the dispatch loop reaches a task
that carries Remove it goes on to the next task: that turn invokes nothing and
changes nothing. -/
theorem no_callback_task_never_dispatched (fuel : Nat) (env : CbkEnv) (m : Machine)
    (l : List Int) (p : Int) (hpure : env_pure env)
    (hl : isList m.tasks m.sched.scheduled_tasks l)
    (hfit : ∀ a ∈ l, task_fit m.sched_at (m.tasks a))
    (hroom : room (fun a => (m.tasks a).fd) m (l ++ [p]))
    (hstop : m.sched.stop_scheduler = false) (hfuel : l.length + 1 < fuel)
    (hp : p ≠ 0) (hpl : p ∉ l) (hown : (m.tasks p).owner = m.sched_at)
    (hnext : (m.tasks p).next = 0)
    (htyped : opts_typed (m.tasks p)) (hno : no_callback (m.tasks p)) :
    (∃ m1, io_sched_schedule_task fuel m p = some (true, m1) ∧
      S_IOSCHED_OPTS_REMOVE (m1.tasks p) = true ∧
      isList m1.tasks m1.sched.scheduled_tasks (l ++ [p]) ∧
      ∀ sels, ∃ m2 calls, pump_run fuel env sels m1 = some (m2, calls) ∧
        ∀ c ∈ calls, c.task ≠ p) ∧
    ∀ (env2 : CbkEnv) (k : Nat) (mm : Machine) (ptask : Int) (rds wrs ers : Int → Bool),
      ptask ≠ 0 → mm.sched.stop_scheduler = false →
      S_IOSCHED_OPTS_REMOVE (mm.tasks ptask) = true →
      dispatch_loop env2 (k + 1) mm ptask rds wrs ers =
        dispatch_loop env2 k mm (mm.tasks ptask).next rds wrs ers := by
  constructor
  · obtain ⟨hrem, htim⟩ := schedule_opts_no_callback (m.tasks p) htyped hno
    have hadm := schedule_admit_some m p (fun h => by rw [htim] at h; exact Bool.noConfusion h)
    rw [htim] at hadm
    simp only [Bool.false_eq_true, if_false] at hadm
    have hfr := schedule_opts_frame (m.tasks p)
    have hla : isList (m.write p (schedule_opts (m.tasks p))).tasks
        (m.write p (schedule_opts (m.tasks p))).sched.scheduled_tasks l := by
      apply isList_congr m.tasks _ l _ _ hl
      intro a ha
      have hne : a ≠ p := fun h => hpl (h ▸ ha)
      rw [write_tasks_other _ _ _ _ hne]
    obtain ⟨m2, hlink, s1, _, s3, s4, _, s6, hq, happ⟩ :=
      schedule_link_some fuel (m.write p (schedule_opts (m.tasks p))) p l
        (by rw [write_tasks_same, hfr.2.2.1]; exact hown) hla (by omega)
    obtain ⟨hl2, hout⟩ := happ hp hpl (by rw [write_tasks_same, hfr.1]; exact hnext)
    have hp2 : m2.tasks p = schedule_opts (m.tasks p) := by
      rw [hout p hpl, write_tasks_same]
    have hfd : ∀ q, (m2.tasks q).fd = (m.tasks q).fd := by
      intro q
      obtain ⟨n, hn⟩ := hq q
      rw [hn]
      by_cases hqp : q = p
      · subst hqp
        rw [write_tasks_same]
        exact hfr.2.2.2.1
      · rw [write_tasks_other _ _ _ _ hqp]
    have hsched : io_sched_schedule_task fuel m p = some (true, m2) := by
      unfold io_sched_schedule_task
      rw [if_neg hp, hadm]
      exact hlink
    have hrem2 : S_IOSCHED_OPTS_REMOVE (m2.tasks p) = true := by rw [hp2]; exact hrem
    have hfit2 : ∀ a ∈ l ++ [p], task_fit m2.sched_at (m2.tasks a) := by
      intro a ha
      rcases List.mem_append.mp ha with h | h
      · have hne : a ≠ p := fun hh => hpl (hh ▸ h)
        obtain ⟨n, hn⟩ := hq a
        rw [hn, write_tasks_other _ _ _ _ hne, s1]
        exact hfit a h
      · have hap : a = p := List.mem_singleton.mp h
        rw [hap]
        refine ⟨?_, fun hh => ?_⟩
        · rw [hp2, hfr.2.2.1, s1]; exact hown
        · rw [hrem2] at hh; exact Bool.noConfusion hh
    have hroom2 : room (fun a => (m2.tasks a).fd) m2 (l ++ [p]) := by
      unfold room at hroom ⊢
      rw [s3, s4, ids_of_congr (fun a => (m2.tasks a).fd) (fun a => (m.tasks a).fd) _
        (fun a _ => hfd a)]
      exact hroom
    refine ⟨m2, hsched, hrem2, hl2, ?_⟩
    intro sels
    exact pump_run_fit fuel env hpure p sels m2 (l ++ [p]) hl2 hfit2 hroom2
      (by rw [s6]; exact hstop) (by simp; omega) (fun _ => hrem2)
  · intro env2 k mm ptask rds wrs ers h0 hs hr
    have hc : ¬ (ptask = 0 ∨ mm.sched.stop_scheduler = true) := by
      rw [hs]; simp [h0]
    have hn : ¬ ((!S_IOSCHED_OPTS_REMOVE (mm.tasks ptask)) = true) := by simp [hr]
    rw [dispatch_loop, if_neg hc, if_neg hn]

/-- The reader task without callback of the examples: scheduling flags it
Remove, and no pump iteration calls it. -/
theorem no_callback_task_never_dispatched_witness :
    ∃ m1, io_sched_schedule_task 2 ex_orphan.2 ex_orphan.1 = some (true, m1) ∧
      S_IOSCHED_OPTS_REMOVE (m1.tasks ex_orphan.1) = true ∧
      isList m1.tasks m1.sched.scheduled_tasks ([] ++ [ex_orphan.1]) ∧
      ∀ sels, ∃ m2 calls, pump_run 2 ex_env_true sels m1 = some (m2, calls) ∧
        ∀ c ∈ calls, c.task ≠ ex_orphan.1 :=
  (no_callback_task_never_dispatched 2 ex_env_true ex_orphan.2 [] ex_orphan.1
    (fun _ _ _ _ => rfl) (by decide) (by decide) (by decide) (by decide) (by decide)
    (by decide) (by decide) (by decide) (by decide) (by decide) (by decide)).1

/-! ## C12 -/

/-- C12, as stated, fails: after a reader task has been scheduled, unscheduled
and coalesced by one pump iteration, its slot is zeroed and back in the task
pool; scheduling it again is not an admission.  The call faults on the cleared
owner, and the options and callbacks it would admit are Remove alone and none,
where a single `io_sched_schedule_task` gives Read with the callback. -/
theorem reschedule_after_reap_is_no_admission :
    io_sched_schedule_task 4 ex_reader_a.2 ex_reader_a.1 = some (true, ex_a_live) ∧
    isList ex_a_live.tasks ex_a_live.sched.scheduled_tasks [ex_reader_a.1] ∧
    (ex_a_live.tasks ex_reader_a.1).fd = 5 ∧
    (ex_a_live.tasks ex_reader_a.1).opts = IO_SCHEDULER_READ ∧
    (ex_a_live.tasks ex_reader_a.1).on_read_rdy_cbk = 88 ∧
    inl_io_sched_pump 4 ex_env_true ex_select_idle
      (io_sched_unschedule_task ex_a_live ex_reader_a.1) = some (ex_a_reaped, []) ∧
    ex_a_reaped.tasks ex_reader_a.1 = zero_task ∧
    isList ex_a_reaped.tasks ex_a_reaped.sched.scheduled_tasks [] ∧
    io_sched_schedule_task 4 ex_a_reaped ex_reader_a.1 = none ∧
    (schedule_opts (ex_a_reaped.tasks ex_reader_a.1)).opts = IO_SCHEDULER_REMOVE ∧
    (schedule_opts (ex_a_reaped.tasks ex_reader_a.1)).on_read_rdy_cbk = 0 := by
  refine ⟨rfl, by decide, by decide, by decide, by decide, rfl, by rfl, by decide, by rfl,
    by decide, by decide⟩

/-- The option word that `io_sched_schedule_task` leaves in the task is the one
computed by the downgrade. -/
theorem schedule_task_opts (fuel : Nat) (m m2 : Machine) (p : Int) (b : Bool) (hp : p ≠ 0)
    (h : io_sched_schedule_task fuel m p = some (b, m2)) :
    (m2.tasks p).opts = (schedule_opts (m.tasks p)).opts := by
  unfold io_sched_schedule_task at h
  rw [if_neg hp] at h
  cases ha : schedule_admit m p with
  | none => rw [ha] at h; exact Option.noConfusion h
  | some m1 =>
    rw [ha] at h
    simp only [] at h
    have h1 : (m1.tasks p).opts = (schedule_opts (m.tasks p)).opts := by
      unfold schedule_admit at ha
      simp only [] at ha
      split_ifs at ha
      · obtain ⟨e, he⟩ := populate_frame _ _ _ ha
        rw [he, write_tasks_same, write_tasks_same]
      · rw [← Option.some.inj ha, write_tasks_same]
    rw [← h1]
    unfold schedule_link at h
    split_ifs at h
    · have e := Option.some.inj h
      rw [Prod.mk.injEq] at e
      rw [← e.2]
    · cases hf : find_tail m1.tasks fuel m1.sched.scheduled_tasks with
      | none => rw [hf] at h; exact Option.noConfusion h
      | some ttt =>
        rw [hf] at h
        have e := Option.some.inj h
        rw [Prod.mk.injEq] at e
        rw [← e.2]
        by_cases hq : p = ttt
        · subst hq; rw [write_tasks_same]
        · rw [write_tasks_other _ _ _ _ hq]

/-- The function `io_sched_create_task` on a pool whose top is the non-null slot `p`. -/
theorem create_task_top (m : Machine) (p : Int) (rest : List Int) (fd : Int) (opts : Nat)
    (time_out user_data read_cbk write_cbk err_cbk time_out_cbk : Int)
    (hc : stack_contents m.sched.task_pool = p :: rest) (hp : p ≠ 0) :
    ∃ tp, stack_contents tp = rest ∧
      io_sched_create_task m fd opts time_out user_data read_cbk write_cbk err_cbk
        time_out_cbk =
      (p, ({ m with sched := { m.sched with task_pool := tp } } : Machine).write p
        (new_task m.sched_at fd opts time_out user_data read_cbk write_cbk err_cbk
          time_out_cbk)) := by
  have hlt : m.sched.task_pool.current < m.sched.task_pool.limit := by
    have := congrArg List.length hc
    rw [stack_contents_length] at this
    unfold stack_fixed_size at this
    simp at this
    omega
  have hpop := stack_pop_nonempty _ hlt
  rw [hc] at hpop
  have e1 : (stack_fixed_pop_and_return m.sched.task_pool).1 = p := (List.cons.inj hpop).1.symm
  have e2 : stack_contents (stack_fixed_pop_and_return m.sched.task_pool).2 = rest :=
    (List.cons.inj hpop).2.symm
  refine ⟨(stack_fixed_pop_and_return m.sched.task_pool).2, e2, ?_⟩
  unfold io_sched_create_task
  simp only []
  rw [if_pos (by rw [e1]; exact hp), e1]
  rfl

/-- Scheduling a zeroed slot faults: the owner it is linked through is null. -/
theorem schedule_zeroed_faults (fuel : Nat) (m : Machine) (p : Int) (hp : p ≠ 0)
    (hsa : m.sched_at ≠ 0) (hz : m.tasks p = zero_task) :
    io_sched_schedule_task fuel m p = none := by
  have htim : S_IOSCHED_OPTS_TIMER (schedule_opts (m.tasks p)) = false := by
    rw [hz]; decide
  have hadm := schedule_admit_some m p (fun h => by rw [htim] at h; exact Bool.noConfusion h)
  rw [htim] at hadm
  simp only [Bool.false_eq_true, if_false] at hadm
  unfold io_sched_schedule_task
  rw [if_neg hp, hadm]
  simp only []
  unfold schedule_link
  have ho : ((m.write p (schedule_opts (m.tasks p))).tasks p).owner ≠
      (m.write p (schedule_opts (m.tasks p))).sched_at := by
    rw [write_tasks_same, (schedule_opts_frame _).2.2.1, hz]
    exact fun h => hsa h.symm
  rw [if_pos ho]

/-- One pump iteration as in `pump_fit`, with the machine between the coalescing
pass and the dispatch pass named. -/
theorem pump_fit_reap (fuel : Nat) (env : CbkEnv) (sel : select_result) (m : Machine)
    (l : List Int) (hpure : env_pure env)
    (hl : isList m.tasks m.sched.scheduled_tasks l) (hne : l ≠ [])
    (hfit : ∀ a ∈ l, task_fit m.sched_at (m.tasks a))
    (hroom : room (fun a => (m.tasks a).fd) m l)
    (hstop : m.sched.stop_scheduler = false) (hfuel : l.length < fuel) :
    ∃ m1 m2 calls, inl_io_sched_pump fuel env sel m = some (m2, calls) ∧
      isList m1.tasks m1.sched.scheduled_tasks (survivors m l) ∧
      destroyed (fun a => (m.tasks a).fd) m m1 (reaped m l) ∧
      (∀ a ∈ survivors m l, ∃ k, m1.tasks a = { m.tasks a with next := k }) ∧
      touched { m1 with now := sel.now } m2 (survivors m l) := by
  obtain ⟨m1, fs, _, p2, p3, p4, p5, p6⟩ := pump_eq fuel env sel m l
    (env_pure_links env hpure) hl hne hstop (fun a ha => (hfit a ha).1)
    (room_filter _ m _ l hroom) hfuel
  by_cases hf : sel.failed = true
  · rw [if_pos hf] at p6
    exact ⟨m1, _, _, p6, p2, p3, p4, touched_refl _ _⟩
  · rw [if_neg hf] at p6
    have hfit1 : ∀ a ∈ survivors m l, task_fit ({ m1 with now := sel.now } : Machine).sched_at
        (({ m1 with now := sel.now } : Machine).tasks a) := by
      intro a ha
      obtain ⟨k, hk⟩ := p4 a ha
      show task_fit m1.sched_at (m1.tasks a)
      rw [hk, p3.2.2.2.2.2.2.2.2.1]
      exact hfit a ((List.mem_filter.mp ha).1)
    obtain ⟨r, d1, d2, _⟩ := dispatch_list_fit env hpure (survivors m l)
      { m1 with now := sel.now } (fun fd => fs.rd fd && sel.rd fd)
      (fun fd => fs.wr fd && sel.wr fd) (fun fd => fs.er fd && sel.er fd) hfit1
    rw [d1] at p6
    exact ⟨m1, r.m, r.calls, p6, p2, p3, p4, d2⟩

theorem new_task_opts (sa fd : Int) (opts : Nat) (tmo ud rc wc ec tc : Int) (h : opts < 2 ^ 32) :
    (new_task sa fd opts tmo ud rc wc ec tc).opts < 2 ^ 32 := by
  unfold new_task
  simp only []
  split_ifs
  · exact lt_of_le_of_lt Nat.and_le_left h
  · exact h

/-- Claim C12, amended: a task with a descriptor other than `INVALID_GENERAL_FD`
is scheduled, unscheduled and coalesced by one pump iteration.  The iteration
destroys it: it is off the live list and its slot is zeroed, so scheduling it
again faults and admits nothing.  Creating the task again with the same
arguments returns the same slot, and scheduling that task puts it at the tail
of the live list with the options, descriptor, timeout, payload and callbacks
that the single `io_sched_schedule_task` gave. -/
theorem fresh_admission_after_reap (fuel : Nat) (env : CbkEnv) (sel : select_result)
    (m : Machine) (l : List Int) (p fd : Int) (opts : Nat)
    (time_out user_data read_cbk write_cbk err_cbk time_out_cbk : Int)
    (hpure : env_pure env)
    (hl : isList m.tasks m.sched.scheduled_tasks l)
    (hfit : ∀ a ∈ l, task_fit m.sched_at (m.tasks a))
    (hroom : room (fun a => (m.tasks a).fd) m (l ++ [p]))
    (hstop : m.sched.stop_scheduler = false) (hfuel : l.length + 1 < fuel)
    (hsa : m.sched_at ≠ 0) (hp : p ≠ 0) (hpl : p ∉ l)
    (hrec : m.tasks p = new_task m.sched_at fd opts time_out user_data read_cbk write_cbk
      err_cbk time_out_cbk)
    (hfd : fd ≠ INVALID_GENERAL_FD) (hopts : opts < 2 ^ 32)
    (hto : S_IOSCHED_OPTS_TIMER (m.tasks p) = true → (m.tasks p).on_timeout_cbk ≠ 0 →
      IO_SCHEDULER_NO_TIMEOUT ≤ (m.tasks p).time_out) :
    ∃ mS m4 calls m5 m6,
      io_sched_schedule_task fuel m p = some (true, mS) ∧
      isList mS.tasks mS.sched.scheduled_tasks (l ++ [p]) ∧
      inl_io_sched_pump fuel env sel (io_sched_unschedule_task mS p) = some (m4, calls) ∧
      isList m4.tasks m4.sched.scheduled_tasks (survivors m l) ∧
      ((∀ a ∈ l, reapable (m.tasks a) = false) → survivors m l = l) ∧
      m4.tasks p = zero_task ∧
      io_sched_schedule_task fuel m4 p = none ∧
      io_sched_create_task m4 fd opts time_out user_data read_cbk write_cbk err_cbk
        time_out_cbk = (p, m5) ∧
      io_sched_schedule_task fuel m5 p = some (true, m6) ∧
      isList m6.tasks m6.sched.scheduled_tasks (survivors m l ++ [p]) ∧
      (m6.tasks p).opts = (mS.tasks p).opts ∧
      (m6.tasks p).fd = (mS.tasks p).fd ∧
      (m6.tasks p).time_out = (mS.tasks p).time_out ∧
      (m6.tasks p).user_data = (mS.tasks p).user_data ∧
      (m6.tasks p).on_read_rdy_cbk = (mS.tasks p).on_read_rdy_cbk ∧
      (m6.tasks p).on_write_rdy_cbk = (mS.tasks p).on_write_rdy_cbk ∧
      (m6.tasks p).on_err_rdy_cbk = (mS.tasks p).on_err_rdy_cbk ∧
      (m6.tasks p).on_timeout_cbk = (mS.tasks p).on_timeout_cbk := by
  have hown : (m.tasks p).owner = m.sched_at := by rw [hrec]; rfl
  have hnext : (m.tasks p).next = 0 := by rw [hrec]; rfl
  have hfdp : (m.tasks p).fd = fd := by rw [hrec]; rfl
  have hopts2 : (m.tasks p).opts < 2 ^ 32 := by
    rw [hrec]; exact new_task_opts _ _ _ _ _ _ _ _ _ hopts
  -- the single schedule
  obtain ⟨mS, oS, eS, k, a1, a2, a3, a4, _, a6, a7, a8, _, a10, _⟩ :=
    schedule_task_appends fuel m p l hp hown hopts2 hto hl (by omega) hpl hnext
  have hSfd : ∀ q, (mS.tasks q).fd = (m.tasks q).fd := by
    intro q
    by_cases hq : q = p
    · rw [hq, a3]
    · rw [a4 q hq]
  -- the unschedule
  have hfdS : (mS.tasks p).fd ≠ INVALID_GENERAL_FD := by rw [hSfd, hfdp]; exact hfd
  have hu := unschedule_touched mS p
  obtain ⟨u1, _, u3, u4, u5⟩ := hu
  have hrp := unschedule_reapable mS p hp hfdS
  have h3other : ∀ a ∈ l, (io_sched_unschedule_task mS p).tasks a =
      { m.tasks a with next := k a } := by
    intro a ha
    have hne : a ≠ p := fun hh => hpl (hh ▸ ha)
    rw [u4 a (by simpa using hne), a4 a hne]
  have hl3 : isList (io_sched_unschedule_task mS p).tasks
      (io_sched_unschedule_task mS p).sched.scheduled_tasks (l ++ [p]) := by
    rw [u1]
    exact isList_congr mS.tasks _ _ _ (fun a _ => unschedule_next mS p a) a2
  have h3fd : ∀ q, ((io_sched_unschedule_task mS p).tasks q).fd = (m.tasks q).fd := by
    intro q
    obtain ⟨o, e, x, _⟩ := u5 q
    rw [x]
    exact hSfd q
  have hfit3 : ∀ a ∈ l ++ [p], task_fit (io_sched_unschedule_task mS p).sched_at
      ((io_sched_unschedule_task mS p).tasks a) := by
    intro a ha
    rw [u3, a10]
    rcases List.mem_append.mp ha with h | h
    · rw [h3other a h]
      exact hfit a h
    · have hap : a = p := List.mem_singleton.mp h
      rw [hap]
      refine ⟨?_, fun hh => ?_⟩
      · obtain ⟨o, e, x, _⟩ := u5 p
        rw [x, a3]
        exact hown
      · unfold reapable at hrp
        rw [hh] at hrp
        exact Bool.noConfusion hrp
  have hroom3 : room (fun a => ((io_sched_unschedule_task mS p).tasks a).fd)
      (io_sched_unschedule_task mS p) (l ++ [p]) := by
    unfold room at hroom ⊢
    rw [u1, a6, a7, ids_of_congr _ (fun a => (m.tasks a).fd) _ (fun a _ => h3fd a)]
    exact hroom
  -- the pump iteration
  obtain ⟨m1, m4, calls, c1, c2, c3, _, c5⟩ := pump_fit_reap fuel env sel
    (io_sched_unschedule_task mS p) (l ++ [p]) hpure hl3 (by simp) hfit3 hroom3
    (by rw [u1, a8]; exact hstop) (by simp; omega)
  have hrl : ∀ a ∈ l, reapable ((io_sched_unschedule_task mS p).tasks a) =
      reapable (m.tasks a) := by
    intro a ha
    rw [h3other a ha]
    rfl
  have hsurv : survivors (io_sched_unschedule_task mS p) (l ++ [p]) = survivors m l := by
    unfold survivors
    rw [List.filter_append]
    have e1 : List.filter (fun a => !reapable ((io_sched_unschedule_task mS p).tasks a)) [p]
        = [] := by
      simp [hrp]
    rw [e1, List.append_nil]
    apply List.filter_congr
    intro a ha
    rw [hrl a ha]
  have hreap : reaped (io_sched_unschedule_task mS p) (l ++ [p]) =
      reaped (io_sched_unschedule_task mS p) l ++ [p] := by
    unfold reaped
    rw [List.filter_append]
    simp [hrp]
  rw [hsurv] at c2 c5
  have hps : p ∉ survivors m l := fun h => hpl (List.mem_filter.mp h).1
  obtain ⟨t1, _, t3, t4, t5⟩ := c5
  have hz : m4.tasks p = zero_task := by
    rw [t4 p hps]
    exact c3.2.2.2.2.2.2.2.2.2.2 p (by rw [hreap]; simp)
  have hl4 : isList m4.tasks m4.sched.scheduled_tasks (survivors m l) := by
    rw [t1]
    refine isList_congr m1.tasks m4.tasks _ _ ?_ c2
    intro a _
    obtain ⟨o, e, x, _⟩ := t5 a
    rw [x]
  have hsa4 : m4.sched_at = m.sched_at := by
    rw [t3]
    show m1.sched_at = _
    rw [c3.2.2.2.2.2.2.2.2.1, u3, a10]
  have hpool : stack_contents m4.sched.task_pool =
      p :: ((reaped (io_sched_unschedule_task mS p) l).reverse ++
        stack_contents (io_sched_unschedule_task mS p).sched.task_pool) := by
    rw [t1]
    show stack_contents m1.sched.task_pool = _
    rw [c3.1, hreap, List.reverse_append]
    rfl
  -- scheduling the destroyed task, and creating it again
  have hD := schedule_zeroed_faults fuel m4 p hp (by rw [hsa4]; exact hsa) hz
  obtain ⟨tp, _, hcr⟩ := create_task_top m4 p _ fd opts time_out user_data read_cbk write_cbk
    err_cbk time_out_cbk hpool hp
  have hnt : new_task m4.sched_at fd opts time_out user_data read_cbk write_cbk err_cbk
      time_out_cbk = m.tasks p := by rw [hsa4, hrec]
  rw [hnt] at hcr
  have h5p : (({ m4 with sched := { m4.sched with task_pool := tp } } : Machine).write p
      (m.tasks p)).tasks p = m.tasks p := write_tasks_same _ _ _
  have hl5 : isList (({ m4 with sched := { m4.sched with task_pool := tp } } : Machine).write p
      (m.tasks p)).tasks (({ m4 with sched := { m4.sched with task_pool := tp } } :
        Machine).write p (m.tasks p)).sched.scheduled_tasks (survivors m l) := by
    refine isList_congr m4.tasks _ _ _ ?_ hl4
    intro a ha
    have hne : a ≠ p := fun hh => hps (hh ▸ ha)
    rw [write_tasks_other _ _ _ _ hne]
  obtain ⟨m6, o6, e6, k6, f1, f2, f3, _⟩ := schedule_task_appends fuel _ p (survivors m l) hp
    (by rw [h5p, hown]; exact hsa4.symm) (by rw [h5p]; exact hopts2)
    (by rw [h5p]; exact hto) hl5
    (le_trans (List.length_filter_le _ _) (by omega)) hps (by rw [h5p]; exact hnext)
  have g1 := schedule_task_opts fuel m mS p true hp a1
  have g2 := schedule_task_opts fuel _ m6 p true hp f1
  rw [h5p] at g2 f3
  refine ⟨mS, m4, calls, _, m6, a1, a2, c1, hl4, ?_, hz, hD, hcr, f1, f2, by rw [g2, g1],
    ?_, ?_, ?_, ?_, ?_, ?_, ?_⟩
  · intro h
    unfold survivors
    apply List.filter_eq_self.mpr
    intro a ha
    rw [h a ha]; rfl
  all_goals rw [f3, a3]

/-- Witness for C12 on the pool example: the reader task on descriptor 5, as
created, with an empty live list. -/
theorem fresh_admission_after_reap_witness :
    ∃ mS m4 calls m5 m6,
      io_sched_schedule_task 4 ex_reader_a.2 ex_reader_a.1 = some (true, mS) ∧
      isList mS.tasks mS.sched.scheduled_tasks ([] ++ [ex_reader_a.1]) ∧
      inl_io_sched_pump 4 ex_env_true ex_select_idle
        (io_sched_unschedule_task mS ex_reader_a.1) = some (m4, calls) ∧
      isList m4.tasks m4.sched.scheduled_tasks (survivors ex_reader_a.2 []) ∧
      ((∀ a ∈ ([] : List Int), reapable (ex_reader_a.2.tasks a) = false) →
        survivors ex_reader_a.2 [] = []) ∧
      m4.tasks ex_reader_a.1 = zero_task ∧
      io_sched_schedule_task 4 m4 ex_reader_a.1 = none ∧
      io_sched_create_task m4 5 IO_SCHEDULER_READ (-1) 0 88 0 0 88 = (ex_reader_a.1, m5) ∧
      io_sched_schedule_task 4 m5 ex_reader_a.1 = some (true, m6) ∧
      isList m6.tasks m6.sched.scheduled_tasks (survivors ex_reader_a.2 [] ++ [ex_reader_a.1]) ∧
      (m6.tasks ex_reader_a.1).opts = (mS.tasks ex_reader_a.1).opts ∧
      (m6.tasks ex_reader_a.1).fd = (mS.tasks ex_reader_a.1).fd ∧
      (m6.tasks ex_reader_a.1).time_out = (mS.tasks ex_reader_a.1).time_out ∧
      (m6.tasks ex_reader_a.1).user_data = (mS.tasks ex_reader_a.1).user_data ∧
      (m6.tasks ex_reader_a.1).on_read_rdy_cbk = (mS.tasks ex_reader_a.1).on_read_rdy_cbk ∧
      (m6.tasks ex_reader_a.1).on_write_rdy_cbk = (mS.tasks ex_reader_a.1).on_write_rdy_cbk ∧
      (m6.tasks ex_reader_a.1).on_err_rdy_cbk = (mS.tasks ex_reader_a.1).on_err_rdy_cbk ∧
      (m6.tasks ex_reader_a.1).on_timeout_cbk = (mS.tasks ex_reader_a.1).on_timeout_cbk :=
  fresh_admission_after_reap 4 ex_env_true ex_select_idle ex_reader_a.2 [] ex_reader_a.1 5
    IO_SCHEDULER_READ (-1) 0 88 0 0 88 (fun _ _ _ _ => rfl) (by decide) (by decide) (by decide)
    (by decide) (by decide) (by decide) (by decide) (by decide) (by rfl) (by decide)
    (by decide) (by decide)

/-! ## The socket manager: the registry functions on sequences -/

theorem size_incr_lt (c : Nat) (h : c < SIZE_MAX) : size_incr c = c + 1 := by
  unfold size_incr
  exact Nat.mod_eq_of_lt (by omega)

theorem size_decr_pos (c : Nat) (h0 : 0 < c) (h : c ≤ SIZE_MAX) : size_decr c = c - 1 := by
  unfold size_decr
  have e : c + SIZE_MAX = (c - 1) + 1 * (SIZE_MAX + 1) := by omega
  rw [e, Nat.add_mul_mod_self_right]
  exact Nat.mod_eq_of_lt (by omega)

/-- A registry with an entry for the port splits at the first such entry. -/
theorem first_with_port (port : Nat) (l : List sockmgr_sockinf)
    (h : ∃ x ∈ l, x.port = port) :
    ∃ pre e post, l = pre ++ e :: post ∧ (∀ x ∈ pre, x.port ≠ port) ∧ e.port = port := by
  induction l with
  | nil => obtain ⟨x, hx, _⟩ := h; exact absurd hx (List.not_mem_nil x)
  | cons a t ih =>
    by_cases ha : a.port = port
    · exact ⟨[], a, t, rfl, fun x hx => absurd hx (List.not_mem_nil x), ha⟩
    · obtain ⟨x, hx, hxp⟩ := h
      have hxt : x ∈ t := by
        rcases List.mem_cons.mp hx with h1 | h1
        · rw [h1] at hxp; exact absurd hxp ha
        · exact h1
      obtain ⟨pre, e, post, h1, h2, h3⟩ := ih ⟨x, hxt, hxp⟩
      refine ⟨a :: pre, e, post, by rw [h1]; rfl, ?_, h3⟩
      intro y hy
      rcases List.mem_cons.mp hy with h4 | h4
      · rw [h4]; exact ha
      · exact h2 y h4

theorem get_scan_found (port : Nat) (pre : List sockmgr_sockinf) (e : sockmgr_sockinf)
    (post : List sockmgr_sockinf) (hpre : ∀ x ∈ pre, x.port ≠ port) (he : e.port = port) :
    get_scan port (pre ++ e :: post) =
      (e.sockfd, pre ++ { e with connections := size_incr e.connections } :: post,
        pre.length) := by
  induction pre with
  | nil =>
    show get_scan port (e :: post) = _
    unfold get_scan
    rw [if_pos he]
    rfl
  | cons a t ih =>
    show get_scan port (a :: (t ++ e :: post)) = _
    unfold get_scan
    rw [if_neg (hpre a (List.mem_cons_self a t)),
      ih (fun x hx => hpre x (List.mem_cons_of_mem a hx))]
    rfl

theorem get_scan_absent (port : Nat) (l : List sockmgr_sockinf)
    (h : ∀ x ∈ l, x.port ≠ port) :
    get_scan port l = (INVALID_SOCKET_FD, l, l.length) := by
  induction l with
  | nil => rfl
  | cons a t ih =>
    unfold get_scan
    rw [if_neg (h a (List.mem_cons_self a t)),
      ih (fun x hx => h x (List.mem_cons_of_mem a hx))]
    rfl

/-- The call on a registry whose first entry for the port is `e`, with a valid
descriptor: the count of `e` goes up by one and its descriptor is returned. -/
theorem get_or_create_found (bound : Int) (alloc : Bool) (port : Nat)
    (pre : List sockmgr_sockinf) (e : sockmgr_sockinf) (post : List sockmgr_sockinf)
    (hpre : ∀ x ∈ pre, x.port ≠ port) (he : e.port = port)
    (hfd : e.sockfd ≠ INVALID_SOCKET_FD) :
    get_or_create bound alloc port (pre ++ e :: post) =
      some (e.sockfd, pre ++ { e with connections := size_incr e.connections } :: post) := by
  cases pre with
  | nil =>
    show get_or_create bound alloc port (e :: post) = _
    unfold get_or_create
    simp only [if_pos he, if_neg hfd]
    rfl
  | cons a t =>
    show get_or_create bound alloc port (a :: (t ++ e :: post)) = _
    unfold get_or_create
    simp only [if_neg (hpre a (List.mem_cons_self a t)),
      get_scan_found port t e post (fun x hx => hpre x (List.mem_cons_of_mem a hx)) he,
      if_neg hfd]
    rfl

/-- The call on a registry without an entry for the port. -/
theorem get_or_create_absent (bound : Int) (alloc : Bool) (port : Nat)
    (l : List sockmgr_sockinf) (h : ∀ x ∈ l, x.port ≠ port) :
    get_or_create bound alloc port l =
      some (bound, if bound ≠ INVALID_SOCKET_FD
        then l ++ (create_sockinf alloc port bound).toList else l) := by
  cases l with
  | nil =>
    unfold get_or_create
    by_cases hb : bound ≠ INVALID_SOCKET_FD
    · simp only [if_pos hb, if_true, List.nil_append]
    · simp only [if_neg hb, if_true]
  | cons a t =>
    unfold get_or_create
    simp only [if_neg (h a (List.mem_cons_self a t)),
      get_scan_absent port t (fun x hx => h x (List.mem_cons_of_mem a hx)), if_true]
    by_cases hb : bound ≠ INVALID_SOCKET_FD
    · simp only [if_pos hb]
      rw [List.take_of_length_le (by simp)]
    · simp only [if_neg hb]

/-- The call on a registry whose first entry for the port carries the invalid
descriptor: the code takes the port for absent. -/
theorem get_or_create_found_invalid (bound : Int) (alloc : Bool) (port : Nat)
    (pre : List sockmgr_sockinf) (e : sockmgr_sockinf) (post : List sockmgr_sockinf)
    (hpre : ∀ x ∈ pre, x.port ≠ port) (he : e.port = port)
    (hfd : e.sockfd = INVALID_SOCKET_FD) :
    get_or_create bound alloc port (pre ++ e :: post) =
      if bound ≠ INVALID_SOCKET_FD then
        (if pre = [] then none
         else some (bound, pre ++ (create_sockinf alloc port bound).toList))
      else some (bound, pre ++ { e with connections := size_incr e.connections } :: post) := by
  cases pre with
  | nil =>
    show get_or_create bound alloc port (e :: post) = _
    unfold get_or_create
    simp only [if_pos he, if_pos hfd]
    by_cases hb : bound ≠ INVALID_SOCKET_FD
    · simp only [if_pos hb, if_true]
    · simp only [if_neg hb]
      rfl
  | cons a t =>
    show get_or_create bound alloc port (a :: (t ++ e :: post)) = _
    unfold get_or_create
    simp only [if_neg (hpre a (List.mem_cons_self a t)),
      get_scan_found port t e post (fun x hx => hpre x (List.mem_cons_of_mem a hx)) he,
      if_pos hfd]
    by_cases hb : bound ≠ INVALID_SOCKET_FD
    · simp only [if_pos hb, if_neg (List.cons_ne_nil a t)]
      have e1 : List.take (t.length + 1)
          (a :: (t ++ { e with connections := size_incr e.connections } :: post)) = a :: t := by
        rw [List.take_succ_cons, List.take_left]
      rw [e1]
    · simp only [if_neg hb]
      rfl

theorem create_sockinf_ports (alloc : Bool) (port : Nat) (fd : Int) :
    ∀ x ∈ (create_sockinf alloc port fd).toList, x.port = port := by
  intro x hx
  unfold create_sockinf at hx
  cases alloc with
  | false => simp at hx
  | true =>
    simp at hx
    rw [hx]

theorem nodup_ports_append (port : Nat) (l n : List sockmgr_sockinf)
    (hl : (l.map (fun x => x.port)).Nodup) (habs : ∀ x ∈ l, x.port ≠ port)
    (hn : n.length ≤ 1) (hnp : ∀ x ∈ n, x.port = port) :
    ((l ++ n).map (fun x => x.port)).Nodup := by
  rw [List.map_append]
  refine List.Nodup.append hl ?_ ?_
  · match n, hn with
    | [], _ => exact List.nodup_nil
    | [a], _ => exact List.nodup_singleton _
  · intro p h1 h2
    obtain ⟨x, hx, hxp⟩ := List.mem_map.mp h1
    obtain ⟨y, hy, hyp⟩ := List.mem_map.mp h2
    exact habs x hx (by rw [hxp, ← hyp, hnp y hy])

theorem create_sockinf_length (alloc : Bool) (port : Nat) (fd : Int) :
    (create_sockinf alloc port fd).toList.length ≤ 1 := by
  unfold create_sockinf
  cases alloc <;> simp

/-- No call of the shared body gives a registry with two entries for a port, if
the registry had none. -/
theorem get_or_create_ports (bound : Int) (alloc : Bool) (port : Nat)
    (l : List sockmgr_sockinf) (r : Int × List sockmgr_sockinf)
    (h : get_or_create bound alloc port l = some r)
    (hnd : (l.map (fun x => x.port)).Nodup) : (r.2.map (fun x => x.port)).Nodup := by
  by_cases hex : ∃ x ∈ l, x.port = port
  · obtain ⟨pre, e, post, h1, h2, h3⟩ := first_with_port port l hex
    have hsame : (pre ++ { e with connections := size_incr e.connections } :: post).map
        (fun x => x.port) = l.map (fun x => x.port) := by
      rw [h1]
      simp
    rw [h1] at h
    by_cases hfd : e.sockfd = INVALID_SOCKET_FD
    · rw [get_or_create_found_invalid bound alloc port pre e post h2 h3 hfd] at h
      by_cases hb : bound ≠ INVALID_SOCKET_FD
      · rw [if_pos hb] at h
        by_cases hp : pre = []
        · rw [if_pos hp] at h
          exact Option.noConfusion h
        · rw [if_neg hp] at h
          rw [← Option.some.inj h]
          refine nodup_ports_append port pre _ ?_ h2 (create_sockinf_length _ _ _)
            (create_sockinf_ports _ _ _)
          rw [h1, List.map_append] at hnd
          exact (List.nodup_append.mp hnd).1
      · rw [if_neg hb] at h
        rw [← Option.some.inj h]
        show ((pre ++ { e with connections := size_incr e.connections } :: post).map _).Nodup
        rw [hsame]
        exact hnd
    · rw [get_or_create_found bound alloc port pre e post h2 h3 hfd] at h
      rw [← Option.some.inj h]
      show ((pre ++ { e with connections := size_incr e.connections } :: post).map _).Nodup
      rw [hsame]
      exact hnd
  · have habs : ∀ x ∈ l, x.port ≠ port := fun x hx hxp => hex ⟨x, hx, hxp⟩
    rw [get_or_create_absent bound alloc port l habs] at h
    rw [← Option.some.inj h]
    show ((if bound ≠ INVALID_SOCKET_FD then l ++ (create_sockinf alloc port bound).toList
      else l).map _).Nodup
    split_ifs
    · exact nodup_ports_append port l _ hnd habs (create_sockinf_length _ _ _)
        (create_sockinf_ports _ _ _)
    · exact hnd

theorem close_scan_absent (events : List Int) (fd : Int) (l : List sockmgr_sockinf)
    (h : ∀ x ∈ l, x.sockfd ≠ fd) : close_scan events fd l = (l, []) := by
  induction l with
  | nil => rfl
  | cons a t ih =>
    unfold close_scan
    rw [if_pos (h a (List.mem_cons_self a t)),
      ih (fun x hx => h x (List.mem_cons_of_mem a hx))]

theorem close_scan_found (events : List Int) (fd : Int) (pre : List sockmgr_sockinf)
    (e : sockmgr_sockinf) (post : List sockmgr_sockinf)
    (hpre : ∀ x ∈ pre, x.sockfd ≠ fd) (he : e.sockfd = fd) :
    close_scan events fd (pre ++ e :: post) =
      if size_decr e.connections > 0
      then (pre ++ { e with connections := size_decr e.connections } :: post, [])
      else (pre ++ post,
        sock_event.closed fd :: notify_listeners_socket_closed events fd) := by
  induction pre with
  | nil =>
    show close_scan events fd (e :: post) = _
    unfold close_scan
    rw [if_neg (not_not.mpr he)]
    rfl
  | cons a t ih =>
    show close_scan events fd (a :: (t ++ e :: post)) = _
    unfold close_scan
    rw [if_pos (hpre a (List.mem_cons_self a t)),
      ih (fun x hx => hpre x (List.mem_cons_of_mem a hx))]
    split_ifs <;> rfl

/-- The head test and the loop of `close_socket` treat an entry alike. -/
theorem close_socket_eq_scan (events : List Int) (fd : Int) (l : List sockmgr_sockinf) :
    close_socket events fd l = close_scan events fd l := by
  cases l with
  | nil => rfl
  | cons a t =>
    by_cases h : a.sockfd = fd
    · by_cases hc : size_decr a.connections < 1
      · have hc2 : ¬ (size_decr a.connections > 0) := by omega
        simp only [close_socket, close_scan, h, hc, hc2, ne_eq, not_true_eq_false, if_true,
          if_false]
      · have hc2 : size_decr a.connections > 0 := by omega
        simp only [close_socket, close_scan, h, hc, hc2, ne_eq, not_true_eq_false, if_true,
          if_false]
    · simp only [close_socket, close_scan, h, ne_eq, not_false_eq_true, if_true, if_false]

theorem close_scan_sublist (events : List Int) (fd : Int) (l : List sockmgr_sockinf) :
    ((close_scan events fd l).1.map (fun x => x.port)).Sublist (l.map (fun x => x.port)) := by
  induction l with
  | nil => exact List.Sublist.refl _
  | cons a t ih =>
    rw [close_scan]
    split_ifs
    · simp only [List.map_cons]
      exact List.Sublist.cons₂ _ ih
    · simp only [List.map_cons]
      exact List.Sublist.refl _
    · simp only [List.map_cons]
      exact List.sublist_cons_self _ _

/-- Every reachable state of the socket manager has at most one entry for a
port in each registry. -/
theorem sock_reachable_ports (s : SockMgr) (h : sock_reachable s) :
    (s.sockmgr_tcp_socket_list.map (fun x => x.port)).Nodup ∧
    (s.sockmgr_udp_socket_list.map (fun x => x.port)).Nodup := by
  induction h with
  | start => exact ⟨List.nodup_nil, List.nodup_nil⟩
  | get_tcp s bound alloc port r _ hr ih =>
    unfold sockmgr_get_or_create_tcp at hr
    cases hg : get_or_create bound alloc port s.sockmgr_tcp_socket_list with
    | none => rw [hg] at hr; exact Option.noConfusion hr
    | some q =>
      rw [hg] at hr
      rw [← Option.some.inj hr]
      exact ⟨get_or_create_ports _ _ _ _ q hg ih.1, ih.2⟩
  | get_udp s bound alloc port r _ hr ih =>
    unfold sockmgr_get_or_create_udp at hr
    cases hg : get_or_create bound alloc port s.sockmgr_udp_socket_list with
    | none => rw [hg] at hr; exact Option.noConfusion hr
    | some q =>
      rw [hg] at hr
      rw [← Option.some.inj hr]
      exact ⟨ih.1, get_or_create_ports _ _ _ _ q hg ih.2⟩
  | close_tcp s fd _ ih =>
    refine ⟨?_, ih.2⟩
    show ((close_socket s.sockmgr_event_list fd s.sockmgr_tcp_socket_list).1.map _).Nodup
    rw [close_socket_eq_scan]
    exact List.Nodup.sublist (close_scan_sublist _ _ _) ih.1
  | close_udp s fd _ ih =>
    refine ⟨ih.1, ?_⟩
    show ((close_socket s.sockmgr_event_list fd s.sockmgr_udp_socket_list).1.map _).Nodup
    rw [close_socket_eq_scan]
    exact List.Nodup.sublist (close_scan_sublist _ _ _) ih.2
  | add_evhandler s alloc cbk _ ih =>
    unfold sockmgr_add_socket_closed_evhandler
    split_ifs <;> exact ih
  | shutdown s _ _ => exact ⟨List.nodup_nil, List.nodup_nil⟩

/-! ## C16 -/

/-- Claim C16: `sockmgr_get_or_create_tcp ( port )` and its UDP twin, each on
its own registry.  If the registry has an entry for the port (with a valid
descriptor and a count below `SIZE_MAX`), the call returns the descriptor of
that entry and raises its count by one; no other entry and nothing else
changes.  Otherwise, if binding gives a valid descriptor (and the record can be
allocated), the entry (port, descriptor, 1) is appended behind the others and
the descriptor is returned; if binding fails, the invalid descriptor is
returned and nothing changes.  No reachable state of the socket manager holds
two entries for one port in a registry. -/
theorem get_or_create_spec (bound : Int) (alloc : Bool) (port : Nat) (s : SockMgr) :
    (∀ pre e post, s.sockmgr_tcp_socket_list = pre ++ e :: post →
      (∀ x ∈ pre, x.port ≠ port) → e.port = port → e.sockfd ≠ INVALID_SOCKET_FD →
      e.connections < SIZE_MAX →
      sockmgr_get_or_create_tcp bound alloc port s = some (e.sockfd,
        { s with sockmgr_tcp_socket_list :=
            pre ++ { e with connections := e.connections + 1 } :: post })) ∧
    ((∀ x ∈ s.sockmgr_tcp_socket_list, x.port ≠ port) → bound ≠ INVALID_SOCKET_FD →
      alloc = true →
      sockmgr_get_or_create_tcp bound alloc port s = some (bound,
        { s with sockmgr_tcp_socket_list := s.sockmgr_tcp_socket_list ++ [⟨port, bound, 1⟩] })) ∧
    ((∀ x ∈ s.sockmgr_tcp_socket_list, x.port ≠ port) → bound = INVALID_SOCKET_FD →
      sockmgr_get_or_create_tcp bound alloc port s = some (INVALID_SOCKET_FD, s)) ∧
    (∀ pre e post, s.sockmgr_udp_socket_list = pre ++ e :: post →
      (∀ x ∈ pre, x.port ≠ port) → e.port = port → e.sockfd ≠ INVALID_SOCKET_FD →
      e.connections < SIZE_MAX →
      sockmgr_get_or_create_udp bound alloc port s = some (e.sockfd,
        { s with sockmgr_udp_socket_list :=
            pre ++ { e with connections := e.connections + 1 } :: post })) ∧
    ((∀ x ∈ s.sockmgr_udp_socket_list, x.port ≠ port) → bound ≠ INVALID_SOCKET_FD →
      alloc = true →
      sockmgr_get_or_create_udp bound alloc port s = some (bound,
        { s with sockmgr_udp_socket_list := s.sockmgr_udp_socket_list ++ [⟨port, bound, 1⟩] })) ∧
    ((∀ x ∈ s.sockmgr_udp_socket_list, x.port ≠ port) → bound = INVALID_SOCKET_FD →
      sockmgr_get_or_create_udp bound alloc port s = some (INVALID_SOCKET_FD, s)) ∧
    (sock_reachable s →
      (s.sockmgr_tcp_socket_list.map (fun x => x.port)).Nodup ∧
      (s.sockmgr_udp_socket_list.map (fun x => x.port)).Nodup) := by
  refine ⟨?_, ?_, ?_, ?_, ?_, ?_, sock_reachable_ports s⟩
  · intro pre e post hl hpre he hfd hc
    unfold sockmgr_get_or_create_tcp
    rw [hl, get_or_create_found bound alloc port pre e post hpre he hfd, size_incr_lt _ hc]
    rfl
  · intro habs hb ha
    unfold sockmgr_get_or_create_tcp
    rw [get_or_create_absent bound alloc port _ habs, if_pos hb, ha]
    rfl
  · intro habs hb
    unfold sockmgr_get_or_create_tcp
    rw [get_or_create_absent bound alloc port _ habs, if_neg (not_not.mpr hb), hb]
    rfl
  · intro pre e post hl hpre he hfd hc
    unfold sockmgr_get_or_create_udp
    rw [hl, get_or_create_found bound alloc port pre e post hpre he hfd, size_incr_lt _ hc]
    rfl
  · intro habs hb ha
    unfold sockmgr_get_or_create_udp
    rw [get_or_create_absent bound alloc port _ habs, if_pos hb, ha]
    rfl
  · intro habs hb
    unfold sockmgr_get_or_create_udp
    rw [get_or_create_absent bound alloc port _ habs, if_neg (not_not.mpr hb), hb]
    rfl

/-- Witness for C16 on `ex_sock`: a call for the TCP port 443, which the
second entry holds, one for the absent TCP port 8080 on which binding gives
the descriptor 11, and one for the absent UDP port 54 on which binding fails. -/
theorem get_or_create_spec_witness :
    sockmgr_get_or_create_tcp 11 true 443 ex_sock = some (9,
      { ex_sock with sockmgr_tcp_socket_list := [⟨80, 7, 2⟩] ++ ⟨443, 9, 2⟩ :: [] }) ∧
    sockmgr_get_or_create_tcp 11 true 8080 ex_sock = some (11,
      { ex_sock with sockmgr_tcp_socket_list :=
          ex_sock.sockmgr_tcp_socket_list ++ [⟨8080, 11, 1⟩] }) ∧
    sockmgr_get_or_create_udp (-1) true 54 ex_sock = some (INVALID_SOCKET_FD, ex_sock) ∧
    ((sockmgr_start.sockmgr_tcp_socket_list.map (fun x => x.port)).Nodup ∧
      (sockmgr_start.sockmgr_udp_socket_list.map (fun x => x.port)).Nodup) :=
  ⟨(get_or_create_spec 11 true 443 ex_sock).1 [⟨80, 7, 2⟩] ⟨443, 9, 1⟩ [] rfl (by decide)
      rfl (by decide) (by decide),
    (get_or_create_spec 11 true 8080 ex_sock).2.1 (by decide) (by decide) rfl,
    (get_or_create_spec (-1) true 54 ex_sock).2.2.2.2.2.1 (by decide) rfl,
    (get_or_create_spec 0 true 0 sockmgr_start).2.2.2.2.2.2 sock_reachable.start⟩

/-! ## C17 -/

theorem close_socket_absent (events : List Int) (fd : Int) (l : List sockmgr_sockinf)
    (h : ∀ x ∈ l, x.sockfd ≠ fd) : close_socket events fd l = (l, []) := by
  rw [close_socket_eq_scan, close_scan_absent events fd l h]

theorem close_socket_shared (events : List Int) (fd : Int) (pre : List sockmgr_sockinf)
    (e : sockmgr_sockinf) (post : List sockmgr_sockinf)
    (hpre : ∀ x ∈ pre, x.sockfd ≠ fd) (he : e.sockfd = fd)
    (hk : 1 < e.connections) (hmax : e.connections ≤ SIZE_MAX) :
    close_socket events fd (pre ++ e :: post) =
      (pre ++ { e with connections := e.connections - 1 } :: post, []) := by
  rw [close_socket_eq_scan, close_scan_found events fd pre e post hpre he,
    size_decr_pos _ (by omega) hmax, if_pos (by omega)]

theorem close_socket_last (events : List Int) (fd : Int) (pre : List sockmgr_sockinf)
    (e : sockmgr_sockinf) (post : List sockmgr_sockinf)
    (hpre : ∀ x ∈ pre, x.sockfd ≠ fd) (he : e.sockfd = fd) (hk : e.connections = 1) :
    close_socket events fd (pre ++ e :: post) =
      (pre ++ post, sock_event.closed fd :: notify_listeners_socket_closed events fd) := by
  have h0 : size_decr e.connections = 0 := by
    rw [hk, size_decr_pos 1 (by omega) (by unfold SIZE_MAX; omega)]
  rw [close_socket_eq_scan, close_scan_found events fd pre e post hpre he, h0,
    if_neg (by omega)]

theorem add_evhandlers_events (cs : List Int) (s : SockMgr) (h : ∀ c ∈ cs, c ≠ 0) :
    add_evhandlers cs s = { s with sockmgr_event_list := s.sockmgr_event_list ++ cs } := by
  induction cs generalizing s with
  | nil =>
    show s = _
    rw [List.append_nil]
  | cons c t ih =>
    show add_evhandlers t (sockmgr_add_socket_closed_evhandler true c s) = _
    rw [ih _ (fun x hx => h x (List.mem_cons_of_mem c hx))]
    unfold sockmgr_add_socket_closed_evhandler
    rw [if_neg (h c (List.mem_cons_self c t))]
    simp

/-- Claim C17: `sockmgr_close_tcp ( fd )` and `sockmgr_close_udp ( fd )`, each on
its own registry.  With no entry for the descriptor the state is unchanged and
no handler is called.  With an entry of count k > 1 the count becomes k - 1 and
nothing is closed or notified.  With an entry of count 1 the entry is removed,
`close ( fd )` is called, and then every registered handler is called once with
the descriptor, in the order of the handler list, which is the order of
registration; the other entries keep their order and counts. -/
theorem close_socket_spec (fd : Int) (s : SockMgr) (cs : List Int) :
    ((∀ x ∈ s.sockmgr_tcp_socket_list, x.sockfd ≠ fd) → sockmgr_close_tcp fd s = s) ∧
    (∀ pre e post, s.sockmgr_tcp_socket_list = pre ++ e :: post →
      (∀ x ∈ pre, x.sockfd ≠ fd) → e.sockfd = fd → 1 < e.connections →
      e.connections ≤ SIZE_MAX →
      sockmgr_close_tcp fd s = { s with sockmgr_tcp_socket_list :=
        pre ++ { e with connections := e.connections - 1 } :: post }) ∧
    (∀ pre e post, s.sockmgr_tcp_socket_list = pre ++ e :: post →
      (∀ x ∈ pre, x.sockfd ≠ fd) → e.sockfd = fd → e.connections = 1 →
      sockmgr_close_tcp fd s = { s with
        sockmgr_tcp_socket_list := pre ++ post,
        trace := s.trace ++ sock_event.closed fd ::
          s.sockmgr_event_list.map (fun c => sock_event.notified c fd) }) ∧
    ((∀ x ∈ s.sockmgr_udp_socket_list, x.sockfd ≠ fd) → sockmgr_close_udp fd s = s) ∧
    (∀ pre e post, s.sockmgr_udp_socket_list = pre ++ e :: post →
      (∀ x ∈ pre, x.sockfd ≠ fd) → e.sockfd = fd → 1 < e.connections →
      e.connections ≤ SIZE_MAX →
      sockmgr_close_udp fd s = { s with sockmgr_udp_socket_list :=
        pre ++ { e with connections := e.connections - 1 } :: post }) ∧
    (∀ pre e post, s.sockmgr_udp_socket_list = pre ++ e :: post →
      (∀ x ∈ pre, x.sockfd ≠ fd) → e.sockfd = fd → e.connections = 1 →
      sockmgr_close_udp fd s = { s with
        sockmgr_udp_socket_list := pre ++ post,
        trace := s.trace ++ sock_event.closed fd ::
          s.sockmgr_event_list.map (fun c => sock_event.notified c fd) }) ∧
    ((∀ c ∈ cs, c ≠ 0) →
      add_evhandlers cs s = { s with sockmgr_event_list := s.sockmgr_event_list ++ cs }) := by
  refine ⟨?_, ?_, ?_, ?_, ?_, ?_, add_evhandlers_events cs s⟩
  · intro h
    unfold sockmgr_close_tcp
    simp only [close_socket_absent _ fd _ h, List.append_nil]
  · intro pre e post hl hpre he hk hmax
    unfold sockmgr_close_tcp
    simp only [hl, close_socket_shared _ fd pre e post hpre he hk hmax, List.append_nil]
  · intro pre e post hl hpre he hk
    unfold sockmgr_close_tcp
    simp only [hl, close_socket_last _ fd pre e post hpre he hk]
    rfl
  · intro h
    unfold sockmgr_close_udp
    simp only [close_socket_absent _ fd _ h, List.append_nil]
  · intro pre e post hl hpre he hk hmax
    unfold sockmgr_close_udp
    simp only [hl, close_socket_shared _ fd pre e post hpre he hk hmax, List.append_nil]
  · intro pre e post hl hpre he hk
    unfold sockmgr_close_udp
    simp only [hl, close_socket_last _ fd pre e post hpre he hk]
    rfl

/-- Witness for C17 on `ex_sock`: closing the TCP descriptor 7 (two holders),
the TCP descriptor 9 (one holder), the UDP descriptor 99 (no entry), and the
registration of the handlers 502 and 503. -/
theorem close_socket_spec_witness :
    sockmgr_close_tcp 7 ex_sock = { ex_sock with sockmgr_tcp_socket_list :=
      [] ++ ⟨80, 7, 1⟩ :: [⟨443, 9, 1⟩] } ∧
    sockmgr_close_tcp 9 ex_sock = { ex_sock with
      sockmgr_tcp_socket_list := [⟨80, 7, 2⟩] ++ [],
      trace := ex_sock.trace ++ sock_event.closed 9 ::
        ex_sock.sockmgr_event_list.map (fun c => sock_event.notified c 9) } ∧
    sockmgr_close_udp 99 ex_sock = ex_sock ∧
    add_evhandlers [502, 503] ex_sock =
      { ex_sock with sockmgr_event_list := ex_sock.sockmgr_event_list ++ [502, 503] } :=
  ⟨(close_socket_spec 7 ex_sock []).2.1 [] ⟨80, 7, 2⟩ [⟨443, 9, 1⟩] rfl (by decide) rfl
      (by decide) (by decide),
    (close_socket_spec 9 ex_sock []).2.2.1 [⟨80, 7, 2⟩] ⟨443, 9, 1⟩ [] rfl (by decide) rfl rfl,
    (close_socket_spec 99 ex_sock []).2.2.2.1 (by decide),
    (close_socket_spec 0 ex_sock [502, 503]).2.2.2.2.2.2 (by decide)⟩

/-! ## C18 -/

theorem get_run_found (port : Nat) (fd : Int) (s : SockMgr) (l : List sockmgr_sockinf)
    (habs : ∀ x ∈ l, x.port ≠ port) (hfd : fd ≠ INVALID_SOCKET_FD)
    (env : List (Int × Bool)) (c : Nat) (hc : c + env.length ≤ SIZE_MAX) :
    get_or_create_tcp_run port env { s with sockmgr_tcp_socket_list := l ++ [⟨port, fd, c⟩] } =
      some (List.replicate env.length fd,
        { s with sockmgr_tcp_socket_list := l ++ [⟨port, fd, c + env.length⟩] }) := by
  induction env generalizing c with
  | nil => rfl
  | cons a t ih =>
    have hlen : (a :: t).length = t.length + 1 := rfl
    rw [hlen] at hc
    unfold get_or_create_tcp_run
    unfold sockmgr_get_or_create_tcp
    simp only []
    rw [get_or_create_found a.1 a.2 port l ⟨port, fd, c⟩ [] habs rfl hfd,
      size_incr_lt c (by omega)]
    simp only [Option.map_some']
    rw [ih (c + 1) (by omega)]
    simp only [List.replicate_succ, List.length_cons]
    have e : c + 1 + t.length = c + (t.length + 1) := by omega
    rw [e]

theorem close_run_shared (port : Nat) (fd : Int) (s : SockMgr) (l : List sockmgr_sockinf)
    (hfresh : ∀ x ∈ l, x.sockfd ≠ fd) (k c : Nat) (hk : k < c) (hc : c ≤ SIZE_MAX) :
    close_tcp_run fd k { s with sockmgr_tcp_socket_list := l ++ [⟨port, fd, c⟩] } =
      { s with sockmgr_tcp_socket_list := l ++ [⟨port, fd, c - k⟩] } := by
  induction k generalizing c with
  | zero => rfl
  | succ k ih =>
    unfold close_tcp_run
    unfold sockmgr_close_tcp
    simp only []
    rw [close_socket_shared _ fd l ⟨port, fd, c⟩ [] hfresh rfl (by show 1 < c; omega) hc]
    simp only [List.append_nil]
    rw [ih (c - 1) (by omega) (by omega)]
    have e : c - 1 - k = c - (k + 1) := by omega
    rw [e]

theorem close_run_last (port : Nat) (fd : Int) (s : SockMgr) (l : List sockmgr_sockinf)
    (hfresh : ∀ x ∈ l, x.sockfd ≠ fd) (c : Nat) (hc : c + 1 ≤ SIZE_MAX) :
    close_tcp_run fd (c + 1) { s with sockmgr_tcp_socket_list := l ++ [⟨port, fd, c + 1⟩] } =
      { s with
        sockmgr_tcp_socket_list := l,
        trace := s.trace ++ sock_event.closed fd ::
          s.sockmgr_event_list.map (fun h => sock_event.notified h fd) } := by
  induction c with
  | zero =>
    unfold close_tcp_run
    unfold sockmgr_close_tcp
    simp only []
    rw [close_socket_last _ fd l ⟨port, fd, 0 + 1⟩ [] hfresh rfl rfl]
    simp only [List.append_nil]
    rfl
  | succ c ih =>
    unfold close_tcp_run
    unfold sockmgr_close_tcp
    simp only []
    rw [close_socket_shared _ fd l ⟨port, fd, c + 1 + 1⟩ [] hfresh rfl
      (by show 1 < c + 1 + 1; omega) hc]
    simp only [List.append_nil]
    exact ih (by omega)

/-- Claim C18: from a state whose TCP registry has no entry for the port, n
calls of `sockmgr_get_or_create_tcp ( port )`, the first of which binds the
descriptor `fd`, all return `fd` and leave one entry of count n behind the
others.  Up to n - 1 calls of `sockmgr_close_tcp ( fd )` after them only lower
the count; the n-th call removes the entry, so the registry is the one at the
start again, and it is this call that closes the descriptor and runs the close
handlers, once. -/
theorem get_close_round_trip (port : Nat) (fd : Int) (env : List (Int × Bool)) (s : SockMgr)
    (habs : ∀ x ∈ s.sockmgr_tcp_socket_list, x.port ≠ port)
    (hfd : fd ≠ INVALID_SOCKET_FD)
    (hfresh : ∀ x ∈ s.sockmgr_tcp_socket_list, x.sockfd ≠ fd)
    (hn : env.length + 1 ≤ SIZE_MAX) :
    ∃ s1, get_or_create_tcp_run port ((fd, true) :: env) s =
        some (List.replicate (env.length + 1) fd, s1) ∧
      s1 = { s with sockmgr_tcp_socket_list :=
        s.sockmgr_tcp_socket_list ++ [⟨port, fd, env.length + 1⟩] } ∧
      (∀ k, k < env.length + 1 → close_tcp_run fd k s1 =
        { s with sockmgr_tcp_socket_list :=
          s.sockmgr_tcp_socket_list ++ [⟨port, fd, env.length + 1 - k⟩] }) ∧
      close_tcp_run fd (env.length + 1) s1 =
        { s with trace := s.trace ++ sock_event.closed fd ::
          s.sockmgr_event_list.map (fun h => sock_event.notified h fd) } ∧
      (close_tcp_run fd (env.length + 1) s1).sockmgr_tcp_socket_list =
        s.sockmgr_tcp_socket_list := by
  refine ⟨_, ?_, rfl, ?_, ?_, ?_⟩
  · unfold get_or_create_tcp_run
    unfold sockmgr_get_or_create_tcp
    simp only []
    rw [get_or_create_absent fd true port _ habs, if_pos hfd]
    simp only [Option.map_some']
    have h1 := get_run_found port fd s s.sockmgr_tcp_socket_list habs hfd env 1 (by omega)
    have e : 1 + env.length = env.length + 1 := by omega
    rw [e] at h1
    show (match get_or_create_tcp_run port env
      { s with sockmgr_tcp_socket_list := s.sockmgr_tcp_socket_list ++ [⟨port, fd, 1⟩] } with
      | none => none
      | some q => some (fd :: q.1, q.2)) = _
    rw [h1]
    rfl
  · intro k hk
    exact close_run_shared port fd s _ hfresh k _ hk hn
  · exact close_run_last port fd s _ hfresh env.length hn
  · rw [close_run_last port fd s _ hfresh env.length hn]

/-- Witness for C18 on `ex_sock`: three calls for the TCP port 8080, the first
of which binds the descriptor 11. -/
theorem get_close_round_trip_witness :
    ∃ s1, get_or_create_tcp_run 8080 ((11, true) :: [(-1, false), (12, true)]) ex_sock =
        some (List.replicate 3 11, s1) ∧
      s1 = { ex_sock with sockmgr_tcp_socket_list :=
        ex_sock.sockmgr_tcp_socket_list ++ [⟨8080, 11, 3⟩] } ∧
      (∀ k, k < 3 → close_tcp_run 11 k s1 =
        { ex_sock with sockmgr_tcp_socket_list :=
          ex_sock.sockmgr_tcp_socket_list ++ [⟨8080, 11, 3 - k⟩] }) ∧
      close_tcp_run 11 3 s1 =
        { ex_sock with trace := ex_sock.trace ++ sock_event.closed 11 ::
          ex_sock.sockmgr_event_list.map (fun h => sock_event.notified h 11) } ∧
      (close_tcp_run 11 3 s1).sockmgr_tcp_socket_list = ex_sock.sockmgr_tcp_socket_list :=
  get_close_round_trip 8080 11 [(-1, false), (12, true)] ex_sock (by decide) (by decide)
    (by decide) (by decide)

/-! ## Initialising a listener -/

/-- The call `tcp_listener_init ( 8080, 0 )` at program start, binding giving
the descriptor 11: the socket manager makes the entry (8080, 11, 1), and then
the call faults, whether the head of the client ring is allocated (at 400) or
not.  When binding fails the call returns null and the registry is as
before. -/
theorem listener_init_faults_holding_reference :
    sockmgr_get_or_create_tcp 11 true 8080 ex_world.sock =
      some (11, { sockmgr_start with sockmgr_tcp_socket_list := [⟨8080, 11, 1⟩] }) ∧
    tcp_listener_init ex_world 8080 0 300 11 true 400 = none ∧
    tcp_listener_init ex_world 8080 0 300 11 true 0 = none ∧
    (tcp_listener_init ex_world 8080 0 300 (-1) true 400).map
      (fun r => (r.1, r.2.sock)) = some (0, sockmgr_start) := by
  refine ⟨rfl, rfl, rfl, rfl⟩

/-- The handler on a listener with a valid descriptor whose `on_client_waiting`
callback returns false: it returns false with the state the callback left. -/
theorem client_waiting_refused_eq (env : LsnEnv) (accepted : Int × Nat × Nat)
    (new_remcli : Int) (fuel : Nat) (w : World) (task errcode lp cbk : Int)
    (hud : (w.m.tasks task).user_data = lp) (hlp : lp ≠ 0)
    (hfd : (w.listeners lp).fd ≠ INVALID_SOCKET_FD)
    (hcbk : (w.listeners lp).on_client_waiting = cbk) (hc0 : cbk ≠ 0)
    (hno : (env.on_client_waiting cbk lp (w.note (tcp_event.client_waiting cbk lp))).1 = false) :
    on_tcp_listener_client_waiting env accepted new_remcli fuel w task errcode =
      some (false, (env.on_client_waiting cbk lp
        (w.note (tcp_event.client_waiting cbk lp))).2) := by
  unfold on_tcp_listener_client_waiting
  simp only [hud, hcbk]
  rw [if_neg (by rintro (h | h); exact hlp h; exact hfd h), if_pos hc0, if_pos ⟨hc0, hno⟩]


/-- The write-ready check on a state whose return value is already false calls
nothing and leaves the return value false. -/
theorem process_write_rv_false (env : CbkEnv) (expired : Bool) (st : proc) (io_task : Int)
    (h : st.rv = false) :
    ∃ st2, process_write env expired st io_task = some st2 ∧ st2.rv = false ∧
      st2.m = st.m ∧ st2.calls = st.calls ∧ st2.rds = st.rds ∧ st2.ers = st.ers := by
  unfold process_write
  simp only [h, Bool.false_eq_true, if_false]
  split_ifs
  · exact ⟨_, rfl, rfl, rfl, rfl, rfl, rfl⟩
  · exact ⟨_, rfl, h, rfl, rfl, rfl, rfl⟩
  · exact ⟨_, rfl, rfl, rfl, rfl, rfl, rfl⟩
  · exact ⟨_, rfl, h, rfl, rfl, rfl, rfl⟩

/-- Claim C20: the accept handler `on_tcp_listener_client_waiting` on the task
of a listener with a valid descriptor whose `on_client_waiting` callback
returns false.  The handler returns false (not complete) and its state is the
one the callback left: there is no accept, no close, no remote client and no
other callback.  If the callback leaves the state alone, the only change is the
record of its call; the client records, and so the client ring, are as before.
As the read callback of the listener task, a Read task on a ready descriptor,
it makes `io_sched_process_task` return false with this one call, and the
dispatch loop goes on with the next task without unscheduling this one. -/
theorem client_waiting_refused (env : LsnEnv) (accepted : Int × Nat × Nat)
    (new_remcli : Int) (fuel fuel2 : Nat) (w : World) (task lp cbk : Int)
    (rds wrs ers : Int → Bool)
    (hud : (w.m.tasks task).user_data = lp) (hlp : lp ≠ 0)
    (hfd : (w.listeners lp).fd ≠ INVALID_SOCKET_FD)
    (hcbk : (w.listeners lp).on_client_waiting = cbk) (hc0 : cbk ≠ 0)
    (hno : (env.on_client_waiting cbk lp (w.note (tcp_event.client_waiting cbk lp))).1 = false)
    (htask : task ≠ 0) (htfd : (w.m.tasks task).fd > INVALID_GENERAL_FD)
    (hopts : (w.m.tasks task).opts = IO_SCHEDULER_READ)
    (hrd : (w.m.tasks task).on_read_rdy_cbk = on_tcp_listener_client_waiting_addr)
    (hready : rds (w.m.tasks task).fd = true)
    (hstop : w.m.sched.stop_scheduler = false) :
    (∀ errcode, on_tcp_listener_client_waiting env accepted new_remcli fuel w task errcode =
      some (false, (env.on_client_waiting cbk lp
        (w.note (tcp_event.client_waiting cbk lp))).2)) ∧
    ((env.on_client_waiting cbk lp (w.note (tcp_event.client_waiting cbk lp))).2 =
        w.note (tcp_event.client_waiting cbk lp) →
      ∀ errcode, ∃ w2,
        on_tcp_listener_client_waiting env accepted new_remcli fuel w task errcode =
          some (false, w2) ∧
        w2.log = w.log ++ [tcp_event.client_waiting cbk lp] ∧
        w2.remclis = w.remclis ∧ w2.listeners = w.listeners ∧ w2.m = w.m ∧
        w2.sock = w.sock) ∧
    (∃ st, io_sched_process_task (listener_cbk_env env accepted new_remcli fuel w) w.m task
        rds wrs ers = some st ∧
      st.rv = false ∧
      st.m = (env.on_client_waiting cbk lp (w.note (tcp_event.client_waiting cbk lp))).2.m ∧
      st.calls = [cbk_call.mk on_tcp_listener_client_waiting_addr task IO_SCHEDULER_ERR_NONE] ∧
      dispatch_loop (listener_cbk_env env accepted new_remcli fuel w) (fuel2 + 1) w.m task
          rds wrs ers =
        match dispatch_loop (listener_cbk_env env accepted new_remcli fuel w) fuel2 st.m
            (st.m.tasks task).next st.rds st.wrs st.ers with
        | none => none
        | some r => some (r.1, st.calls ++ r.2)) := by
  have hmain := fun errcode => client_waiting_refused_eq env accepted new_remcli fuel w task
    errcode lp cbk hud hlp hfd hcbk hc0 hno
  refine ⟨hmain, ?_, ?_⟩
  · intro hpure errcode
    refine ⟨_, hmain errcode, ?_⟩
    rw [hpure]
    exact ⟨rfl, rfl, rfl, rfl, rfl⟩
  · have hR : S_IOSCHED_OPTS_READ (w.m.tasks task) = true := by
      unfold S_IOSCHED_OPTS_READ; rw [hopts]; decide
    have hE : S_IOSCHED_OPTS_ERROR (w.m.tasks task) = false := by
      unfold S_IOSCHED_OPTS_ERROR; rw [hopts]; decide
    have hRem : S_IOSCHED_OPTS_REMOVE (w.m.tasks task) = false := by
      unfold S_IOSCHED_OPTS_REMOVE; rw [hopts]; decide
    have henv : listener_cbk_env env accepted new_remcli fuel w
        on_tcp_listener_client_waiting_addr task IO_SCHEDULER_ERR_NONE w.m =
        (false, (env.on_client_waiting cbk lp
          (w.note (tcp_event.client_waiting cbk lp))).2.m) := by
      unfold listener_cbk_env
      rw [if_pos rfl]
      have hw : ({ w with m := w.m } : World) = w := rfl
      rw [hw, hmain IO_SCHEDULER_ERR_NONE]
    have haddr : on_tcp_listener_client_waiting_addr ≠ 0 := by decide
    have hread : io_sched_process_task (listener_cbk_env env accepted new_remcli fuel w) w.m
        task rds wrs ers = process_write (listener_cbk_env env accepted new_remcli fuel w)
          (task_expired w.m.now (w.m.tasks task)) (proc.mk false
          (env.on_client_waiting cbk lp (w.note (tcp_event.client_waiting cbk lp))).2.m
          (FD_CLR (((env.on_client_waiting cbk lp
            (w.note (tcp_event.client_waiting cbk lp))).2.m.tasks task).fd) rds) wrs ers
          [cbk_call.mk on_tcp_listener_client_waiting_addr task IO_SCHEDULER_ERR_NONE])
          task := by
      unfold io_sched_process_task
      simp only []
      rw [if_pos htfd]
      unfold process_error
      simp only [hE, Bool.false_and, Bool.false_eq_true, if_false]
      unfold process_read
      simp only [hR, hready, if_true, hrd]
      unfold call_cbk
      simp only [if_neg haddr, henv]
      rfl
    obtain ⟨st2, h1, h2, h3, h4, _, _⟩ := process_write_rv_false
      (listener_cbk_env env accepted new_remcli fuel w)
      (task_expired w.m.now (w.m.tasks task)) (proc.mk false
          (env.on_client_waiting cbk lp (w.note (tcp_event.client_waiting cbk lp))).2.m
          (FD_CLR (((env.on_client_waiting cbk lp
            (w.note (tcp_event.client_waiting cbk lp))).2.m.tasks task).fd) rds) wrs ers
          [cbk_call.mk on_tcp_listener_client_waiting_addr task IO_SCHEDULER_ERR_NONE])
      task rfl
    rw [h1] at hread
    refine ⟨st2, hread, h2, h3, h4, ?_⟩
    rw [dispatch_loop]
    have hns : ¬ (task = 0 ∨ w.m.sched.stop_scheduler = true) := by
      rintro (h | h)
      · exact htask h
      · rw [hstop] at h; exact Bool.noConfusion h
    rw [if_neg hns, hRem]
    simp only [Bool.not_false, if_true, hread, h2, Bool.false_eq_true, if_false]

/-- Witness for C20 on `ex_listening`: the listener at 300 on the descriptor 7,
whose callback at 600 refuses, with a connection from port 5555 waiting that
`accept` would give the descriptor 12. -/
theorem client_waiting_refused_witness :
    on_tcp_listener_client_waiting ex_lsn_refuse (12, 0, 5555) 401 4 ex_listening
      ex_listener_task.1 IO_SCHEDULER_ERR_NONE =
      some (false, (ex_lsn_refuse.on_client_waiting 600 300
        (ex_listening.note (tcp_event.client_waiting 600 300))).2) :=
  (client_waiting_refused ex_lsn_refuse (12, 0, 5555) 401 4 4 ex_listening ex_listener_task.1
    300 600 (fun fd => decide (fd = 7)) (fun _ => false) (fun _ => false)
    (by decide) (by decide) (by decide) (by decide) (by decide) rfl (by decide) (by decide)
    (by decide) (by decide) (by decide) (by decide)).1 IO_SCHEDULER_ERR_NONE

/-! ## Rings: the links of every node, appending at the tail, unlinking a member -/

theorem ring_chain_congr (next prev next2 prev2 : Int → Int) (head p : Int) (l : List Int)
    (hn : ∀ q ∈ p :: l, next2 q = next q) (hp : ∀ q ∈ l ++ [head], prev2 q = prev q)
    (h : ring_chain next prev head p l) : ring_chain next2 prev2 head p l := by
  induction l generalizing p with
  | nil =>
    obtain ⟨h1, h2⟩ := h
    exact ⟨by rw [hn p (List.mem_cons_self p []), h1], by rw [hp head (by simp), h2]⟩
  | cons a t ih =>
    obtain ⟨h1, h2, h3⟩ := h
    refine ⟨by rw [hn p (List.mem_cons_self p _), h1], by rw [hp a (by simp), h2], ?_⟩
    apply ih a
    · intro q hq
      exact hn q (List.mem_cons_of_mem p hq)
    · intro q hq
      exact hp q (by simp at hq ⊢; tauto)
    · exact h3

/-- The `prev` link of the sentinel points to the last node of the chain. -/
theorem ring_chain_last (next prev : Int → Int) (head p : Int) (l : List Int)
    (h : ring_chain next prev head p l) : prev head = (p :: l).getLast (List.cons_ne_nil p l) := by
  induction l generalizing p with
  | nil => exact h.2
  | cons a t ih =>
    rw [List.getLast_cons (List.cons_ne_nil a t)]
    exact ih a h.2.2

/-- The chain with a new node linked in behind its last node. -/
theorem ring_chain_append (next prev next2 prev2 : Int → Int) (head p n : Int) (l : List Int)
    (h : ring_chain next prev head p l) (hnd : (p :: l).Nodup) (hhead : head ∉ l)
    (hn : n ∉ p :: l)
    (h1 : next2 (prev head) = n) (h2 : next2 n = head)
    (h3 : ∀ q, q ≠ prev head → q ≠ n → next2 q = next q)
    (h4 : prev2 n = prev head) (h5 : prev2 head = n)
    (h6 : ∀ q, q ≠ n → q ≠ head → prev2 q = prev q) :
    ring_chain next2 prev2 head p (l ++ [n]) := by
  induction l generalizing p with
  | nil =>
    obtain ⟨_, g2⟩ := h
    refine ⟨?_, ?_, h2, h5⟩
    · rw [← g2]; exact h1
    · rw [h4, g2]
  | cons a t ih =>
    obtain ⟨g1, g2, g3⟩ := h
    have hlast := ring_chain_last next prev head a t g3
    have hnd2 : (a :: t).Nodup := (List.nodup_cons.mp hnd).2
    have hpl : p ∉ a :: t := (List.nodup_cons.mp hnd).1
    have hmem : prev head ∈ a :: t := by rw [hlast]; exact List.getLast_mem _
    have hp1 : p ≠ prev head := fun e => hpl (e ▸ hmem)
    have hp2 : p ≠ n := fun e => hn (e ▸ List.mem_cons_self p _)
    have ha1 : a ≠ n := fun e => hn (e ▸ List.mem_cons_of_mem p (List.mem_cons_self a t))
    have ha2 : a ≠ head := fun e => hhead (e ▸ List.mem_cons_self a t)
    refine ⟨by rw [h3 p hp1 hp2, g1], by rw [h6 a ha1 ha2, g2], ?_⟩
    exact ih a g3 hnd2 (fun e => hhead (List.mem_cons_of_mem a e))
      (fun e => hn (List.mem_cons_of_mem p e))

/-- Appending at the tail: the writes `last->next = n`, `n->prev = last`,
`n->next = head`, `head->prev = n`, with `last = head->prev`, on a ring give
the ring with `n` behind the former members. -/
theorem ring_append (next prev next2 prev2 : Int → Int) (head n : Int) (l : List Int)
    (h : isRing next prev head l) (hn : n ∉ head :: l) (hn0 : n ≠ 0)
    (h1 : next2 (prev head) = n) (h2 : next2 n = head)
    (h3 : ∀ q, q ≠ prev head → q ≠ n → next2 q = next q)
    (h4 : prev2 n = prev head) (h5 : prev2 head = n)
    (h6 : ∀ q, q ≠ n → q ≠ head → prev2 q = prev q) :
    isRing next2 prev2 head (l ++ [n]) := by
  obtain ⟨g1, g2, g3, g4⟩ := h
  have hnh : n ≠ head := fun e => hn (e ▸ List.mem_cons_self head l)
  have hhl : head ∉ l := (List.nodup_cons.mp g2).1
  refine ⟨g1, ?_, ?_, ?_⟩
  · rw [← List.cons_append]
    refine List.Nodup.append g2 (List.nodup_singleton n) ?_
    intro x hx hx2
    rw [List.mem_singleton.mp hx2] at hx
    exact hn hx
  · intro a ha
    rcases List.mem_append.mp ha with h | h
    · exact g3 a h
    · rw [List.mem_singleton.mp h]; exact hn0
  · exact ring_chain_append next prev next2 prev2 head head n l g4 g2 hhl hn h1 h2 h3 h4 h5 h6

/-- In a chain, the links of a member `x`: what comes before and after it. -/
theorem ring_chain_split (next prev : Int → Int) (head p x : Int) (l1 l2 : List Int)
    (h : ring_chain next prev head p (l1 ++ x :: l2)) :
    prev x = (p :: l1).getLast (List.cons_ne_nil p l1) ∧
    next x = (l2 ++ [head]).head (by simp) := by
  induction l1 generalizing p with
  | nil =>
    obtain ⟨_, g2, g3⟩ := h
    refine ⟨g2, ?_⟩
    cases l2 with
    | nil => exact g3.1
    | cons b t => exact g3.1
  | cons a t ih =>
    obtain ⟨_, _, g3⟩ := h
    rw [List.getLast_cons (List.cons_ne_nil a t)]
    exact ih a g3

/-- The chain with the member `x` unlinked. -/
theorem ring_chain_unlink (next prev next2 prev2 : Int → Int) (head p x : Int)
    (l1 l2 : List Int)
    (h : ring_chain next prev head p (l1 ++ x :: l2))
    (hnd : (p :: (l1 ++ x :: l2)).Nodup) (hhead : head ∉ l1 ++ x :: l2)
    (h1 : next2 (prev x) = next x) (h2 : ∀ q, q ≠ prev x → q ≠ x → next2 q = next q)
    (h3 : prev2 (next x) = prev x) (h4 : ∀ q, q ≠ next x → q ≠ x → prev2 q = prev q) :
    ring_chain next2 prev2 head p (l1 ++ l2) := by
  induction l1 generalizing p with
  | nil =>
    obtain ⟨g1, g2, g3⟩ := h
    have hpx : p ≠ x := fun e => (List.nodup_cons.mp hnd).1 (e ▸ List.mem_cons_self x l2)
    have hxh : x ≠ head := fun e => hhead (e ▸ List.mem_cons_self x l2)
    cases l2 with
    | nil =>
      obtain ⟨g4, g5⟩ := g3
      refine ⟨?_, ?_⟩
      · rw [← g2, h1, g4]
      · rw [← g4, h3, g2]
    | cons b t =>
      obtain ⟨g4, g5, g6⟩ := g3
      have hnd2 : (x :: b :: t).Nodup := (List.nodup_cons.mp hnd).2
      have hbx : b ≠ x := fun e => (List.nodup_cons.mp hnd2).1 (e ▸ List.mem_cons_self b t)
      refine ⟨?_, ?_, ?_⟩
      · rw [← g2, h1, g4]
      · rw [← g4, h3, g2]
      · apply ring_chain_congr next prev next2 prev2 head b t _ _ g6
        · intro q hq
          have hqx : q ≠ x := fun e => (List.nodup_cons.mp hnd2).1 (e ▸ hq)
          have hqp : q ≠ prev x := by
            rw [g2]
            intro e
            exact (List.nodup_cons.mp hnd).1 (e ▸ List.mem_cons_of_mem x hq)
          exact h2 q hqp hqx
        · intro q hq
          have hq2 : q ∈ t ∨ q = head := by simpa using hq
          have hqx : q ≠ x := by
            rcases hq2 with h | h
            · intro e
              exact (List.nodup_cons.mp hnd2).1 (e ▸ List.mem_cons_of_mem b h)
            · rw [h]; exact fun e => hxh e.symm
          have hqn : q ≠ next x := by
            rw [g4]
            rcases hq2 with h | h
            · intro e
              exact (List.nodup_cons.mp (List.nodup_cons.mp hnd2).2).1 (e ▸ h)
            · rw [h]
              intro e
              exact hhead (by rw [e]; exact List.mem_cons_of_mem x (List.mem_cons_self b t))
          exact h4 q hqn hqx
  | cons a t ih =>
    obtain ⟨g1, g2, g3⟩ := h
    have hnd2 : (a :: (t ++ x :: l2)).Nodup := (List.nodup_cons.mp hnd).2
    have hsp := ring_chain_split next prev head a x t l2 g3
    have hxm : x ∈ t ++ x :: l2 := List.mem_append_right t (List.mem_cons_self x l2)
    have hpx : p ≠ x := fun e => (List.nodup_cons.mp hnd).1
      (by rw [e]; exact List.mem_cons_of_mem a hxm)
    have hax : a ≠ x := fun e => (List.nodup_cons.mp hnd2).1 (by rw [e]; exact hxm)
    have hpp : p ≠ prev x := by
      rw [hsp.1]
      intro e
      have hm : (a :: t).getLast (List.cons_ne_nil a t) ∈ a :: t := List.getLast_mem _
      rw [← e] at hm
      apply (List.nodup_cons.mp hnd).1
      rcases List.mem_cons.mp hm with h | h
      · rw [h]; exact List.mem_cons_self a _
      · exact List.mem_cons_of_mem a (List.mem_append_left _ h)
    have han : a ≠ next x := by
      rw [hsp.2]
      intro e
      have hm : (l2 ++ [head]).head (by simp) ∈ l2 ++ [head] := List.head_mem _
      rw [← e] at hm
      rcases List.mem_append.mp hm with h | h
      · exact (List.nodup_cons.mp hnd2).1
          (List.mem_append_right t (List.mem_cons_of_mem x h))
      · rw [List.mem_singleton.mp h] at hhead
        exact hhead (List.mem_cons_self _ _)
    refine ⟨by rw [h2 p hpp hpx, g1], by rw [h4 a han hax, g2], ?_⟩
    exact ih a g3 hnd2 (fun e => hhead (List.mem_cons_of_mem a e))

/-- Unlinking a member: the writes `x->prev->next = x->next` and
`x->next->prev = x->prev` on a ring give the ring without `x`, the other
members in their order. -/
theorem ring_unlink (next prev next2 prev2 : Int → Int) (head x : Int) (l1 l2 : List Int)
    (h : isRing next prev head (l1 ++ x :: l2))
    (h1 : next2 (prev x) = next x) (h2 : ∀ q, q ≠ prev x → q ≠ x → next2 q = next q)
    (h3 : prev2 (next x) = prev x) (h4 : ∀ q, q ≠ next x → q ≠ x → prev2 q = prev q) :
    isRing next2 prev2 head (l1 ++ l2) := by
  obtain ⟨g1, g2, g3, g4⟩ := h
  refine ⟨g1, ?_, ?_, ?_⟩
  · have hs : (head :: (l1 ++ l2)).Sublist (head :: (l1 ++ x :: l2)) :=
      List.Sublist.cons₂ head (List.Sublist.append_left (List.sublist_cons_self x l2) l1)
    exact List.Nodup.sublist hs g2
  · intro a ha
    apply g3 a
    rcases List.mem_append.mp ha with h | h
    · exact List.mem_append_left _ h
    · exact List.mem_append_right _ (List.mem_cons_of_mem x h)
  · exact ring_chain_unlink next prev next2 prev2 head head x l1 l2 g4 g2
      (List.nodup_cons.mp g2).1 h1 h2 h3 h4

/-- The links of the sentinel and of every member of a ring go back and forth:
`n.next.prev = n` and `n.prev.next = n`. -/
theorem ring_chain_links (next prev : Int → Int) (head p : Int) (l : List Int)
    (h : ring_chain next prev head p l) :
    (∀ q ∈ p :: l, prev (next q) = q) ∧ (∀ q ∈ l ++ [head], next (prev q) = q) := by
  induction l generalizing p with
  | nil =>
    obtain ⟨g1, g2⟩ := h
    refine ⟨?_, ?_⟩
    · intro q hq
      rw [List.mem_singleton.mp hq, g1, g2]
    · intro q hq
      have : q = head := by simpa using hq
      rw [this, g2, g1]
  | cons a t ih =>
    obtain ⟨g1, g2, g3⟩ := h
    obtain ⟨i1, i2⟩ := ih a g3
    refine ⟨?_, ?_⟩
    · intro q hq
      rcases List.mem_cons.mp hq with h | h
      · rw [h, g1, g2]
      · exact i1 q h
    · intro q hq
      rcases List.mem_cons.mp hq with h | h
      · rw [h, g2, g1]
      · exact i2 q h

theorem ring_links (next prev : Int → Int) (head : Int) (l : List Int)
    (h : isRing next prev head l) :
    ∀ q ∈ head :: l, prev (next q) = q ∧ next (prev q) = q := by
  obtain ⟨_, _, _, g4⟩ := h
  obtain ⟨i1, i2⟩ := ring_chain_links next prev head head l g4
  intro q hq
  refine ⟨i1 q hq, i2 q ?_⟩
  rcases List.mem_cons.mp hq with h | h
  · rw [h]; simp
  · exact List.mem_append_left _ h
/-- A member of a ring is not null, is not the sentinel, and its two links
point to other, non-null nodes. -/
theorem ring_member (next prev : Int → Int) (head x : Int) (l1 l2 : List Int)
    (h : isRing next prev head (l1 ++ x :: l2)) :
    x ≠ 0 ∧ x ≠ head ∧ prev x ≠ 0 ∧ next x ≠ 0 ∧ prev x ≠ x ∧ next x ≠ x := by
  obtain ⟨g1, g2, g3, g4⟩ := h
  have hx : x ∈ l1 ++ x :: l2 := List.mem_append_right l1 (List.mem_cons_self x l2)
  have hsp := ring_chain_split next prev head head x l1 l2 g4
  have hxh : x ≠ head := fun e => (List.nodup_cons.mp g2).1 (by rw [← e]; exact hx)
  have hnz : ∀ q ∈ head :: (l1 ++ x :: l2), q ≠ 0 := by
    intro q hq
    rcases List.mem_cons.mp hq with h | h
    · rw [h]; exact g1
    · exact g3 q h
  have hpm : prev x ∈ head :: l1 := by rw [hsp.1]; exact List.getLast_mem _
  have hnm : next x ∈ l2 ++ [head] := by rw [hsp.2]; exact List.head_mem _
  have hnd : (head :: l1 ++ x :: l2).Nodup := g2
  have hnd3 : (x :: l2 ++ [head]).Nodup := by
    have h3 : ((head :: l1) ++ (x :: l2)).Nodup := g2
    have h4 := (List.nodup_append.mp h3).2.1
    refine List.Nodup.append h4 (List.nodup_singleton head) ?_
    intro q hq hq2
    rw [List.mem_singleton.mp hq2] at hq
    exact (List.nodup_cons.mp g2).1 (List.mem_append_right l1 hq)
  refine ⟨g3 x hx, hxh, ?_, ?_, ?_, ?_⟩
  · apply hnz
    rcases List.mem_cons.mp hpm with h | h
    · rw [h]; exact List.mem_cons_self _ _
    · exact List.mem_cons_of_mem _ (List.mem_append_left _ h)
  · rcases List.mem_append.mp hnm with h | h
    · exact g3 _ (List.mem_append_right l1 (List.mem_cons_of_mem x h))
    · rw [List.mem_singleton.mp h]; exact g1
  · intro e
    rw [e] at hpm
    have h3 : ((head :: l1) ++ (x :: l2)).Nodup := g2
    exact (List.nodup_append.mp h3).2.2 hpm (List.mem_cons_self x l2)
  · intro e
    rw [e] at hnm
    exact (List.nodup_cons.mp hnd3).1 hnm

theorem set_remcli_same (w : World) (p : Int) (c : tcp_remote_client) :
    (w.set_remcli p c).remclis p = c := by
  unfold World.set_remcli
  simp

theorem set_remcli_other (w : World) (p q : Int) (c : tcp_remote_client) (h : q ≠ p) :
    (w.set_remcli p c).remclis q = w.remclis q := by
  unfold World.set_remcli
  simp [h]

theorem destroy_remclis (w : World) (r : Int) :
    (tcp_remote_client_destroy w r).remclis = w.remclis ∧
    (tcp_remote_client_destroy w r).listeners = w.listeners ∧
    (tcp_remote_client_destroy w r).sock = w.sock := by
  unfold tcp_remote_client_destroy
  split_ifs <;> exact ⟨rfl, rfl, rfl⟩

/-- The function `tcp_remote_client_destroy` on a client: its task, if set, is
unscheduled, its descriptor, if valid, is closed, and the record is freed. -/
theorem destroy_effect (w : World) (r : Int) (hr : r ≠ 0) :
    (tcp_remote_client_destroy w r).m =
      (if (w.remclis r).io_task ≠ 0
        then io_sched_unschedule_task w.m (w.remclis r).io_task else w.m) ∧
    (tcp_remote_client_destroy w r).log = w.log ++
      (if (w.remclis r).fd ≠ INVALID_SOCKET_FD then [tcp_event.close (w.remclis r).fd]
        else []) ++ [tcp_event.free r] := by
  unfold tcp_remote_client_destroy
  rw [if_neg hr]
  unfold World.note
  split_ifs <;> simp

/-- The function `tcp_listener_drop_client` on a member of the client ring: the
member is unlinked, the others keep their order, and the client is destroyed. -/
theorem drop_client_ring (w : World) (listener x : Int) (l1 l2 : List Int)
    (hl : listener ≠ 0) (hring : client_ring w listener (l1 ++ x :: l2)) :
    ∃ w2, tcp_listener_drop_client w listener x = some w2 ∧
      client_ring w2 listener (l1 ++ l2) ∧
      w2.listeners = w.listeners ∧ w2.sock = w.sock ∧
      w2.m = (if (w.remclis x).io_task ≠ 0
        then io_sched_unschedule_task w.m (w.remclis x).io_task else w.m) ∧
      w2.log = w.log ++
        (if (w.remclis x).fd ≠ INVALID_SOCKET_FD then [tcp_event.close (w.remclis x).fd]
          else []) ++ [tcp_event.free x] := by
  obtain ⟨hx0, _, hp0, hn0, hpx, hnx⟩ := ring_member _ _ _ x l1 l2 hring
  unfold tcp_listener_drop_client
  rw [if_neg (by
    rintro (h | h | h | h)
    · exact hl h
    · exact hx0 h
    · exact hp0 h
    · exact hn0 h)]
  simp only []
  have e1 : ((w.set_remcli (w.remclis x).prev
      { w.remclis (w.remclis x).prev with next := (w.remclis x).next }).remclis x) =
      w.remclis x := set_remcli_other _ _ _ _ (fun e => hpx e.symm)
  rw [e1]
  obtain ⟨d1, d2, d3⟩ := destroy_remclis
    ((w.set_remcli (w.remclis x).prev
      { w.remclis (w.remclis x).prev with next := (w.remclis x).next }).set_remcli
      (w.remclis x).next
      { (w.set_remcli (w.remclis x).prev
          { w.remclis (w.remclis x).prev with next := (w.remclis x).next }).remclis
          (w.remclis x).next with prev := (w.remclis x).prev }) x
  obtain ⟨f1, f2⟩ := destroy_effect
    ((w.set_remcli (w.remclis x).prev
      { w.remclis (w.remclis x).prev with next := (w.remclis x).next }).set_remcli
      (w.remclis x).next
      { (w.set_remcli (w.remclis x).prev
          { w.remclis (w.remclis x).prev with next := (w.remclis x).next }).remclis
          (w.remclis x).next with prev := (w.remclis x).prev }) x hx0
  have ex : ∀ (c1 c2 : tcp_remote_client) (a b : Int), a ≠ x → b ≠ x →
      ((w.set_remcli a c1).set_remcli b c2).remclis x = w.remclis x := by
    intro c1 c2 a b ha hb
    rw [set_remcli_other _ _ _ _ (fun e => hb e.symm), set_remcli_other _ _ _ _ (fun e => ha e.symm)]
  rw [ex _ _ _ _ hpx hnx] at f1 f2
  refine ⟨_, rfl, ?_, d2, d3, f1, f2⟩
  unfold client_ring
  rw [d1, d2]
  refine ring_unlink (fun p => (w.remclis p).next) (fun p => (w.remclis p).prev) _ _
    (w.listeners listener).clients x l1 l2 hring ?_ ?_ ?_ ?_
  · show (World.remclis _ (w.remclis x).prev).next = (w.remclis x).next
    by_cases hpn : (w.remclis x).prev = (w.remclis x).next
    · rw [hpn, set_remcli_same]
      show (World.remclis _ (w.remclis x).next).next = _
      rw [← hpn, set_remcli_same]
    · rw [set_remcli_other _ _ _ _ hpn, set_remcli_same]
  · intro q hq1 hq2
    show (World.remclis _ q).next = (w.remclis q).next
    by_cases hqn : q = (w.remclis x).next
    · rw [hqn, set_remcli_same]
      show (World.remclis _ (w.remclis x).next).next = _
      rw [set_remcli_other _ _ _ _ (fun e => hq1 (hqn.trans e))]
    · rw [set_remcli_other _ _ _ _ hqn, set_remcli_other _ _ _ _ hq1]
  · show (World.remclis _ (w.remclis x).next).prev = (w.remclis x).prev
    rw [set_remcli_same]
  · intro q hq1 hq2
    show (World.remclis _ q).prev = (w.remclis q).prev
    rw [set_remcli_other _ _ _ _ hq1]
    by_cases hqp : q = (w.remclis x).prev
    · rw [hqp, set_remcli_same]
    · rw [set_remcli_other _ _ _ _ hqp]

/-! ## C21 -/

theorem note_fields (w : World) (e : tcp_event) :
    (w.note e).listeners = w.listeners ∧ (w.note e).remclis = w.remclis ∧
    (w.note e).m = w.m ∧ (w.note e).sock = w.sock ∧ (w.note e).log = w.log ++ [e] :=
  ⟨rfl, rfl, rfl, rfl, rfl⟩

theorem client_ring_congr (w v : World) (lp : Int) (l : List Int)
    (h1 : v.remclis = w.remclis) (h2 : v.listeners = w.listeners)
    (h : client_ring w lp l) : client_ring v lp l := by
  unfold client_ring at h ⊢
  rw [h1, h2]
  exact h

/-- The lines that end a client, on a member of the ring, with callbacks
that leave the state alone. -/
theorem client_gone_ring (env : LsnEnv) (w : World) (lp rc : Int) (l1 l2 : List Int)
    (hlp : lp ≠ 0) (hring : client_ring w lp (l1 ++ rc :: l2))
    (hdis : ∀ c l r v, env.on_client_disconnected c l r v = v) :
    ∃ w2, client_gone env w lp rc = some (true, w2) ∧
      client_ring w2 lp (l1 ++ l2) ∧ w2.listeners = w.listeners ∧ w2.sock = w.sock ∧
      w2.m = (if (w.remclis rc).io_task ≠ 0
        then io_sched_unschedule_task w.m (w.remclis rc).io_task else w.m) ∧
      w2.log = w.log ++
        (if (w.listeners lp).on_client_disconnected ≠ 0
          then [tcp_event.client_disconnected (w.listeners lp).on_client_disconnected lp rc]
          else []) ++
        (if (w.remclis rc).fd ≠ INVALID_SOCKET_FD then [tcp_event.close (w.remclis rc).fd]
          else []) ++ [tcp_event.free rc] := by
  unfold client_gone
  simp only [hdis]
  by_cases hc : (w.listeners lp).on_client_disconnected ≠ 0
  · rw [if_pos hc, if_pos hc]
    obtain ⟨w2, h1, h2, h3, h4, h5, h6⟩ := drop_client_ring
      (w.note (tcp_event.client_disconnected (w.listeners lp).on_client_disconnected lp rc))
      lp rc l1 l2 hlp (client_ring_congr w _ lp _ rfl rfl hring)
    rw [h1]
    exact ⟨w2, rfl, h2, h3, h4, h5, h6⟩
  · rw [if_neg hc, if_neg hc]
    obtain ⟨w2, h1, h2, h3, h4, h5, h6⟩ := drop_client_ring w lp rc l1 l2 hlp hring
    rw [h1]
    refine ⟨w2, rfl, h2, h3, h4, h5, ?_⟩
    rw [h6, List.append_nil]

/-- Claim C21: the request handler `on_tcp_listener_client_request` on the task
of a remote client with a valid descriptor (and a read buffer) in the ring of a
listener with a valid descriptor, given the outcome of the read, the callbacks
leaving the state alone.  It returns false exactly when the read failed with
`EAGAIN` or `EINTR`, or gave bytes and `on_client_request` is absent or returns
false; then the ring, the records and the scheduler are as before.  In every
other case it returns true, `on_client_disconnected` (if set) is called once,
the client is unlinked, the other members keeping their order, its task is
unscheduled, its descriptor is closed and its record is freed. -/
theorem client_request_spec (env : LsnEnv) (rd : read_outcome) (w : World)
    (task errcode rc lp : Int) (l1 l2 : List Int)
    (hud : (w.m.tasks task).user_data = rc)
    (hfd : (w.remclis rc).fd ≠ INVALID_SOCKET_FD)
    (hown : (w.remclis rc).owner = lp) (hlp : lp ≠ 0)
    (hlfd : (w.listeners lp).fd ≠ INVALID_SOCKET_FD)
    (hbuf : (w.remclis rc).read_buffer ≠ 0)
    (hring : client_ring w lp (l1 ++ rc :: l2))
    (hreq : ∀ c l r d n v, (env.on_client_request c l r d n v).2 = v)
    (hdis : ∀ c l r v, env.on_client_disconnected c l r v = v) :
    ∃ b w2, on_tcp_listener_client_request env rd w task errcode = some (b, w2) ∧
      (b = false ↔ request_pending env rd w lp rc) ∧
      w2.listeners = w.listeners ∧ w2.sock = w.sock ∧
      (request_pending env rd w lp rc →
        client_ring w2 lp (l1 ++ rc :: l2) ∧ w2.remclis = w.remclis ∧ w2.m = w.m ∧
        w2.log = w.log ++ [tcp_event.receive (w.remclis rc).fd] ++ request_log rd w lp rc) ∧
      (¬ request_pending env rd w lp rc →
        client_ring w2 lp (l1 ++ l2) ∧
        w2.m = (if (w.remclis rc).io_task ≠ 0
          then io_sched_unschedule_task w.m (w.remclis rc).io_task else w.m) ∧
        w2.log = w.log ++ [tcp_event.receive (w.remclis rc).fd] ++ request_log rd w lp rc ++
          (if (w.listeners lp).on_client_disconnected ≠ 0
            then [tcp_event.client_disconnected (w.listeners lp).on_client_disconnected lp rc]
            else []) ++
          [tcp_event.close (w.remclis rc).fd, tcp_event.free rc]) := by
  obtain ⟨hrc0, _⟩ := ring_member _ _ _ rc l1 l2 hring
  unfold on_tcp_listener_client_request
  simp only [hud, hown]
  rw [if_neg (by rintro (h | h); exact hrc0 h; exact hfd h),
    if_neg (by rintro (h | h); exact hlp h; exact hlfd h), if_neg hbuf]
  have hring1 : client_ring (w.note (tcp_event.receive (w.remclis rc).fd)) lp
      (l1 ++ rc :: l2) := client_ring_congr w _ lp _ rfl rfl hring
  by_cases hle : rd.bytes_read ≤ 0
  · rw [if_pos hle]
    by_cases htr : rd.bytes_read < 0 ∧ (rd.errno = EAGAIN ∨ rd.errno = EINTR)
    · rw [if_pos htr]
      have hk : request_pending env rd w lp rc := Or.inl htr
      have hlog : request_log rd w lp rc = [] := by
        unfold request_log
        rw [if_neg (by rintro ⟨h, _⟩; omega)]
      refine ⟨false, _, rfl, ⟨fun _ => hk, fun _ => rfl⟩, rfl, rfl, fun _ => ?_,
        fun h => absurd hk h⟩
      refine ⟨hring1, rfl, rfl, ?_⟩
      rw [hlog, List.append_nil]
      rfl
    · rw [if_neg htr]
      have hk : ¬ request_pending env rd w lp rc := by
        rintro (h | ⟨h, _⟩)
        · exact htr h
        · omega
      have hlog : request_log rd w lp rc = [] := by
        unfold request_log
        rw [if_neg (by rintro ⟨h, _⟩; omega)]
      obtain ⟨w2, h1, h2, h3, h4, h5, h6⟩ := client_gone_ring env _ lp rc l1 l2 hlp hring1 hdis
      rw [h1]
      refine ⟨true, w2, rfl, ⟨fun h => Bool.noConfusion h, fun h => absurd h hk⟩, h3, h4,
        fun h => absurd h hk, fun _ => ⟨h2, h5, ?_⟩⟩
      rw [h6, hlog, List.append_nil]
      simp [World.note, hfd]
  · rw [if_neg hle]
    have hpos : 0 < rd.bytes_read := by omega
    simp only [(note_fields w (tcp_event.receive (w.remclis rc).fd)).1]
    by_cases hc : (w.listeners lp).on_client_request ≠ 0
    · rw [if_pos hc]
      have hlog : request_log rd w lp rc = [tcp_event.client_request
          (w.listeners lp).on_client_request lp rc rd.bytes_read] := by
        unfold request_log
        rw [if_pos ⟨hpos, hc⟩]
      simp only [hreq]
      cases hb : (env.on_client_request (w.listeners lp).on_client_request lp rc rd.data
          rd.bytes_read
          ((w.note (tcp_event.receive (w.remclis rc).fd)).note
            (tcp_event.client_request (w.listeners lp).on_client_request lp rc
              rd.bytes_read))).1 with
      | false =>
        have hk : request_pending env rd w lp rc := Or.inr ⟨hpos, Or.inr hb⟩
        simp only [Bool.false_eq_true, if_false]
        refine ⟨false, _, rfl, ⟨fun _ => hk, fun _ => rfl⟩, rfl, rfl, fun _ => ?_,
          fun h => absurd hk h⟩
        refine ⟨client_ring_congr w _ lp _ rfl rfl hring, rfl, rfl, ?_⟩
        rw [hlog]
        simp [World.note]
      | true =>
        have hk : ¬ request_pending env rd w lp rc := by
          rintro (⟨h, _⟩ | ⟨_, h | h⟩)
          · omega
          · exact hc h
          · rw [hb] at h; exact Bool.noConfusion h
        simp only [if_true]
        obtain ⟨w2, h1, h2, h3, h4, h5, h6⟩ := client_gone_ring env
          ((w.note (tcp_event.receive (w.remclis rc).fd)).note
            (tcp_event.client_request (w.listeners lp).on_client_request lp rc rd.bytes_read))
          lp rc l1 l2 hlp (client_ring_congr w _ lp _ rfl rfl hring) hdis
        rw [h1]
        refine ⟨true, w2, rfl, ⟨fun h => Bool.noConfusion h, fun h => absurd h hk⟩, h3, h4,
          fun h => absurd h hk, fun _ => ⟨h2, h5, ?_⟩⟩
        rw [h6, hlog]
        simp [World.note, hfd]
    · rw [if_neg hc]
      have hk : request_pending env rd w lp rc := Or.inr ⟨hpos, Or.inl (not_not.mp hc)⟩
      have hlog : request_log rd w lp rc = [] := by
        unfold request_log
        rw [if_neg (by rintro ⟨_, h⟩; exact hc h)]
      refine ⟨false, _, rfl, ⟨fun _ => hk, fun _ => rfl⟩, rfl, rfl, fun _ => ?_,
        fun h => absurd hk h⟩
      refine ⟨hring1, rfl, rfl, ?_⟩
      rw [hlog, List.append_nil]
      rfl

/-- Witness for C21, the echo example: on `ex_serving` the client at 410 sends
the 5 bytes of "hello" and `on_client_request` returns true.  The handler
returns true, `on_client_disconnected` is called once and the ring is empty. -/
theorem client_request_spec_witness :
    ∃ w2, on_tcp_listener_client_request ex_lsn_echo ⟨5, 0, [104, 101, 108, 108, 111]⟩
        ex_serving ex_client_task.1 IO_SCHEDULER_ERR_NONE = some (true, w2) ∧
      client_ring w2 300 [] ∧
      w2.log = [tcp_event.receive 12, tcp_event.client_request 602 300 410 5,
        tcp_event.client_disconnected 603 300 410, tcp_event.close 12, tcp_event.free 410] := by
  obtain ⟨b, w2, h1, h2, _, _, _, h6⟩ := client_request_spec ex_lsn_echo
    ⟨5, 0, [104, 101, 108, 108, 111]⟩ ex_serving ex_client_task.1 IO_SCHEDULER_ERR_NONE 410 300
    [] [] (by decide) (by decide) (by decide) (by decide) (by decide) (by decide) (by decide)
    (fun _ _ _ _ _ _ => rfl) (fun _ _ _ _ => rfl)
  have hk : ¬ request_pending ex_lsn_echo ⟨5, 0, [104, 101, 108, 108, 111]⟩ ex_serving 300 410 := by
    decide
  have hb : b = true := by
    cases b with
    | false => exact absurd (h2.mp rfl) hk
    | true => rfl
  rw [hb] at h1
  exact ⟨w2, h1, (h6 hk).1, (h6 hk).2.2⟩

/-! ## Stopping a listener -/

theorem ring_next_chain (next prev : Int → Int) (head p : Int) (l : List Int)
    (h : ring_chain next prev head p l) : next_chain next head p l := by
  induction l generalizing p with
  | nil => exact h.1
  | cons a t ih => exact ⟨h.1, ih a h.2.2⟩

theorem next_chain_congr (next next2 : Int → Int) (head p : Int) (l : List Int)
    (hn : ∀ q ∈ p :: l, next2 q = next q) (h : next_chain next head p l) :
    next_chain next2 head p l := by
  induction l generalizing p with
  | nil =>
    show next2 p = head
    rw [hn p (List.mem_cons_self p [])]
    exact h
  | cons a t ih =>
    refine ⟨by rw [hn p (List.mem_cons_self p _)]; exact h.1, ?_⟩
    exact ih a (fun q hq => hn q (List.mem_cons_of_mem p hq)) h.2

theorem next_chain_head (next : Int → Int) (head p : Int) (l : List Int)
    (h : next_chain next head p l) : next p = (l ++ [head]).head (by simp) := by
  cases l with
  | nil => exact h
  | cons a t => exact h.1

theorem stop_remclis (w : World) (r q : Int) (hq : q ≠ r) :
    (tcp_remote_client_stop w r).remclis q = w.remclis q := by
  unfold tcp_remote_client_stop
  split_ifs
  · exact set_remcli_other _ _ _ _ hq
  · rfl

theorem stop_fields (w : World) (r : Int) :
    (tcp_remote_client_stop w r).listeners = w.listeners ∧
    (tcp_remote_client_stop w r).sock = w.sock ∧
    (tcp_remote_client_stop w r).log = w.log ∧
    ((tcp_remote_client_stop w r).remclis r).fd = (w.remclis r).fd ∧
    ((tcp_remote_client_stop w r).remclis r).next = (w.remclis r).next ∧
    ((tcp_remote_client_stop w r).remclis r).prev = (w.remclis r).prev := by
  unfold tcp_remote_client_stop
  split_ifs
  · refine ⟨rfl, rfl, rfl, ?_, ?_, ?_⟩ <;> rw [set_remcli_same]
  · exact ⟨rfl, rfl, rfl, rfl, rfl, rfl⟩

theorem stop_clients_done (fuel : Nat) (w : World) (lp : Int)
    (h1 : (w.listeners lp).clients ≠ 0)
    (h2 : (w.remclis (w.listeners lp).clients).next = (w.listeners lp).clients) :
    stop_clients (fuel + 1) w lp = some w := by
  unfold stop_clients
  simp only []
  rw [if_neg h1, if_neg (not_not.mpr h2)]

theorem stop_clients_step (fuel : Nat) (w : World) (lp a : Int)
    (h1 : (w.listeners lp).clients ≠ 0)
    (hn : (w.remclis (w.listeners lp).clients).next = a)
    (ha : a ≠ (w.listeners lp).clients) (ha0 : a ≠ 0) :
    stop_clients (fuel + 1) w lp =
      stop_clients fuel (tcp_remote_client_destroy (tcp_remote_client_stop
        (w.set_remcli (w.listeners lp).clients
          { w.remclis (w.listeners lp).clients with next := (w.remclis a).next }) a) a) lp := by
  rw [stop_clients]
  simp only []
  rw [if_neg h1, hn, if_pos ha, if_neg ha0]

theorem destroy_log_congr (w v : World) (l : List Int)
    (h : ∀ q ∈ l, (v.remclis q).fd = (w.remclis q).fd) : destroy_log v l = destroy_log w l := by
  induction l with
  | nil => rfl
  | cons a t ih =>
    unfold destroy_log
    rw [h a (List.mem_cons_self a t), ih (fun q hq => h q (List.mem_cons_of_mem a hq))]

/-- One round of the loop of `tcp_listener_stop`: the state after the first
client `a` has been taken off the ring, stopped and destroyed. -/
theorem stop_step_fields (w : World) (head a : Int) (hah : a ≠ head) (ha0 : a ≠ 0) :
    (tcp_remote_client_destroy (tcp_remote_client_stop
        (w.set_remcli head { w.remclis head with next := (w.remclis a).next }) a) a).listeners = w.listeners ∧
    (tcp_remote_client_destroy (tcp_remote_client_stop
        (w.set_remcli head { w.remclis head with next := (w.remclis a).next }) a) a).sock = w.sock ∧
    (tcp_remote_client_destroy (tcp_remote_client_stop
        (w.set_remcli head { w.remclis head with next := (w.remclis a).next }) a) a).log = w.log ++
      ((if (w.remclis a).fd ≠ INVALID_SOCKET_FD then [tcp_event.close (w.remclis a).fd]
        else []) ++ [tcp_event.free a]) ∧
    (tcp_remote_client_destroy (tcp_remote_client_stop
        (w.set_remcli head { w.remclis head with next := (w.remclis a).next }) a) a).remclis head = { w.remclis head with next := (w.remclis a).next } ∧
    ∀ q, q ≠ a → q ≠ head → (tcp_remote_client_destroy (tcp_remote_client_stop
        (w.set_remcli head { w.remclis head with next := (w.remclis a).next }) a) a).remclis q = w.remclis q := by
  have hs := stop_fields (w.set_remcli head
    { w.remclis head with next := (w.remclis a).next }) a
  have hd := destroy_remclis (tcp_remote_client_stop (w.set_remcli head
    { w.remclis head with next := (w.remclis a).next }) a) a
  have he := destroy_effect (tcp_remote_client_stop (w.set_remcli head
    { w.remclis head with next := (w.remclis a).next }) a) a ha0
  refine ⟨?_, ?_, ?_, ?_, ?_⟩
  · rw [hd.2.1, hs.1]; rfl
  · rw [hd.2.2, hs.2.1]; rfl
  · rw [he.2, hs.2.2.1, hs.2.2.2.1, set_remcli_other _ _ _ _ hah, List.append_assoc]
    rfl
  · rw [hd.1, stop_remclis _ _ _ (fun e => hah e.symm), set_remcli_same]
  · intro q h1 h2
    rw [hd.1, stop_remclis _ _ _ h1, set_remcli_other _ _ _ _ h2]

/-- The loop of `tcp_listener_stop` on a chain of clients: it ends with the
`next` link of the sentinel on the sentinel, every client destroyed in the
order of the chain, and the listener records, the socket manager and the other
fields of the sentinel as they were. -/
theorem stop_clients_spec (fuel : Nat) (w : World) (lp : Int) (l : List Int)
    (hhead : (w.listeners lp).clients ≠ 0)
    (hnd : ((w.listeners lp).clients :: l).Nodup) (hnz : ∀ a ∈ l, a ≠ 0)
    (hch : next_chain (fun p => (w.remclis p).next) (w.listeners lp).clients
      (w.listeners lp).clients l)
    (hfuel : l.length < fuel) :
    ∃ w2, stop_clients fuel w lp = some w2 ∧
      (w2.remclis (w.listeners lp).clients).next = (w.listeners lp).clients ∧
      w2.listeners = w.listeners ∧ w2.sock = w.sock ∧
      w2.log = w.log ++ destroy_log w l ∧
      (w2.remclis (w.listeners lp).clients).fd = (w.remclis (w.listeners lp).clients).fd ∧
      (w2.remclis (w.listeners lp).clients).io_task =
        (w.remclis (w.listeners lp).clients).io_task ∧
      (∀ q, q ∉ (w.listeners lp).clients :: l → w2.remclis q = w.remclis q) := by
  induction l generalizing fuel w with
  | nil =>
    cases fuel with
    | zero => omega
    | succ fuel =>
      rw [stop_clients_done fuel w lp hhead hch]
      refine ⟨w, rfl, hch, rfl, rfl, ?_, rfl, rfl, fun _ _ => rfl⟩
      unfold destroy_log
      rw [List.append_nil]
  | cons a t ih =>
    cases fuel with
    | zero => omega
    | succ fuel =>
      obtain ⟨hn1, hn2⟩ := hch
      have hn1b : (w.remclis (w.listeners lp).clients).next = a := hn1
      have ha0 : a ≠ 0 := hnz a (List.mem_cons_self a t)
      have hah : a ≠ (w.listeners lp).clients := fun e =>
        (List.nodup_cons.mp hnd).1 (by rw [← e]; exact List.mem_cons_self a t)
      rw [stop_clients_step fuel w lp a hhead hn1b hah ha0]
      obtain ⟨hls, hsk, hlg, hrech, hrec⟩ := stop_step_fields w (w.listeners lp).clients a hah ha0
      generalize tcp_remote_client_destroy (tcp_remote_client_stop
        (w.set_remcli (w.listeners lp).clients
          { w.remclis (w.listeners lp).clients with next := (w.remclis a).next }) a) a = W1
        at hls hsk hlg hrech hrec ⊢
      have hnd2 : ((w.listeners lp).clients :: t).Nodup :=
        List.Nodup.sublist (List.Sublist.cons₂ _ (List.sublist_cons_self a t)) hnd
      have hat : a ∉ t := (List.nodup_cons.mp (List.nodup_cons.mp hnd).2).1
      have hmem : ∀ q ∈ t, W1.remclis q = w.remclis q := fun q hq =>
        hrec q (fun e => hat (by rw [← e]; exact hq))
          (fun e => (List.nodup_cons.mp hnd2).1 (by rw [← e]; exact hq))
      have hch2 : next_chain (fun p => (W1.remclis p).next) (W1.listeners lp).clients
          (W1.listeners lp).clients t := by
        rw [hls]
        cases t with
        | nil =>
          show (W1.remclis (w.listeners lp).clients).next = _
          rw [hrech]
          exact hn2
        | cons b t2 =>
          refine ⟨?_, ?_⟩
          · show (W1.remclis (w.listeners lp).clients).next = _
            rw [hrech]
            exact hn2.1
          · apply next_chain_congr (fun p => (w.remclis p).next) _ _ b t2 _ hn2.2
            intro q hq
            show (W1.remclis q).next = (w.remclis q).next
            rw [hmem q hq]
      obtain ⟨w2, i1, i2, i3, i4, i5, i6, i7, i8⟩ := ih fuel W1
        (by rw [hls]; exact hhead) (by rw [hls]; exact hnd2)
        (fun q hq => hnz q (List.mem_cons_of_mem a hq)) hch2
        (by simp at hfuel ⊢; omega)
      rw [hls] at i2 i6 i7 i8
      rw [i1]
      refine ⟨w2, rfl, i2, i3.trans hls, i4.trans hsk, ?_, ?_, ?_, ?_⟩
      · rw [i5, hlg, destroy_log_congr w W1 t (fun q hq => by rw [hmem q hq]),
          List.append_assoc]
        rfl
      · rw [i6, hrech]
      · rw [i7, hrech]
      · intro q hq
        have hq1 : q ≠ (w.listeners lp).clients :=
          fun e => hq (by rw [e]; exact List.mem_cons_self _ _)
        have hq2 : q ≠ a := fun e =>
          hq (by rw [e]; exact List.mem_cons_of_mem _ (List.mem_cons_self a t))
        rw [i8 q (fun e => hq (by
          rcases List.mem_cons.mp e with h | h
          · exact absurd h hq1
          · exact List.mem_cons_of_mem _ (List.mem_cons_of_mem a h))), hrec q hq2 hq1]

theorem set_listener_same (w : World) (p : Int) (c : tcp_listener) :
    (w.set_listener p c).listeners p = c := by
  unfold World.set_listener
  simp

theorem set_listener_other (w : World) (p q : Int) (c : tcp_listener) (h : q ≠ p) :
    (w.set_listener p c).listeners q = w.listeners q := by
  unfold World.set_listener
  simp [h]

/-- The function `tcp_listener_stop` on a listener with a well-formed client
ring: the ring is left empty and well formed, every client having been
destroyed in ring order; the listener has no task any more. -/
theorem listener_stop_ring (fuel : Nat) (w : World) (lp : Int) (l : List Int)
    (hlp : lp ≠ 0) (hring : client_ring w lp l) (hfuel : l.length < fuel) :
    ∃ w2, tcp_listener_stop fuel w lp = some w2 ∧ client_ring w2 lp [] ∧
      w2.listeners lp = { w.listeners lp with io_task := 0 } ∧
      (∀ q, q ≠ lp → w2.listeners q = w.listeners q) ∧
      w2.sock = w.sock ∧ w2.log = w.log ++ destroy_log w l ∧
      (w2.remclis (w.listeners lp).clients).fd = (w.remclis (w.listeners lp).clients).fd ∧
      (w2.remclis (w.listeners lp).clients).io_task =
        (w.remclis (w.listeners lp).clients).io_task ∧
      (∀ q, q ∉ (w.listeners lp).clients :: l → w2.remclis q = w.remclis q) := by
  obtain ⟨g1, g2, g3, g4⟩ := hring
  unfold tcp_listener_stop
  rw [if_neg hlp]
  simp only []
  have hex : ∃ w1 : World, w1 = (if (w.listeners lp).io_task ≠ 0 then
        ({ w with m := io_sched_unschedule_task w.m (w.listeners lp).io_task } :
          World).set_listener lp { w.listeners lp with io_task := 0 }
      else w) ∧ w1.remclis = w.remclis ∧ w1.sock = w.sock ∧ w1.log = w.log ∧
      w1.listeners lp = { w.listeners lp with io_task := 0 } ∧
      (∀ q, q ≠ lp → w1.listeners q = w.listeners q) := by
    refine ⟨_, rfl, ?_⟩
    split_ifs with h
    · refine ⟨rfl, rfl, rfl, set_listener_same _ _ _, fun q hq => set_listener_other _ _ _ _ hq⟩
    · refine ⟨rfl, rfl, rfl, ?_, fun _ _ => rfl⟩
      have h0 : (w.listeners lp).io_task = 0 := not_not.mp h
      cases hr : w.listeners lp
      rw [hr] at h0
      simp only [] at h0
      simp only [h0]
  obtain ⟨w1, e1, k1, k2, k3, k4, k5⟩ := hex
  rw [← e1]
  have hcl : (w1.listeners lp).clients = (w.listeners lp).clients := by rw [k4]
  obtain ⟨w2, i1, i2, i3, i4, i5, i6, i7, i8⟩ := stop_clients_spec fuel w1 lp l
    (by rw [hcl]; exact g1) (by rw [hcl]; exact g2) g3
    (by rw [hcl, k1]; exact ring_next_chain _ _ _ _ _ g4) hfuel
  rw [hcl] at i2 i6 i7 i8
  rw [k1] at i6 i7 i8
  rw [i1]
  simp only []
  have hcl2 : (w2.listeners lp).clients = (w.listeners lp).clients := by rw [i3, hcl]
  rw [hcl2]
  refine ⟨_, rfl, ?_, ?_, ?_, i4.trans k2, ?_, ?_, ?_, ?_⟩
  · unfold client_ring
    have hl2 : ((w2.set_remcli (w.listeners lp).clients
        { w2.remclis (w.listeners lp).clients with prev := (w.listeners lp).clients }).listeners
        lp).clients = (w.listeners lp).clients := hcl2
    rw [hl2]
    refine ⟨g1, List.nodup_singleton _, fun a ha => absurd ha (List.not_mem_nil a), ?_, ?_⟩
    · show (World.remclis _ (w.listeners lp).clients).next = _
      rw [set_remcli_same]
      exact i2
    · show (World.remclis _ (w.listeners lp).clients).prev = _
      rw [set_remcli_same]
  · show w2.listeners lp = _
    rw [i3, k4]
  · intro q hq
    show w2.listeners q = _
    rw [i3, k5 q hq]
  · show w2.log = _
    rw [i5, k3]
    rw [destroy_log_congr w w1 l (fun q _ => by rw [k1])]
  · rw [set_remcli_same]
    exact i6
  · rw [set_remcli_same]
    exact i7
  · intro q hq
    rw [set_remcli_other _ _ _ _ (fun e => hq (by rw [e]; exact List.mem_cons_self _ _))]
    exact i8 q hq

/-! ## C22 -/

/-- C22, as stated, fails: on `ex_shared` two listeners hold the descriptor 7
of port 80.  Destroying the first lowers the registry count from 2 to 1, the
descriptor is not closed and no close handler runs (the record of the socket
manager stays empty), the second listener still has the descriptor, and yet
the `on_closed` callback at 700 is called. -/
theorem listener_closed_while_port_shared :
    (tcp_listener_destroy ex_lsn_echo 4 ex_shared 300).map (fun w => (w.sock, w.log)) =
      some ({ sockmgr_start with sockmgr_tcp_socket_list := [⟨80, 7, 1⟩] },
        [tcp_event.listener_closed 700 300, tcp_event.free 400, tcp_event.free 300]) ∧
    ex_shared.sock.sockmgr_tcp_socket_list = [⟨80, 7, 2⟩] ∧
    (ex_shared.listeners 310).fd = 7 := by
  refine ⟨by decide, by decide, by decide⟩

/-- The lines of `tcp_listener_destroy` behind the stop, on a listener with an
empty client ring and a valid descriptor. -/
theorem listener_destroy_stopped (env : LsnEnv) (fuel : Nat) (w w1 : World) (lp : Int)
    (hlp : lp ≠ 0)
    (hstop : (if (w.listeners lp).io_task ≠ 0 then tcp_listener_stop fuel w lp else some w)
      = some w1)
    (hring : client_ring w1 lp [])
    (hfd : (w1.listeners lp).fd ≠ INVALID_SOCKET_FD)
    (hclosed : ∀ c q v, env.on_closed c q v = v) :
    ∃ w2, tcp_listener_destroy env fuel w lp = some w2 ∧
      w2.sock = sockmgr_close_tcp (w1.listeners lp).fd w1.sock ∧
      w2.log = w1.log ++
        (if (w1.listeners lp).on_closed ≠ 0
          then [tcp_event.listener_closed (w1.listeners lp).on_closed lp] else []) ++
        destroy_log w1 [(w1.listeners lp).clients] ++ [tcp_event.free lp] := by
  obtain ⟨g1, _, _, g4, _⟩ := hring
  have g4b : (w1.remclis (w1.listeners lp).clients).next = (w1.listeners lp).clients := g4
  unfold tcp_listener_destroy
  rw [if_neg hlp, hstop]
  simp only []
  rw [if_neg (by rintro (h | h); exact g1 h; exact h g4b), if_pos hfd]
  simp only [hclosed]
  by_cases hc : (w1.listeners lp).on_closed ≠ 0
  · simp only [if_pos hc]
    obtain ⟨d1, d2⟩ := destroy_effect ((World.mk w1.m
      (sockmgr_close_tcp (w1.listeners lp).fd w1.sock) w1.listeners w1.remclis w1.log).note
      (tcp_event.listener_closed (w1.listeners lp).on_closed lp))
      (w1.listeners lp).clients g1
    obtain ⟨_, _, d5⟩ := destroy_remclis ((World.mk w1.m
      (sockmgr_close_tcp (w1.listeners lp).fd w1.sock) w1.listeners w1.remclis w1.log).note
      (tcp_event.listener_closed (w1.listeners lp).on_closed lp)) (w1.listeners lp).clients
    refine ⟨_, rfl, d5, ?_⟩
    refine Eq.trans (congrArg (fun x => x ++ [tcp_event.free lp]) d2) ?_
    simp [World.note, destroy_log]
  · simp only [if_neg hc]
    obtain ⟨d1, d2⟩ := destroy_effect (World.mk w1.m
      (sockmgr_close_tcp (w1.listeners lp).fd w1.sock) w1.listeners w1.remclis w1.log)
      (w1.listeners lp).clients g1
    obtain ⟨_, _, d5⟩ := destroy_remclis (World.mk w1.m
      (sockmgr_close_tcp (w1.listeners lp).fd w1.sock) w1.listeners w1.remclis w1.log)
      (w1.listeners lp).clients
    refine ⟨_, rfl, d5, ?_⟩
    refine Eq.trans (congrArg (fun x => x ++ [tcp_event.free lp]) d2) ?_
    simp [destroy_log]

/-- Claim C22, amended: `tcp_listener_destroy` on a listener with a valid
descriptor (running, or stopped with an empty client ring) releases one
registry reference on the descriptor with `sockmgr_close_tcp`, and calls
`on_closed` (if set) once, whether or not that was the last reference.  With a
count above 1 the count goes down by one and the descriptor stays open; with
the count 1 the entry is removed and the descriptor closed; `on_closed` is
called in both cases. -/
theorem listener_destroy_spec (env : LsnEnv) (fuel : Nat) (w : World) (lp : Int)
    (l : List Int) (hlp : lp ≠ 0) (hring : client_ring w lp l)
    (hrun : (w.listeners lp).io_task ≠ 0 ∨ l = []) (hfuel : l.length < fuel)
    (hfd : (w.listeners lp).fd ≠ INVALID_SOCKET_FD)
    (hclosed : ∀ c q v, env.on_closed c q v = v) :
    ∃ w2, tcp_listener_destroy env fuel w lp = some w2 ∧
      w2.sock = sockmgr_close_tcp (w.listeners lp).fd w.sock ∧
      w2.log = w.log ++ destroy_log w l ++
        (if (w.listeners lp).on_closed ≠ 0
          then [tcp_event.listener_closed (w.listeners lp).on_closed lp] else []) ++
        destroy_log w [(w.listeners lp).clients] ++ [tcp_event.free lp] ∧
      (∀ pre e post, w.sock.sockmgr_tcp_socket_list = pre ++ e :: post →
        (∀ x ∈ pre, x.sockfd ≠ (w.listeners lp).fd) → e.sockfd = (w.listeners lp).fd →
        1 < e.connections → e.connections ≤ SIZE_MAX →
        w2.sock = { w.sock with sockmgr_tcp_socket_list :=
          pre ++ { e with connections := e.connections - 1 } :: post }) ∧
      (∀ pre e post, w.sock.sockmgr_tcp_socket_list = pre ++ e :: post →
        (∀ x ∈ pre, x.sockfd ≠ (w.listeners lp).fd) → e.sockfd = (w.listeners lp).fd →
        e.connections = 1 →
        w2.sock = { w.sock with
          sockmgr_tcp_socket_list := pre ++ post,
          trace := w.sock.trace ++ sock_event.closed (w.listeners lp).fd ::
            w.sock.sockmgr_event_list.map
              (fun c => sock_event.notified c (w.listeners lp).fd) }) := by
  have hmain : ∃ w2, tcp_listener_destroy env fuel w lp = some w2 ∧
      w2.sock = sockmgr_close_tcp (w.listeners lp).fd w.sock ∧
      w2.log = w.log ++ destroy_log w l ++
        (if (w.listeners lp).on_closed ≠ 0
          then [tcp_event.listener_closed (w.listeners lp).on_closed lp] else []) ++
        destroy_log w [(w.listeners lp).clients] ++ [tcp_event.free lp] := by
    by_cases hio : (w.listeners lp).io_task ≠ 0
    · obtain ⟨w1, s1, s2, s3, _, s5, s6, s7, _, _⟩ := listener_stop_ring fuel w lp l hlp hring hfuel
      have hf1 : (w1.listeners lp).fd = (w.listeners lp).fd := by rw [s3]
      have hf2 : (w1.listeners lp).on_closed = (w.listeners lp).on_closed := by rw [s3]
      have hf3 : (w1.listeners lp).clients = (w.listeners lp).clients := by rw [s3]
      obtain ⟨w2, d1, d2, d3⟩ := listener_destroy_stopped env fuel w w1 lp hlp
        (by rw [if_pos hio]; exact s1) s2 (by rw [hf1]; exact hfd) hclosed
      refine ⟨w2, d1, by rw [d2, hf1, s5], ?_⟩
      rw [d3, hf2, hf3, s6,
        destroy_log_congr w w1 [(w.listeners lp).clients] (fun q hq => by
          rw [List.mem_singleton.mp hq]; exact s7)]
    · have hl : l = [] := by
        rcases hrun with h | h
        · exact absurd h hio
        · exact h
      rw [hl] at hring
      obtain ⟨w2, d1, d2, d3⟩ := listener_destroy_stopped env fuel w w lp hlp
        (by rw [if_neg hio]) hring hfd hclosed
      refine ⟨w2, d1, d2, ?_⟩
      rw [d3, hl]
      simp [destroy_log]
  obtain ⟨w2, h1, h2, h3⟩ := hmain
  refine ⟨w2, h1, h2, h3, ?_, ?_⟩
  · intro pre e post hl hpre he hk hmax
    rw [h2]
    unfold sockmgr_close_tcp
    simp only [hl, close_socket_shared _ _ pre e post hpre he hk hmax, List.append_nil]
  · intro pre e post hl hpre he hk
    rw [h2]
    unfold sockmgr_close_tcp
    simp only [hl, close_socket_last _ _ pre e post hpre he hk]
    rfl

/-- Witness for C22 on `ex_shared`: the listener at 300, stopped, with an empty
ring, whose port is also held by the listener at 310. -/
theorem listener_destroy_spec_witness :
    ∃ w2, tcp_listener_destroy ex_lsn_echo 4 ex_shared 300 = some w2 ∧
      w2.sock = sockmgr_close_tcp 7 ex_shared.sock ∧
      w2.log = [tcp_event.listener_closed 700 300, tcp_event.free 400, tcp_event.free 300] ∧
      w2.sock = { ex_shared.sock with sockmgr_tcp_socket_list := [⟨80, 7, 1⟩] } := by
  obtain ⟨w2, h1, h2, h3, h4, _⟩ := listener_destroy_spec ex_lsn_echo 4 ex_shared 300 []
    (by decide) (by decide) (Or.inr rfl) (by decide) (by decide) (fun _ _ _ => rfl)
  exact ⟨w2, h1, h2, h3, h4 [] ⟨80, 7, 2⟩ [] rfl (by decide) rfl (by decide) (by decide)⟩

/-! ## The client ring under the accept handler -/

theorem isRing_frame (next prev next2 prev2 : Int → Int) (head : Int) (l : List Int)
    (hn : ∀ q ∈ head :: l, next2 q = next q) (hp : ∀ q ∈ head :: l, prev2 q = prev q)
    (h : isRing next prev head l) : isRing next2 prev2 head l := by
  obtain ⟨g1, g2, g3, g4⟩ := h
  refine ⟨g1, g2, g3, ring_chain_congr next prev next2 prev2 head head l hn ?_ g4⟩
  intro q hq
  apply hp
  rcases List.mem_append.mp hq with h | h
  · exact List.mem_cons_of_mem _ h
  · rw [List.mem_singleton.mp h]; exact List.mem_cons_self _ _

/-- The client ring depends only on the listener records and on the records of
the sentinel and the members. -/
theorem client_ring_frame (w v : World) (lp : Int) (l : List Int)
    (h1 : v.listeners = w.listeners)
    (h2 : ∀ q ∈ (w.listeners lp).clients :: l, v.remclis q = w.remclis q)
    (h : client_ring w lp l) : client_ring v lp l := by
  unfold client_ring at h ⊢
  rw [h1]
  apply isRing_frame _ _ _ _ _ _ _ _ h
  · intro q hq
    show (v.remclis q).next = (w.remclis q).next
    rw [h2 q hq]
  · intro q hq
    show (v.remclis q).prev = (w.remclis q).prev
    rw [h2 q hq]

/-- What `tcp_remote_client_init` leaves behind when it returns: the null
pointer and the state as it was, or the new record and every other record as
it was. -/
theorem remote_client_init_frame (w : World) (owner fd : Int) (ip port : Nat) (rv : Int)
    (c : Int × World) (h : tcp_remote_client_init w owner fd ip port rv = some c) :
    c.2.listeners = w.listeners ∧ c.2.log = w.log ∧ c.2.sock = w.sock ∧ c.1 = rv ∧
    (∀ q, q ≠ rv → c.2.remclis q = w.remclis q) := by
  unfold tcp_remote_client_init at h
  by_cases h0 : rv = 0
  · rw [if_pos h0] at h
    rw [← Option.some.inj h]
    exact ⟨rfl, rfl, rfl, h0.symm, fun _ _ => rfl⟩
  · rw [if_neg h0] at h
    simp only [] at h
    split_ifs at h
    · rw [← Option.some.inj h]
      exact ⟨rfl, rfl, rfl, rfl, fun q hq => set_remcli_other _ _ _ _ hq⟩
    · rw [← Option.some.inj h]
      exact ⟨rfl, rfl, rfl, rfl, fun q hq => set_remcli_other _ _ _ _ hq⟩

theorem remote_client_start_frame (fuel : Nat) (w : World) (r : Int) (s : Bool × World)
    (h : tcp_remote_client_start fuel w r = some s) :
    s.2.listeners = w.listeners ∧ s.2.remclis = w.remclis ∧ s.2.log = w.log ∧
    s.2.sock = w.sock := by
  unfold tcp_remote_client_start at h
  split_ifs at h
  · cases hs : io_sched_schedule_task fuel w.m (w.remclis r).io_task with
    | none => rw [hs] at h; exact Option.noConfusion h
    | some x =>
      rw [hs] at h
      rw [← Option.some.inj h]
      exact ⟨rfl, rfl, rfl, rfl⟩
  · rw [← Option.some.inj h]
    exact ⟨rfl, rfl, rfl, rfl⟩

/-- Lines 501-505 of the accept handler, on a ring and a client that is not
in it: the client becomes the last member. -/
theorem append_client_ring (w : World) (lp c : Int) (l : List Int)
    (hring : client_ring w lp l) (hc : c ∉ (w.listeners lp).clients :: l) (hc0 : c ≠ 0) :
    client_ring (ring_link w (w.listeners lp).clients c) lp (l ++ [c]) := by
  unfold ring_link
  simp only []
  have hch : c ≠ (w.listeners lp).clients := fun e => hc (by rw [e]; exact List.mem_cons_self _ _)
  have hlast : (w.remclis (w.listeners lp).clients).prev ∈ (w.listeners lp).clients :: l := by
    have := ring_chain_last _ _ _ _ _ hring.2.2.2
    simp only [] at this
    rw [this]
    exact List.getLast_mem _
  have hcl : c ≠ (w.remclis (w.listeners lp).clients).prev := fun e => hc (by rw [e]; exact hlast)
  unfold client_ring
  refine ring_append (fun p => (w.remclis p).next) (fun p => (w.remclis p).prev) _ _
    (w.listeners lp).clients c l hring hc hc0 ?_ ?_ ?_ ?_ ?_ ?_
  · show (World.remclis _ (w.remclis (w.listeners lp).clients).prev).next = c
    by_cases hph : (w.remclis (w.listeners lp).clients).prev = (w.listeners lp).clients
    · rw [hph, set_remcli_same]
      show (World.remclis _ (w.listeners lp).clients).next = c
      rw [set_remcli_other _ _ _ _ hch.symm, set_remcli_other _ _ _ _ hch.symm,
        set_remcli_same]
    · rw [set_remcli_other _ _ _ _ hph, set_remcli_other _ _ _ _ hcl.symm,
        set_remcli_other _ _ _ _ hcl.symm, set_remcli_same]
  · show (World.remclis _ c).next = (w.listeners lp).clients
    rw [set_remcli_other _ _ _ _ hch, set_remcli_same]
  · intro q hq1 hq2
    show (World.remclis _ q).next = (w.remclis q).next
    by_cases hqh : q = (w.listeners lp).clients
    · rw [hqh, set_remcli_same]
      show (World.remclis _ (w.listeners lp).clients).next = _
      rw [set_remcli_other _ _ _ _ hch.symm, set_remcli_other _ _ _ _ hch.symm,
        set_remcli_other _ _ _ _ (fun e => hq1 (hqh.trans e))]
    · rw [set_remcli_other _ _ _ _ hqh, set_remcli_other _ _ _ _ hq2,
        set_remcli_other _ _ _ _ hq2, set_remcli_other _ _ _ _ hq1]
  · show (World.remclis _ c).prev = (w.remclis (w.listeners lp).clients).prev
    rw [set_remcli_other _ _ _ _ hch, set_remcli_same]
    show (World.remclis _ c).prev = _
    rw [set_remcli_same]
  · show (World.remclis _ (w.listeners lp).clients).prev = c
    rw [set_remcli_same]
  · intro q hq1 hq2
    show (World.remclis _ q).prev = (w.remclis q).prev
    rw [set_remcli_other _ _ _ _ hq2, set_remcli_other _ _ _ _ hq1,
      set_remcli_other _ _ _ _ hq1]
    by_cases hqp : q = (w.remclis (w.listeners lp).clients).prev
    · rw [hqp, set_remcli_same]
    · rw [set_remcli_other _ _ _ _ hqp]

theorem ring_link_listeners (w : World) (clients c : Int) :
    (ring_link w clients c).listeners = w.listeners := rfl

/-- Lines 508-516 of the accept handler after the linking: the client is
started, or dropped again when it cannot be started. -/
theorem start_client_ring (fuel : Nat) (w : World) (lp c : Int) (l : List Int)
    (hlp : lp ≠ 0) (hring : client_ring w lp l)
    (hc : c ∉ (w.listeners lp).clients :: l) (hc0 : c ≠ 0) (r : Bool × World)
    (h : (match tcp_remote_client_start fuel (ring_link w (w.listeners lp).clients c) c with
      | none => none
      | some s =>
        if !s.1 then (tcp_listener_drop_client s.2 lp c).map (fun x => (false, x))
        else some (false, s.2)) = some r) :
    r.1 = false ∧ r.2.listeners = w.listeners ∧
      (client_ring r.2 lp l ∨ client_ring r.2 lp (l ++ [c])) := by
  have happ := append_client_ring w lp c l hring hc hc0
  have hl6 := ring_link_listeners w (w.listeners lp).clients c
  generalize ring_link w (w.listeners lp).clients c = w6 at h happ hl6
  cases hs : tcp_remote_client_start fuel w6 c with
  | none => rw [hs] at h; exact Option.noConfusion h
  | some s =>
    rw [hs] at h
    simp only [] at h
    obtain ⟨f1, f2, _, _⟩ := remote_client_start_frame fuel w6 c s hs
    have hring6 : client_ring s.2 lp (l ++ [c]) := client_ring_congr w6 s.2 lp _ f2 f1 happ
    by_cases hb : (!s.1) = true
    · rw [if_pos hb] at h
      obtain ⟨w7, d1, d2, d3, _⟩ := drop_client_ring s.2 lp c l [] hlp hring6
      rw [d1] at h
      rw [← Option.some.inj h]
      refine ⟨rfl, by rw [d3, f1, hl6], Or.inl ?_⟩
      rw [List.append_nil] at d2
      exact d2
    · rw [if_neg hb] at h
      rw [← Option.some.inj h]
      exact ⟨rfl, by rw [f1, hl6], Or.inr hring6⟩

/-- The accept path of `on_tcp_listener_client_waiting` keeps the client ring
well formed: when it returns, the ring has its former members, in their order,
and at most the new client behind them. -/
theorem accept_client_ring (env : LsnEnv) (accepted : Int × Nat × Nat) (new_remcli : Int)
    (fuel : Nat) (w : World) (lp : Int) (l : List Int) (hlp : lp ≠ 0)
    (hring : client_ring w lp l)
    (hfresh : new_remcli ∉ (w.listeners lp).clients :: l)
    (hconn : ∀ c q r v, env.on_client_connected c q r v = v) (r : Bool × World)
    (h : accept_client env accepted new_remcli fuel w lp = some r) :
    r.1 = false ∧ r.2.listeners = w.listeners ∧
      (client_ring r.2 lp l ∨ client_ring r.2 lp (l ++ [new_remcli])) := by
  unfold accept_client at h
  simp only [hconn] at h
  by_cases hacc : accepted.1 ≠ INVALID_SOCKET_FD
  · rw [if_pos hacc] at h
    by_cases hcb : ((w.note (tcp_event.accept (w.listeners lp).fd)).listeners
        lp).on_client_connected = 0
    · rw [if_pos hcb] at h
      rw [← Option.some.inj h]
      exact ⟨rfl, rfl, Or.inl (client_ring_congr w _ lp l rfl rfl hring)⟩
    · rw [if_neg hcb] at h
      cases hi : tcp_remote_client_init (w.note (tcp_event.accept (w.listeners lp).fd)) lp
          accepted.1 accepted.2.1 accepted.2.2 new_remcli with
      | none => rw [hi] at h; exact Option.noConfusion h
      | some c =>
        rw [hi] at h
        simp only [] at h
        obtain ⟨i1, _, _, i4, i5⟩ := remote_client_init_frame _ _ _ _ _ _ c hi
        have i1b : c.2.listeners = w.listeners := i1
        have hringc : client_ring c.2 lp l := by
          apply client_ring_frame w c.2 lp l i1b _ hring
          intro q hq
          exact i5 q (fun e => hfresh (by rw [← e]; exact hq))
        by_cases hc0 : c.1 = 0
        · rw [if_pos hc0] at h
          rw [← Option.some.inj h]
          exact ⟨rfl, i1b, Or.inl (client_ring_congr c.2 _ lp l rfl rfl hringc)⟩
        · rw [if_neg hc0] at h
          have hw2 : client_ring (c.2.note (tcp_event.client_connected
              (c.2.listeners lp).on_client_connected lp c.1)) lp l :=
            client_ring_congr c.2 _ lp l rfl rfl hringc
          by_cases hio : ((c.2.note (tcp_event.client_connected
              (c.2.listeners lp).on_client_connected lp c.1)).remclis c.1).io_task = 0
          · rw [if_pos hio] at h
            rw [← Option.some.inj h]
            obtain ⟨d1, d2, _⟩ := destroy_remclis (c.2.note (tcp_event.client_connected
              (c.2.listeners lp).on_client_connected lp c.1)) c.1
            exact ⟨rfl, d2.trans i1b, Or.inl (client_ring_congr _ _ lp l d1 d2 hw2)⟩
          · rw [if_neg hio] at h
            split_ifs at h
            rw [← i4]
            have hfr : c.1 ∉ ((c.2.note (tcp_event.client_connected
                (c.2.listeners lp).on_client_connected lp c.1)).listeners lp).clients :: l := by
              rw [i4]
              show new_remcli ∉ (c.2.listeners lp).clients :: l
              rw [i1b]
              exact hfresh
            obtain ⟨s1, s2, s3⟩ := start_client_ring fuel _ lp c.1 l hlp hw2 hfr hc0 r h
            exact ⟨s1, s2.trans i1b, s3⟩
  · rw [if_neg hacc] at h
    rw [← Option.some.inj h]
    exact ⟨rfl, rfl, Or.inl (client_ring_congr w _ lp l rfl rfl hring)⟩

/-! ## C23 -/

/-- Claim C23 at the failing input: `tcp_listener_init ( 8080, 0 )` at program
start, binding giving the descriptor 11.  The listener record has no task yet,
so making the head of the client ring at the address 400 faults in
`tcp_remote_client_init`, and the whole call faults, with and without the
allocation of the head: the line that would close the ring on its head is
never reached, and no state with a listener and its empty ring comes out. -/
theorem listener_init_faults_before_ring :
    (ex_half_init.listeners 300).io_task = 0 ∧
    tcp_remote_client_init ex_half_init 300 INVALID_SOCKET_FD 0 0 400 = none ∧
    tcp_listener_init ex_world 8080 0 300 11 true 400 = none ∧
    tcp_listener_init ex_world 8080 0 300 11 true 0 = none := by
  refine ⟨by decide, rfl, rfl, rfl⟩

/-! ## C24 -/

theorem set_client_same (n : Net) (p : Int) (c : tcp_client) :
    (n.set_client p c).clients p = c := by
  unfold Net.set_client
  simp

theorem set_client_other (n : Net) (p q : Int) (c : tcp_client) (h : q ≠ p) :
    (n.set_client p c).clients q = n.clients q := by
  unfold Net.set_client
  simp [h]

/-- The function `tcp_client_disconnect` on a client with a valid descriptor,
the `on_closed` callback leaving the state alone: the state it gives. -/
theorem client_disconnect_open (env : NetEnv) (n : Net) (c : Int) (hc : c ≠ 0)
    (hfd : (n.clients c).fd ≠ INVALID_SOCKET_FD)
    (hpure : ∀ cb p r v, env.on_closed cb p r v = v) :
    (tcp_client_disconnect env n c).log = n.log ++ net_event.close (n.clients c).fd ::
      (if (n.clients c).on_closed ≠ 0
        then [net_event.client_closed (n.clients c).on_closed c TCP_CLIENT_CLOSED_LOCAL]
        else []) ∧
    (tcp_client_disconnect env n c).clients c =
      { n.clients c with io_task := 0, fd := INVALID_SOCKET_FD } ∧
    (∀ q, q ≠ c → (tcp_client_disconnect env n c).clients q = n.clients q) ∧
    (tcp_client_disconnect env n c).m =
      (if (n.clients c).io_task ≠ 0 then io_sched_unschedule_task n.m (n.clients c).io_task
        else n.m) ∧
    (tcp_client_disconnect env n c).pending_connections = n.pending_connections ∧
    (tcp_client_disconnect env n c).pconns = n.pconns := by
  unfold tcp_client_disconnect
  rw [if_neg hc]
  simp only [hpure]
  by_cases hio : (n.clients c).io_task ≠ 0
  · simp only [if_pos hio, set_client_same]
    rw [if_pos hfd]
    by_cases hcb : (n.clients c).on_closed ≠ 0
    · simp only [if_pos hcb]
      refine ⟨?_, ?_, ?_, rfl, rfl, rfl⟩
      · simp [Net.note, Net.set_client]
      · show (Net.set_client _ c _).clients c = _
        rw [set_client_same]
      · intro q hq
        show (Net.set_client _ c _).clients q = _
        rw [set_client_other _ _ _ _ hq]
        show (Net.set_client _ c _).clients q = _
        rw [set_client_other _ _ _ _ hq]
    · simp only [if_neg hcb]
      refine ⟨?_, ?_, ?_, rfl, rfl, rfl⟩
      · simp [Net.note, Net.set_client]
      · rw [set_client_same]
      · intro q hq
        rw [set_client_other _ _ _ _ hq]
        show (Net.set_client _ c _).clients q = _
        rw [set_client_other _ _ _ _ hq]
  · simp only [if_neg hio]
    rw [if_pos hfd]
    have h0 : (n.clients c).io_task = 0 := not_not.mp hio
    have hrec : ({ n.clients c with fd := INVALID_SOCKET_FD } : tcp_client) =
        { n.clients c with io_task := 0, fd := INVALID_SOCKET_FD } := by
      cases hr : n.clients c
      rw [hr] at h0
      simp only [] at h0
      simp only [h0]
    by_cases hcb : (n.clients c).on_closed ≠ 0
    · simp only [set_client_same, if_pos hcb]
      refine ⟨?_, ?_, ?_, rfl, rfl, rfl⟩
      · simp [Net.note, Net.set_client]
      · show (Net.set_client _ c _).clients c = _
        rw [set_client_same]
        exact hrec
      · intro q hq
        show (Net.set_client _ c _).clients q = _
        rw [set_client_other _ _ _ _ hq]
        rfl
    · simp only [set_client_same, if_neg hcb]
      refine ⟨?_, ?_, ?_, rfl, rfl, rfl⟩
      · simp [Net.note, Net.set_client]
      · exact hrec
      · intro q hq
        rw [set_client_other _ _ _ _ hq]
        rfl

/-- The function `tcp_client_disconnect` on a client without task and with the
invalid descriptor does nothing. -/
theorem client_disconnect_closed (env : NetEnv) (n : Net) (c : Int)
    (hio : (n.clients c).io_task = 0) (hfd : (n.clients c).fd = INVALID_SOCKET_FD) :
    tcp_client_disconnect env n c = n := by
  unfold tcp_client_disconnect
  by_cases hc : c = 0
  · rw [if_pos hc]
  · rw [if_neg hc]
    simp only [if_neg (not_not.mpr hio), if_neg (not_not.mpr hfd)]

/-- Claim C24: two calls of `tcp_client_disconnect` on a client with a valid
descriptor, the `on_closed` callback leaving the state alone.  The first call
closes the descriptor once and then calls `on_closed` (if set) once, with the
reason `TCP_CLIENT_CLOSED_LOCAL`; it leaves the client with the invalid
descriptor and without task.  The second call changes nothing, so it calls and
closes nothing.  On a client whose descriptor is already invalid, a call
closes nothing and calls nothing. -/
theorem client_disconnect_twice (env : NetEnv) (n : Net) (c : Int) (hc : c ≠ 0)
    (hpure : ∀ cb p r v, env.on_closed cb p r v = v) :
    ((n.clients c).fd ≠ INVALID_SOCKET_FD →
      (tcp_client_disconnect env n c).log = n.log ++ net_event.close (n.clients c).fd ::
        (if (n.clients c).on_closed ≠ 0
          then [net_event.client_closed (n.clients c).on_closed c TCP_CLIENT_CLOSED_LOCAL]
          else []) ∧
      ((tcp_client_disconnect env n c).clients c).fd = INVALID_SOCKET_FD ∧
      ((tcp_client_disconnect env n c).clients c).io_task = 0 ∧
      tcp_client_disconnect env (tcp_client_disconnect env n c) c =
        tcp_client_disconnect env n c) ∧
    ((n.clients c).fd = INVALID_SOCKET_FD →
      (tcp_client_disconnect env n c).log = n.log ∧
      ((tcp_client_disconnect env n c).clients c).fd = INVALID_SOCKET_FD) := by
  refine ⟨fun hfd => ?_, fun hfd => ?_⟩
  · obtain ⟨h1, h2, _⟩ := client_disconnect_open env n c hc hfd hpure
    have h3 : ((tcp_client_disconnect env n c).clients c).fd = INVALID_SOCKET_FD := by rw [h2]
    have h4 : ((tcp_client_disconnect env n c).clients c).io_task = 0 := by rw [h2]
    exact ⟨h1, h3, h4, client_disconnect_closed env _ c h4 h3⟩
  · unfold tcp_client_disconnect
    rw [if_neg hc]
    by_cases hio : (n.clients c).io_task ≠ 0
    · simp only [if_pos hio, set_client_same]
      rw [if_neg (not_not.mpr hfd)]
      refine ⟨rfl, ?_⟩
      rw [set_client_same]
      exact hfd
    · simp only [if_neg hio]
      rw [if_neg (not_not.mpr hfd)]
      exact ⟨rfl, hfd⟩

/-- Witness for C24 on `ex_connected`: the client at 800 on the descriptor 15,
with `on_closed` at 850. -/
theorem client_disconnect_twice_witness :
    (tcp_client_disconnect ex_net_env ex_connected 800).log =
      ex_connected.log ++ net_event.close (ex_connected.clients 800).fd ::
        (if (ex_connected.clients 800).on_closed ≠ 0
          then [net_event.client_closed (ex_connected.clients 800).on_closed 800
            TCP_CLIENT_CLOSED_LOCAL]
          else []) ∧
    ((tcp_client_disconnect ex_net_env ex_connected 800).clients 800).fd =
      INVALID_SOCKET_FD ∧
    ((tcp_client_disconnect ex_net_env ex_connected 800).clients 800).io_task = 0 ∧
    tcp_client_disconnect ex_net_env (tcp_client_disconnect ex_net_env ex_connected 800) 800 =
      tcp_client_disconnect ex_net_env ex_connected 800 :=
  (client_disconnect_twice ex_net_env ex_connected 800 (by decide) (fun _ _ _ _ => rfl)).1
    (by decide)

/-! ## C25 -/

/-- Claim C25: one run of the client read handler
`on_tcp_client_server_responded` on the task of a client with a valid
descriptor (and a read buffer), given the outcome of the read, the callbacks
leaving the state alone.  It returns false exactly when the read failed with
`EAGAIN` or `EINTR`, or gave bytes and `on_server_responded` is absent or
returns false; then the client records and the scheduler are as before.  In
every other case it returns true, the descriptor is closed once, the client has
the invalid descriptor and no task, and `on_closed` (if set) is called once:
with `TCP_CLIENT_CLOSED_REMOTE` when the read gave no bytes, and with
`TCP_CLIENT_CLOSED_LOCAL` when it gave bytes and `on_server_responded` returned
true. -/
theorem client_response_spec (env : NetEnv) (rd : read_outcome) (n : Net)
    (task errcode c : Int)
    (hud : (n.m.tasks task).user_data = c) (hc : c ≠ 0)
    (hfd : (n.clients c).fd ≠ INVALID_SOCKET_FD)
    (hbuf : (n.clients c).read_buffer ≠ 0)
    (hpure : net_pure env) :
    ∃ b n2, on_tcp_client_server_responded env rd n task errcode = some (b, n2) ∧
      (b = false ↔ response_pending env rd n c) ∧
      (response_pending env rd n c →
        n2.clients = n.clients ∧ n2.m = n.m ∧
        n2.log = n.log ++ [net_event.receive (n.clients c).fd] ++ response_log rd n c) ∧
      (¬ response_pending env rd n c →
        (n2.clients c).fd = INVALID_SOCKET_FD ∧ (n2.clients c).io_task = 0 ∧
        n2.log = n.log ++ [net_event.receive (n.clients c).fd] ++ response_log rd n c ++
          [net_event.close (n.clients c).fd] ++
          (if (n.clients c).on_closed ≠ 0
            then [net_event.client_closed (n.clients c).on_closed c
              (if rd.bytes_read ≤ 0 then TCP_CLIENT_CLOSED_REMOTE
                else TCP_CLIENT_CLOSED_LOCAL)]
            else [])) := by
  obtain ⟨p1, _, p3, _, _⟩ := hpure
  unfold on_tcp_client_server_responded
  simp only [hud]
  rw [if_neg (by rintro (h | h); exact hc h; exact hfd h), if_neg hbuf]
  by_cases hle : rd.bytes_read ≤ 0
  · rw [if_pos hle]
    have hlog : response_log rd n c = [] := by
      unfold response_log
      rw [if_neg (by rintro ⟨h, _⟩; omega)]
    by_cases htr : rd.bytes_read < 0 ∧ (rd.errno = EAGAIN ∨ rd.errno = EINTR)
    · rw [if_pos htr]
      have hk : response_pending env rd n c := Or.inl htr
      refine ⟨false, _, rfl, ⟨fun _ => hk, fun _ => rfl⟩, fun _ => ⟨rfl, rfl, ?_⟩,
        fun h => absurd hk h⟩
      rw [hlog, List.append_nil]
      rfl
    · rw [if_neg htr]
      have hk : ¬ response_pending env rd n c := by
        rintro (h | ⟨h, _⟩)
        · exact htr h
        · omega
      simp only [p1, set_client_same]
      by_cases hcb : (n.clients c).on_closed ≠ 0
      · have hcb2 : ((n.note (net_event.receive (n.clients c).fd)).clients c).on_closed ≠ 0 :=
          hcb
        simp only [if_pos hcb2]
        refine ⟨true, _, rfl, ⟨fun h => Bool.noConfusion h, fun h => absurd h hk⟩,
          fun h => absurd h hk, fun _ => ⟨?_, ?_, ?_⟩⟩
        · show ((Net.set_client _ c _).clients c).fd = _
          rw [set_client_same]
        · show ((Net.set_client _ c _).clients c).io_task = _
          rw [set_client_same]
        · rw [hlog, if_pos hcb, if_pos hle]
          simp [Net.note, Net.set_client]
      · have hcb2 : ¬ ((n.note (net_event.receive (n.clients c).fd)).clients c).on_closed ≠ 0 :=
          hcb
        simp only [if_neg hcb2]
        refine ⟨true, _, rfl, ⟨fun h => Bool.noConfusion h, fun h => absurd h hk⟩,
          fun h => absurd h hk, fun _ => ⟨?_, ?_, ?_⟩⟩
        · rw [set_client_same]
        · rw [set_client_same]
        · rw [hlog, if_neg hcb]
          simp [Net.note, Net.set_client]
  · rw [if_neg hle]
    have hpos : 0 < rd.bytes_read := by omega
    have hcl : (n.note (net_event.receive (n.clients c).fd)).clients = n.clients := rfl
    simp only [hcl]
    by_cases hs : (n.clients c).on_server_responded ≠ 0
    · rw [if_pos hs]
      have hlog : response_log rd n c = [net_event.server_responded
          (n.clients c).on_server_responded c rd.bytes_read] := by
        unfold response_log
        rw [if_pos ⟨hpos, hs⟩]
      simp only [p3]
      cases hb : (env.on_server_responded (n.clients c).on_server_responded c rd.data
          rd.bytes_read
          ((n.note (net_event.receive (n.clients c).fd)).note
            (net_event.server_responded (n.clients c).on_server_responded c
              rd.bytes_read))).1 with
      | false =>
        have hk : response_pending env rd n c := Or.inr ⟨hpos, Or.inr hb⟩
        simp only [Bool.false_eq_true, if_false]
        refine ⟨false, _, rfl, ⟨fun _ => hk, fun _ => rfl⟩, fun _ => ⟨rfl, rfl, ?_⟩,
          fun h => absurd hk h⟩
        rw [hlog]
        simp [Net.note]
      | true =>
        have hk : ¬ response_pending env rd n c := by
          rintro (⟨h, _⟩ | ⟨_, h | h⟩)
          · omega
          · exact hs h
          · rw [hb] at h; exact Bool.noConfusion h
        simp only [if_true]
        obtain ⟨d1, d2, _⟩ := client_disconnect_open env
          ((n.note (net_event.receive (n.clients c).fd)).note
            (net_event.server_responded (n.clients c).on_server_responded c rd.bytes_read))
          c hc hfd p1
        refine ⟨true, _, rfl, ⟨fun h => Bool.noConfusion h, fun h => absurd h hk⟩,
          fun h => absurd h hk, fun _ => ⟨by rw [d2], by rw [d2], ?_⟩⟩
        rw [d1, hlog, if_neg hle]
        simp [Net.note]
    · rw [if_neg hs]
      have hk : response_pending env rd n c := Or.inr ⟨hpos, Or.inl (not_not.mp hs)⟩
      have hlog : response_log rd n c = [] := by
        unfold response_log
        rw [if_neg (by rintro ⟨_, h⟩; exact hs h)]
      refine ⟨false, _, rfl, ⟨fun _ => hk, fun _ => rfl⟩, fun _ => ⟨rfl, rfl, ?_⟩,
        fun h => absurd hk h⟩
      rw [hlog, List.append_nil]
      rfl

/-- Witness for C25 on `ex_connected`: the server closes the connection (the
read gives 0 bytes), and the client at 800 gets `on_closed` with the reason
`TCP_CLIENT_CLOSED_REMOTE`. -/
theorem client_response_spec_witness :
    ∃ n2, on_tcp_client_server_responded ex_net_env ⟨0, 0, []⟩ ex_connected ex_conn_task.1
        IO_SCHEDULER_ERR_NONE = some (true, n2) ∧
      (n2.clients 800).fd = INVALID_SOCKET_FD ∧ (n2.clients 800).io_task = 0 ∧
      n2.log = [net_event.receive 15, net_event.close 15,
        net_event.client_closed 850 800 TCP_CLIENT_CLOSED_REMOTE] := by
  obtain ⟨b, n2, h1, h2, _, h4⟩ := client_response_spec ex_net_env ⟨0, 0, []⟩ ex_connected
    ex_conn_task.1 IO_SCHEDULER_ERR_NONE 800 (by decide) (by decide) (by decide) (by decide)
    ⟨fun _ _ _ _ => rfl, fun _ _ _ => rfl, fun _ _ _ _ _ => rfl, fun _ _ _ _ => rfl,
      fun _ _ _ _ _ _ => rfl⟩
  have hk : ¬ response_pending ex_net_env ⟨0, 0, []⟩ ex_connected 800 := by decide
  have hb : b = true := by
    cases b with
    | false => exact absurd (h2.mp rfl) hk
    | true => rfl
  rw [hb] at h1
  exact ⟨n2, h1, (h4 hk).1, (h4 hk).2.1, (h4 hk).2.2⟩

/-! ## C26 -/

theorem call_on_connect_pure (env : NetEnv) (n : Net) (pconn task code : Int)
    (hcb : (n.pconns pconn).on_connect_ud ≠ 0 ∨ (n.pconns pconn).on_connect ≠ 0)
    (hpure : net_pure env) :
    call_on_connect env n pconn task code = some (n.note (connect_event n pconn task code)) := by
  obtain ⟨_, _, _, p4, p5⟩ := hpure
  unfold call_on_connect
  by_cases h : (n.pconns pconn).on_connect_ud ≠ 0
  · rw [if_pos h, p5]
  · rw [if_neg h]
    have h2 : (n.pconns pconn).on_connect ≠ 0 := by
      rcases hcb with h3 | h3
      · exact absurd h3 h
      · exact h3
    rw [if_neg h2, p4]

/-- The effect of `tcp_io_scheduler_connect_cbk` on the task of a pending
connect that has a completion callback, the callbacks leaving the state alone. -/
theorem connect_cbk_effect (env : NetEnv) (so : sockopt_outcome) (n : Net)
    (task errcode pconn : Int)
    (hud : (n.m.tasks task).user_data = pconn) (hp : pconn ≠ 0)
    (hcb : (n.pconns pconn).on_connect_ud ≠ 0 ∨ (n.pconns pconn).on_connect ≠ 0)
    (hpure : net_pure env) :
    ∃ n2, tcp_io_scheduler_connect_cbk env so n task errcode = some (true, n2) ∧
      n2.log = n.log ++ completion_log so n pconn task errcode ∧
      n2.pending_connections = n.pending_connections.erase pconn ∧
      n2.m = n.m ∧ n2.pconns = n.pconns ∧ n2.clients = n.clients := by
  unfold tcp_io_scheduler_connect_cbk
  simp only [hud]
  rw [if_neg hp]
  unfold completion_log
  by_cases ht : errcode = IO_SCHEDULER_ERR_OP_TIMEOUT
  · rw [if_pos ht, if_pos ht, call_on_connect_pure env (Net.mk n.m n.clients (n.pending_connections.erase pconn) n.pconns n.log) pconn task 1 hcb hpure]
    refine ⟨_, rfl, ?_, rfl, rfl, rfl, rfl⟩
    simp [Net.note, connect_event]
  · rw [if_neg ht, if_neg ht]
    by_cases he : so.rc ≠ 0 ∨ so.sockerr ≠ 0
    · rw [if_pos he, if_pos he, call_on_connect_pure env
        ((Net.mk n.m n.clients (n.pending_connections.erase pconn) n.pconns n.log).note (net_event.getsockopt (n.m.tasks task).fd)) pconn task _ hcb hpure]
      refine ⟨_, rfl, ?_, rfl, rfl, rfl, rfl⟩
      simp [Net.note, connect_event]
    · rw [if_neg he, if_neg he, call_on_connect_pure env
        (((Net.mk n.m n.clients (n.pending_connections.erase pconn) n.pconns n.log).note (net_event.getsockopt (n.m.tasks task).fd)).note
          (net_event.set_blocking (n.m.tasks task).fd)) pconn task 0 hcb hpure]
      refine ⟨_, rfl, ?_, rfl, rfl, rfl, rfl⟩
      simp [Net.note, connect_event]

/-- Claim C26: the connect-completion handler `tcp_io_scheduler_connect_cbk` on
the task of a pending connect that has a completion callback, the callbacks
leaving the state alone.  It returns true in every case and calls the callback
once: with the code 1, followed by `close`, when called with
`IO_SCHEDULER_ERR_OP_TIMEOUT`; with `errno` of a failed `getsockopt`, or else
the non-zero socket error, followed by `close`, when the socket reports an
error; and with the code 0, after the descriptor has been set to blocking and
without `close`, otherwise.  The pending record is off the pending list when
the callback is called. -/
theorem connect_cbk_spec (env : NetEnv) (so : sockopt_outcome) (n : Net)
    (task errcode pconn : Int)
    (hud : (n.m.tasks task).user_data = pconn) (hp : pconn ≠ 0)
    (hcb : (n.pconns pconn).on_connect_ud ≠ 0 ∨ (n.pconns pconn).on_connect ≠ 0)
    (hpure : net_pure env) :
    ∃ n2, tcp_io_scheduler_connect_cbk env so n task errcode = some (true, n2) ∧
      n2.log = n.log ++ completion_log so n pconn task errcode ∧
      n2.pending_connections = n.pending_connections.erase pconn ∧
      n2.m = n.m ∧ n2.pconns = n.pconns ∧ n2.clients = n.clients :=
  connect_cbk_effect env so n task errcode pconn hud hp hcb hpure

/-- Witness for C26 on `ex_connecting`: the handler is called with
`IO_SCHEDULER_ERR_OP_TIMEOUT` on the task of the pending connect at 950, whose
callback is at 860. -/
theorem connect_cbk_spec_witness :
    ∃ n2, tcp_io_scheduler_connect_cbk ex_net_env ⟨0, 0, 0⟩ ex_connecting ex_connect_task
        IO_SCHEDULER_ERR_OP_TIMEOUT = some (true, n2) ∧
      n2.log = ex_connecting.log ++ [net_event.on_connect 860 20 1, net_event.close 20] ∧
      n2.pending_connections = [] := by
  obtain ⟨n2, h1, h2, h3, _⟩ := connect_cbk_spec ex_net_env ⟨0, 0, 0⟩ ex_connecting
    ex_connect_task IO_SCHEDULER_ERR_OP_TIMEOUT 950 (by decide) (by decide) (by decide)
    ⟨fun _ _ _ _ => rfl, fun _ _ _ => rfl, fun _ _ _ _ _ => rfl, fun _ _ _ _ => rfl,
      fun _ _ _ _ _ _ => rfl⟩
  exact ⟨n2, h1, h2, h3⟩

/-! ## A connect in progress -/

/-- Creating a task on a scheduler whose task pool has the slot `p` on top:
the slot is popped and filled, the pool is one entry shorter. -/
theorem create_task_top_pool (m : Machine) (p : Int) (rest : List Int) (fd : Int) (opts : Nat)
    (time_out user_data read_cbk write_cbk err_cbk time_out_cbk : Int)
    (hc : stack_contents m.sched.task_pool = p :: rest) (hp : p ≠ 0) :
    ∃ tp, stack_contents tp = rest ∧ tp.current = m.sched.task_pool.current + 1 ∧
      tp.limit = m.sched.task_pool.limit ∧
      io_sched_create_task m fd opts time_out user_data read_cbk write_cbk err_cbk
        time_out_cbk =
      (p, ({ m with sched := { m.sched with task_pool := tp } } : Machine).write p
        (new_task m.sched_at fd opts time_out user_data read_cbk write_cbk err_cbk
          time_out_cbk)) := by
  have hlt : m.sched.task_pool.current < m.sched.task_pool.limit := by
    have := congrArg List.length hc
    rw [stack_contents_length] at this
    unfold stack_fixed_size at this
    simp at this
    omega
  have hpop := stack_pop_nonempty _ hlt
  rw [hc] at hpop
  have e1 : (stack_fixed_pop_and_return m.sched.task_pool).1 = p := (List.cons.inj hpop).1.symm
  have e2 : stack_contents (stack_fixed_pop_and_return m.sched.task_pool).2 = rest :=
    (List.cons.inj hpop).2.symm
  refine ⟨(stack_fixed_pop_and_return m.sched.task_pool).2, e2, ?_, ?_, ?_⟩
  · unfold stack_fixed_pop_and_return
    rw [if_pos hlt]
  · unfold stack_fixed_pop_and_return
    rw [if_pos hlt]
  · unfold io_sched_create_task
    simp only []
    rw [if_pos (by rw [e1]; exact hp), e1]
    rfl

/-- The record of a writer task as `io_sched_create_writer_task` fills it. -/
theorem writer_task_flags (sa fd tmo ud cbk : Int) :
    (new_task sa fd (if tmo > 0 then IO_SCHEDULER_WRITE ||| IO_SCHEDULER_TIMER
      else IO_SCHEDULER_WRITE) tmo ud 0 cbk 0 cbk).opts < 2 ^ 32 ∧
    S_IOSCHED_OPTS_WRITE (new_task sa fd (if tmo > 0
      then IO_SCHEDULER_WRITE ||| IO_SCHEDULER_TIMER
      else IO_SCHEDULER_WRITE) tmo ud 0 cbk 0 cbk) = true ∧
    (S_IOSCHED_OPTS_TIMER (new_task sa fd (if tmo > 0
      then IO_SCHEDULER_WRITE ||| IO_SCHEDULER_TIMER
      else IO_SCHEDULER_WRITE) tmo ud 0 cbk 0 cbk) = true → 0 < tmo) := by
  by_cases h : tmo > 0
  · simp only [if_pos h]
    refine ⟨?_, ?_, fun _ => h⟩
    · show (if (IO_SCHEDULER_WRITE ||| IO_SCHEDULER_TIMER) &&& IO_SCHEDULER_REMOVE ≠ 0
        then clear_opt (IO_SCHEDULER_WRITE ||| IO_SCHEDULER_TIMER) IO_SCHEDULER_REMOVE
        else IO_SCHEDULER_WRITE ||| IO_SCHEDULER_TIMER) < 2 ^ 32
      decide
    · show ((if (IO_SCHEDULER_WRITE ||| IO_SCHEDULER_TIMER) &&& IO_SCHEDULER_REMOVE ≠ 0
        then clear_opt (IO_SCHEDULER_WRITE ||| IO_SCHEDULER_TIMER) IO_SCHEDULER_REMOVE
        else IO_SCHEDULER_WRITE ||| IO_SCHEDULER_TIMER) &&& IO_SCHEDULER_WRITE != 0) = true
      decide
  · simp only [if_neg h]
    refine ⟨?_, ?_, fun h2 => ?_⟩
    · show (if IO_SCHEDULER_WRITE &&& IO_SCHEDULER_REMOVE ≠ 0
        then clear_opt IO_SCHEDULER_WRITE IO_SCHEDULER_REMOVE
        else IO_SCHEDULER_WRITE) < 2 ^ 32
      decide
    · show ((if IO_SCHEDULER_WRITE &&& IO_SCHEDULER_REMOVE ≠ 0
        then clear_opt IO_SCHEDULER_WRITE IO_SCHEDULER_REMOVE
        else IO_SCHEDULER_WRITE) &&& IO_SCHEDULER_WRITE != 0) = true
      decide
    · have h3 : ((if IO_SCHEDULER_WRITE &&& IO_SCHEDULER_REMOVE ≠ 0
        then clear_opt IO_SCHEDULER_WRITE IO_SCHEDULER_REMOVE
        else IO_SCHEDULER_WRITE) &&& IO_SCHEDULER_TIMER != 0) = true := h2
      exact absurd h3 (by decide)

/-- The shared body of `tcp_connect_timeout` and `tcp_connect_timeout_ud` when
the connect is in progress and the scheduler has a free task slot `p`: the
pending record is linked at the head of the pending list, and a writer task on
the descriptor, with the timeout in nanoseconds, the handler as write and
timeout callback and the pending record as payload, is at the tail of the live
list. -/
theorem connect_in_progress (with_ud : Bool) (env : NetEnv) (new_pconn : Int)
    (co : connect_outcome) (fuel : Nat) (n : Net) (sockfd : Int) (ip port : Nat)
    (scheduler userdata cbk timeout_secs : Int) (l : List Int) (p : Int) (rest : List Int)
    (hfd : sockfd ≠ INVALID_SOCKET_FD) (hnew : new_pconn ≠ 0)
    (hrc : co.rc ≠ 0) (hprog : ¬ (co.rc = -1 ∧ co.errno ≠ EINPROGRESS))
    (hs : scheduler = n.m.sched_at) (hs0 : scheduler ≠ 0)
    (hl : isList n.m.tasks n.m.sched.scheduled_tasks l) (hfuel : l.length ≤ fuel)
    (hpool : stack_contents n.m.sched.task_pool = p :: rest) (hp : p ≠ 0) (hpl : p ∉ l) :
    ∃ n1 o e, connect_timeout_body with_ud env new_pconn co fuel n sockfd ip port scheduler
        userdata cbk timeout_secs = some (true, n1) ∧
      n1.pending_connections = new_pconn :: n.pending_connections ∧
      isList n1.m.tasks n1.m.sched.scheduled_tasks (l ++ [p]) ∧
      n1.m.tasks p = { new_task n.m.sched_at sockfd
          (if IO_SCHEDULER_TIME_ONE_SECOND * timeout_secs > 0
            then IO_SCHEDULER_WRITE ||| IO_SCHEDULER_TIMER else IO_SCHEDULER_WRITE)
          (IO_SCHEDULER_TIME_ONE_SECOND * timeout_secs) new_pconn 0
          tcp_io_scheduler_connect_cbk_addr 0 tcp_io_scheduler_connect_cbk_addr
        with opts := o, expire_time := e } ∧
      S_IOSCHED_OPTS_WRITE (n1.m.tasks p) = true ∧
      n1.m.sched_at = n.m.sched_at ∧
      n1.m.sched.stop_scheduler = n.m.sched.stop_scheduler ∧
      n1.clients = n.clients ∧
      n1.log = n.log ++ [net_event.set_nonblocking sockfd, net_event.connect sockfd] ∧
      (n1.pconns new_pconn).on_connect = (if with_ud then 0 else cbk) ∧
      (n1.pconns new_pconn).on_connect_ud = (if with_ud then cbk else 0) ∧
      (n1.pconns new_pconn).user_data = (if with_ud then userdata else 0) ∧
      (n1.pconns new_pconn).sockfd = sockfd ∧
      (∀ q, q ≠ new_pconn → n1.pconns q = n.pconns q) ∧
      n1.m.sched.task_pool.current = n.m.sched.task_pool.current + 1 ∧
      n1.m.sched.task_pool.limit = n.m.sched.task_pool.limit ∧
      n1.m.sched.timer_id_pool = n.m.sched.timer_id_pool ∧
      (∀ q, q ≠ p → ∃ k, n1.m.tasks q = { n.m.tasks q with next := k }) := by
  have haddr : tcp_io_scheduler_connect_cbk_addr ≠ 0 := by decide
  obtain ⟨w1, w2, w3⟩ := writer_task_flags n.m.sched_at sockfd
    (IO_SCHEDULER_TIME_ONE_SECOND * timeout_secs) new_pconn tcp_io_scheduler_connect_cbk_addr
  obtain ⟨tp, _, htc, htl, hcr⟩ := create_task_top_pool n.m p rest sockfd
    (if IO_SCHEDULER_TIME_ONE_SECOND * timeout_secs > 0
      then IO_SCHEDULER_WRITE ||| IO_SCHEDULER_TIMER else IO_SCHEDULER_WRITE)
    (IO_SCHEDULER_TIME_ONE_SECOND * timeout_secs) new_pconn 0
    tcp_io_scheduler_connect_cbk_addr 0 tcp_io_scheduler_connect_cbk_addr hpool hp
  have hsame := write_tasks_same (Machine.mk n.m.sched_at
      { n.m.sched with task_pool := tp } n.m.tasks n.m.now) p
    (new_task n.m.sched_at sockfd
      (if IO_SCHEDULER_TIME_ONE_SECOND * timeout_secs > 0
        then IO_SCHEDULER_WRITE ||| IO_SCHEDULER_TIMER else IO_SCHEDULER_WRITE)
      (IO_SCHEDULER_TIME_ONE_SECOND * timeout_secs) new_pconn 0
      tcp_io_scheduler_connect_cbk_addr 0 tcp_io_scheduler_connect_cbk_addr)
  obtain ⟨m2, o, e, k, a1, a2, a3, a4, _, a6, a7, a8, _, a10, _⟩ := schedule_task_appends fuel
    ((Machine.mk n.m.sched_at { n.m.sched with task_pool := tp } n.m.tasks n.m.now).write p
      (new_task n.m.sched_at sockfd
        (if IO_SCHEDULER_TIME_ONE_SECOND * timeout_secs > 0
          then IO_SCHEDULER_WRITE ||| IO_SCHEDULER_TIMER else IO_SCHEDULER_WRITE)
        (IO_SCHEDULER_TIME_ONE_SECOND * timeout_secs) new_pconn 0
        tcp_io_scheduler_connect_cbk_addr 0 tcp_io_scheduler_connect_cbk_addr))
    p l hp (by rw [hsame]; rfl) (by rw [hsame]; exact w1)
    (by
      rw [hsame]
      intro h1 _
      have := w3 h1
      unfold IO_SCHEDULER_NO_TIMEOUT
      show -1 ≤ IO_SCHEDULER_TIME_ONE_SECOND * timeout_secs
      omega)
    (by
      refine isList_congr n.m.tasks _ _ _ ?_ hl
      intro a ha
      have hap : a ≠ p := fun e => hpl (by rw [← e]; exact ha)
      rw [write_tasks_other _ _ _ _ hap])
    hfuel hpl (by rw [hsame]; rfl)
  rw [hsame] at a3
  have hopt := schedule_task_opts fuel _ m2 p true hp a1
  rw [hsame] at hopt
  have hW : S_IOSCHED_OPTS_WRITE (m2.tasks p) = true := by
    have h1 := (schedule_opts_flags _ w1).2.1
    rw [(flags_congr _ _ hopt).2.1, h1, w2]
    simp [new_task, haddr]
  unfold connect_timeout_body
  rw [if_neg hfd, if_neg hnew]
  simp only []
  rw [if_neg hrc, if_neg hprog, if_neg hs0, if_neg (not_not.mpr hs)]
  have hcw : io_sched_create_writer_task n.m sockfd
      (IO_SCHEDULER_TIME_ONE_SECOND * timeout_secs) new_pconn
      tcp_io_scheduler_connect_cbk_addr = _ := hcr
  simp only [Net.set_pconn, Net.note]
  rw [hcw]
  simp only []
  rw [a1]
  have hq4 : ∀ q, q ≠ p → ∃ k, m2.tasks q = { n.m.tasks q with next := k } := by
    intro q hq
    refine ⟨k q, ?_⟩
    rw [a4 q hq, write_tasks_other _ _ _ _ hq]
  refine ⟨_, o, e, rfl, rfl, a2, a3, hW, a10, a8, rfl, ?_, ?_, ?_, ?_, ?_, ?_,
    by rw [a6]; exact htc, by rw [a6]; exact htl, a7, hq4⟩
  · simp
  · cases with_ud <;> simp
  · cases with_ud <;> simp
  · cases with_ud <;> simp
  · cases with_ud <;> simp
  · intro q hq
    simp [hq]

/-- Unscheduling a live task with a real descriptor and running the coalescing
pass of the pump destroys it: it is off the live list and its slot is zeroed;
the other tasks that are not flagged for removal stay in their order. -/
theorem reap_unscheduled (fuel : Nat) (m : Machine) (L : List Int) (p : Int)
    (hl : isList m.tasks m.sched.scheduled_tasks L) (hpL : p ∈ L) (hp : p ≠ 0)
    (hfd : (m.tasks p).fd ≠ INVALID_GENERAL_FD)
    (hown : ∀ a ∈ L, (m.tasks a).owner = m.sched_at)
    (hroom : room (fun a => (m.tasks a).fd) m L) (hfuel : L.length < fuel) :
    ∃ m1 fs, reap_pass fuel (io_sched_unschedule_task m p) = some (m1, fs) ∧
      isList m1.tasks m1.sched.scheduled_tasks
        ((survivors m L).filter (fun a => decide (a ≠ p))) ∧
      m1.tasks p = zero_task ∧
      (∀ a ∈ (survivors m L).filter (fun a => decide (a ≠ p)),
        ∃ k, m1.tasks a = { m.tasks a with next := k }) := by
  obtain ⟨u1, _, u3, u4, u5⟩ := unschedule_touched m p
  have hrp := unschedule_reapable m p hp hfd
  have hother : ∀ a, a ≠ p → (io_sched_unschedule_task m p).tasks a = m.tasks a :=
    fun a ha => u4 a (by simpa using ha)
  have hl3 : isList (io_sched_unschedule_task m p).tasks
      (io_sched_unschedule_task m p).sched.scheduled_tasks L := by
    rw [u1]
    exact isList_congr m.tasks _ _ _ (fun a _ => unschedule_next m p a) hl
  have h3fd : ∀ q, ((io_sched_unschedule_task m p).tasks q).fd = (m.tasks q).fd := by
    intro q
    obtain ⟨o, e, x, _⟩ := u5 q
    rw [x]
  have hown3 : ∀ a ∈ L, ((io_sched_unschedule_task m p).tasks a).owner =
      (io_sched_unschedule_task m p).sched_at := by
    intro a ha
    obtain ⟨o, e, x, _⟩ := u5 a
    rw [x, u3]
    exact hown a ha
  have hroom3 : room (fun a => ((io_sched_unschedule_task m p).tasks a).fd)
      (io_sched_unschedule_task m p) (reaped (io_sched_unschedule_task m p) L) := by
    apply room_filter
    unfold room at hroom ⊢
    rw [u1, ids_of_congr _ (fun a => (m.tasks a).fd) _ (fun a _ => h3fd a)]
    exact hroom
  obtain ⟨m1, fs, r1, r2, r3, r4, _, _⟩ := reap_pass_spec (io_sched_unschedule_task m p) L fuel
    hl3 hown3 hroom3 hfuel
  have hsurv : survivors (io_sched_unschedule_task m p) L =
      (survivors m L).filter (fun a => decide (a ≠ p)) := by
    unfold survivors
    rw [List.filter_filter]
    apply List.filter_congr
    intro a _
    by_cases hap : a = p
    · rw [hap, hrp]
      simp
    · rw [hother a hap]
      simp [hap]
  rw [hsurv] at r2 r4
  refine ⟨m1, fs, r1, r2, ?_, ?_⟩
  · apply r3.2.2.2.2.2.2.2.2.2.2 p
    unfold reaped
    exact List.mem_filter.mpr ⟨hpL, hrp⟩
  · intro a ha
    obtain ⟨k, hk⟩ := r4 a ha
    have hap : a ≠ p := by
      have := (List.mem_filter.mp ha).2
      simpa using this
    refine ⟨k, ?_⟩
    rw [hk, hother a hap]

/-- The completion callback, when it returns, has left the pending list and the
scheduler alone (the callbacks only return). -/
theorem call_on_connect_frame (env : NetEnv) (n n2 : Net) (pconn task code : Int)
    (hpure : net_pure env) (h : call_on_connect env n pconn task code = some n2) :
    n2.pending_connections = n.pending_connections ∧ n2.m = n.m := by
  obtain ⟨_, _, _, p4, p5⟩ := hpure
  unfold call_on_connect at h
  split_ifs at h
  · rw [p5] at h
    rw [← Option.some.inj h]
    exact ⟨rfl, rfl⟩
  · rw [p4] at h
    rw [← Option.some.inj h]
    exact ⟨rfl, rfl⟩

/-- The completion handler, when it returns, has unlinked the payload of its
task from the pending list and nothing else. -/
theorem connect_cbk_pending (env : NetEnv) (so : sockopt_outcome) (n : Net)
    (task errcode : Int) (r : Bool × Net) (hpure : net_pure env)
    (h : tcp_io_scheduler_connect_cbk env so n task errcode = some r) :
    r.2.pending_connections = n.pending_connections.erase (n.m.tasks task).user_data := by
  unfold tcp_io_scheduler_connect_cbk at h
  simp only [] at h
  split_ifs at h
  all_goals
    revert h
    generalize hc : call_on_connect env _ _ _ _ = X
    intro h
    cases X with
    | none => exact Option.noConfusion h
    | some n2 =>
      rw [← Option.some.inj h]
      exact (call_on_connect_frame env _ n2 _ _ _ hpure hc).1

/-- The shared body of `tcp_connect_timeout` and `tcp_connect_timeout_ud`, when
it returns, has left the pending list alone or has linked the new record at its
head. -/
theorem connect_body_pending (with_ud : Bool) (env : NetEnv) (new_pconn : Int)
    (co : connect_outcome) (fuel : Nat) (n : Net) (sockfd : Int) (ip port : Nat)
    (scheduler userdata cbk timeout_secs : Int) (r : Bool × Net) (hpure : net_pure env)
    (h : connect_timeout_body with_ud env new_pconn co fuel n sockfd ip port scheduler userdata
      cbk timeout_secs = some r) :
    r.2.pending_connections = n.pending_connections ∨
      r.2.pending_connections = new_pconn :: n.pending_connections := by
  obtain ⟨_, _, _, p4, p5⟩ := hpure
  unfold connect_timeout_body at h
  simp only [] at h
  split_ifs at h
  all_goals first
    | (rw [← Option.some.inj h]; exact Or.inl rfl)
    | (rw [p5] at h; rw [← Option.some.inj h]; exact Or.inl rfl)
    | (rw [p4] at h; rw [← Option.some.inj h]; exact Or.inl rfl)
    | skip
  all_goals
    revert h
    generalize io_sched_schedule_task fuel _ _ = X
    intro h
    cases X with
    | none => exact Option.noConfusion h
    | some r2 =>
      rw [← Option.some.inj h]
      exact Or.inr rfl

/-! ## C27 -/

/-- C27, as stated, fails.  On `ex_connecting` the completion handler of the
pending connect at 950 is called with `IO_SCHEDULER_ERR_OP_TIMEOUT`: it calls
the callback at 860 and returns true, and afterwards 950 is off the pending
list but still the payload of the writer task, which is still in the live
list, also after `io_sched_unschedule_task` (which only flags it).  And for a
connect that completes at once (`connect` returns 0, on `ex_idle`) the callback
is called although the record at 950 was never in the pending list. -/
theorem pending_connect_payload_outlives_callback :
    (∃ n2, tcp_io_scheduler_connect_cbk ex_net_env ⟨0, 0, 0⟩ ex_connecting ex_connect_task
        IO_SCHEDULER_ERR_OP_TIMEOUT = some (true, n2) ∧
      n2.log = ex_connecting.log ++ [net_event.on_connect 860 20 1, net_event.close 20] ∧
      950 ∉ n2.pending_connections ∧
      isList n2.m.tasks n2.m.sched.scheduled_tasks [ex_connect_task] ∧
      (n2.m.tasks ex_connect_task).user_data = 950 ∧
      isList (io_sched_unschedule_task n2.m ex_connect_task).tasks
        (io_sched_unschedule_task n2.m ex_connect_task).sched.scheduled_tasks
        [ex_connect_task] ∧
      ((io_sched_unschedule_task n2.m ex_connect_task).tasks ex_connect_task).user_data = 950) ∧
    (∃ n3, tcp_connect_timeout ex_net_env 950 ⟨0, 0⟩ 4 ex_idle 20 0 17777 1 860 3 =
        some (true, n3) ∧
      n3.log = [net_event.set_nonblocking 20, net_event.connect 20, net_event.free 950,
        net_event.on_connect 860 20 0] ∧
      ex_idle.pending_connections = [] ∧ n3.pending_connections = []) := by
  refine ⟨?_, _, rfl, rfl, rfl, rfl⟩
  obtain ⟨n2, h1, h2, h3, h4, _⟩ := connect_cbk_effect ex_net_env ⟨0, 0, 0⟩ ex_connecting
    ex_connect_task IO_SCHEDULER_ERR_OP_TIMEOUT 950 (by decide) (by decide) (by decide)
    ⟨fun _ _ _ _ => rfl, fun _ _ _ => rfl, fun _ _ _ _ _ => rfl, fun _ _ _ _ => rfl,
      fun _ _ _ _ _ _ => rfl⟩
  refine ⟨n2, h1, h2, ?_, ?_, ?_, ?_, ?_⟩
  · rw [h3]; decide
  · rw [h4]; decide
  · rw [h4]; decide
  · rw [h4]; decide
  · rw [h4]; decide

/-- Claim C27, amended.  A connect in progress on a scheduler with a free task
slot `p` links the pending record `P` at the head of the pending list and
makes it the payload of the writer task `p` at the tail of the live list.  `P`
stays in the pending list through the completion handler of any other record
and through any other call of `tcp_connect_timeout` or `tcp_connect_timeout_ud`.
In any later state where `P` is in the pending list once and is the payload of
the live task `p` and of no other live task, the completion handler on `p`
calls the callback of `P` and returns true; `P` is then off the pending list,
whose other entries keep their order, but is still the payload of `p`, which
is still in the live list.  Once `p` has been unscheduled, as the scheduler
does with a task whose callback returns true, the coalescing pass of the next
pump iteration destroys it, and `P` is the payload of no live task. -/
theorem pending_connect_lifecycle (with_ud : Bool) (env : NetEnv) (P : Int)
    (co : connect_outcome) (so : sockopt_outcome) (fuel : Nat) (n : Net) (sockfd : Int)
    (ip port : Nat) (scheduler userdata cbk timeout_secs errcode : Int)
    (l : List Int) (p : Int) (rest : List Int) (later : Net) (L l1 l2 : List Int)
    (hpure : net_pure env)
    (hfd : sockfd ≠ INVALID_SOCKET_FD) (hnew : P ≠ 0)
    (hrc : co.rc ≠ 0) (hprog : ¬ (co.rc = -1 ∧ co.errno ≠ EINPROGRESS))
    (hs : scheduler = n.m.sched_at) (hs0 : scheduler ≠ 0)
    (hl : isList n.m.tasks n.m.sched.scheduled_tasks l) (hfuel : l.length ≤ fuel)
    (hpool : stack_contents n.m.sched.task_pool = p :: rest) (hp : p ≠ 0) (hpl : p ∉ l)
    (hud : (later.m.tasks p).user_data = P)
    (hcb : (later.pconns P).on_connect_ud ≠ 0 ∨ (later.pconns P).on_connect ≠ 0)
    (hpend : later.pending_connections = l1 ++ P :: l2) (hP1 : P ∉ l1) (hP2 : P ∉ l2)
    (hL : isList later.m.tasks later.m.sched.scheduled_tasks L) (hpL : p ∈ L)
    (hpay : ∀ q ∈ L, q ≠ p → (later.m.tasks q).user_data ≠ P)
    (hfdp : (later.m.tasks p).fd ≠ INVALID_GENERAL_FD)
    (hown : ∀ a ∈ L, (later.m.tasks a).owner = later.m.sched_at)
    (hroom : room (fun a => (later.m.tasks a).fd) later.m L) (hfuelL : L.length < fuel) :
    (∃ n1, connect_timeout_body with_ud env P co fuel n sockfd ip port scheduler userdata cbk
        timeout_secs = some (true, n1) ∧
      n1.pending_connections = P :: n.pending_connections ∧
      isList n1.m.tasks n1.m.sched.scheduled_tasks (l ++ [p]) ∧
      (n1.m.tasks p).user_data = P ∧ (n1.m.tasks p).fd = sockfd ∧
      (n1.pconns P).on_connect = (if with_ud then 0 else cbk) ∧
      (n1.pconns P).on_connect_ud = (if with_ud then cbk else 0)) ∧
    (∀ (so2 : sockopt_outcome) (n3 : Net) (task2 code2 : Int) (r : Bool × Net),
      (n3.m.tasks task2).user_data ≠ P → P ∈ n3.pending_connections →
      tcp_io_scheduler_connect_cbk env so2 n3 task2 code2 = some r →
      P ∈ r.2.pending_connections) ∧
    (∀ (with_ud2 : Bool) (new2 : Int) (co2 : connect_outcome) (fuel2 : Nat) (n3 : Net)
      (sockfd2 : Int) (ip2 port2 : Nat) (sched2 ud2 cbk2 tmo2 : Int) (r : Bool × Net),
      P ∈ n3.pending_connections →
      connect_timeout_body with_ud2 env new2 co2 fuel2 n3 sockfd2 ip2 port2 sched2 ud2 cbk2
        tmo2 = some r →
      P ∈ r.2.pending_connections) ∧
    (∃ n2 m3 fs, tcp_io_scheduler_connect_cbk env so later p errcode = some (true, n2) ∧
      n2.log = later.log ++ completion_log so later P p errcode ∧
      n2.pending_connections = l1 ++ l2 ∧ P ∉ n2.pending_connections ∧
      isList n2.m.tasks n2.m.sched.scheduled_tasks L ∧ (n2.m.tasks p).user_data = P ∧
      reap_pass fuel (io_sched_unschedule_task n2.m p) = some (m3, fs) ∧
      isList m3.tasks m3.sched.scheduled_tasks
        ((survivors later.m L).filter (fun a => decide (a ≠ p))) ∧
      (∀ q ∈ (survivors later.m L).filter (fun a => decide (a ≠ p)),
        (m3.tasks q).user_data ≠ P) ∧
      m3.tasks p = zero_task) := by
  refine ⟨?_, ?_, ?_, ?_⟩
  · obtain ⟨n1, o, e, c1, c2, c3, c4, _, _, _, _, _, c10, c11, _, _, _⟩ :=
      connect_in_progress with_ud env P co fuel n sockfd ip port scheduler userdata cbk
        timeout_secs l p rest hfd hnew hrc hprog hs hs0 hl hfuel hpool hp hpl
    refine ⟨n1, c1, c2, c3, ?_, ?_, c10, c11⟩
    · rw [c4]; rfl
    · rw [c4]; rfl
  · intro so2 n3 task2 code2 r hne hmem h
    rw [connect_cbk_pending env so2 n3 task2 code2 r hpure h]
    exact (List.mem_erase_of_ne (fun e => hne e.symm)).mpr hmem
  · intro with_ud2 new2 co2 fuel2 n3 sockfd2 ip2 port2 sched2 ud2 cbk2 tmo2 r hmem h
    rcases connect_body_pending with_ud2 env new2 co2 fuel2 n3 sockfd2 ip2 port2 sched2 ud2
      cbk2 tmo2 r hpure h with e | e
    · rw [e]; exact hmem
    · rw [e]; exact List.mem_cons_of_mem _ hmem
  · obtain ⟨n2, d1, d2, d3, d4, _, _⟩ := connect_cbk_effect env so later p errcode P hud hnew
      hcb hpure
    obtain ⟨m3, fs, r1, r2, r3, r4⟩ := reap_unscheduled fuel later.m L p hL hpL hp hfdp hown
      hroom hfuelL
    have hpe : n2.pending_connections = l1 ++ l2 := by
      rw [d3, hpend, List.erase_append_right _ hP1, List.erase_cons_head]
    refine ⟨n2, m3, fs, d1, d2, hpe, ?_, ?_, ?_, ?_, r2, ?_, r3⟩
    · rw [hpe]
      intro hm
      rcases List.mem_append.mp hm with h | h
      · exact hP1 h
      · exact hP2 h
    · rw [d4]; exact hL
    · rw [d4]; exact hud
    · rw [d4]; exact r1
    · intro q hq
      obtain ⟨k, hk⟩ := r4 q hq
      rw [hk]
      have hq2 := List.mem_filter.mp hq
      have hqp : q ≠ p := by simpa using hq2.2
      exact hpay q (List.mem_filter.mp hq2.1).1 hqp

/-- Witness for C27 on the examples: the connect on descriptor 20 with the
callback at 860 is started on `ex_idle`, whose free slot is 1002, and the
handler runs, with a timeout, on the state `ex_connecting` that the connect
gave. -/
theorem pending_connect_lifecycle_witness :
    ∃ n1 n2 m3 fs,
      tcp_connect_timeout ex_net_env 950 ⟨-1, EINPROGRESS⟩ 4 ex_idle 20 0 17777 1 860 3 =
        some (true, n1) ∧
      n1.pending_connections = [950] ∧
      isList n1.m.tasks n1.m.sched.scheduled_tasks [1002] ∧
      (n1.m.tasks 1002).user_data = 950 ∧
      tcp_io_scheduler_connect_cbk ex_net_env ⟨0, 0, 0⟩ ex_connecting 1002
        IO_SCHEDULER_ERR_OP_TIMEOUT = some (true, n2) ∧
      n2.log = ex_connecting.log ++ [net_event.on_connect 860 20 1, net_event.close 20] ∧
      n2.pending_connections = [] ∧
      isList n2.m.tasks n2.m.sched.scheduled_tasks [1002] ∧
      (n2.m.tasks 1002).user_data = 950 ∧
      reap_pass 4 (io_sched_unschedule_task n2.m 1002) = some (m3, fs) ∧
      isList m3.tasks m3.sched.scheduled_tasks [] ∧
      m3.tasks 1002 = zero_task := by
  obtain ⟨⟨n1, a1, a2, a3, a4, _⟩, _, _, n2, m3, fs, b1, b2, b3, _, b5, b6, b7, b8, _, b10⟩ :=
    pending_connect_lifecycle false ex_net_env 950 ⟨-1, EINPROGRESS⟩ ⟨0, 0, 0⟩ 4 ex_idle 20 0
      17777 1 0 860 3 IO_SCHEDULER_ERR_OP_TIMEOUT [] 1002 [1001] ex_connecting [1002] [] []
      ⟨fun _ _ _ _ => rfl, fun _ _ _ => rfl, fun _ _ _ _ _ => rfl, fun _ _ _ _ => rfl,
        fun _ _ _ _ _ _ => rfl⟩
      (by decide) (by decide) (by decide) (by decide) (by decide) (by decide) (by decide)
      (by decide) (by decide) (by decide) (by decide) (by decide) (by decide) (by decide)
      (by decide) (by decide) (by decide) (by decide) (by decide) (by decide) (by decide)
      (by decide) (by decide)
  exact ⟨n1, n2, m3, fs, a1, a2, a3, a4, b1, b2, b3, b5, b6, b7, b8, b10⟩

/-! ## C28 -/

/-- Claim C28 on the code: on `ex_busy`, whose scheduler has both task slots in
use, `tcp_connect_timeout` and `tcp_connect_timeout_ud` are called for a connect
in progress on descriptor 20 with the pending record allocated at 950.  Both
return true; the record is linked into the pending list, which was empty; the
live list holds the two tasks it held, neither on descriptor 20 nor with the
record as payload; the callback at 860 is not called and the descriptor is not
closed. -/
theorem connect_without_free_slot_reports_success :
    stack_contents ex_busy.m.sched.task_pool = [] ∧ ex_busy.pending_connections = [] ∧
    (∃ n1, tcp_connect_timeout ex_net_env 950 ⟨-1, EINPROGRESS⟩ 4 ex_busy 20 0 17777 1 860 3 =
        some (true, n1) ∧
      n1.pending_connections = [950] ∧
      n1.m.sched.scheduled_tasks = ex_busy.m.sched.scheduled_tasks ∧
      isList n1.m.tasks n1.m.sched.scheduled_tasks [1002, 1001] ∧
      (∀ q ∈ [1002, 1001], (n1.m.tasks q).fd ≠ 20 ∧ (n1.m.tasks q).user_data ≠ 950) ∧
      n1.log = [net_event.set_nonblocking 20, net_event.connect 20]) ∧
    (∃ n1, tcp_connect_timeout_ud ex_net_env 950 ⟨-1, EINPROGRESS⟩ 4 ex_busy 20 0 17777 1 33
        860 3 = some (true, n1) ∧
      n1.pending_connections = [950] ∧
      n1.m.sched.scheduled_tasks = ex_busy.m.sched.scheduled_tasks ∧
      isList n1.m.tasks n1.m.sched.scheduled_tasks [1002, 1001] ∧
      (∀ q ∈ [1002, 1001], (n1.m.tasks q).fd ≠ 20 ∧ (n1.m.tasks q).user_data ≠ 950) ∧
      n1.log = [net_event.set_nonblocking 20, net_event.connect 20]) :=
  ⟨by decide, rfl, ⟨_, rfl, rfl, rfl, by decide, by decide, rfl⟩,
    ⟨_, rfl, rfl, rfl, by decide, by decide, rfl⟩⟩

/-! ## The child-process monitor -/

@[simp] theorem set_mp_same (s : Procs) (p : Int) (r : monitored_proc) :
    (s.set_mp p r).mps p = r := by
  simp [Procs.set_mp]

theorem set_mp_other (s : Procs) (p q : Int) (r : monitored_proc) (h : q ≠ p) :
    (s.set_mp p r).mps q = s.mps q := by
  simp [Procs.set_mp, h]

/-- The search loop along a chain of records with children: it stops at the
first record whose child has the pid, or else at the head. -/
theorem find_scan_chain (s : Procs) (head pid : Int) (l : List Int) :
    ∀ (p : Int) (fuel : Nat), next_chain (fun q => (s.mps q).next) head p l →
      (∀ a ∈ l, a ≠ 0 ∧ a ≠ head ∧ (s.mps a).child ≠ 0) → l.length < fuel →
      find_scan s head pid fuel (s.mps p).next =
        some ((l.find? (fun a => decide (pid_of s a = pid))).getD head) := by
  induction l with
  | nil =>
    intro p fuel hch _ hf
    obtain ⟨k, rfl⟩ : ∃ k, fuel = k + 1 := ⟨fuel - 1, by simp at hf; omega⟩
    have e : (s.mps p).next = head := hch
    rw [e]
    unfold find_scan
    rw [if_pos (Or.inr rfl)]
    rfl
  | cons a t ih =>
    intro p fuel hch hm hf
    obtain ⟨k, rfl⟩ : ∃ k, fuel = k + 1 := ⟨fuel - 1, by simp at hf; omega⟩
    have e : (s.mps p).next = a := hch.1
    obtain ⟨ha0, hah, hac⟩ := hm a (List.mem_cons_self a t)
    rw [e]
    unfold find_scan
    rw [if_neg (by rintro (h | h); exact ha0 h; exact hah h), if_neg hac]
    by_cases hp : (s.children (s.mps a).child).pid = pid
    · rw [if_pos hp]
      have e2 : List.find? (fun a => decide (pid_of s a = pid)) (a :: t) = some a := by
        simp [List.find?_cons, pid_of, hp]
      rw [e2]
      rfl
    · rw [if_neg hp]
      have e2 : List.find? (fun a => decide (pid_of s a = pid)) (a :: t) =
          List.find? (fun a => decide (pid_of s a = pid)) t := by
        simp [List.find?_cons, pid_of, hp]
      rw [e2]
      exact ih a k hch.2 (fun b hb => hm b (List.mem_cons_of_mem a hb))
        (by simp at hf; omega)

/-- The search loop on the monitored set of a manager. -/
theorem find_scan_monitored (s : Procs) (cpmgr pid : Int) (l : List Int) (fuel : Nat)
    (hmon : monitored s cpmgr l) (hf : l.length < fuel) :
    find_scan s (s.mgrs cpmgr).monitored_procs_head pid fuel
        (s.mps (s.mgrs cpmgr).monitored_procs_head).next =
      some ((l.find? (fun a => decide (pid_of s a = pid))).getD
        (s.mgrs cpmgr).monitored_procs_head) := by
  obtain ⟨⟨g1, g2, g3, g4⟩, hc⟩ := hmon
  refine find_scan_chain s _ pid l _ fuel (ring_next_chain _ _ _ _ _ g4) ?_ hf
  intro a ha
  refine ⟨g3 a ha, ?_, hc a ha⟩
  intro e
  exact (List.nodup_cons.mp g2).1 (by rw [← e]; exact ha)

/-- What the search finds is a member with the pid, when there is one. -/
theorem find_pid_some (s : Procs) (pid : Int) (l : List Int)
    (h : pid ∈ monitored_pids s l) :
    ∃ x, l.find? (fun a => decide (pid_of s a = pid)) = some x ∧ x ∈ l ∧ pid_of s x = pid := by
  cases hf : l.find? (fun a => decide (pid_of s a = pid)) with
  | none =>
    exfalso
    obtain ⟨a, ha, hp⟩ := List.mem_map.mp h
    have := List.find?_eq_none.mp hf a ha
    simp at this
    exact this hp
  | some x =>
    refine ⟨x, rfl, List.mem_of_find?_eq_some hf, ?_⟩
    have := List.find?_some hf
    simpa using this

theorem find_pid_none (s : Procs) (pid : Int) (l : List Int)
    (h : pid ∉ monitored_pids s l) :
    l.find? (fun a => decide (pid_of s a = pid)) = none := by
  apply List.find?_eq_none.mpr
  intro a ha
  simp only [decide_eq_true_eq]
  intro hp
  exact h (List.mem_map.mpr ⟨a, ha, hp⟩)

/-- The four linking writes on a ring and a record that is not in it: the
record becomes the last member; only links change. -/
theorem monitor_link_ring (s : Procs) (head mp : Int) (l : List Int)
    (hring : isRing (fun p => (s.mps p).next) (fun p => (s.mps p).prev) head l)
    (hmp : mp ∉ head :: l) (hmp0 : mp ≠ 0) :
    ∃ s2, monitor_link s head mp = some s2 ∧
      isRing (fun p => (s2.mps p).next) (fun p => (s2.mps p).prev) head (l ++ [mp]) ∧
      s2.children = s.children ∧ s2.mgrs = s.mgrs ∧ s2.log = s.log ∧
      (∀ q, (s2.mps q).child = (s.mps q).child ∧
        (s2.mps q).owned_by_mgr = (s.mps q).owned_by_mgr) := by
  have hch : mp ≠ head := fun e => hmp (by rw [e]; exact List.mem_cons_self _ _)
  have hlast : (s.mps head).prev ∈ head :: l := by
    have := ring_chain_last _ _ _ _ _ hring.2.2.2
    simp only [] at this
    rw [this]
    exact List.getLast_mem _
  have hcl : mp ≠ (s.mps head).prev := fun e => hmp (by rw [e]; exact hlast)
  have hl0 : (s.mps head).prev ≠ 0 := by
    rcases List.mem_cons.mp hlast with h | h
    · rw [h]; exact hring.1
    · exact hring.2.2.1 _ h
  unfold monitor_link
  simp only []
  rw [if_neg hl0]
  refine ⟨_, rfl, ?_, rfl, rfl, rfl, ?_⟩
  · refine ring_append (fun p => (s.mps p).next) (fun p => (s.mps p).prev) _ _
      head mp l hring hmp hmp0 ?_ ?_ ?_ ?_ ?_ ?_
    · show (Procs.mps _ (s.mps head).prev).next = mp
      by_cases hph : (s.mps head).prev = head
      · rw [hph, set_mp_same]
        show (Procs.mps _ head).next = mp
        rw [set_mp_other _ _ _ _ hch.symm, set_mp_other _ _ _ _ hch.symm, set_mp_same]
      · rw [set_mp_other _ _ _ _ hph, set_mp_other _ _ _ _ hcl.symm,
          set_mp_other _ _ _ _ hcl.symm, set_mp_same]
    · show (Procs.mps _ mp).next = head
      rw [set_mp_other _ _ _ _ hch, set_mp_same]
    · intro q hq1 hq2
      show (Procs.mps _ q).next = (s.mps q).next
      by_cases hqh : q = head
      · rw [hqh, set_mp_same]
        show (Procs.mps _ head).next = _
        rw [set_mp_other _ _ _ _ hch.symm, set_mp_other _ _ _ _ hch.symm,
          set_mp_other _ _ _ _ (fun e => hq1 (hqh.trans e))]
      · rw [set_mp_other _ _ _ _ hqh, set_mp_other _ _ _ _ hq2,
          set_mp_other _ _ _ _ hq2, set_mp_other _ _ _ _ hq1]
    · show (Procs.mps _ mp).prev = (s.mps head).prev
      rw [set_mp_other _ _ _ _ hch, set_mp_same]
      show (Procs.mps _ mp).prev = _
      rw [set_mp_same]
    · show (Procs.mps _ head).prev = mp
      rw [set_mp_same]
    · intro q hq1 hq2
      show (Procs.mps _ q).prev = (s.mps q).prev
      rw [set_mp_other _ _ _ _ hq2, set_mp_other _ _ _ _ hq1,
        set_mp_other _ _ _ _ hq1]
      by_cases hqp : q = (s.mps head).prev
      · rw [hqp, set_mp_same]
      · rw [set_mp_other _ _ _ _ hqp]
  · intro q
    by_cases h1 : q = head
    · subst h1
      rw [set_mp_same]
      simp only []
      rw [set_mp_other _ _ _ _ hch.symm, set_mp_other _ _ _ _ hch.symm]
      by_cases h3 : q = (s.mps q).prev
      · rw [← h3, set_mp_same]
        exact ⟨rfl, rfl⟩
      · rw [set_mp_other _ _ _ _ h3]
        exact ⟨rfl, rfl⟩
    · rw [set_mp_other _ _ _ _ h1]
      by_cases h2 : q = mp
      · subst h2
        rw [set_mp_same]
        simp only []
        rw [set_mp_same]
        simp only []
        rw [set_mp_other _ _ _ _ hcl]
        exact ⟨rfl, rfl⟩
      · rw [set_mp_other _ _ _ _ h2, set_mp_other _ _ _ _ h2]
        by_cases h3 : q = (s.mps head).prev
        · rw [h3, set_mp_same]
          exact ⟨rfl, rfl⟩
        · rw [set_mp_other _ _ _ _ h3]
          exact ⟨rfl, rfl⟩

/-- The end of an admission: the new record, filled by `monitored_proc_init`,
is linked behind the monitored set. -/
theorem admit_tail (s0 : Procs) (cpmgr new_mp c : Int) (o : Bool) (l : List Int)
    (hmon : monitored s0 cpmgr l) (hmp0 : new_mp ≠ 0)
    (hmpf : new_mp ∉ (s0.mgrs cpmgr).monitored_procs_head :: l) (hc0 : c ≠ 0) :
    ∃ s2, monitor_link (s0.set_mp new_mp ⟨0, 0, c, o⟩) (s0.mgrs cpmgr).monitored_procs_head
        new_mp = some s2 ∧
      monitored s2 cpmgr (l ++ [new_mp]) ∧ s2.children = s0.children ∧ s2.log = s0.log ∧
      s2.mgrs = s0.mgrs ∧
      (∀ a ∈ l, (s2.mps a).child = (s0.mps a).child ∧
        (s2.mps a).owned_by_mgr = (s0.mps a).owned_by_mgr) ∧
      (s2.mps new_mp).child = c ∧ (s2.mps new_mp).owned_by_mgr = o := by
  have hne : ∀ q ∈ (s0.mgrs cpmgr).monitored_procs_head :: l, q ≠ new_mp :=
    fun q hq e => hmpf (by rw [← e]; exact hq)
  have hring1 : isRing (fun p => ((s0.set_mp new_mp ⟨0, 0, c, o⟩).mps p).next)
      (fun p => ((s0.set_mp new_mp ⟨0, 0, c, o⟩).mps p).prev)
      (s0.mgrs cpmgr).monitored_procs_head l := by
    refine isRing_frame _ _ _ _ _ _ ?_ ?_ hmon.1
    · intro q hq
      show (Procs.mps _ q).next = _
      rw [set_mp_other _ _ _ _ (hne q hq)]
    · intro q hq
      show (Procs.mps _ q).prev = _
      rw [set_mp_other _ _ _ _ (hne q hq)]
  obtain ⟨s2, e1, e2, e3, e4, e5, e6⟩ := monitor_link_ring _ _ new_mp l hring1 hmpf hmp0
  have hnew : (s2.mps new_mp).child = c ∧ (s2.mps new_mp).owned_by_mgr = o := by
    rw [(e6 new_mp).1, (e6 new_mp).2, set_mp_same]
    exact ⟨rfl, rfl⟩
  have hold : ∀ a ∈ l, (s2.mps a).child = (s0.mps a).child ∧
      (s2.mps a).owned_by_mgr = (s0.mps a).owned_by_mgr := by
    intro a ha
    rw [(e6 a).1, (e6 a).2, set_mp_other _ _ _ _ (hne a (List.mem_cons_of_mem _ ha))]
    exact ⟨rfl, rfl⟩
  refine ⟨s2, e1, ⟨?_, ?_⟩, e3, e5, e4, hold, hnew.1, hnew.2⟩
  · rw [e4]
    exact e2
  · intro a ha
    rcases List.mem_append.mp ha with h | h
    · rw [(hold a h).1]
      exact hmon.2 a h
    · rw [List.mem_singleton.mp h, hnew.1]
      exact hc0

/-- The pids of the old members after an admission that left their child
pointers and the child descriptors they point to alone. -/
theorem pids_after_admission (s s2 : Procs) (l : List Int) (new_mp pid : Int)
    (hold : ∀ a ∈ l, pid_of s2 a = pid_of s a) (hnew : pid_of s2 new_mp = pid) :
    monitored_pids s2 (l ++ [new_mp]) = monitored_pids s l ++ [pid] := by
  unfold monitored_pids
  rw [List.map_append, List.map_singleton, hnew]
  congr 1
  exact List.map_congr_left hold

theorem nodup_snoc (l : List Int) (x : Int) (h : l.Nodup) (hx : x ∉ l) : (l ++ [x]).Nodup := by
  refine List.Nodup.append h (List.nodup_singleton x) ?_
  intro a ha hb
  rw [List.mem_singleton.mp hb] at ha
  exact hx ha

/-! ## C29 -/

/-- C29, as stated, fails for `child_proc_mgr_monitor_child`: on `ex_adopted`,
where the child at 600 (pid 4242) is monitored, adopting the same child again
returns true, not false; the state is unchanged. -/
theorem monitor_child_again_returns_true :
    monitored ex_adopted 500 [520] ∧ monitored_pids ex_adopted [520] = [4242] ∧
    (ex_adopted.children 600).pid = 4242 ∧
    child_proc_mgr_monitor_child 540 4 ex_adopted 500 600 = some (true, ex_adopted) :=
  ⟨by decide, by decide, by decide, rfl⟩

/-- Claim C29, amended.  On a manager whose monitored set is the well-formed
ring `l` with distinct pids: for a pid that is present,
`child_proc_mgr_monitor_pid` returns false and `child_proc_mgr_monitor_child`
returns false unless a monitored record holds the very child descriptor that is
passed, in which case it returns true, and both leave the state as it is; for a
pid that is not present, both link one new record behind the last member and
return true (the allocations succeeding, the pid passed to
`child_proc_mgr_monitor_pid` above 1); the pids of the monitored set stay
distinct. -/
theorem monitor_admission (new_child new_mp : Int) (fuel : Nat) (s : Procs)
    (cpmgr pid fd userdata on_pid_exit child : Int) (l : List Int)
    (hc : cpmgr ≠ 0) (hmon : monitored s cpmgr l) (hnd : (monitored_pids s l).Nodup)
    (hfuel : l.length < fuel) (hpid : 1 < pid) (hchild : child ≠ 0)
    (hnc : new_child ≠ 0) (hncf : ∀ a ∈ l, (s.mps a).child ≠ new_child)
    (hmp0 : new_mp ≠ 0) (hmpf : new_mp ∉ (s.mgrs cpmgr).monitored_procs_head :: l) :
    (pid ∈ monitored_pids s l →
      child_proc_mgr_monitor_pid new_child new_mp fuel s cpmgr pid fd userdata on_pid_exit =
        some (false, s)) ∧
    (pid ∉ monitored_pids s l →
      ∃ s2, child_proc_mgr_monitor_pid new_child new_mp fuel s cpmgr pid fd userdata
          on_pid_exit = some (true, s2) ∧
        monitored s2 cpmgr (l ++ [new_mp]) ∧
        monitored_pids s2 (l ++ [new_mp]) = monitored_pids s l ++ [pid] ∧
        (monitored_pids s2 (l ++ [new_mp])).Nodup ∧
        s2.children new_child = ⟨pid, fd, userdata, on_pid_exit⟩ ∧
        (s2.mps new_mp).child = new_child ∧ (s2.mps new_mp).owned_by_mgr = true) ∧
    ((s.children child).pid ∈ monitored_pids s l →
      ∃ b, child_proc_mgr_monitor_child new_mp fuel s cpmgr child = some (b, s) ∧
        (b = true ↔ ∃ a ∈ l, (s.mps a).child = child)) ∧
    ((s.children child).pid ∉ monitored_pids s l →
      ∃ s2, child_proc_mgr_monitor_child new_mp fuel s cpmgr child = some (true, s2) ∧
        monitored s2 cpmgr (l ++ [new_mp]) ∧
        monitored_pids s2 (l ++ [new_mp]) = monitored_pids s l ++ [(s.children child).pid] ∧
        (monitored_pids s2 (l ++ [new_mp])).Nodup ∧
        s2.children = s.children ∧
        (s2.mps new_mp).child = child ∧ (s2.mps new_mp).owned_by_mgr = false) := by
  have hh0 : (s.mgrs cpmgr).monitored_procs_head ≠ 0 := hmon.1.1
  have hhl : ∀ x ∈ l, x ≠ (s.mgrs cpmgr).monitored_procs_head := by
    intro x hx e
    exact (List.nodup_cons.mp hmon.1.2.1).1 (by rw [← e]; exact hx)
  refine ⟨?_, ?_, ?_, ?_⟩
  · intro hin
    obtain ⟨x, hx, hxl, _⟩ := find_pid_some s pid l hin
    unfold child_proc_mgr_monitor_pid
    rw [if_neg (by rintro (h | h); exact hc h; exact h hpid)]
    simp only []
    rw [if_neg hh0, find_scan_monitored s cpmgr pid l fuel hmon hfuel, hx]
    simp only [Option.getD_some]
    rw [if_pos (hhl x hxl)]
  · intro hout
    have hnone := find_pid_none s pid l hout
    obtain ⟨s2, e1, e2, e3, e4, e5, e6, e7, e8⟩ := admit_tail
      (s.set_child new_child ⟨pid, fd, userdata, on_pid_exit⟩) cpmgr new_mp new_child true l
      hmon hmp0 hmpf hnc
    have hold : ∀ a ∈ l, pid_of s2 a = pid_of s a := by
      intro a ha
      unfold pid_of
      rw [e3, (e6 a ha).1]
      show (Procs.children _ (s.mps a).child).pid = _
      simp [Procs.set_child, hncf a ha]
    have hnew : pid_of s2 new_mp = pid := by
      unfold pid_of
      rw [e3, e7]
      simp [Procs.set_child]
    have hp := pids_after_admission s s2 l new_mp pid hold hnew
    refine ⟨s2, ?_, e2, hp, by rw [hp]; exact nodup_snoc _ _ hnd hout, ?_, e7, e8⟩
    · unfold child_proc_mgr_monitor_pid
      rw [if_neg (by rintro (h | h); exact hc h; exact h hpid)]
      simp only []
      rw [if_neg hh0, find_scan_monitored s cpmgr pid l fuel hmon hfuel, hnone]
      simp only [Option.getD_none, ne_eq, not_true_eq_false, if_false]
      unfold child_proc_init_full monitored_proc_init
      simp only [if_pos hnc, if_neg hnc, if_pos hmp0]
      have e1b : monitor_link
          ((s.set_child new_child ⟨pid, fd, userdata, on_pid_exit⟩).set_mp new_mp
            ⟨0, 0, new_child, true⟩) (s.mgrs cpmgr).monitored_procs_head new_mp = some s2 := e1
      rw [e1b]
      rfl
    · rw [e3]
      simp [Procs.set_child]
  · intro hin
    obtain ⟨x, hx, hxl, hxp⟩ := find_pid_some s _ l hin
    have hx0 : x ≠ 0 := hmon.1.2.2.1 x hxl
    by_cases hsame : (s.mps x).child = child
    · refine ⟨true, ?_, ⟨fun _ => ⟨x, hxl, hsame⟩, fun _ => rfl⟩⟩
      unfold child_proc_mgr_monitor_child
      rw [if_neg (by rintro (h | h); exact hc h; exact hchild h)]
      simp only []
      rw [if_neg hh0, find_scan_monitored s cpmgr _ l fuel hmon hfuel, hx]
      simp only [Option.getD_some]
      rw [if_pos (hhl x hxl), if_neg hx0, if_neg (not_not.mpr hsame)]
    · refine ⟨false, ?_, ?_⟩
      · unfold child_proc_mgr_monitor_child
        rw [if_neg (by rintro (h | h); exact hc h; exact hchild h)]
        simp only []
        rw [if_neg hh0, find_scan_monitored s cpmgr _ l fuel hmon hfuel, hx]
        simp only [Option.getD_some]
        rw [if_pos (hhl x hxl), if_neg hx0, if_pos hsame]
      · constructor
        · intro h
          exact Bool.noConfusion h
        · rintro ⟨a, ha, hac⟩
          exfalso
          have hpa : pid_of s a = pid_of s x := by
            rw [hxp]
            unfold pid_of
            rw [hac]
          have hax : a = x := by
            unfold monitored_pids at hnd
            exact List.inj_on_of_nodup_map hnd ha hxl hpa
          exact hsame (by rw [← hax]; exact hac)
  · intro hout
    have hnone := find_pid_none s _ l hout
    obtain ⟨s2, e1, e2, e3, e4, e5, e6, e7, e8⟩ := admit_tail s cpmgr new_mp child false l
      hmon hmp0 hmpf hchild
    have hold : ∀ a ∈ l, pid_of s2 a = pid_of s a := by
      intro a ha
      unfold pid_of
      rw [e3, (e6 a ha).1]
    have hnew : pid_of s2 new_mp = (s.children child).pid := by
      unfold pid_of
      rw [e3, e7]
    have hp := pids_after_admission s s2 l new_mp _ hold hnew
    refine ⟨s2, ?_, e2, hp, by rw [hp]; exact nodup_snoc _ _ hnd hout, e3, e7, e8⟩
    unfold child_proc_mgr_monitor_child
    rw [if_neg (by rintro (h | h); exact hc h; exact hchild h)]
    simp only []
    rw [if_neg hh0, find_scan_monitored s cpmgr _ l fuel hmon hfuel, hnone]
    simp only [Option.getD_none, ne_eq, not_true_eq_false, if_false]
    unfold monitored_proc_init
    simp only [if_neg hchild, if_pos hmp0]
    rw [e1]
    rfl

/-- Witness for C29 on `ex_adopted`, where the child at 600 (pid 4242) is
monitored through the record at 520: the pid 4242 is refused, the pid 4243 is
admitted behind it, and the child at 600 is present. -/
theorem monitor_admission_witness :
    child_proc_mgr_monitor_pid 610 530 4 ex_adopted 500 4242 (-1) 0 78 =
      some (false, ex_adopted) ∧
    (∃ s2, child_proc_mgr_monitor_pid 610 530 4 ex_adopted 500 4243 (-1) 0 78 =
        some (true, s2) ∧
      monitored s2 500 ([520] ++ [530]) ∧
      monitored_pids s2 ([520] ++ [530]) = monitored_pids ex_adopted [520] ++ [4243] ∧
      (monitored_pids s2 ([520] ++ [530])).Nodup ∧
      s2.children 610 = ⟨4243, -1, 0, 78⟩ ∧
      (s2.mps 530).child = 610 ∧ (s2.mps 530).owned_by_mgr = true) ∧
    (∃ b, child_proc_mgr_monitor_child 530 4 ex_adopted 500 600 = some (b, ex_adopted) ∧
      (b = true ↔ ∃ a ∈ [520], (ex_adopted.mps a).child = 600)) :=
  ⟨(monitor_admission 610 530 4 ex_adopted 500 4242 (-1) 0 78 600 [520] (by decide)
      (by decide) (by decide) (by decide) (by decide) (by decide) (by decide) (by decide)
      (by decide) (by decide)).1 (by decide),
    (monitor_admission 610 530 4 ex_adopted 500 4243 (-1) 0 78 600 [520] (by decide)
      (by decide) (by decide) (by decide) (by decide) (by decide) (by decide) (by decide)
      (by decide) (by decide)).2.1 (by decide),
    (monitor_admission 610 530 4 ex_adopted 500 4243 (-1) 0 78 600 [520] (by decide)
      (by decide) (by decide) (by decide) (by decide) (by decide) (by decide) (by decide)
      (by decide) (by decide)).2.2.1 (by decide)⟩

/-! ## The reap tick -/

/-- The two unlinking writes on a member of a ring: the member is out, the
others keep their order; only links change. -/
theorem monitor_unlink_ring (s : Procs) (head x : Int) (l1 l2 : List Int)
    (hring : isRing (fun p => (s.mps p).next) (fun p => (s.mps p).prev) head (l1 ++ x :: l2)) :
    isRing (fun p => ((monitor_unlink s x).mps p).next)
      (fun p => ((monitor_unlink s x).mps p).prev) head (l1 ++ l2) ∧
    (monitor_unlink s x).children = s.children ∧ (monitor_unlink s x).mgrs = s.mgrs ∧
    (monitor_unlink s x).log = s.log ∧ (monitor_unlink s x).mps x = s.mps x ∧
    (∀ q, ((monitor_unlink s x).mps q).child = (s.mps q).child ∧
      ((monitor_unlink s x).mps q).owned_by_mgr = (s.mps q).owned_by_mgr) := by
  obtain ⟨hx0, _, hp0, hn0, hpx, hnx⟩ := ring_member _ _ _ x l1 l2 hring
  have e1 : ((s.set_mp (s.mps x).prev
      { s.mps (s.mps x).prev with next := (s.mps x).next }).mps x) = s.mps x :=
    set_mp_other _ _ _ _ (fun e => hpx e.symm)
  unfold monitor_unlink
  simp only []
  rw [e1]
  refine ⟨?_, rfl, rfl, rfl, ?_, ?_⟩
  · refine ring_unlink (fun p => (s.mps p).next) (fun p => (s.mps p).prev) _ _
      head x l1 l2 hring ?_ ?_ ?_ ?_
    · show (Procs.mps _ (s.mps x).prev).next = (s.mps x).next
      by_cases hpn : (s.mps x).prev = (s.mps x).next
      · rw [hpn, set_mp_same]
        show (Procs.mps _ (s.mps x).next).next = _
        rw [← hpn, set_mp_same]
      · rw [set_mp_other _ _ _ _ hpn, set_mp_same]
    · intro q hq1 hq2
      show (Procs.mps _ q).next = (s.mps q).next
      by_cases hqn : q = (s.mps x).next
      · rw [hqn, set_mp_same]
        show (Procs.mps _ (s.mps x).next).next = _
        rw [set_mp_other _ _ _ _ (fun e => hq1 (hqn.trans e))]
      · rw [set_mp_other _ _ _ _ hqn, set_mp_other _ _ _ _ hq1]
    · show (Procs.mps _ (s.mps x).next).prev = (s.mps x).prev
      rw [set_mp_same]
    · intro q hq1 hq2
      show (Procs.mps _ q).prev = (s.mps q).prev
      rw [set_mp_other _ _ _ _ hq1]
      by_cases hqp : q = (s.mps x).prev
      · rw [hqp, set_mp_same]
      · rw [set_mp_other _ _ _ _ hqp]
  · rw [set_mp_other _ _ _ _ (fun e => hnx e.symm), set_mp_other _ _ _ _ (fun e => hpx e.symm)]
  · intro q
    by_cases h1 : q = (s.mps x).next
    · rw [h1, set_mp_same]
      simp only []
      by_cases h2 : (s.mps x).next = (s.mps x).prev
      · rw [h2, set_mp_same]
        exact ⟨rfl, rfl⟩
      · rw [set_mp_other _ _ _ _ h2]
        exact ⟨rfl, rfl⟩
    · rw [set_mp_other _ _ _ _ h1]
      by_cases h2 : q = (s.mps x).prev
      · rw [h2, set_mp_same]
        exact ⟨rfl, rfl⟩
      · rw [set_mp_other _ _ _ _ h2]
        exact ⟨rfl, rfl⟩

/-- Lines 317-325 of `on_monitor_timer` on a member of the monitored set, the
callback leaving the state alone: the member is unlinked, the calls of
`exit_events` are recorded, and the other records keep their children. -/
theorem reap_child_spec (env : ProcEnv) (s : Procs) (cpmgr x status : Int) (l1 l2 : List Int)
    (hpure : ∀ c ch st v, env.on_exit c ch st v = v)
    (hmon : monitored s cpmgr (l1 ++ x :: l2)) :
    ∃ s2, reap_child env s x status = some s2 ∧ monitored s2 cpmgr (l1 ++ l2) ∧
      s2.log = s.log ++ exit_events s x status ∧
      s2.children = s.children ∧ s2.mgrs = s.mgrs ∧
      (∀ q, (s2.mps q).child = (s.mps q).child ∧
        (s2.mps q).owned_by_mgr = (s.mps q).owned_by_mgr) := by
  obtain ⟨hx0, _, hp0, hn0, _, _⟩ := ring_member _ _ _ x l1 l2 hmon.1
  have hxc : (s.mps x).child ≠ 0 := hmon.2 x (by simp)
  obtain ⟨u1, u2, u3, u4, u5, u6⟩ := monitor_unlink_ring s _ x l1 l2 hmon.1
  unfold reap_child
  rw [if_neg (by
    rintro (h | h | h)
    · exact hp0 h
    · exact hn0 h
    · exact hxc h)]
  simp only []
  rw [u5, u2]
  generalize monitor_unlink s x = W at u1 u2 u3 u4 u5 u6
  have hmonW : monitored W cpmgr (l1 ++ l2) := by
    refine ⟨by rw [u3]; exact u1, ?_⟩
    intro a ha
    rw [(u6 a).1]
    apply hmon.2 a
    rcases List.mem_append.mp ha with h | h
    · exact List.mem_append_left _ h
    · exact List.mem_append_right _ (List.mem_cons_of_mem x h)
  have hres : monitored_proc_destroy
      (if (s.children (s.mps x).child).on_exit ≠ 0
        then env.on_exit (s.children (s.mps x).child).on_exit (s.mps x).child status
          (W.note (proc_event.on_exit (s.children (s.mps x).child).on_exit (s.mps x).child
            status))
        else W) x =
      some (Procs.mk W.mgrs W.mps W.children (s.log ++ exit_events s x status)) := by
    unfold exit_events monitored_proc_destroy child_proc_destroy
    rw [if_neg hx0]
    by_cases hcb : (s.children (s.mps x).child).on_exit ≠ 0
    · simp only [if_pos hcb, hpure]
      by_cases hown : (s.mps x).owned_by_mgr = true
      · simp [Procs.note, hown, hxc, u5, u4]
      · simp [Procs.note, hown, u5, u4]
    · simp only [if_neg hcb]
      by_cases hown : (s.mps x).owned_by_mgr = true
      · simp [Procs.note, hown, hxc, u5, u4]
      · simp [Procs.note, hown, u5, u4]
  exact ⟨_, hres, hmonW, rfl, u2, u3, u6⟩

theorem tick_log_found (s : Procs) (l : List Int) (w : Int × Int) (rest : List (Int × Int))
    (a : Int) (h : l.find? (fun a => decide (pid_of s a = w.1)) = some a) :
    tick_log s l (w :: rest) = exit_events s a w.2 ++ tick_log s (l.erase a) rest := by
  rw [tick_log, h]

theorem tick_log_skip (s : Procs) (l : List Int) (w : Int × Int) (rest : List (Int × Int))
    (h : l.find? (fun a => decide (pid_of s a = w.1)) = none) :
    tick_log s l (w :: rest) = tick_log s l rest := by
  rw [tick_log, h]

/-- The record of a tick depends on the state only through the children of the
records. -/
theorem tick_log_congr (s s1 : Procs) (hch : s1.children = s.children)
    (hmp : ∀ q, (s1.mps q).child = (s.mps q).child ∧
      (s1.mps q).owned_by_mgr = (s.mps q).owned_by_mgr) (waits : List (Int × Int)) :
    ∀ l, tick_log s1 l waits = tick_log s l waits := by
  have hpid : pid_of s1 = pid_of s := by
    funext a
    unfold pid_of
    rw [hch, (hmp a).1]
  have hex : exit_events s1 = exit_events s := by
    funext a st
    unfold exit_events
    rw [hch, (hmp a).1, (hmp a).2]
  induction waits with
  | nil => intro l; rfl
  | cons w rest ih =>
    intro l
    cases hf : l.find? (fun a => decide (pid_of s a = w.1)) with
    | none =>
      rw [tick_log_skip s l w rest hf, tick_log_skip s1 l w rest (by rw [hpid]; exact hf)]
      exact ih l
    | some a =>
      rw [tick_log_found s l w rest a hf,
        tick_log_found s1 l w rest a (by rw [hpid]; exact hf), hex, ih]

/-- The members that a tick keeps, when the first pid is the pid of the member
`x`. -/
theorem kept_after_reap (f : Int → Int) (l1 l2 : List Int) (x p : Int) (rest : List Int)
    (hnd : ((l1 ++ x :: l2).map f).Nodup) (hx : f x = p) :
    (l1 ++ x :: l2).filter (fun a => decide (f a ∉ p :: rest)) =
      (l1 ++ l2).filter (fun a => decide (f a ∉ rest)) := by
  have hne : ∀ a ∈ l1 ++ l2, f a ≠ p := by
    intro a ha e
    rw [List.map_append, List.map_cons] at hnd
    have h1 := List.nodup_append.mp hnd
    have h2 := List.nodup_cons.mp h1.2.1
    rcases List.mem_append.mp ha with h | h
    · exact h1.2.2 (List.mem_map.mpr ⟨a, h, rfl⟩)
        (by rw [e, ← hx]; exact List.mem_cons_self _ _)
    · exact h2.1 (by rw [hx, ← e]; exact List.mem_map.mpr ⟨a, h, rfl⟩)
  rw [List.filter_append, List.filter_cons, List.filter_append]
  have hxo : ¬ (decide (f x ∉ p :: rest) = true) := by
    simp [hx]
  rw [if_neg hxo]
  congr 1
  · apply List.filter_congr
    intro a ha
    have := hne a (List.mem_append_left _ ha)
    simp [this]
  · apply List.filter_congr
    intro a ha
    have := hne a (List.mem_append_right _ ha)
    simp [this]

/-- The members that a tick keeps, when the first pid is not monitored. -/
theorem kept_after_skip (f : Int → Int) (l : List Int) (p : Int) (rest : List Int)
    (hp : p ∉ l.map f) :
    l.filter (fun a => decide (f a ∉ p :: rest)) = l.filter (fun a => decide (f a ∉ rest)) := by
  apply List.filter_congr
  intro a ha
  have : f a ≠ p := fun e => hp (List.mem_map.mpr ⟨a, ha, e⟩)
  simp [this]

/-- The function `find_monitored_proc` on the monitored set of a manager. -/
theorem find_monitored_proc_spec (fuel : Nat) (s : Procs) (cpmgr pid : Int) (l : List Int)
    (hc : cpmgr ≠ 0) (hpid : 1 < pid) (hmon : monitored s cpmgr l) (hf : l.length < fuel) :
    find_monitored_proc fuel s cpmgr pid =
      some ((l.find? (fun a => decide (pid_of s a = pid))).getD 0) := by
  unfold find_monitored_proc
  rw [if_neg (by
    rintro (h | h | h)
    · exact hc h
    · exact h hpid
    · exact hmon.1.1 h)]
  rw [find_scan_monitored s cpmgr pid l fuel hmon hf]
  cases hfd : l.find? (fun a => decide (pid_of s a = pid)) with
  | none => simp
  | some x =>
    have hxl := List.mem_of_find?_eq_some hfd
    have hxh : x ≠ (s.mgrs cpmgr).monitored_procs_head := by
      intro e
      exact (List.nodup_cons.mp hmon.1.2.1).1 (by rw [← e]; exact hxl)
    simp [hxh]

/-- The loop of `on_monitor_timer` over the outcomes `waits`, all with a pid
above 1, followed by an outcome whose pid is not positive. -/
theorem monitor_loop_spec (env : ProcEnv) (fuel : Nat) (cpmgr : Int) (last : Int × Int)
    (hpure : ∀ c ch st v, env.on_exit c ch st v = v) (hc : cpmgr ≠ 0) (hlast : last.1 ≤ 0) :
    ∀ (waits : List (Int × Int)) (s : Procs) (l : List Int), monitored s cpmgr l →
      (monitored_pids s l).Nodup → (∀ w ∈ waits, 1 < w.1) → l.length < fuel →
      ∃ s2, monitor_loop env fuel cpmgr (waits ++ [last]) s = some s2 ∧
        monitored s2 cpmgr
          (l.filter (fun a => decide (pid_of s a ∉ waits.map Prod.fst))) ∧
        s2.log = s.log ++ tick_log s l waits ∧
        s2.children = s.children ∧ s2.mgrs = s.mgrs ∧
        (∀ q, (s2.mps q).child = (s.mps q).child ∧
          (s2.mps q).owned_by_mgr = (s.mps q).owned_by_mgr) := by
  intro waits
  induction waits with
  | nil =>
    intro s l hmon _ _ _
    obtain ⟨lp, ls⟩ := last
    refine ⟨s, ?_, ?_, ?_, rfl, rfl, fun _ => ⟨rfl, rfl⟩⟩
    · show monitor_loop env fuel cpmgr [(lp, ls)] s = some s
      unfold monitor_loop
      rw [if_neg (by simp at hlast; omega)]
    · simpa using hmon
    · simp [tick_log]
  | cons w rest ih =>
    intro s l hmon hnd hw hf
    obtain ⟨pid, st⟩ := w
    have hpid : 1 < pid := hw (pid, st) (List.mem_cons_self _ _)
    have hrest : ∀ w ∈ rest, 1 < w.1 := fun w h => hw w (List.mem_cons_of_mem _ h)
    show ∃ s2, monitor_loop env fuel cpmgr ((pid, st) :: (rest ++ [last])) s = some s2 ∧ _
    unfold monitor_loop
    rw [if_pos (by omega), find_monitored_proc_spec fuel s cpmgr pid l hc hpid hmon hf]
    simp only []
    by_cases hin : pid ∈ monitored_pids s l
    · obtain ⟨x, hx, hxl, hxp⟩ := find_pid_some s pid l hin
      obtain ⟨l1, l2, hsplit⟩ := List.append_of_mem hxl
      have hx0 : x ≠ 0 := hmon.1.2.2.1 x hxl
      have hndl : l.Nodup := (List.nodup_cons.mp hmon.1.2.1).2
      have hx1 : x ∉ l1 := by
        rw [hsplit] at hndl
        intro h
        exact (List.nodup_append.mp hndl).2.2 h (List.mem_cons_self _ _)
      rw [hx]
      simp only [Option.getD_some]
      rw [if_pos hx0]
      rw [hsplit] at hmon hnd hf
      obtain ⟨s1, r1, r2, r3, r4, r5, r6⟩ := reap_child_spec env s cpmgr x st l1 l2 hpure hmon
      rw [r1]
      simp only []
      have hpid1 : pid_of s1 = pid_of s := by
        funext a
        unfold pid_of
        rw [r4, (r6 a).1]
      have hnd1 : (monitored_pids s1 (l1 ++ l2)).Nodup := by
        unfold monitored_pids at hnd ⊢
        rw [hpid1]
        refine List.Nodup.sublist ?_ hnd
        exact List.Sublist.map _ (List.Sublist.append_left (List.sublist_cons_self x l2) l1)
      obtain ⟨s2, i1, i2, i3, i4, i5, i6⟩ := ih s1 (l1 ++ l2) r2 hnd1 hrest
        (by simp at hf ⊢; omega)
      refine ⟨s2, i1, ?_, ?_, by rw [i4, r4], by rw [i5, r5], ?_⟩
      · rw [hsplit]
        have := kept_after_reap (pid_of s) l1 l2 x pid (rest.map Prod.fst) hnd hxp
        simp only [List.map_cons]
        rw [this, ← hpid1]
        exact i2
      · rw [i3, r3, tick_log_congr s s1 r4 r6 rest, List.append_assoc, hsplit]
        congr 1
        have hfx : List.find? (fun a => decide (pid_of s a = pid)) (l1 ++ x :: l2) = some x := by
          rw [← hsplit]; exact hx
        have her : (l1 ++ x :: l2).erase x = l1 ++ l2 := by
          rw [List.erase_append_right _ hx1, List.erase_cons_head]
        rw [tick_log_found s (l1 ++ x :: l2) (pid, st) rest x hfx, her]
      · intro q
        rw [(i6 q).1, (i6 q).2]
        exact r6 q
    · have hnone := find_pid_none s pid l hin
      rw [hnone]
      simp only [Option.getD_none, ne_eq, not_true_eq_false, if_false]
      obtain ⟨s2, i1, i2, i3, i4, i5, i6⟩ := ih s l hmon hnd hrest hf
      refine ⟨s2, i1, ?_, ?_, i4, i5, i6⟩
      · simp only [List.map_cons]
        rw [kept_after_skip (pid_of s) l pid (rest.map Prod.fst) hin]
        exact i2
      · rw [i3]
        congr 1
        rw [tick_log_skip s l (pid, st) rest hnone]

/-- The `on_exit` calls for the child `c` among the calls of reaping the
record `b`. -/
theorem exit_events_filter (s : Procs) (b st c : Int) :
    (exit_events s b st).filter (is_exit_of c) =
      if (s.mps b).child = c ∧ (s.children (s.mps b).child).on_exit ≠ 0
      then [proc_event.on_exit (s.children (s.mps b).child).on_exit (s.mps b).child st]
      else [] := by
  unfold exit_events
  rw [List.filter_append, List.filter_append]
  have e3 : List.filter (is_exit_of c) [proc_event.free_monitor b] = [] := rfl
  have e2 : List.filter (is_exit_of c)
      (if (s.mps b).owned_by_mgr = true ∧ (s.mps b).child ≠ 0
        then [proc_event.free_child (s.mps b).child] else []) = [] := by
    split_ifs
    · rfl
    · rfl
  rw [e2, e3, List.append_nil, List.append_nil]
  by_cases h1 : (s.children (s.mps b).child).on_exit ≠ 0
  · rw [if_pos h1]
    by_cases h3 : (s.mps b).child = c
    · rw [if_pos ⟨h3, h1⟩]
      simp [List.filter_cons, is_exit_of, h3]
    · rw [if_neg (fun h => h3 h.1)]
      simp [List.filter_cons, is_exit_of, h3]
  · rw [if_neg h1, if_neg (fun h => h1 h.2)]
    rfl

/-- Records with distinct pids have distinct children. -/
theorem children_distinct (s : Procs) (l : List Int) (hnd : (monitored_pids s l).Nodup)
    (a b : Int) (ha : a ∈ l) (hb : b ∈ l) (h : (s.mps a).child = (s.mps b).child) : a = b := by
  unfold monitored_pids at hnd
  apply List.inj_on_of_nodup_map hnd ha hb
  unfold pid_of
  rw [h]

/-- The `on_exit` calls of a tick, child by child: a monitored child gets the
calls of `owed_exit_calls`, and a child that no monitored record holds gets
none. -/
theorem tick_log_exit_calls (s : Procs) (waits : List (Int × Int)) :
    ∀ (l : List Int), l.Nodup → (monitored_pids s l).Nodup →
      (∀ a ∈ l, (tick_log s l waits).filter (is_exit_of (s.mps a).child) =
        owed_exit_calls s a waits) ∧
      (∀ c, (∀ b ∈ l, (s.mps b).child ≠ c) →
        (tick_log s l waits).filter (is_exit_of c) = []) := by
  induction waits with
  | nil =>
    intro l _ _
    exact ⟨fun a _ => rfl, fun c _ => rfl⟩
  | cons w rest ih =>
    intro l hl hnd
    cases hf : l.find? (fun a => decide (pid_of s a = w.1)) with
    | none =>
      obtain ⟨i1, i2⟩ := ih l hl hnd
      rw [tick_log_skip s l w rest hf]
      refine ⟨?_, i2⟩
      intro a ha
      rw [i1 a ha]
      have hne : ¬ (w.1 = pid_of s a) := by
        have := List.find?_eq_none.mp hf a ha
        simp only [decide_eq_true_eq] at this
        exact fun e => this e.symm
      unfold owed_exit_calls first_status
      rw [List.find?_cons_of_neg _ (by simpa using hne)]
    | some b =>
      have hbl : b ∈ l := List.mem_of_find?_eq_some hf
      have hbp : pid_of s b = w.1 := by
        have := List.find?_some hf
        simpa using this
      have hle : (l.erase b).Nodup := List.Nodup.erase b hl
      have hnde : (monitored_pids s (l.erase b)).Nodup := by
        unfold monitored_pids at hnd ⊢
        exact List.Nodup.sublist (List.Sublist.map _ (List.erase_sublist b l)) hnd
      obtain ⟨i1, i2⟩ := ih (l.erase b) hle hnde
      rw [tick_log_found s l w rest b hf]
      refine ⟨?_, ?_⟩
      · intro a ha
        rw [List.filter_append, exit_events_filter]
        by_cases hab : a = b
        · subst hab
          have hgone : ∀ b2 ∈ l.erase a, (s.mps b2).child ≠ (s.mps a).child := by
            intro b2 hb2 e
            have hb2l : b2 ∈ l := List.mem_of_mem_erase hb2
            have := children_distinct s l hnd b2 a hb2l ha e
            rw [this] at hb2
            exact (List.Nodup.mem_erase_iff hl).mp hb2 |>.1 rfl
          rw [i2 _ hgone, List.append_nil]
          unfold owed_exit_calls first_status
          rw [List.find?_cons_of_pos _ (by simpa using hbp.symm)]
          simp
        · have hne : (s.mps b).child ≠ (s.mps a).child :=
            fun e => hab (children_distinct s l hnd a b ha hbl e.symm)
          rw [if_neg (fun h => hne h.1), List.nil_append,
            i1 a ((List.mem_erase_of_ne hab).mpr ha)]
          have hpne : ¬ (w.1 = pid_of s a) := by
            intro e
            apply hab
            unfold monitored_pids at hnd
            exact List.inj_on_of_nodup_map hnd ha hbl (by rw [hbp, e])
          unfold owed_exit_calls first_status
          rw [List.find?_cons_of_neg _ (by simpa using hpne)]
      · intro c hc
        rw [List.filter_append, exit_events_filter, if_neg (fun h => hc b hbl h.1),
          List.nil_append]
        exact i2 c (fun b2 hb2 => hc b2 (List.mem_of_mem_erase hb2))

/-! ## C30 -/

/-- Claim C30: one reap tick `on_monitor_timer` of a manager whose monitored
set is the well-formed ring `l` with distinct pids, the `on_exit` callbacks
leaving the state alone, for the outcomes `waits` (positive pids of children,
so above 1) of the successive waits followed by an outcome that is not
positive.  The tick returns false (not complete).  The records whose pid is
among the outcomes are unlinked; the others stay, in their order, in a
well-formed ring.  The calls are those of `tick_log`, in the order of the
waits: for each outcome whose pid is monitored at that moment the `on_exit`
callback (if set) with that status, then the frees of the record; nothing for
any other pid.  So each child of `l` gets exactly the calls of
`owed_exit_calls` (one call with the status of the first outcome that has its
pid, if the callback is set), and any other child gets none. -/
theorem reap_tick_spec (env : ProcEnv) (waits : List (Int × Int)) (last : Int × Int)
    (fuel : Nat) (s : Procs) (cpmgr errcode : Int) (l : List Int)
    (hpure : ∀ c ch st v, env.on_exit c ch st v = v) (hc : cpmgr ≠ 0)
    (hmon : monitored s cpmgr l) (hnd : (monitored_pids s l).Nodup)
    (hw : ∀ w ∈ waits, 1 < w.1) (hlast : last.1 ≤ 0) (hf : l.length < fuel) :
    ∃ s2, on_monitor_timer env (waits ++ [last]) fuel s cpmgr errcode = some (false, s2) ∧
      monitored s2 cpmgr (l.filter (fun a => decide (pid_of s a ∉ waits.map Prod.fst))) ∧
      s2.log = s.log ++ tick_log s l waits ∧
      (∀ a ∈ l, (tick_log s l waits).filter (is_exit_of (s.mps a).child) =
        owed_exit_calls s a waits) ∧
      (∀ c, (∀ b ∈ l, (s.mps b).child ≠ c) →
        (tick_log s l waits).filter (is_exit_of c) = []) ∧
      s2.children = s.children ∧
      (∀ q, (s2.mps q).child = (s.mps q).child ∧
        (s2.mps q).owned_by_mgr = (s.mps q).owned_by_mgr) := by
  obtain ⟨s2, h1, h2, h3, h4, _, h6⟩ := monitor_loop_spec env fuel cpmgr last hpure hc hlast
    waits s l hmon hnd hw hf
  obtain ⟨c1, c2⟩ := tick_log_exit_calls s waits l (List.nodup_cons.mp hmon.1.2.1).2 hnd
  refine ⟨s2, ?_, h2, h3, c1, c2, h4, h6⟩
  unfold on_monitor_timer
  rw [h1]
  rfl

/-- Witness for C30 on `ex_two_children` (pid 4242 adopted with the callback at
77, pid 4243 owned with the callback at 78): the waits give 4243 with status
1792, the unmonitored 999, 4242 with status 9, and then 0. -/
theorem reap_tick_spec_witness :
    ∃ s2, on_monitor_timer ex_proc_env ([(4243, 1792), (999, 0), (4242, 9)] ++ [(0, 0)]) 4
        ex_two_children 500 0 = some (false, s2) ∧
      monitored s2 500 [] ∧
      s2.log = [proc_event.on_exit 78 610 1792, proc_event.free_child 610,
        proc_event.free_monitor 530, proc_event.on_exit 77 600 9,
        proc_event.free_monitor 520] := by
  obtain ⟨s2, h1, h2, h3, _⟩ := reap_tick_spec ex_proc_env [(4243, 1792), (999, 0), (4242, 9)]
    (0, 0) 4 ex_two_children 500 0 [520, 530] (fun _ _ _ _ => rfl) (by decide) (by decide)
    (by decide) (by decide) (by decide) (by decide)
  exact ⟨s2, h1, h2, h3⟩

/-! ## C31 -/

theorem send_loop_done (sends : List send_outcome) (off tot : Int) (calls : List (Int × Nat)) :
    send_loop sends off 0 tot calls = some (tot, calls) := by
  cases sends <;> simp [send_loop]

theorem send_loop_step (o : send_outcome) (rest : List send_outcome) (off tot : Int) (n : Nat)
    (calls : List (Int × Nat)) (hn : n ≠ 0) :
    send_loop (o :: rest) off n tot calls =
      if o.rv = -1 then
        if o.rv = EAGAIN ∨ o.rv = EINTR then
          send_loop rest off n tot (calls ++ [(off, n)])
        else some (-1, calls ++ [(off, n)])
      else if o.rv = 0 then some (0, calls ++ [(off, n)])
      else
        send_loop rest (off + o.rv) ((((n : Int) - o.rv) % ((SIZE_MAX : Int) + 1)).toNat)
          (tot + o.rv) (calls ++ [(off, n)]) := by
  rw [send_loop, if_neg hn]

/-- A `send` that returns -1 ends the loop with -1, whatever `errno` is: the
retry test compares the value returned, which is -1, with `EAGAIN` and `EINTR`. -/
theorem send_failure_ends (e : Int) (rest : List send_outcome) (off tot : Int) (n : Nat)
    (calls : List (Int × Nat)) (hn : n ≠ 0) :
    send_loop (⟨-1, e⟩ :: rest) off n tot calls = some (-1, calls ++ [(off, n)]) := by
  rw [send_loop_step _ _ _ _ _ _ hn]
  simp only [if_true]
  rw [if_neg (by decide)]

/-- A `send` that returns 0 ends the loop with 0. -/
theorem send_zero_ends (e : Int) (rest : List send_outcome) (off tot : Int) (n : Nat)
    (calls : List (Int × Nat)) (hn : n ≠ 0) :
    send_loop (⟨0, e⟩ :: rest) off n tot calls = some (0, calls ++ [(off, n)]) := by
  rw [send_loop_step _ _ _ _ _ _ hn]
  simp

/-- Sends that each take a positive number of the bytes that are left: the loop
comes, after the calls of `chunk_calls`, to the rest of the outcomes with the
bytes that are still left. -/
theorem send_loop_chunks (chunks : List Nat) (rest : List send_outcome) :
    ∀ (off tot : Int) (n : Nat) (calls : List (Int × Nat)),
      (∀ c ∈ chunks, 0 < c) → chunks.sum ≤ n → n ≤ SIZE_MAX →
      send_loop (chunks.map (fun c => ⟨(c : Int), 0⟩) ++ rest) off n tot calls =
        send_loop rest (off + chunks.sum) (n - chunks.sum) (tot + chunks.sum)
          (calls ++ chunk_calls off n chunks) := by
  induction chunks with
  | nil =>
    intro off tot n calls _ _ _
    simp [chunk_calls]
  | cons c cs ih =>
    intro off tot n calls hpos hsum hmax
    have hc : 0 < c := hpos c (List.mem_cons_self _ _)
    rw [List.sum_cons] at hsum
    have hn : n ≠ 0 := by omega
    rw [List.map_cons, List.cons_append, send_loop_step _ _ _ _ _ _ hn]
    simp only []
    rw [if_neg (by omega), if_neg (by omega)]
    have hrem : ((((n : Int) - (c : Int)) % ((SIZE_MAX : Int) + 1)).toNat) = n - c := by
      have h1 : ((n : Int) - (c : Int)) = ((n - c : Nat) : Int) := by omega
      rw [h1, Int.emod_eq_of_lt (by omega) (by
        have : (n - c : Nat) ≤ SIZE_MAX := by omega
        omega)]
      simp
    rw [hrem, ih (off + c) (tot + c) (n - c) _ (fun x hx => hpos x (List.mem_cons_of_mem _ hx))
      (by omega) (by omega)]
    have e1 : off + (c : Int) + ((cs.sum : Nat) : Int) = off + (((c :: cs).sum : Nat) : Int) := by
      rw [List.sum_cons]; push_cast; ring
    have e2 : tot + (c : Int) + ((cs.sum : Nat) : Int) = tot + (((c :: cs).sum : Nat) : Int) := by
      rw [List.sum_cons]; push_cast; ring
    have e3 : n - c - cs.sum = n - (c :: cs).sum := by
      rw [List.sum_cons]; omega
    rw [e1, e2, e3]
    simp [chunk_calls, List.append_assoc]

/-- The cases of `tcp_send` that the loop gets right, for a valid descriptor,
data and length: sends that take all the bytes give `data_length`; a send that
returns -1 after some of the bytes gives -1 and one that returns 0 gives 0; in
each case the calls were given exactly the bytes not yet sent. -/
theorem send_good_cases (chunks : List Nat) (rest : List send_outcome) (sockfd data e : Int)
    (n : Nat) (hfd : sockfd ≠ INVALID_SOCKET_FD) (hd : data ≠ 0) (hn : n ≠ 0)
    (hpos : ∀ c ∈ chunks, 0 < c) (hmax : n ≤ SIZE_MAX) :
    (chunks.sum = n →
      tcp_send (chunks.map (fun c => ⟨(c : Int), 0⟩) ++ rest) sockfd data n =
        some ((n : Int), chunk_calls 0 n chunks)) ∧
    (chunks.sum < n →
      tcp_send (chunks.map (fun c => ⟨(c : Int), 0⟩) ++ ⟨-1, e⟩ :: rest) sockfd data n =
        some (-1, chunk_calls 0 n chunks ++ [((chunks.sum : Int), n - chunks.sum)])) ∧
    (chunks.sum < n →
      tcp_send (chunks.map (fun c => ⟨(c : Int), 0⟩) ++ ⟨0, e⟩ :: rest) sockfd data n =
        some (0, chunk_calls 0 n chunks ++ [((chunks.sum : Int), n - chunks.sum)])) := by
  have hv : sockfd ≠ INVALID_SOCKET_FD ∧ data ≠ 0 ∧ n ≠ 0 := ⟨hfd, hd, hn⟩
  unfold tcp_send
  refine ⟨fun h => ?_, fun h => ?_, fun h => ?_⟩
  · rw [if_pos hv, send_loop_chunks chunks rest 0 0 n [] hpos (by omega) hmax, h, Nat.sub_self,
      send_loop_done]
    simp
  · rw [if_pos hv, send_loop_chunks chunks _ 0 0 n [] hpos (by omega) hmax,
      send_failure_ends e rest _ _ _ _ (by omega)]
    simp
  · rw [if_pos hv, send_loop_chunks chunks _ 0 0 n [] hpos (by omega) hmax,
      send_zero_ends e rest _ _ _ _ (by omega)]
    simp

/-- Claim C31 on the code: `tcp_send` of 5 bytes on the descriptor 20 whose
first `send` fails with `EAGAIN` (or `EINTR`) while the next one would take all
5 bytes.  The call returns -1 after the one failed `send`, which it does not
retry.  With an invalid descriptor, null data or length zero nothing is sent
and 0 is returned. -/
theorem send_eagain_is_not_retried :
    tcp_send [⟨-1, EAGAIN⟩, ⟨5, 0⟩] 20 900 5 = some (-1, [(0, 5)]) ∧
    tcp_send [⟨-1, EINTR⟩, ⟨5, 0⟩] 20 900 5 = some (-1, [(0, 5)]) ∧
    tcp_send [⟨5, 0⟩] 20 900 5 = some (5, [(0, 5)]) ∧
    tcp_send [⟨5, 0⟩] INVALID_SOCKET_FD 900 5 = some (0, []) ∧
    tcp_send [⟨5, 0⟩] 20 0 5 = some (0, []) ∧
    tcp_send [⟨5, 0⟩] 20 900 0 = some (0, []) :=
  ⟨rfl, rfl, rfl, rfl, rfl, rfl⟩

/-! ## Processing a task with a real descriptor -/

theorem dir_done_eq (env : CbkEnv) (m : Machine) (a : Int) (ready : Bool) (cbk : Int) :
    dir_done env m a ready cbk =
      if ready then (env cbk a IO_SCHEDULER_ERR_NONE m).1
      else if task_expired m.now (m.tasks a)
      then (env (m.tasks a).on_timeout_cbk a IO_SCHEDULER_ERR_OP_TIMEOUT m).1
      else false := by
  unfold dir_done dir_call
  split_ifs <;> simp

/-- The error-ready check with callbacks that leave the machine alone. -/
theorem process_error_io (env : CbkEnv) (hpure : env_pure env) (s : proc) (a : Int)
    (hok : task_ok s.m.sched_at (s.m.tasks a)) :
    ∃ s2, process_error env s a = some s2 ∧ s2.m = s.m ∧ s2.rv = s.rv ∧
      s2.rds = s.rds ∧ s2.wrs = s.wrs ∧
      s2.ers = (if S_IOSCHED_OPTS_ERROR (s.m.tasks a) && s.ers (s.m.tasks a).fd
        then FD_CLR (s.m.tasks a).fd s.ers else s.ers) ∧
      s2.calls = s.calls ++
        (if S_IOSCHED_OPTS_ERROR (s.m.tasks a) && s.ers (s.m.tasks a).fd
          then [⟨(s.m.tasks a).on_err_rdy_cbk, a, IO_SCHEDULER_ERR_NONE⟩] else []) := by
  unfold process_error
  simp only []
  split_ifs with h
  · have hcb : (s.m.tasks a).on_err_rdy_cbk ≠ 0 := by
      apply hok.2.2.2.1
      simp only [Bool.and_eq_true] at h
      exact h.1
    rw [call_cbk_pure env hpure s _ _ _ hcb]
    exact ⟨_, rfl, rfl, rfl, rfl, rfl, rfl, rfl⟩
  · exact ⟨_, rfl, rfl, rfl, rfl, rfl, rfl, by simp⟩

/-- The read-ready check with callbacks that leave the machine alone. -/
theorem process_read_io (env : CbkEnv) (hpure : env_pure env) (s : proc) (a : Int)
    (hok : task_ok s.m.sched_at (s.m.tasks a)) :
    ∃ s2, process_read env (task_expired s.m.now (s.m.tasks a)) s a = some s2 ∧ s2.m = s.m ∧
      s2.rv = (if S_IOSCHED_OPTS_READ (s.m.tasks a)
        then s.rv && dir_done env s.m a (s.rds (s.m.tasks a).fd) (s.m.tasks a).on_read_rdy_cbk
        else s.rv) ∧
      s2.rds = (if S_IOSCHED_OPTS_READ (s.m.tasks a) && s.rds (s.m.tasks a).fd
        then FD_CLR (s.m.tasks a).fd s.rds else s.rds) ∧
      s2.wrs = s.wrs ∧ s2.ers = s.ers ∧
      s2.calls = s.calls ++
        (if S_IOSCHED_OPTS_READ (s.m.tasks a) && s.rv
          then dir_call s.m a (s.rds (s.m.tasks a).fd) (s.m.tasks a).on_read_rdy_cbk
          else []) := by
  unfold process_read
  simp only [dir_done_eq, dir_call]
  cases hR : S_IOSCHED_OPTS_READ (s.m.tasks a) with
  | false =>
    simp only [Bool.false_eq_true, if_false, Bool.false_and]
    exact ⟨_, rfl, rfl, rfl, rfl, rfl, rfl, by simp⟩
  | true =>
    have hcb : (s.m.tasks a).on_read_rdy_cbk ≠ 0 := hok.2.1 hR
    cases hrd : s.rds (s.m.tasks a).fd with
    | true =>
      cases hrv : s.rv with
      | true =>
        simp only [if_true, Bool.true_and, call_cbk_pure env hpure s _ _ _ hcb]
        exact ⟨_, rfl, rfl, rfl, rfl, rfl, rfl, rfl⟩
      | false =>
        simp only [if_true, Bool.false_eq_true, if_false, Bool.true_and, Bool.false_and,
          Bool.and_false]
        exact ⟨_, rfl, rfl, rfl, rfl, rfl, rfl, by simp⟩
    | false =>
      cases hex : task_expired s.m.now (s.m.tasks a) with
      | true =>
        have htc : (s.m.tasks a).on_timeout_cbk ≠ 0 :=
          hok.2.2.2.2.1 (task_expired_timeout _ _ hex)
        cases hrv : s.rv with
        | true =>
          simp only [if_true, Bool.false_eq_true, if_false, Bool.true_and, Bool.and_false,
            call_cbk_pure env hpure s _ _ _ htc]
          exact ⟨_, rfl, rfl, rfl, rfl, rfl, rfl, rfl⟩
        | false =>
          simp only [if_true, Bool.false_eq_true, if_false, Bool.true_and, Bool.false_and,
            Bool.and_false]
          exact ⟨_, rfl, rfl, hrv, rfl, rfl, rfl, by simp⟩
      | false =>
        simp only [if_true, Bool.false_eq_true, if_false, Bool.true_and, Bool.and_false]
        refine ⟨_, rfl, rfl, rfl, rfl, rfl, rfl, ?_⟩
        cases s.rv <;> simp

/-- The write-ready check with callbacks that leave the machine alone. -/
theorem process_write_io (env : CbkEnv) (hpure : env_pure env) (s : proc) (a : Int)
    (hok : task_ok s.m.sched_at (s.m.tasks a)) :
    ∃ s2, process_write env (task_expired s.m.now (s.m.tasks a)) s a = some s2 ∧ s2.m = s.m ∧
      s2.rv = (if S_IOSCHED_OPTS_WRITE (s.m.tasks a)
        then s.rv && dir_done env s.m a (s.wrs (s.m.tasks a).fd) (s.m.tasks a).on_write_rdy_cbk
        else s.rv) ∧
      s2.wrs = (if S_IOSCHED_OPTS_WRITE (s.m.tasks a) && s.wrs (s.m.tasks a).fd
        then FD_CLR (s.m.tasks a).fd s.wrs else s.wrs) ∧
      s2.rds = s.rds ∧ s2.ers = s.ers ∧
      s2.calls = s.calls ++
        (if S_IOSCHED_OPTS_WRITE (s.m.tasks a) && s.rv
          then dir_call s.m a (s.wrs (s.m.tasks a).fd) (s.m.tasks a).on_write_rdy_cbk
          else []) := by
  unfold process_write
  simp only [dir_done_eq, dir_call]
  cases hR : S_IOSCHED_OPTS_WRITE (s.m.tasks a) with
  | false =>
    simp only [Bool.false_eq_true, if_false, Bool.false_and]
    exact ⟨_, rfl, rfl, rfl, rfl, rfl, rfl, by simp⟩
  | true =>
    have hcb : (s.m.tasks a).on_write_rdy_cbk ≠ 0 := hok.2.2.1 hR
    cases hrd : s.wrs (s.m.tasks a).fd with
    | true =>
      cases hrv : s.rv with
      | true =>
        simp only [if_true, Bool.true_and, call_cbk_pure env hpure s _ _ _ hcb]
        exact ⟨_, rfl, rfl, rfl, rfl, rfl, rfl, rfl⟩
      | false =>
        simp only [if_true, Bool.false_eq_true, if_false, Bool.true_and, Bool.false_and,
          Bool.and_false]
        exact ⟨_, rfl, rfl, rfl, rfl, rfl, rfl, by simp⟩
    | false =>
      cases hex : task_expired s.m.now (s.m.tasks a) with
      | true =>
        have htc : (s.m.tasks a).on_timeout_cbk ≠ 0 :=
          hok.2.2.2.2.1 (task_expired_timeout _ _ hex)
        cases hrv : s.rv with
        | true =>
          simp only [if_true, Bool.false_eq_true, if_false, Bool.true_and, Bool.and_false,
            call_cbk_pure env hpure s _ _ _ htc]
          exact ⟨_, rfl, rfl, rfl, rfl, rfl, rfl, rfl⟩
        | false =>
          simp only [if_true, Bool.false_eq_true, if_false, Bool.true_and, Bool.false_and,
            Bool.and_false]
          exact ⟨_, rfl, rfl, hrv, rfl, rfl, rfl, by simp⟩
      | false =>
        simp only [if_true, Bool.false_eq_true, if_false, Bool.true_and, Bool.and_false]
        refine ⟨_, rfl, rfl, rfl, rfl, rfl, rfl, ?_⟩
        cases s.rv <;> simp

/-- The function `io_sched_process_task` on a well-formed task with a real
descriptor, the callbacks leaving the machine alone: the result, the calls and
the descriptor sets.  The error callback is called when the task carries Error
and the descriptor is error-ready; the call owed to Read is made when the task
carries Read; the call owed to Write is made when the task carries Write and
`rv` is still true after the read-ready check. -/
theorem process_task_io (env : CbkEnv) (hpure : env_pure env) (m : Machine) (a : Int)
    (rds wrs ers : Int → Bool) (hfd : (m.tasks a).fd > INVALID_GENERAL_FD)
    (hok : task_ok m.sched_at (m.tasks a)) :
    ∃ st, io_sched_process_task env m a rds wrs ers = some st ∧ st.m = m ∧
      st.rv = (read_done env m a rds && write_done env m a wrs) ∧
      st.calls =
        (if S_IOSCHED_OPTS_ERROR (m.tasks a) && ers (m.tasks a).fd
          then [⟨(m.tasks a).on_err_rdy_cbk, a, IO_SCHEDULER_ERR_NONE⟩] else []) ++
        (if S_IOSCHED_OPTS_READ (m.tasks a)
          then dir_call m a (rds (m.tasks a).fd) (m.tasks a).on_read_rdy_cbk else []) ++
        (if S_IOSCHED_OPTS_WRITE (m.tasks a) && read_done env m a rds
          then dir_call m a (wrs (m.tasks a).fd) (m.tasks a).on_write_rdy_cbk else []) ∧
      st.rds = (if S_IOSCHED_OPTS_READ (m.tasks a) && rds (m.tasks a).fd
        then FD_CLR (m.tasks a).fd rds else rds) ∧
      st.wrs = (if S_IOSCHED_OPTS_WRITE (m.tasks a) && wrs (m.tasks a).fd
        then FD_CLR (m.tasks a).fd wrs else wrs) ∧
      st.ers = (if S_IOSCHED_OPTS_ERROR (m.tasks a) && ers (m.tasks a).fd
        then FD_CLR (m.tasks a).fd ers else ers) := by
  unfold io_sched_process_task
  simp only []
  rw [if_pos hfd]
  obtain ⟨s1, e1, m1, v1, r1, w1, x1, c1⟩ := process_error_io env hpure
    { rv := true, m := m, rds := rds, wrs := wrs, ers := ers, calls := [] } a hok
  rw [e1]
  simp only [] at m1 v1 r1 w1 x1 c1 ⊢
  obtain ⟨s2, e2, m2, v2, r2, w2, x2, c2⟩ := process_read_io env hpure s1 a
    (by rw [m1]; exact hok)
  rw [m1] at e2 v2 r2 c2
  rw [e2]
  simp only []
  obtain ⟨s3, e3, m3, v3, w3, r3, x3, c3⟩ := process_write_io env hpure s2 a
    (by rw [m2, m1]; exact hok)
  rw [m2, m1] at e3 v3 w3 c3
  rw [v1, r1] at v2
  rw [r1] at r2
  rw [v1, r1, c1] at c2
  rw [w2, w1, v2] at v3
  rw [w2, w1] at w3
  rw [v2, w2, w1, c2] at c3
  refine ⟨s3, e3, by rw [m3, m2, m1], ?_, ?_, by rw [r3, r2], w3, by rw [x3, x2, x1]⟩
  · rw [v3]
    unfold read_done write_done
    cases S_IOSCHED_OPTS_READ (m.tasks a) <;> cases S_IOSCHED_OPTS_WRITE (m.tasks a) <;> simp
  · rw [c3]
    unfold read_done
    cases S_IOSCHED_OPTS_READ (m.tasks a) <;> simp

/-! ## C32 -/

/-- C32, as stated, fails: the task of `ex_reader_err_live` carries Read and
Error; on a descriptor that is read-ready and not error-ready, with a read
callback that returns true, `io_sched_process_task` reports completion although
the error callback (at 89) was not invoked: the one call is the read callback. -/
theorem completion_without_error_callback :
    ∃ st, io_sched_process_task ex_env_true ex_reader_err_live ex_reader_err.1 ex_set5
        ex_set_none ex_set_none = some st ∧
      st.rv = true ∧
      S_IOSCHED_OPTS_ERROR (ex_reader_err_live.tasks ex_reader_err.1) = true ∧
      (ex_reader_err_live.tasks ex_reader_err.1).on_err_rdy_cbk = 89 ∧
      st.calls = [⟨88, ex_reader_err.1, IO_SCHEDULER_ERR_NONE⟩] :=
  ⟨_, rfl, rfl, by decide, by decide, by decide⟩

/-- Claim C32, amended: `io_sched_process_task` on a well-formed task with a
real descriptor, the callbacks leaving the machine alone.  It reports
completion exactly when each of Read and Write that the task carries had the
call owed to it (the callback of the direction on a ready descriptor, or else
the timeout callback on an expired task) and that call returned true.  The
Error option plays no part in the result: its callback is called, first, when
the descriptor is error-ready, and not otherwise; the call owed to Write is
made only when the result is still true after the read-ready check.  In the dispatch pass of a running scheduler the
task is unscheduled when completion is reported, and otherwise the machine,
and so the task and its flags, are left as they are. -/
theorem process_task_completion (env : CbkEnv) (m : Machine) (a : Int)
    (rds wrs ers : Int → Bool) (hpure : env_pure env)
    (hfd : (m.tasks a).fd > INVALID_GENERAL_FD) (hok : task_ok m.sched_at (m.tasks a)) :
    ∃ st, io_sched_process_task env m a rds wrs ers = some st ∧ st.m = m ∧
      (st.rv = true ↔
        (S_IOSCHED_OPTS_READ (m.tasks a) = true →
          dir_done env m a (rds (m.tasks a).fd) (m.tasks a).on_read_rdy_cbk = true) ∧
        (S_IOSCHED_OPTS_WRITE (m.tasks a) = true →
          dir_done env m a (wrs (m.tasks a).fd) (m.tasks a).on_write_rdy_cbk = true)) ∧
      st.calls =
        (if S_IOSCHED_OPTS_ERROR (m.tasks a) && ers (m.tasks a).fd
          then [⟨(m.tasks a).on_err_rdy_cbk, a, IO_SCHEDULER_ERR_NONE⟩] else []) ++
        (if S_IOSCHED_OPTS_READ (m.tasks a)
          then dir_call m a (rds (m.tasks a).fd) (m.tasks a).on_read_rdy_cbk else []) ++
        (if S_IOSCHED_OPTS_WRITE (m.tasks a) && read_done env m a rds
          then dir_call m a (wrs (m.tasks a).fd) (m.tasks a).on_write_rdy_cbk else []) ∧
      (m.sched.stop_scheduler = false → S_IOSCHED_OPTS_REMOVE (m.tasks a) = false →
        ∃ r, dispatch_list env [a] m rds wrs ers = some r ∧ r.calls = st.calls ∧
          r.m = (if st.rv then io_sched_unschedule_task m a else m)) := by
  obtain ⟨st, h1, h2, h3, h4, _, _, _⟩ := process_task_io env hpure m a rds wrs ers hfd hok
  refine ⟨st, h1, h2, ?_, h4, ?_⟩
  · rw [h3]
    unfold read_done write_done
    cases S_IOSCHED_OPTS_READ (m.tasks a) <;> cases S_IOSCHED_OPTS_WRITE (m.tasks a) <;> simp
  · intro hs hr
    rw [dispatch_list_single, if_neg (by rw [hs, hr]; simp), h1]
    refine ⟨_, rfl, rfl, ?_⟩
    simp only [h2]

/-- Witness for C32 on the task of `ex_reader_err_live`, with the descriptor
read-ready and the callbacks returning true. -/
theorem process_task_completion_witness :
    ∃ st, io_sched_process_task ex_env_true ex_reader_err_live ex_reader_err.1 ex_set5
        ex_set_none ex_set_none = some st ∧
      st.m = ex_reader_err_live ∧ st.rv = true ∧
      ∃ r, dispatch_list ex_env_true [ex_reader_err.1] ex_reader_err_live ex_set5 ex_set_none
          ex_set_none = some r ∧ r.calls = st.calls ∧
        r.m = (if st.rv then io_sched_unschedule_task ex_reader_err_live ex_reader_err.1
          else ex_reader_err_live) := by
  obtain ⟨st, h1, h2, h3, _, h5⟩ := process_task_completion ex_env_true ex_reader_err_live
    ex_reader_err.1 ex_set5 ex_set_none ex_set_none (fun _ _ _ _ => rfl) (by decide) (by decide)
  exact ⟨st, h1, h2, h3.mpr ⟨fun _ => by decide, fun h => absurd h (by decide)⟩,
    h5 (by decide) (by decide)⟩

/-! ## C33 -/

/-- Claim C33 on the code: the task of `ex_duplex_live` carries Read and Write
on descriptor 5 and has no timeout.  With the descriptor write-ready and not
read-ready, `io_sched_process_task` invokes nothing: the write callback (at 89)
is not called although the descriptor is in the write set, and the descriptor
is cleared from the write set all the same.  The same happens when the
descriptor is ready for both and the read callback returns false: the read
callback is the only call. -/
theorem write_ready_without_callback :
    S_IOSCHED_OPTS_READ (ex_duplex_live.tasks ex_duplex.1) = true ∧
    S_IOSCHED_OPTS_WRITE (ex_duplex_live.tasks ex_duplex.1) = true ∧
    (ex_duplex_live.tasks ex_duplex.1).fd = 5 ∧
    (ex_duplex_live.tasks ex_duplex.1).on_write_rdy_cbk = 89 ∧
    (∃ st, io_sched_process_task ex_env_true ex_duplex_live ex_duplex.1 ex_set_none ex_set5
        ex_set_none = some st ∧
      st.rv = false ∧ st.calls = [] ∧ st.wrs 5 = false) ∧
    (∃ st, io_sched_process_task ex_env_false ex_duplex_live ex_duplex.1 ex_set5 ex_set5
        ex_set_none = some st ∧
      st.rv = false ∧ st.calls = [⟨88, ex_duplex.1, IO_SCHEDULER_ERR_NONE⟩] ∧
      st.wrs 5 = false) :=
  ⟨by decide, by decide, by decide, by decide, ⟨_, rfl, rfl, by decide, by decide⟩,
    ⟨_, rfl, rfl, by decide, by decide⟩⟩

/-- The part of C33 that the code keeps: for a well-formed task with a real
descriptor and callbacks that leave the machine alone, the call owed to Read is
made whenever the task carries Read, and the call owed to Write is made when
the task carries Write and the result is still true after the read-ready check
(so always for a task that does not carry Read); a ready descriptor is cleared
from the set of the direction. -/
theorem directions_served (env : CbkEnv) (m : Machine) (a : Int)
    (rds wrs ers : Int → Bool) (hpure : env_pure env)
    (hfd : (m.tasks a).fd > INVALID_GENERAL_FD) (hok : task_ok m.sched_at (m.tasks a)) :
    ∃ st, io_sched_process_task env m a rds wrs ers = some st ∧
      st.calls =
        (if S_IOSCHED_OPTS_ERROR (m.tasks a) && ers (m.tasks a).fd
          then [⟨(m.tasks a).on_err_rdy_cbk, a, IO_SCHEDULER_ERR_NONE⟩] else []) ++
        (if S_IOSCHED_OPTS_READ (m.tasks a)
          then dir_call m a (rds (m.tasks a).fd) (m.tasks a).on_read_rdy_cbk else []) ++
        (if S_IOSCHED_OPTS_WRITE (m.tasks a) && read_done env m a rds
          then dir_call m a (wrs (m.tasks a).fd) (m.tasks a).on_write_rdy_cbk else []) ∧
      (S_IOSCHED_OPTS_READ (m.tasks a) = true → rds (m.tasks a).fd = true →
        st.rds (m.tasks a).fd = false) ∧
      (S_IOSCHED_OPTS_WRITE (m.tasks a) = true → wrs (m.tasks a).fd = true →
        st.wrs (m.tasks a).fd = false) ∧
      (S_IOSCHED_OPTS_READ (m.tasks a) = true → rds (m.tasks a).fd = false →
        task_expired m.now (m.tasks a) = false → st.rv = false) ∧
      (S_IOSCHED_OPTS_WRITE (m.tasks a) = true → wrs (m.tasks a).fd = false →
        task_expired m.now (m.tasks a) = false → st.rv = false) := by
  obtain ⟨st, h1, _, h3, h4, h5, h6, _⟩ := process_task_io env hpure m a rds wrs ers hfd hok
  refine ⟨st, h1, h4, ?_, ?_, ?_, ?_⟩
  · intro hR hr
    rw [h5, hR, hr]
    simp [FD_CLR]
  · intro hW hw
    rw [h6, hW, hw]
    simp [FD_CLR]
  · intro hR hr he
    rw [h3]
    unfold read_done
    rw [hR, dir_done_eq, hr, he]
    simp
  · intro hW hw he
    rw [h3]
    unfold write_done
    rw [hW, dir_done_eq, hw, he]
    simp

/-! ## C34 -/

/-- Claim C34: the coalescing pass of a pump iteration on a running scheduler
whose live list is the non-empty sequence `l` of tasks of this scheduler, the
pools having room for what is destroyed.  The pass returns; the live list is
then `l` without the tasks that were flagged Remove and had a descriptor other
than `INVALID_GENERAL_FD`, the others in their order; the slots of the tasks
taken out are on the task pool (and zeroed) and the pseudo-ids of those with a
descriptor below `INVALID_GENERAL_FD` are on the timer pool; a task flagged
Remove on the descriptor `INVALID_GENERAL_FD` is kept.  The iteration goes on
from this machine. -/
theorem coalescing_pass_spec (fuel : Nat) (env : CbkEnv) (sel : select_result) (m : Machine)
    (l : List Int)
    (hl : isList m.tasks m.sched.scheduled_tasks l) (hne : l ≠ [])
    (hstop : m.sched.stop_scheduler = false)
    (hown : ∀ a ∈ l, (m.tasks a).owner = m.sched_at)
    (hr : room (fun a => (m.tasks a).fd) m (reaped m l)) (hfuel : l.length < fuel) :
    ∃ m1 fs, reap_pass fuel m = some (m1, fs) ∧
      isList m1.tasks m1.sched.scheduled_tasks (survivors m l) ∧
      survivors m l = l.filter (fun a =>
        !(S_IOSCHED_OPTS_REMOVE (m.tasks a) && (m.tasks a).fd != INVALID_GENERAL_FD)) ∧
      reaped m l = l.filter (fun a =>
        S_IOSCHED_OPTS_REMOVE (m.tasks a) && (m.tasks a).fd != INVALID_GENERAL_FD) ∧
      stack_contents m1.sched.task_pool =
        (reaped m l).reverse ++ stack_contents m.sched.task_pool ∧
      stack_contents m1.sched.timer_id_pool =
        (((reaped m l).filter (fun a => decide ((m.tasks a).fd < INVALID_GENERAL_FD))).map
          (fun a => (m.tasks a).fd)).reverse ++ stack_contents m.sched.timer_id_pool ∧
      (∀ a ∈ reaped m l, m1.tasks a = zero_task) ∧
      (∀ a ∈ survivors m l, ∃ k, m1.tasks a = { m.tasks a with next := k }) ∧
      (∀ a ∈ l, (m.tasks a).fd = INVALID_GENERAL_FD → a ∈ survivors m l) ∧
      inl_io_sched_pump fuel env sel m =
        (if sel.failed then some ({ m1 with now := sel.now }, [])
         else dispatch_loop env fuel { m1 with now := sel.now } m1.sched.scheduled_tasks
           (fun fd => fs.rd fd && sel.rd fd) (fun fd => fs.wr fd && sel.wr fd)
           (fun fd => fs.er fd && sel.er fd)) := by
  obtain ⟨m1, fs, r1, r2, r3, r4, _, _⟩ := reap_pass_spec m l fuel hl hown hr hfuel
  have hh : m.sched.scheduled_tasks ≠ 0 := by
    cases l with
    | nil => exact absurd rfl hne
    | cons a l => obtain ⟨e, ne, _⟩ := hl; rw [e]; exact ne
  have hs1 : m1.sched.stop_scheduler = false := by rw [r3.2.2.2.2.2.2.1, hstop]
  refine ⟨m1, fs, r1, r2, rfl, rfl, r3.1, r3.2.2.2.1, r3.2.2.2.2.2.2.2.2.2.2, r4, ?_, ?_⟩
  · intro a ha hfd
    unfold survivors
    refine List.mem_filter.mpr ⟨ha, ?_⟩
    unfold reapable
    rw [hfd]
    simp
  · unfold inl_io_sched_pump
    rw [if_neg (fun h => hh h.1), if_pos ⟨hh, by rw [hstop]; rfl⟩, r1]
    simp only [hs1, Bool.not_false, if_true]

/-- Witness for C34 on the pool example, after `io_sched_unschedule_task` on
the first of its two reader tasks: the pass takes that task out and leaves the
second. -/
theorem coalescing_pass_spec_witness :
    ∃ m1 fs, reap_pass 4 (io_sched_unschedule_task ex_pool_full ex_reader_a.1) = some (m1, fs) ∧
      isList m1.tasks m1.sched.scheduled_tasks [ex_reader_b.1] ∧
      stack_contents m1.sched.task_pool = [ex_reader_a.1] ∧
      m1.tasks ex_reader_a.1 = zero_task := by
  obtain ⟨m1, fs, h1, h2, _, _, h5, _, h7, _⟩ := coalescing_pass_spec 4 ex_env_true
    ex_select_idle (io_sched_unschedule_task ex_pool_full ex_reader_a.1)
    [ex_reader_a.1, ex_reader_b.1] (by decide) (by decide) (by decide) (by decide) (by decide)
    (by decide)
  exact ⟨m1, fs, h1, h2, h5, h7 ex_reader_a.1 (by decide)⟩

/-! ## The descriptor sets of the pump -/

/-- Claim C36 on the code.  The reader task of `ex_reader0_live` was created
with a timeout of 0, so it carries Read and not Timer, and was admitted by
`io_sched_schedule_task`; its expiry time was never computed.  When its
descriptor is not ready, `io_sched_process_task` finds it expired and invokes
its timeout callback (the reader callback, at 88) with
`IO_SCHEDULER_ERR_OP_TIMEOUT`.  The task of `ex_untimed_live` asked for Timer
without a timeout callback, so admission cleared Timer; when its descriptor is
not ready `io_sched_process_task` calls through the null timeout callback, a
fault. -/
theorem timeout_callback_without_timer :
    isList ex_reader0_live.tasks ex_reader0_live.sched.scheduled_tasks [ex_reader0.1] ∧
    S_IOSCHED_OPTS_TIMER (ex_reader0_live.tasks ex_reader0.1) = false ∧
    S_IOSCHED_OPTS_REMOVE (ex_reader0_live.tasks ex_reader0.1) = false ∧
    (ex_reader0_live.tasks ex_reader0.1).expire_time = ⟨0, 0⟩ ∧
    (∃ st, io_sched_process_task ex_env_true ex_reader0_live ex_reader0.1 ex_set_none
        ex_set_none ex_set_none = some st ∧
      st.calls = [⟨88, ex_reader0.1, IO_SCHEDULER_ERR_OP_TIMEOUT⟩] ∧ st.rv = true) ∧
    isList ex_untimed_live.tasks ex_untimed_live.sched.scheduled_tasks [ex_untimed.1] ∧
    S_IOSCHED_OPTS_TIMER (ex_untimed.2.tasks ex_untimed.1) = true ∧
    S_IOSCHED_OPTS_TIMER (ex_untimed_live.tasks ex_untimed.1) = false ∧
    S_IOSCHED_OPTS_REMOVE (ex_untimed_live.tasks ex_untimed.1) = false ∧
    (ex_untimed_live.tasks ex_untimed.1).on_timeout_cbk = 0 ∧
    io_sched_process_task ex_env_true ex_untimed_live ex_untimed.1 ex_set_none ex_set_none
      ex_set_none = none :=
  ⟨by decide, by decide, by decide, by decide, ⟨_, rfl, by decide, rfl⟩, by decide, by decide,
    by decide, by decide, by decide, rfl⟩

/-- The test that `io_sched_process_task` makes before a timeout callback: it
reads the timeout and the expiry time of the task and not its options. -/
theorem task_expired_ignores_opts (now : timespec) (t : io_scheduler_task) (o : Nat) :
    task_expired now { t with opts := o } = task_expired now t := rfl

/-! ## C37 -/

/-- A call of `io_sched_create_timer_task` on a scheduler whose timer-id pool is
empty returns no task and leaves the machine as it was. -/
theorem create_timer_task_no_id (m : Machine) (time_out user_data cbk : Int)
    (h : stack_fixed_size m.sched.timer_id_pool = 0) :
    io_sched_create_timer_task m time_out user_data cbk = (0, m) := by
  have h1 : ¬ m.sched.timer_id_pool.current < m.sched.timer_id_pool.limit := by
    unfold stack_fixed_size at h; omega
  unfold io_sched_create_timer_task
  rw [stack_pop_empty _ h1]
  simp

/-- Claim C37 on the code.  On the scheduler of `ex_pool_full` (made with two
task slots and one timer id; both slots are taken by scheduled reader tasks and
the timer-id pool holds its one id, -3) `io_sched_create_timer_task` returns
no task, and the scheduler is not as before: the timer-id pool is empty, the id
was popped and not given back.  A second call fails on the empty timer-id
pool. -/
theorem timer_id_lost_on_full_task_pool :
    stack_contents ex_pool_full.sched.task_pool = [] ∧
    stack_contents ex_pool_full.sched.timer_id_pool = [-3] ∧
    (io_sched_create_timer_task ex_pool_full 5 0 77).1 = 0 ∧
    stack_contents (io_sched_create_timer_task ex_pool_full 5 0 77).2.sched.timer_id_pool = [] ∧
    (io_sched_create_timer_task ex_pool_full 5 0 77).2.sched.timer_id_pool ≠
      ex_pool_full.sched.timer_id_pool ∧
    stack_contents (io_sched_create_timer_task ex_pool_full 5 0 77).2.sched.task_pool = [] ∧
    (io_sched_create_timer_task ex_pool_full 5 0 77).2.sched.scheduled_tasks =
      ex_pool_full.sched.scheduled_tasks :=
  ⟨by decide, by decide, by decide, by decide,
    fun e => absurd (congrArg stack_fixed_size e) (by decide), by decide, by decide⟩

/-! ## C39 -/

/-- Claim C39 on the code.  At the normalised clock reading 1000 s + 0 ns a
timeout of exactly one second gives the expiry time 1000 s + 1,000,000,000 ns,
and so does a timeout of half a second at 1000 s + 500,000,000 ns: `tv_nsec`
is not below 1,000,000,000.  The timer task of `ex_timer_1s_live`, scheduled
at 1000 s with a timeout of `IO_SCHEDULER_TIME_ONE_SECOND`, holds that expiry
time. -/
theorem expire_time_not_normalised :
    (⟨1000, 0⟩ : timespec).normal ∧
    expire_at ⟨1000, 0⟩ IO_SCHEDULER_TIME_ONE_SECOND = ⟨1000, 1000000000⟩ ∧
    ¬ (expire_at ⟨1000, 0⟩ IO_SCHEDULER_TIME_ONE_SECOND).normal ∧
    (⟨1000, 500000000⟩ : timespec).normal ∧
    expire_at ⟨1000, 500000000⟩ 500000000 = ⟨1000, 1000000000⟩ ∧
    ex_machine.now = ⟨1000, 0⟩ ∧
    isList ex_timer_1s_live.tasks ex_timer_1s_live.sched.scheduled_tasks [ex_timer_1s.1] ∧
    S_IOSCHED_OPTS_TIMER (ex_timer_1s_live.tasks ex_timer_1s.1) = true ∧
    (ex_timer_1s_live.tasks ex_timer_1s.1).time_out = IO_SCHEDULER_TIME_ONE_SECOND ∧
    (ex_timer_1s_live.tasks ex_timer_1s.1).expire_time = ⟨1000, 1000000000⟩ ∧
    (inl_io_sched_populate_expire_time ex_timer_1s.2 ex_timer_1s.1).map
      (fun m => (m.tasks ex_timer_1s.1).expire_time) = some ⟨1000, 1000000000⟩ :=
  ⟨by decide, by decide, by decide, by decide, by decide, rfl, by decide, by decide,
    by decide, by decide, by decide⟩

/-! ## Runs of a fixed stack -/

theorem stack_step_inv (n : Nat) (s : stack) (op : stack_op)
    (h : s.limit = n ∧ s.current ≤ n ∧ ∀ i, i < s.current → s.fixed_base i = 0) :
    (stack_step s op).limit = n ∧ (stack_step s op).current ≤ n ∧
      ∀ i, i < (stack_step s op).current → (stack_step s op).fixed_base i = 0 := by
  obtain ⟨h1, h2, h3⟩ := h
  cases op with
  | push d =>
    by_cases hc : 0 < s.current
    · simp only [stack_step, stack_fixed_push, if_pos hc]
      refine ⟨h1, by omega, fun i hi => ?_⟩
      simp only [store]
      rw [if_neg (by omega)]
      exact h3 i (by omega)
    · simp only [stack_step, stack_fixed_push, if_neg hc]
      exact ⟨h1, h2, h3⟩
  | pop =>
    by_cases hc : s.current < s.limit
    · simp only [stack_step, stack_fixed_pop_and_return, if_pos hc]
      refine ⟨h1, by omega, fun i hi => ?_⟩
      simp only [store]
      by_cases e : i = s.current
      · rw [if_pos e]
      · rw [if_neg e]
        exact h3 i (by omega)
    · simp only [stack_step, stack_fixed_pop_and_return, if_neg hc]
      exact ⟨h1, h2, h3⟩

theorem stack_run_inv (n : Nat) (ops : List stack_op) : ∀ (s : stack),
    (s.limit = n ∧ s.current ≤ n ∧ ∀ i, i < s.current → s.fixed_base i = 0) →
    (stack_run s ops).limit = n ∧ (stack_run s ops).current ≤ n ∧
      ∀ i, i < (stack_run s ops).current → (stack_run s ops).fixed_base i = 0 := by
  induction ops with
  | nil => intro s h; exact h
  | cons op t ih =>
    intro s h
    have e : stack_run s (op :: t) = stack_run (stack_step s op) t := rfl
    rw [e]
    exact ih _ (stack_step_inv n s op h)

theorem stack_init_inv (n : Nat) (s0 : stack) (h : stack_fixed_init n = some s0) :
    0 < n ∧ s0.limit = n ∧ s0.current ≤ n ∧ ∀ i, i < s0.current → s0.fixed_base i = 0 := by
  unfold stack_fixed_init at h
  by_cases hn : n = 0
  · rw [if_pos hn] at h
    exact absurd h (by simp)
  · rw [if_neg hn] at h
    cases h
    exact ⟨by omega, rfl, le_refl _, fun _ _ => rfl⟩

theorem stack_push_then_pop (s : stack) (d : Int) (hc : 0 < s.current) (hl : s.current ≤ s.limit)
    (hz : s.fixed_base (s.current - 1) = 0) :
    stack_fixed_pop_and_return (stack_fixed_push s d).2 = (d, s) := by
  obtain ⟨c, l, fb⟩ := s
  simp only at hc hl hz
  have h1 : c - 1 < l := by omega
  have h2 : c - 1 + 1 = c := by omega
  simp only [stack_fixed_push, if_pos hc, stack_fixed_pop_and_return, if_pos h1, h2, store,
    if_true, Prod.mk.injEq, stack.mk.injEq, true_and]
  funext j
  unfold store
  by_cases e : j = c - 1
  · rw [if_pos e, e, hz]
  · rw [if_neg e, if_neg e]

/-! ## C40 -/

/-- Claim C40.  Let a fixed stack be made by `stack_fixed_init n` and used by
any sequence of pushes and pops.  Then its size is between 0 and n; a push
succeeds (does not return `STACK_ERROR_FULL`) exactly when the size is below n;
a pop right after a successful push of a value returns that value and gives
back the stack as it was before the push (also when the value is null); a push
on a full stack returns `STACK_ERROR_FULL` and a pop on an empty stack returns
null, and each leaves the stack as it was. -/
theorem fixed_stack_spec (n : Nat) (s0 : stack) (ops : List stack_op) (d : Int)
    (hinit : stack_fixed_init n = some s0) :
    0 ≤ stack_fixed_size (stack_run s0 ops) ∧ stack_fixed_size (stack_run s0 ops) ≤ n ∧
    ((stack_fixed_push (stack_run s0 ops) d).1 ≠ STACK_ERROR_FULL ↔
      stack_fixed_size (stack_run s0 ops) < n) ∧
    (stack_fixed_size (stack_run s0 ops) < n →
      stack_fixed_pop_and_return (stack_fixed_push (stack_run s0 ops) d).2 =
        (d, stack_run s0 ops)) ∧
    (stack_fixed_size (stack_run s0 ops) = n →
      stack_fixed_push (stack_run s0 ops) d = (STACK_ERROR_FULL, stack_run s0 ops)) ∧
    (stack_fixed_size (stack_run s0 ops) = 0 →
      stack_fixed_pop_and_return (stack_run s0 ops) = (0, stack_run s0 ops)) := by
  obtain ⟨hn, i0⟩ := stack_init_inv n s0 hinit
  obtain ⟨h1, h2, h3⟩ := stack_run_inv n ops s0 i0
  generalize stack_run s0 ops = s at h1 h2 h3
  have hsz : stack_fixed_size s = n - s.current := by unfold stack_fixed_size; rw [h1]
  refine ⟨Nat.zero_le _, by omega, ?_, ?_, ?_, ?_⟩
  · constructor
    · intro hp
      by_cases hc : 0 < s.current
      · omega
      · rw [stack_push_full s d hc] at hp
        exact absurd rfl hp
    · intro hlt
      exact (stack_push_ok s d (by omega) (by omega)).1
  · intro hlt
    exact stack_push_then_pop s d (by omega) (by omega) (h3 _ (by omega))
  · intro hfull
    exact stack_push_full s d (by omega)
  · intro hempty
    exact stack_pop_empty s (by omega)

/-- Witness for C40: the stack of capacity 2 after a push of 7, a pop and a
push of 8 holds the one value 8, and the properties hold for a push of 9. -/
theorem fixed_stack_spec_witness :
    stack_fixed_init 2 = some (stack.mk 2 2 (fun _ => 0)) ∧
    (0 ≤ stack_fixed_size
        (stack_run (stack.mk 2 2 (fun _ => 0)) [stack_op.push 7, stack_op.pop, stack_op.push 8]) ∧
    stack_fixed_size
        (stack_run (stack.mk 2 2 (fun _ => 0)) [stack_op.push 7, stack_op.pop, stack_op.push 8]) ≤
      2 ∧
    ((stack_fixed_push
          (stack_run (stack.mk 2 2 (fun _ => 0)) [stack_op.push 7, stack_op.pop, stack_op.push 8])
          9).1 ≠ STACK_ERROR_FULL ↔
      stack_fixed_size
        (stack_run (stack.mk 2 2 (fun _ => 0)) [stack_op.push 7, stack_op.pop, stack_op.push 8]) <
      2) ∧
    (stack_fixed_size
        (stack_run (stack.mk 2 2 (fun _ => 0)) [stack_op.push 7, stack_op.pop, stack_op.push 8]) <
      2 →
      stack_fixed_pop_and_return (stack_fixed_push
          (stack_run (stack.mk 2 2 (fun _ => 0)) [stack_op.push 7, stack_op.pop, stack_op.push 8])
          9).2 =
        (9, stack_run (stack.mk 2 2 (fun _ => 0))
          [stack_op.push 7, stack_op.pop, stack_op.push 8])) ∧
    (stack_fixed_size
        (stack_run (stack.mk 2 2 (fun _ => 0)) [stack_op.push 7, stack_op.pop, stack_op.push 8]) =
      2 →
      stack_fixed_push
          (stack_run (stack.mk 2 2 (fun _ => 0)) [stack_op.push 7, stack_op.pop, stack_op.push 8])
          9 =
        (STACK_ERROR_FULL, stack_run (stack.mk 2 2 (fun _ => 0))
          [stack_op.push 7, stack_op.pop, stack_op.push 8])) ∧
    (stack_fixed_size
        (stack_run (stack.mk 2 2 (fun _ => 0)) [stack_op.push 7, stack_op.pop, stack_op.push 8]) =
      0 →
      stack_fixed_pop_and_return
          (stack_run (stack.mk 2 2 (fun _ => 0)) [stack_op.push 7, stack_op.pop, stack_op.push 8]) =
        (0, stack_run (stack.mk 2 2 (fun _ => 0))
          [stack_op.push 7, stack_op.pop, stack_op.push 8]))) ∧
    stack_contents
      (stack_run (stack.mk 2 2 (fun _ => 0)) [stack_op.push 7, stack_op.pop, stack_op.push 8]) =
      [8] :=
  ⟨rfl, fixed_stack_spec 2 _ [stack_op.push 7, stack_op.pop, stack_op.push 8] 9 rfl, by decide⟩

/-! ## A failed connect of a TCP client -/

/-- The completion callback of `tcp_client_connect`, called with an error code
other than 0, returns with the state as it is: the client record keeps its
descriptor. -/
theorem connected_handler_error (env : NetEnv) (fuel : Nat) (n : Net)
    (scheduler fd err client : Int) (hc : client ≠ 0) (he : err ≠ 0) :
    on_tcp_client_connected_to_server env fuel n scheduler fd err client = some n := by
  unfold on_tcp_client_connected_to_server
  simp only [if_neg hc, if_pos he]

/-- When the pending connect of a client times out, the completion handler
calls the callback of `tcp_client_connect` with the code 1 and closes the
socket; the client records are as before. -/
theorem timed_out_connect_keeps_client (env : NetEnv) (fuel : Nat) (so : sockopt_outcome)
    (n : Net) (task client : Int) (hp : (n.m.tasks task).user_data ≠ 0)
    (hud : (n.pconns (n.m.tasks task).user_data).on_connect_ud =
      on_tcp_client_connected_to_server_addr)
    (hcl : (n.pconns (n.m.tasks task).user_data).user_data = client) (hc : client ≠ 0) :
    ∃ n2, tcp_io_scheduler_connect_cbk (connect_env env fuel) so n task
        IO_SCHEDULER_ERR_OP_TIMEOUT = some (true, n2) ∧
      n2.clients = n.clients ∧
      n2.log = n.log ++ [net_event.on_connect_ud on_tcp_client_connected_to_server_addr
        (n.m.tasks task).owner (n.m.tasks task).fd 1 client,
        net_event.close (n.m.tasks task).fd] := by
  have ha : on_tcp_client_connected_to_server_addr ≠ 0 := by decide
  unfold tcp_io_scheduler_connect_cbk
  simp only [if_neg hp, if_true]
  unfold call_on_connect connect_event
  simp only [hud, hcl, ne_eq, ha, not_false_eq_true, if_true, connect_env,
    connected_handler_error env fuel _ _ _ 1 client hc (by decide)]
  exact ⟨_, rfl, rfl, by simp [Net.note]⟩

/-- When `connect` fails at once (here with the error 111) `tcp_client_connect`
itself closes the new socket and resets the descriptor of the client, so that a
later `tcp_client_disconnect` closes nothing. -/
theorem client_connect_refused_at_once :
    ((tcp_client_connect ex_net_env 20 950 ⟨-1, 111⟩ 4 ex_unconnected 800 1).map
      (fun r => (r.1, (r.2.clients 800).fd, r.2.log))) =
      some (false, INVALID_SOCKET_FD,
        [net_event.set_nonblocking 20, net_event.connect 20, net_event.free 950,
         net_event.close 20]) ∧
    ((tcp_client_connect ex_net_env 20 950 ⟨-1, 111⟩ 4 ex_unconnected 800 1).map
      (fun r => (tcp_client_disconnect ex_net_env r.2 800).log)) =
      some [net_event.set_nonblocking 20, net_event.connect 20, net_event.free 950,
        net_event.close 20] :=
  ⟨by decide, by decide⟩

/-! ## C38 -/

/-- Claim C38 on the code.  The client at 800 of `ex_unconnected` has no
descriptor.  `tcp_client_connect` gives it the new socket 20 and starts the
connect (pending record at 950, completion callback
`on_tcp_client_connected_to_server`, writer task on 20 in the live list).  The
completion handler, called with a timeout (or for a failed connect, socket
error 111), calls that callback with a code other than 0 and closes 20; the
callback returns at once, so the client record still holds 20.  A later
`tcp_client_disconnect` (or `tcp_client_destroy`) closes 20 a second time and
delivers `on_closed`. -/
theorem client_socket_closed_twice :
    (ex_unconnected.clients 800).fd = INVALID_SOCKET_FD ∧
    (tcp_client_connect ex_net_env 20 950 ⟨-1, EINPROGRESS⟩ 4 ex_unconnected 800 1).map
      (fun r => r.1) = some true ∧
    (ex_client_connecting.clients 800).fd = 20 ∧
    ex_client_connecting.pending_connections = [950] ∧
    ex_client_connecting.pconns 950 =
      ⟨20, EINPROGRESS, 0, on_tcp_client_connected_to_server_addr, 800, 0, 7777⟩ ∧
    ex_client_connecting.log = [net_event.set_nonblocking 20, net_event.connect 20] ∧
    isList ex_client_connecting.m.tasks ex_client_connecting.m.sched.scheduled_tasks
      [ex_client_connect_task] ∧
    (ex_client_connecting.m.tasks ex_client_connect_task).fd = 20 ∧
    (ex_client_connecting.m.tasks ex_client_connect_task).user_data = 950 ∧
    (ex_client_connecting.m.tasks ex_client_connect_task).on_write_rdy_cbk =
      tcp_io_scheduler_connect_cbk_addr ∧
    (ex_client_connecting.m.tasks ex_client_connect_task).on_timeout_cbk =
      tcp_io_scheduler_connect_cbk_addr ∧
    (tcp_io_scheduler_connect_cbk (connect_env ex_net_env 4) ⟨0, 0, 0⟩ ex_client_connecting
      ex_client_connect_task IO_SCHEDULER_ERR_OP_TIMEOUT).map (fun r => r.1) = some true ∧
    ex_client_timed_out.log =
      [net_event.set_nonblocking 20, net_event.connect 20,
       net_event.on_connect_ud on_tcp_client_connected_to_server_addr 1 20 1 800,
       net_event.close 20] ∧
    ex_client_timed_out.pending_connections = [] ∧
    (ex_client_timed_out.clients 800).fd = 20 ∧
    (ex_client_timed_out.clients 800).io_task = 0 ∧
    (tcp_client_disconnect ex_net_env ex_client_timed_out 800).log =
      [net_event.set_nonblocking 20, net_event.connect 20,
       net_event.on_connect_ud on_tcp_client_connected_to_server_addr 1 20 1 800,
       net_event.close 20, net_event.close 20,
       net_event.client_closed 850 800 TCP_CLIENT_CLOSED_LOCAL] ∧
    (tcp_client_disconnect ex_net_env ex_client_timed_out 800).log.count (net_event.close 20) =
      2 ∧
    (tcp_client_destroy ex_net_env ex_client_timed_out 800).log =
      [net_event.set_nonblocking 20, net_event.connect 20,
       net_event.on_connect_ud on_tcp_client_connected_to_server_addr 1 20 1 800,
       net_event.close 20, net_event.close 20,
       net_event.client_closed 850 800 TCP_CLIENT_CLOSED_LOCAL, net_event.free 900,
       net_event.free 800] ∧
    (tcp_io_scheduler_connect_cbk (connect_env ex_net_env 4) ⟨0, 111, 0⟩ ex_client_connecting
      ex_client_connect_task IO_SCHEDULER_ERR_NONE).map (fun r => r.1) = some true ∧
    (ex_client_refused.clients 800).fd = 20 ∧
    (tcp_client_disconnect ex_net_env ex_client_refused 800).log =
      [net_event.set_nonblocking 20, net_event.connect 20, net_event.getsockopt 20,
       net_event.on_connect_ud on_tcp_client_connected_to_server_addr 1 20 111 800,
       net_event.close 20, net_event.close 20,
       net_event.client_closed 850 800 TCP_CLIENT_CLOSED_LOCAL] :=
  ⟨by decide, by decide, by decide, by decide, rfl, by decide, by decide, by decide,
    by decide, rfl, by decide, by decide, by decide, by decide, rfl, by decide,
    by decide, by decide, by decide, rfl, by decide, by decide⟩

end CommonUtils
